import Mathlib

/-!
SmartGrow irrigation planner: a verification development

Shallow embedding of `backend/internal/planner/dp_planner.go`, followed by
the login rate limiter of `backend/internal/middleware/rate_limit.go` and the
validation of `backend/internal/config/config.go`.

Modelling conventions:
* A Go `float64` is a value of `F64`: `nan`, the two infinities, or a finite
  rational. Every arithmetic operation rounds its exact result to the binary64
  grid (53 significant bits, subnormals, round to nearest, ties to even,
  overflow to an infinity), and follows IEEE 754 on the non-finite operands
  (`0 * Inf = NaN`, `Inf - Inf = NaN`, comparisons with `NaN` are false). The
  sign of a zero is not represented; no result of the planner depends on it.
  Products and sums are rounded one operation at a time (no fused
  multiply-add), as the Go compiler does for amd64 at its default level.
* Go `int` is the 64-bit integer: the sum `SoilOptimalMin + SoilOptimalMax`
  wraps, the conversion `int(x)` of a float truncates toward zero and gives
  `-2^63` for a value out of range (infinities and `NaN` included), as on
  amd64; integer division `/` truncates toward zero (`Int.tdiv`).
* A run-time panic (index out of range, a `make` length that is negative or
  too large) is the `none` result of the enclosing `Option`. Memory is not
  modelled: an allocation whose length passes the check of `make` succeeds.
* Statements about costs compare `float64` values through `F64.ext`, the
  extended-rational value of a `float64` with `+Inf` and `NaN` at the top.
-/

/-- The ring structure of `ℚ`, taken straight from its commutative-ring
structure, so that terms about rationals do not go through the normed-field
structure of `ℚ`. -/
instance (priority := 10000) Rat.instRingDirect : Ring ℚ := Rat.commRing.toRing

/-- The non-unital commutative ring structure of `ℚ`, taken straight from its
commutative-ring structure. -/
instance (priority := 10000) Rat.instNonUnitalCommRingDirect : NonUnitalCommRing ℚ :=
  Rat.commRing.toNonUnitalCommRing

/-- The non-unital commutative ring structure of `ℤ`, taken straight from its
commutative-ring structure. -/
instance (priority := 10000) Int.instNonUnitalCommRingDirect : NonUnitalCommRing ℤ :=
  Int.instCommRing.toNonUnitalCommRing

/-- A `float64` value: not-a-number, the two infinities, or a finite value.
The sign of a zero is not represented. -/
inductive F64 where
  | nan
  | ninf
  | pinf
  | fin (q : ℚ)
  deriving DecidableEq

namespace F64

/-- Floor of the base-2 logarithm of a natural number (`0` for `0`), by
halving; the first argument bounds the number of halvings. -/
def log2Fuel : Nat → Nat → Nat
  | 0, _ => 0
  | fuel + 1, n => if n < 2 then 0 else log2Fuel fuel (n / 2) + 1

/-- Floor of the base-2 logarithm of a positive natural number. -/
def natLog2 (n : Nat) : Nat := log2Fuel n n

/-- The binary exponent of a nonzero rational: `2^e ≤ |x| < 2^(e+1)`. -/
def ilog2 (x : ℚ) : Int :=
  let d : Int := (natLog2 x.num.natAbs : Int) - (natLog2 x.den : Int)
  if (2 : ℚ) ^ d ≤ |x| then d else d - 1

/-- Rounding of a rational to the nearest integer, ties to even. -/
def roundHalfEven (x : ℚ) : Int :=
  let f := ⌊x⌋
  let r := x - (f : ℚ)
  if r < 1 / 2 then f else if 1 / 2 < r then f + 1 else if f % 2 = 0 then f else f + 1

/-- The unit in the last place of the binary64 format at a positive rational:
53 significant bits, least exponent `-1022` (subnormal spacing `2^-1074`). -/
def ulp (x : ℚ) : ℚ := (2 : ℚ) ^ (max (ilog2 x) (-1022) - 52)

/-- Rounding of a positive rational to the binary64 grid, exponent unbounded
above. -/
def roundPos (x : ℚ) : ℚ := (roundHalfEven (x / ulp x) : ℚ) * ulp x

/-- Rounding of a rational to `float64`: to nearest, ties to even, overflow to
the infinities. -/
def round (x : ℚ) : F64 :=
  if 0 < x then
    (if (2 : ℚ) ^ (1024 : Nat) ≤ roundPos x then pinf else fin (roundPos x))
  else if x < 0 then
    (if (2 : ℚ) ^ (1024 : Nat) ≤ roundPos (-x) then ninf else fin (-roundPos (-x)))
  else fin 0

/-- Negation. -/
def neg : F64 → F64
  | nan => nan
  | ninf => pinf
  | pinf => ninf
  | fin a => fin (-a)

/-- Addition `a + b`. -/
def add : F64 → F64 → F64
  | nan, _ => nan
  | _, nan => nan
  | pinf, ninf => nan
  | ninf, pinf => nan
  | pinf, _ => pinf
  | _, pinf => pinf
  | ninf, _ => ninf
  | _, ninf => ninf
  | fin a, fin b => round (a + b)

/-- Subtraction `a - b`. -/
def sub (a b : F64) : F64 := add a (neg b)

/-- The infinity with the sign of a nonzero rational, `nan` for zero. -/
def signedInf (a : ℚ) : F64 :=
  if 0 < a then pinf else if a < 0 then ninf else nan

/-- Multiplication `a * b`. -/
def mul : F64 → F64 → F64
  | nan, _ => nan
  | _, nan => nan
  | pinf, pinf => pinf
  | pinf, ninf => ninf
  | ninf, pinf => ninf
  | ninf, ninf => pinf
  | pinf, fin b => signedInf b
  | ninf, fin b => signedInf (-b)
  | fin a, pinf => signedInf a
  | fin a, ninf => signedInf (-a)
  | fin a, fin b => round (a * b)

/-- Division `a / b`; a zero divisor is taken as `+0`. -/
def div : F64 → F64 → F64
  | nan, _ => nan
  | _, nan => nan
  | pinf, pinf => nan
  | pinf, ninf => nan
  | ninf, pinf => nan
  | ninf, ninf => nan
  | pinf, fin b => if b < 0 then ninf else pinf
  | ninf, fin b => if b < 0 then pinf else ninf
  | fin _, pinf => fin 0
  | fin _, ninf => fin 0
  | fin a, fin b => if b = 0 then signedInf a else round (a / b)

/-- The function `math.Abs`. -/
def abs : F64 → F64
  | nan => nan
  | ninf => pinf
  | pinf => pinf
  | fin a => fin |a|

/-- The comparison `a < b`; false when an operand is `nan`. -/
def lt : F64 → F64 → Bool
  | fin a, fin b => decide (a < b)
  | fin _, pinf => true
  | ninf, fin _ => true
  | ninf, pinf => true
  | _, _ => false

/-- The comparison `a <= b`; false when an operand is `nan`. -/
def le : F64 → F64 → Bool
  | nan, _ => false
  | _, nan => false
  | fin a, fin b => decide (a ≤ b)
  | ninf, _ => true
  | _, pinf => true
  | _, _ => false

/-- The conversion `float64(n)` of an integer. -/
def ofInt (n : Int) : F64 := round (n : ℚ)

/-- The conversion `int(x)` of a float: truncation toward zero; a value that
does not fit 64 bits (an infinity and `nan` included) gives the least 64-bit
integer, as on amd64. -/
def toInt : F64 → Int
  | fin a =>
    let t : Int := if 0 ≤ a then ⌊a⌋ else -⌊-a⌋
    if -(2 : Int) ^ (63 : Nat) ≤ t ∧ t < (2 : Int) ^ (63 : Nat) then t
    else -(2 : Int) ^ (63 : Nat)
  | _ => -(2 : Int) ^ (63 : Nat)

/-- The test `math.IsInf(x, 1)`. -/
def isPosInf : F64 → Bool
  | pinf => true
  | _ => false

/-- The value as an extended rational; `nan` is placed at the top. -/
def ext : F64 → WithTop (WithBot ℚ)
  | nan => ⊤
  | pinf => ⊤
  | ninf => ((⊥ : WithBot ℚ) : WithTop (WithBot ℚ))
  | fin a => (((a : ℚ) : WithBot ℚ) : WithTop (WithBot ℚ))

/-- A finite value. -/
def IsFinite : F64 → Prop
  | fin _ => True
  | _ => False

instance (a : F64) : Decidable (IsFinite a) := by
  cases a <;> unfold IsFinite <;> infer_instance

instance : Neg F64 := ⟨neg⟩

instance : Add F64 := ⟨add⟩

instance : Sub F64 := ⟨sub⟩

instance : Mul F64 := ⟨mul⟩

instance : Div F64 := ⟨div⟩

/-- A finite value of magnitude at most `2^20`. -/
def Bounded : F64 → Prop
  | fin a => |a| ≤ 2 ^ (20 : Nat)
  | _ => False

instance (a : F64) : Decidable (Bounded a) := by
  cases a <;> unfold Bounded <;> infer_instance

/-- A 64-bit integer sum: the exact sum wrapped into `[-2^63, 2^63)`. -/
def wrap64 (x : Int) : Int :=
  (x + (2 : Int) ^ (63 : Nat)) % (2 : Int) ^ (64 : Nat) - (2 : Int) ^ (63 : Nat)

/-- A value that is a `float64`: not finite, or a finite value on the binary64
grid. -/
def IsDouble : F64 → Prop
  | fin a => round a = fin a
  | _ => True

instance (a : F64) : Decidable (IsDouble a) := by
  cases a <;> unfold IsDouble <;> infer_instance

/-- A finite value of magnitude at most `2^k`. -/
def BddBy (k : Nat) (a : F64) : Prop := ∃ q : ℚ, a = fin q ∧ |q| ≤ (2 : ℚ) ^ k

/-- The rationals on the binary64 grid: `±n * 2^k` with `n < 2^53`,
`k ≥ -1074`, below `2^1024` in magnitude. -/
def IsRep (x : ℚ) : Prop :=
  ∃ (n : Nat) (k : Int), n < 2 ^ 53 ∧ -1074 ≤ k ∧ |x| = (n : ℚ) * (2 : ℚ) ^ k ∧
    |x| < (2 : ℚ) ^ (1024 : Nat)

end F64

namespace Planner

/-- ForecastDay represents a single day of forecast data. -/
structure ForecastDay where
  Date : String
  TempMax : F64
  TempMin : F64
  PrecipMm : F64
  deriving DecidableEq

/-- PlannerConfig contains the algorithm configuration. -/
structure PlannerConfig where
  SoilOptimalMin : Int
  SoilOptimalMax : Int
  MaxIrrigationPerDay : F64
  BaseET : F64
  TempFactor : F64
  RainConversion : F64
  ADCToMoisture : F64
  CostW1 : F64
  CostW2 : F64
  CostW3 : F64
  deriving DecidableEq

/-- DailyPlan is the irrigation plan for one day. -/
structure DailyPlan where
  Date : String
  PlannedVolumeL : F64
  deriving DecidableEq

/-- IrrigationPlanner holds the configuration of the DP planner. -/
structure IrrigationPlanner where
  config : PlannerConfig
  deriving DecidableEq

/-- NewIrrigationPlanner creates a planner instance: it stores the
configuration as given (the source performs no check). -/
def NewIrrigationPlanner (config : PlannerConfig) : IrrigationPlanner :=
  { config := config }

/-- State is a DP cell: accumulated cost, the predecessor moisture value and
the irrigation volume of the transition into the cell. -/
structure State where
  cost : F64
  prevMoisture : Int
  irrigationVolume : F64
  deriving DecidableEq

/-- The constant `moistureStep := 10`. -/
def moistureStep : Int := 10

/-- The constant `maxMoisture := 4095`. -/
def maxMoisture : Int := 4095

/-- The value `moistureStates := maxMoisture/moistureStep + 1`. -/
def moistureStates : Int := Int.tdiv maxMoisture moistureStep + 1

/-- The greatest length `make([]float64, n)` accepts on linux/amd64: the
allocation must not exceed `2^48` bytes. -/
def maxSliceLen : Int := (2 : Int) ^ (45 : Nat)

/-- The option list `0, 0.5, ..., ` of `maxSteps+1` elements, where
`maxSteps := int(MaxIrrigationPerDay / 0.5)`; `make` panics on a negative
length and on a length above `maxSliceLen`. (`maxSteps + 1` does not
overflow: `int` of a float is `-2^63` or at most `2^63 - 1024`.) -/
def irrigationOptions (cfg : PlannerConfig) : Option (List F64) :=
  let maxSteps := F64.toInt (cfg.MaxIrrigationPerDay / F64.fin (1 / 2))
  if maxSteps + 1 < 0 ∨ maxSliceLen < maxSteps + 1 then none
  else some ((List.range (maxSteps + 1).toNat).map
    fun (i : Nat) => F64.ofInt (i : Int) * F64.fin (1 / 2))

/-- A freshly allocated cell: cost `+Inf`, the other fields zero. -/
def infState : State := { cost := F64.pinf, prevMoisture := 0, irrigationVolume := F64.fin 0 }

/-- A freshly allocated row `dp[i]` of `moistureStates` cells. -/
def emptyRow : List State := List.replicate moistureStates.toNat infState

/-- Indexed read `row[idx]` with the run-time bounds check. -/
def readCell (row : List State) (idx : Int) : Option State :=
  if 0 ≤ idx then row[idx.toNat]? else none

/-- Indexed write `row[idx] = s` with the run-time bounds check. -/
def writeCell (row : List State) (idx : Int) (s : State) : Option (List State) :=
  if 0 ≤ idx ∧ idx.toNat < row.length then some (row.set idx.toNat s) else none

/-- The index `initMoistureIdx` of the initial state. -/
def initMoistureIdx (initialSoilMoisture : Int) : Int :=
  let idx := Int.tdiv initialSoilMoisture moistureStep
  if idx ≥ moistureStates then moistureStates - 1 else idx

/-- Row `dp[0]` after the initial state has been written. -/
def initRow (initialSoilMoisture : Int) : Option (List State) :=
  writeCell emptyRow (initMoistureIdx initialSoilMoisture)
    { cost := F64.fin 0, prevMoisture := initialSoilMoisture, irrigationVolume := F64.fin 0 }

/-- The value `optimalCenter`; the integer sum wraps at 64 bits. -/
def optimalCenter (cfg : PlannerConfig) : F64 :=
  F64.ofInt (F64.wrap64 (cfg.SoilOptimalMin + cfg.SoilOptimalMax)) / F64.fin 2

/-- The evapotranspiration `et` of a forecast day. -/
def evapotranspiration (cfg : PlannerConfig) (forecast : ForecastDay) : F64 :=
  let tAvg := (forecast.TempMax + forecast.TempMin) / F64.fin 2
  cfg.BaseET + cfg.TempFactor * (tAvg - F64.fin 20)

/-- The rain replenishment `rainMoisture` of a forecast day. -/
def rainMoisture (cfg : PlannerConfig) (forecast : ForecastDay) : F64 :=
  forecast.PrecipMm * cfg.RainConversion * cfg.ADCToMoisture

/-- The moisture transition with its boundary clamps. -/
def newMoisture (cfg : PlannerConfig) (et rain : F64) (currMoisture : Int)
    (irrigation : F64) : F64 :=
  let nm := F64.ofInt currMoisture - et * cfg.ADCToMoisture + irrigation * cfg.ADCToMoisture
    + rain
  let nm := if F64.lt nm (F64.fin 0) then F64.fin 0 else nm
  if F64.lt (F64.ofInt maxMoisture) nm then F64.ofInt maxMoisture else nm

/-- The bin index `newIdx` of a clamped moisture value. -/
def newIdx (nm : F64) : Int :=
  let idx := Int.tdiv (F64.toInt nm) moistureStep
  if idx ≥ moistureStates then moistureStates - 1 else idx

/-- The incremental cost of one transition. -/
def stepCost (cfg : PlannerConfig) (nm irrigation prevIrrigation : F64) : F64 :=
  let moistureDeviation := F64.abs (nm - optimalCenter cfg)
  let irrigationChange := F64.abs (irrigation - prevIrrigation)
  cfg.CostW1 * moistureDeviation * moistureDeviation +
    cfg.CostW2 * irrigation +
    cfg.CostW3 * irrigationChange

/-- Body of the innermost loop: try one irrigation option from the source
cell `src` (bin `currIdx`) and update `dp[day+1]`. -/
def relaxOption (cfg : PlannerConfig) (et rain : F64) (currIdx : Nat) (src : State)
    (next : List State) (irrigation : F64) : Option (List State) :=
  let currMoisture : Int := (currIdx : Int) * moistureStep
  let nm := newMoisture cfg et rain currMoisture irrigation
  let idx := newIdx nm
  let totalCost := src.cost + stepCost cfg nm irrigation src.irrigationVolume
  match readCell next idx with
  | none => none
  | some cell =>
    if F64.lt totalCost cell.cost then
      writeCell next idx
        { cost := totalCost, prevMoisture := currMoisture, irrigationVolume := irrigation }
    else some next

/-- The loop over `irrigationOptions` for one source cell. -/
def relaxOptions (cfg : PlannerConfig) (et rain : F64) (currIdx : Nat) (src : State) :
    List F64 → List State → Option (List State)
  | [], next => some next
  | irrigation :: rest, next =>
    match relaxOption cfg et rain currIdx src next irrigation with
    | none => none
    | some next1 => relaxOptions cfg et rain currIdx src rest next1

/-- The loop over `currIdx`; cells of cost `+Inf` are skipped. -/
def relaxBins (cfg : PlannerConfig) (et rain : F64) (opts : List F64) (cur : List State) :
    List Nat → List State → Option (List State)
  | [], next => some next
  | currIdx :: rest, next =>
    match cur[currIdx]? with
    | none => none
    | some src =>
      if F64.isPosInf src.cost then relaxBins cfg et rain opts cur rest next
      else
        match relaxOptions cfg et rain currIdx src opts next with
        | none => none
        | some next1 => relaxBins cfg et rain opts cur rest next1

/-- One iteration of the loop over days: row `dp[day+1]` from `dp[day]`. -/
def stepDay (cfg : PlannerConfig) (opts : List F64) (cur : List State)
    (forecast : ForecastDay) : Option (List State) :=
  relaxBins cfg (evapotranspiration cfg forecast) (rainMoisture cfg forecast) opts cur
    (List.range moistureStates.toNat) emptyRow

/-- The DP fill: the rows `dp[1], ..., dp[days]` computed from `dp[0]`. -/
def fillTable (cfg : PlannerConfig) (opts : List F64) :
    List State → List ForecastDay → Option (List (List State))
  | _, [] => some []
  | cur, forecast :: rest =>
    match stepDay cfg opts cur forecast with
    | none => none
    | some next =>
      match fillTable cfg opts next rest with
      | none => none
      | some rows => some (next :: rows)

/-- The scan for the terminal cell of least cost, from `(minCost, bestIdx)`. -/
def selectBest (row : List State) : List Nat → F64 × Int → Option (F64 × Int)
  | [], acc => some acc
  | idx :: rest, acc =>
    match row[idx]? with
    | none => none
    | some cell =>
      if F64.lt cell.cost acc.1 then selectBest row rest (cell.cost, (idx : Int))
      else selectBest row rest acc

/-- The index `bestIdx` chosen in the last row. -/
def bestIdx (row : List State) : Option Int :=
  (selectBest row (List.range moistureStates.toNat) (F64.pinf, 0)).map Prod.snd

/-- The backtrace loop, on the pairs `(forecasts[day], dp[day+1])` listed
from `day = days-1` down to `day = 0`; the plan comes out in day order. -/
def backtrace : List (ForecastDay × List State) → Int → Option (List DailyPlan)
  | [], _ => some []
  | (forecast, row) :: rest, currentIdx =>
    match readCell row currentIdx with
    | none => none
    | some cell =>
      let entry : DailyPlan :=
        { Date := forecast.Date, PlannedVolumeL := cell.irrigationVolume }
      let prevIdx := if rest.length > 0 then Int.tdiv cell.prevMoisture moistureStep
                     else currentIdx
      match backtrace rest prevIdx with
      | none => none
      | some plan => some (plan ++ [entry])

/-- ComputePlan computes the irrigation plan by dynamic programming; the row
`dp[days]` scanned for the terminal cell is the last row of the table. -/
def ComputePlan (p : IrrigationPlanner) (initialSoilMoisture : Int)
    (forecasts : List ForecastDay) : Option (List DailyPlan) :=
  if forecasts.length = 0 then some []
  else
    match irrigationOptions p.config with
    | none => none
    | some opts =>
      match initRow initialSoilMoisture with
      | none => none
      | some row0 =>
        match fillTable p.config opts row0 forecasts with
        | none => none
        | some rows =>
          match bestIdx (rows.getLastD row0) with
          | none => none
          | some best => backtrace (forecasts.zip rows).reverse best

end Planner

namespace Planner

/-! ## Auxiliary definitions used to state and prove the properties -/

/-- The moisture of a transition before the boundary clamps. -/
def rawMoisture (cfg : PlannerConfig) (et rain : F64) (currMoisture : Int)
    (irrigation : F64) : F64 :=
  F64.ofInt currMoisture - et * cfg.ADCToMoisture + irrigation * cfg.ADCToMoisture + rain

/-- The two boundary clamps of the moisture transition. -/
def clampMoisture (nm : F64) : F64 :=
  let nm := if F64.lt nm (F64.fin 0) then F64.fin 0 else nm
  if F64.lt (F64.ofInt maxMoisture) nm then F64.ofInt maxMoisture else nm

/-- A bin index inside the table. -/
def ValidIdx (i : Int) : Prop := 0 ≤ i ∧ i < 410

instance (i : Int) : Decidable (ValidIdx i) := by
  unfold ValidIdx
  infer_instance

/-- The update tried by one run of the innermost loop body, as a pair of the
target index and the cell that would be written there. -/
def candidate (cfg : PlannerConfig) (et rain : F64) (currIdx : Nat) (src : State)
    (irrigation : F64) : Int × State :=
  let currMoisture : Int := (currIdx : Int) * moistureStep
  let nm := newMoisture cfg et rain currMoisture irrigation
  (newIdx nm,
    { cost := src.cost + stepCost cfg nm irrigation src.irrigationVolume,
      prevMoisture := currMoisture, irrigationVolume := irrigation })

/-- The strict-improvement update of a row by one candidate. -/
def relaxPure (next : List State) (c : Int × State) : List State :=
  match readCell next c.1 with
  | none => next
  | some cell => if F64.lt c.2.cost cell.cost then next.set c.1.toNat c.2 else next

/-- The candidates generated from source bin `currIdx`, in option order. -/
def candidatesOfBin (cfg : PlannerConfig) (et rain : F64) (opts : List F64)
    (cur : List State) (currIdx : Nat) : List (Int × State) :=
  match cur[currIdx]? with
  | none => []
  | some src =>
    if F64.isPosInf src.cost then [] else opts.map (candidate cfg et rain currIdx src)

/-- All candidates of one day, in iteration order. -/
def candidates (cfg : PlannerConfig) (et rain : F64) (opts : List F64) (cur : List State)
    (idxs : List Nat) : List (Int × State) :=
  idxs.flatMap (candidatesOfBin cfg et rain opts cur)

/-- The candidate transitions of forecast day `f` from row `cur`, in the
iteration order of the fill: source bins ascending, then options in list
order. -/
def dayCandidates (cfg : PlannerConfig) (opts : List F64) (cur : List State)
    (f : ForecastDay) : List (Int × State) :=
  candidates cfg (evapotranspiration cfg f) (rainMoisture cfg f) opts cur (List.range 410)

/-- Well-formed cell: its predecessor moisture is a bin representative, its
volume is zero or one of the options and its cost is not `nan`. -/
def CellOK (opts : List F64) (s : State) : Prop :=
  (∃ i : Nat, i < 410 ∧ s.prevMoisture = (i : Int) * moistureStep) ∧
    (s.irrigationVolume = F64.fin 0 ∨ s.irrigationVolume ∈ opts) ∧ s.cost ≠ F64.nan

/-- Well-formed row: `moistureStates` well-formed cells. -/
def RowOK (opts : List F64) (row : List State) : Prop :=
  row.length = 410 ∧ ∀ s ∈ row, CellOK opts s

/-- Valid configuration, in the words of the specification: the optimal band
is ordered, the daily maximum and the conversion factor are positive and the
cost weights are nonnegative (comparisons of `float64` values). -/
def ValidConfig (cfg : PlannerConfig) : Prop :=
  cfg.SoilOptimalMin ≤ cfg.SoilOptimalMax ∧
    F64.lt (F64.fin 0) cfg.MaxIrrigationPerDay = true ∧
    F64.lt (F64.fin 0) cfg.ADCToMoisture = true ∧ F64.le (F64.fin 0) cfg.CostW1 = true ∧
    F64.le (F64.fin 0) cfg.CostW2 = true ∧ F64.le (F64.fin 0) cfg.CostW3 = true

instance (cfg : PlannerConfig) : Decidable (ValidConfig cfg) := by
  unfold ValidConfig
  infer_instance

/-- A configuration whose `float64` fields are finite and at most `2^20` in
magnitude. -/
def BoundedConfig (cfg : PlannerConfig) : Prop :=
  F64.Bounded cfg.MaxIrrigationPerDay ∧ F64.Bounded cfg.BaseET ∧
    F64.Bounded cfg.TempFactor ∧ F64.Bounded cfg.RainConversion ∧
    F64.Bounded cfg.ADCToMoisture ∧ F64.Bounded cfg.CostW1 ∧ F64.Bounded cfg.CostW2 ∧
    F64.Bounded cfg.CostW3

instance (cfg : PlannerConfig) : Decidable (BoundedConfig cfg) := by
  unfold BoundedConfig
  infer_instance

/-- A forecast day whose temperatures and precipitation are finite and at most
`2^20` in magnitude. -/
def BoundedForecast (f : ForecastDay) : Prop :=
  F64.Bounded f.TempMax ∧ F64.Bounded f.TempMin ∧ F64.Bounded f.PrecipMm

instance (f : ForecastDay) : Decidable (BoundedForecast f) := by
  unfold BoundedForecast
  infer_instance

/-- The configuration of the two scenarios of the specification. -/
def scenarioConfig : PlannerConfig :=
  { SoilOptimalMin := 20, SoilOptimalMax := 30, MaxIrrigationPerDay := F64.fin 1,
    BaseET := F64.fin 0, TempFactor := F64.fin 0, RainConversion := F64.fin 0,
    ADCToMoisture := F64.fin 1, CostW1 := F64.fin 1, CostW2 := F64.fin 1,
    CostW3 := F64.fin 0 }

/-- The last row of a table listed from the last day down, `cur` when the
table has no day. -/
def topRow (cur : List State) : List (ForecastDay × List State) → List State
  | [] => cur
  | p :: _ => p.2

/-- The rows listed from the last day down are linked by `stepDay`, the first
day starting from `cur`. -/
def ChainRev (cfg : PlannerConfig) (opts : List F64) (cur : List State) :
    List (ForecastDay × List State) → Prop
  | [] => True
  | p :: rest => stepDay cfg opts (topRow cur rest) p.1 = some p.2 ∧ ChainRev cfg opts cur rest

end Planner

namespace Planner

/-- The candidates generated from the cells of a row listed from bin `i` on,
in iteration order. -/
def candidatesFrom (cfg : PlannerConfig) (et rain : F64) (opts : List F64) :
    List State → Nat → List (Int × State)
  | [], _ => []
  | src :: rest, i =>
    (if F64.isPosInf src.cost then [] else opts.map (candidate cfg et rain i src))
      ++ candidatesFrom cfg et rain opts rest (i + 1)

/-- One day of the fill, computed from the candidate list: the fold of the
strict-improvement update, or a failure when a candidate index is outside the
table. -/
def evalDay (cfg : PlannerConfig) (et rain : F64) (opts : List F64) (cur : List State) :
    Option (List State) :=
  if (candidatesFrom cfg et rain opts cur 0).all (fun c => decide (ValidIdx c.1)) then
    some ((candidatesFrom cfg et rain opts cur 0).foldl relaxPure emptyRow)
  else none

/-- The terminal scan over the cells of a row listed from bin `i` on. -/
def scanBest : List State → Nat → F64 × Int → F64 × Int
  | [], _, acc => acc
  | cell :: rest, i, acc =>
    if F64.lt cell.cost acc.1 then scanBest rest (i + 1) (cell.cost, (i : Int))
    else scanBest rest (i + 1) acc

end Planner

/-! ## The login rate limiter of `backend/internal/middleware/rate_limit.go`

A `time.Time` is modelled by the integer number of nanoseconds since the zero
time, so `IsZero` is `= 0`, `Before` is `<`, `Sub` is the difference and `Add`
is the sum; a `time.Duration` is an integer number of nanoseconds. The body of
each handler runs under the mutex of the limiter and is modelled as one atomic
step on the map `attempts`. -/

namespace Middleware

/-- The duration `time.Minute`, in nanoseconds. -/
def Minute : Int := 60 * 1000000000

/-- The record `loginAttempt` kept per client address; the two time stamps are
nanoseconds since the zero time. -/
structure loginAttempt where
  count : Int
  firstAttempt : Int
  lockedUntil : Int
  deriving DecidableEq

/-- LoginRateLimiter holds the map `attempts` (an absent key is `none`). -/
structure LoginRateLimiter where
  attempts : String → Option loginAttempt

/-- The handler returned by `LoginRateLimitMiddleware`, run for a request from
client address `ip` at time `now`; the result is the limiter after the request
and whether the request was admitted (`c.Next()`) or rejected with status 429
(`c.Abort()`). -/
def LoginRateLimitMiddleware (lrl : LoginRateLimiter) (ip : String) (now : Int) :
    LoginRateLimiter × Bool :=
  match lrl.attempts ip with
  | none =>
    ({ attempts := Function.update lrl.attempts ip
        (some { count := 1, firstAttempt := now, lockedUntil := 0 }) }, true)
  | some attempt =>
    if attempt.lockedUntil ≠ 0 ∧ now < attempt.lockedUntil then (lrl, false)
    else if now - attempt.firstAttempt > 5 * Minute then
      ({ attempts := Function.update lrl.attempts ip
          (some { count := 1, firstAttempt := now, lockedUntil := 0 }) }, true)
    else if attempt.count ≥ 5 then
      ({ attempts := Function.update lrl.attempts ip
          (some { attempt with lockedUntil := now + 15 * Minute }) }, false)
    else
      ({ attempts := Function.update lrl.attempts ip
          (some { attempt with count := attempt.count + 1 }) }, true)

/-- ResetAttempts deletes the record of `ip`. -/
def ResetAttempts (lrl : LoginRateLimiter) (ip : String) : LoginRateLimiter :=
  { attempts := Function.update lrl.attempts ip none }

/-- One tick of the loop of `cleanupAttempts` at time `now`: every record whose
first attempt is more than 30 minutes old is deleted. -/
def cleanupAttempts (lrl : LoginRateLimiter) (now : Int) : LoginRateLimiter :=
  { attempts := fun ip =>
      match lrl.attempts ip with
      | none => none
      | some attempt =>
        if now - attempt.firstAttempt > 30 * Minute then none else some attempt }

/-- The events that touch a limiter; each runs under the mutex `mu`, hence
atomically. -/
inductive Event where
  | request (ip : String) (now : Int)
  | reset (ip : String)
  | cleanup (now : Int)
  deriving DecidableEq

/-- Runs a sequence of events and collects, in order, the outcome (`true` for
admitted) of every request that comes from `ip`. -/
def serve (ip : String) : LoginRateLimiter → List Event → LoginRateLimiter × List Bool
  | lrl, [] => (lrl, [])
  | lrl, Event.request ip' now :: es =>
    let r := LoginRateLimitMiddleware lrl ip' now
    let rest := serve ip r.1 es
    if ip' = ip then (rest.1, r.2 :: rest.2) else rest
  | lrl, Event.reset ip' :: es => serve ip (ResetAttempts lrl ip') es
  | lrl, Event.cleanup now :: es => serve ip (cleanupAttempts lrl now) es

/-- Whether an event is a request from `ip`. -/
def isRequestFrom (ip : String) : Event → Bool
  | Event.request ip' _ => decide (ip' = ip)
  | _ => false

/-- An event that is not a request from `ip`, not a `ResetAttempts` call for
`ip`, and, if it is a cleanup tick, comes at most 30 minutes after `t1`. -/
def Foreign (ip : String) (t1 : Int) : Event → Prop
  | Event.request ip' _ => ip' ≠ ip
  | Event.reset ip' => ip' ≠ ip
  | Event.cleanup now => now - t1 ≤ 30 * Minute

end Middleware

/-! ## The configuration of `backend/internal/config/config.go`

Strings are modelled by `String` and `len` by the length of the UTF-8
encoding. -/

namespace Configuration

/-- ServerConfig of the configuration file. -/
structure ServerConfig where
  Host : String
  Port : Int
  Mode : String
  deriving DecidableEq

/-- DatabaseConfig of the configuration file. -/
structure DatabaseConfig where
  Path : String
  DevPath : String
  deriving DecidableEq

/-- DefaultLocationInfo of the configuration file. -/
structure DefaultLocationInfo where
  Latitude : ℚ
  Longitude : ℚ
  deriving DecidableEq

/-- WeatherConfig of the configuration file; `Timeout` is a duration in
nanoseconds. -/
structure WeatherConfig where
  APIHost : String
  APIKey : String
  Endpoint : String
  Timeout : Int
  DefaultLocation : DefaultLocationInfo
  deriving DecidableEq

/-- PlannerConfig of the configuration file. -/
structure PlannerConfig where
  SoilOptimalMin : Int
  SoilOptimalMax : Int
  MaxIrrigationPerDay : ℚ
  BaseET : ℚ
  TempFactor : ℚ
  RainConversion : ℚ
  ADCToMoisture : ℚ
  CostW1 : ℚ
  CostW2 : ℚ
  CostW3 : ℚ
  deriving DecidableEq

/-- LoggingConfig of the configuration file. -/
structure LoggingConfig where
  Level : String
  File : String
  DevFile : String
  deriving DecidableEq

/-- SecurityConfig of the configuration file. -/
structure SecurityConfig where
  JWTSecret : String
  JWTExpireHours : Int
  AllowedOrigins : List String
  RateLimitPerMinute : Int
  DeviceAPIKey : String
  deriving DecidableEq

/-- Config is the whole configuration. -/
structure Config where
  Server : ServerConfig
  Database : DatabaseConfig
  Weather : WeatherConfig
  Planner : PlannerConfig
  Logging : LoggingConfig
  Security : SecurityConfig
  deriving DecidableEq

/-- Go `len(s)` of a string: its number of bytes. -/
def len (s : String) : Int := (s.utf8ByteSize : Int)

/-- Validate validates the configuration; the method has a pointer receiver,
so the result is the configuration after the call together with the returned
error (`none` for `nil`). -/
def Validate (c : Config) : Config × Option String :=
  if c.Security.JWTSecret = "" then
    (c, some "JWT_SECRET is required (set via environment variable or config file)")
  else if len c.Security.JWTSecret < 32 then
    (c, some "JWT_SECRET must be at least 32 characters")
  else
    let c : Config :=
      if c.Security.JWTExpireHours ≤ 0 then
        { c with Security := { c.Security with JWTExpireHours := 24 } }
      else c
    let c : Config :=
      if c.Security.RateLimitPerMinute ≤ 0 then
        { c with Security := { c.Security with RateLimitPerMinute := 10 } }
      else c
    (c, none)

/-- A configuration with a secret of 32 bytes and no expiry or rate limit
set. -/
def sampleConfig : Config :=
  { Server := { Host := "0.0.0.0", Port := 8080, Mode := "release" },
    Database := { Path := "data.db", DevPath := "dev.db" },
    Weather := { APIHost := "", APIKey := "", Endpoint := "", Timeout := 0,
                 DefaultLocation := { Latitude := 0, Longitude := 0 } },
    Planner := { SoilOptimalMin := 30, SoilOptimalMax := 20, MaxIrrigationPerDay := 0,
                 BaseET := 0, TempFactor := 0, RainConversion := 0, ADCToMoisture := 0,
                 CostW1 := -1, CostW2 := -1, CostW3 := -1 },
    Logging := { Level := "info", File := "app.log", DevFile := "dev.log" },
    Security := { JWTSecret := "0123456789abcdef0123456789abcdef", JWTExpireHours := 0,
                  AllowedOrigins := [], RateLimitPerMinute := -3, DeviceAPIKey := "" } }

end Configuration

namespace Planner

/-- The scenario configuration with the daily maximum `1e19`. -/
def hugeMaxConfig : PlannerConfig :=
  { scenarioConfig with MaxIrrigationPerDay := F64.fin ((10 : ℚ) ^ (19 : Nat)) }

/-- A dry forecast day with ordinary temperatures. -/
def mildDay : ForecastDay :=
  { Date := "2024-05-01", TempMax := F64.fin 30, TempMin := F64.fin 18, PrecipMm := F64.fin 0 }

/-- A second forecast day, with rain. -/
def rainyDay : ForecastDay :=
  { Date := "2024-05-02", TempMax := F64.fin 28, TempMin := F64.fin 17, PrecipMm := F64.fin 3 }

/-- A dry forecast day whose two temperatures are the finite `float64` value
`2^1023`: their sum overflows to `+Inf`. -/
def hotDay : ForecastDay :=
  { Date := "2024-05-01", TempMax := F64.fin ((2 : ℚ) ^ (1023 : Nat)),
    TempMin := F64.fin ((2 : ℚ) ^ (1023 : Nat)), PrecipMm := F64.fin 0 }

end Planner

namespace Planner

/-- A configuration that breaks every validity condition of the
specification. -/
def invalidConfig : PlannerConfig :=
  { SoilOptimalMin := 30, SoilOptimalMax := 20, MaxIrrigationPerDay := F64.fin 0,
    BaseET := F64.fin 0, TempFactor := F64.fin 0, RainConversion := F64.fin 0,
    ADCToMoisture := F64.fin 0, CostW1 := F64.fin (-1), CostW2 := F64.fin (-1),
    CostW3 := F64.fin (-1) }

/-- The scenario configuration with the daily maximum `-1`. -/
def negativeMaxConfig : PlannerConfig :=
  { scenarioConfig with MaxIrrigationPerDay := F64.fin (-1) }

end Planner

namespace Planner

/-- In the candidate list `cs` (in iteration order), `c` is the first
candidate into bin `b` that attains the least total cost among the candidates
into `b`: every earlier candidate into `b` costs strictly more and every later
one costs at least as much, in the order `F64.ext` of the `float64` costs
(`+Inf` and `NaN`, which the update never stores, at the top). -/
def FirstMinInto (cs : List (Int × State)) (b : Int) (c : Int × State) : Prop :=
  ∃ pre post, cs = pre ++ c :: post ∧ c.1 = b ∧
    (∀ d ∈ pre, d.1 = b → F64.ext c.2.cost < F64.ext d.2.cost) ∧
    (∀ d ∈ post, d.1 = b → F64.ext c.2.cost ≤ F64.ext d.2.cost)

/-- Iteration order of the candidates of one day: `c` comes before `d` when
its source bin is lower, or the source bin is the same and its irrigation
volume is smaller (the source bin is read off the recorded predecessor). -/
def iterBefore (c d : Int × State) : Prop :=
  c.2.prevMoisture < d.2.prevMoisture ∨
    (c.2.prevMoisture = d.2.prevMoisture ∧
      F64.lt c.2.irrigationVolume d.2.irrigationVolume = true)

/-- The scenario configuration with the deviation weight `2^1023`, a finite
`float64` value under which every transition cost overflows. -/
def overflowConfig : PlannerConfig :=
  { scenarioConfig with CostW1 := F64.fin ((2 : ℚ) ^ (1023 : Nat)) }

end Planner

namespace Planner

/-- A valid configuration under which two transitions of the second day tie:
center `6`, options `0` and `0.5`, one option step moves the moisture by a
whole bin, and the smoothing weight is `40`. -/
def tieConfig : PlannerConfig :=
  { SoilOptimalMin := 6, SoilOptimalMax := 6, MaxIrrigationPerDay := F64.fin (1 / 2),
    BaseET := F64.fin 0, TempFactor := F64.fin 0, RainConversion := F64.fin 0,
    ADCToMoisture := F64.fin 20, CostW1 := F64.fin 1, CostW2 := F64.fin 0,
    CostW3 := F64.fin 40 }

/-- Row `dp[1]` of the run of `tieConfig` from initial moisture `0`. -/
def tieRow1 : List State :=
  (emptyRow.set 0
    { cost := F64.fin 36, prevMoisture := 0, irrigationVolume := F64.fin 0 }).set 1
    { cost := F64.fin 36, prevMoisture := 0, irrigationVolume := F64.fin (1 / 2) }

/-- Row `dp[2]` of the run of `tieConfig` from initial moisture `0`. -/
def tieRow2 : List State :=
  ((emptyRow.set 0
    { cost := F64.fin 72, prevMoisture := 0, irrigationVolume := F64.fin 0 }).set 1
    { cost := F64.fin 72, prevMoisture := 0, irrigationVolume := F64.fin (1 / 2) }).set 2
    { cost := F64.fin 232, prevMoisture := 10, irrigationVolume := F64.fin (1 / 2) }

/-- A dry forecast day at the reference temperature. -/
def calmDay : ForecastDay :=
  { Date := "2024-05-01", TempMax := F64.fin 20, TempMin := F64.fin 20, PrecipMm := F64.fin 0 }

end Planner

namespace Planner

/-- The bin reached from bin `b` on forecast day `f` under irrigation volume
`v`: the transition computed by the code from the representative value of the
bin, clamped and re-binned (`0` for an index below the table). -/
def nextBin (cfg : PlannerConfig) (f : ForecastDay) (b : Nat) (v : F64) : Nat :=
  (newIdx (newMoisture cfg (evapotranspiration cfg f) (rainMoisture cfg f)
    ((b : Int) * moistureStep) v)).toNat

/-- The incremental cost the code computes for the transition from bin `b` on
forecast day `f` under volume `v`, the previous volume being `prev`. -/
def transitionCost (cfg : PlannerConfig) (f : ForecastDay) (b : Nat) (v prev : F64) : F64 :=
  stepCost cfg (newMoisture cfg (evapotranspiration cfg f) (rainMoisture cfg f)
    ((b : Int) * moistureStep) v) v prev

/-- The bin in which the trajectory of a volume sequence ends, starting from
bin `b`. -/
def endBin (cfg : PlannerConfig) : Nat → List ForecastDay → List F64 → Nat
  | b, f :: fs, v :: vs => endBin cfg (nextBin cfg f b v) fs vs
  | b, _, _ => b

/-- The forward trajectory of a volume sequence from bin `b`: the bin reached
after each day under the transition of the code, from the representative value
of the previous bin, clamped and re-binned. -/
def trajectory (cfg : PlannerConfig) : Nat → List ForecastDay → List F64 → List Nat
  | b, f :: fs, v :: vs => nextBin cfg f b v :: trajectory cfg (nextBin cfg f b v) fs vs
  | _, _, _ => []

/-- The total cost of a volume sequence as the code accumulates it in
`float64`: starting from `acc` in bin `b` with previous volume `prev`, each day
adds the incremental cost of its transition to the running total and moves to
the next bin of the trajectory. -/
def pathCost (cfg : PlannerConfig) : Nat → F64 → F64 → List ForecastDay → List F64 → F64
  | b, acc, prev, f :: fs, v :: vs =>
    pathCost cfg (nextBin cfg f b v) (acc + transitionCost cfg f b v prev) v fs vs
  | _, acc, _, _, _ => acc

/-- The values of `currentIdx` at which the backtrace loop reads `dp[day+1]`,
listed in day order; the argument lists the pairs `(forecasts[day], dp[day+1])`
from `day = days-1` down to `day = 0`, as for `backtrace`. -/
def backtraceBins : List (ForecastDay × List State) → Int → Option (List Int)
  | [], _ => some []
  | (_, row) :: rest, currentIdx =>
    match readCell row currentIdx with
    | none => none
    | some cell =>
      let prevIdx := if rest.length > 0 then Int.tdiv cell.prevMoisture moistureStep
                     else currentIdx
      match backtraceBins rest prevIdx with
      | none => none
      | some bins => some (bins ++ [currentIdx])

end Planner

namespace F64

/-- A finite, nonnegative value of at most `2^k`. -/
def NonnegBy (k : Nat) (a : F64) : Prop := ∃ q : ℚ, a = fin q ∧ 0 ≤ q ∧ q ≤ (2 : ℚ) ^ k

end F64

namespace Planner

/-- A row of the table after `D` days under bounded inputs: 410 cells whose
volumes are finite, nonnegative and at most `2^44`, whose costs below `+Inf`
are finite, nonnegative and at most `D * 2^150`, one cell at least having such
a cost. -/
def FinRow (D : Nat) (row : List State) : Prop :=
  row.length = 410 ∧ (∀ s ∈ row, F64.NonnegBy 44 s.irrigationVolume) ∧
    (∀ s ∈ row, F64.ext s.cost < ⊤ →
      ∃ c : ℚ, s.cost = F64.fin c ∧ 0 ≤ c ∧ c ≤ (D : ℚ) * (2 : ℚ) ^ (150 : Nat)) ∧
    ∃ (b : Nat) (s : State), b < 410 ∧ row[b]? = some s ∧ F64.ext s.cost < ⊤

end Planner

namespace F64

/-- The rational value of a finite `float64`; `0` for the others. -/
def toRat : F64 → ℚ
  | fin q => q
  | _ => 0

end F64

namespace Planner

/-- The next moisture of section 4.2 in exact arithmetic, from the
representative value of bin `b` under volume `v`:
`current - ET*adcToMoisture + v*adcToMoisture + precipMm*rainConversion*adcToMoisture`
clamped to `[0, 4095]`, with
`ET = baseET + tempFactor*((tempMax+tempMin)/2 - 20)`. -/
def exactMoisture (cfg : PlannerConfig) (f : ForecastDay) (b : Nat) (v : ℚ) : ℚ :=
  let et := cfg.BaseET.toRat
    + cfg.TempFactor.toRat * ((f.TempMax.toRat + f.TempMin.toRat) / 2 - 20)
  max 0 (min ((b : ℚ) * 10 - et * cfg.ADCToMoisture.toRat + v * cfg.ADCToMoisture.toRat
    + f.PrecipMm.toRat * cfg.RainConversion.toRat * cfg.ADCToMoisture.toRat) 4095)

/-- The bin of the next moisture in exact arithmetic. -/
def exactNextBin (cfg : PlannerConfig) (f : ForecastDay) (b : Nat) (v : ℚ) : Nat :=
  (⌊exactMoisture cfg f b v / 10⌋).toNat

/-- The incremental cost of section 4.2 in exact arithmetic:
`costW1*deviation^2 + costW2*v + costW3*|v - prev|` with
`deviation = next - (soilOptimalMin + soilOptimalMax)/2`. -/
def exactStepCost (cfg : PlannerConfig) (f : ForecastDay) (b : Nat) (v prev : ℚ) : ℚ :=
  cfg.CostW1.toRat
      * (exactMoisture cfg f b v
          - ((cfg.SoilOptimalMin : ℚ) + (cfg.SoilOptimalMax : ℚ)) / 2) ^ 2
    + cfg.CostW2.toRat * v + cfg.CostW3.toRat * |v - prev|

/-- The total cost of a sequence of irrigation volumes, in the words of the
specification and in exact arithmetic: the sum over days of the incremental
cost, evaluated along the trajectory that starts at the representative value
of bin `b` and is re-binned each day; `prev` is the previous volume (`0`
before the first day). -/
def exactPlanCost (cfg : PlannerConfig) : Nat → ℚ → List ForecastDay → List ℚ → ℚ
  | b, prev, f :: fs, v :: vs =>
    exactStepCost cfg f b v prev + exactPlanCost cfg (exactNextBin cfg f b v) v fs vs
  | _, _, _, _ => 0

/-- The one-day objective in the words of the specification, in exact
arithmetic: the cost `costW1*(next - center)^2 + costW2*v + costW3*v` of
irrigating `v` on the single day `f`, where
`current = 10*min(floor(m/10), 409)` and `next` is the next moisture of
section 4.2 from `current`. -/
def oneDayObjective (cfg : PlannerConfig) (m : Int) (f : ForecastDay) (v : ℚ) : ℚ :=
  cfg.CostW1.toRat
      * (exactMoisture cfg f (min (m / 10) 409).toNat v
          - ((cfg.SoilOptimalMin : ℚ) + (cfg.SoilOptimalMax : ℚ)) / 2) ^ 2
    + cfg.CostW2.toRat * v + cfg.CostW3.toRat * v

/-- A configuration with a positive smoothing weight `CostW3`, used to show
that the table fill is not cost-minimizing in general. -/
def smoothingConfig : PlannerConfig :=
  { SoilOptimalMin := 0, SoilOptimalMax := 10, MaxIrrigationPerDay := F64.fin (1 / 2),
    BaseET := F64.fin 0, TempFactor := F64.fin 0, RainConversion := F64.fin 1,
    ADCToMoisture := F64.fin 2, CostW1 := F64.fin 1, CostW2 := F64.fin 0,
    CostW3 := F64.fin 4 }

/-- The two forecast days used with `smoothingConfig`. -/
def smoothingForecasts : List ForecastDay :=
  [{ Date := "2024-05-01", TempMax := F64.fin 20, TempMin := F64.fin 20,
     PrecipMm := F64.fin 2 },
   { Date := "2024-05-02", TempMax := F64.fin 20, TempMin := F64.fin 20,
     PrecipMm := F64.fin (1 / 2) }]

/-- A valid configuration without smoothing whose conversion factor is the
`float64` nearest to `0.2`: the transition from bin `1` under volume `0.5` on
a day with `1` mm of rain is `10` in exact arithmetic and
`9.999999999999998` in `float64`. -/
def roundingConfig : PlannerConfig :=
  { SoilOptimalMin := 7, SoilOptimalMax := 7, MaxIrrigationPerDay := F64.fin (1 / 2),
    BaseET := F64.fin (3 / 2), TempFactor := F64.fin 0, RainConversion := F64.fin 1,
    ADCToMoisture := F64.round (1 / 5), CostW1 := F64.fin 1, CostW2 := F64.fin 0,
    CostW3 := F64.fin 0 }

/-- The two forecast days used with `roundingConfig`. -/
def roundingForecasts : List ForecastDay :=
  [{ Date := "2024-05-01", TempMax := F64.fin 20, TempMin := F64.fin 20,
     PrecipMm := F64.fin 1 },
   { Date := "2024-05-02", TempMax := F64.fin 20, TempMin := F64.fin 20,
     PrecipMm := F64.fin 1 }]

/-- A valid configuration whose weights are the `float64` values nearest to
`0.2` and `1.1`: the options `0` and `0.5` cost `1.8000000000000003` and `1.8`
in `float64`, the other way round in exact arithmetic. -/
def tieBreakConfig : PlannerConfig :=
  { SoilOptimalMin := 100, SoilOptimalMax := 106, MaxIrrigationPerDay := F64.fin 1,
    BaseET := F64.fin 0, TempFactor := F64.fin 0, RainConversion := F64.fin 0,
    ADCToMoisture := F64.fin 1, CostW1 := F64.round (1 / 5), CostW2 := F64.round (11 / 10),
    CostW3 := F64.fin 0 }

/-- The configuration `roundingConfig` with the optimal band `[10, 10]`: the
code irrigates `0.5` on the first day, lands in bin `0` in `float64` and in
bin `1` in exact arithmetic. -/
def driftConfig : PlannerConfig :=
  { roundingConfig with SoilOptimalMin := 10, SoilOptimalMax := 10 }

/-- The cost the code computes, in `float64`, for irrigating `v` on the single
forecast day `f` from the initial reading `m`: the initial cost `0` plus the
incremental cost `costW1*dev*dev + costW2*v + costW3*|v - 0|` of the transition
from the representative value of the initial bin. -/
def oneDayCost (cfg : PlannerConfig) (m : Int) (f : ForecastDay) (v : F64) : F64 :=
  F64.fin 0 + transitionCost cfg f (initMoistureIdx m).toNat v (F64.fin 0)

end Planner

namespace F64

/-- A value that is `NaN`, `+Inf` or a finite nonnegative number. -/
def NonnegOrNan (a : F64) : Prop := a = nan ∨ le (fin 0) a = true

end F64

namespace Planner

/-- A row of the table on the all-zero path: bin `j` holds cost `0` reached
with volume `0`, every bin below `j` is unreached (cost `+Inf`) and no cell has
a negative or `NaN` cost. -/
def ZeroRow (row : List State) (j : Nat) : Prop :=
  row.length = 410 ∧ j < 410 ∧
    (∃ s, row[j]? = some s ∧ s.cost = F64.fin 0 ∧ s.irrigationVolume = F64.fin 0) ∧
    (∀ (i : Nat) (s : State), i < j → row[i]? = some s → s.cost = F64.pinf) ∧
    ∀ s ∈ row, F64.le (F64.fin 0) s.cost = true

/-- The scenario configuration with the three cost weights set to `0`: every
sequence of volumes has total cost `0`. -/
def noPenaltyConfig : PlannerConfig :=
  { scenarioConfig with CostW1 := F64.fin 0, CostW2 := F64.fin 0, CostW3 := F64.fin 0 }

end Planner

namespace F64

theorem log2Fuel_spec : ∀ (fuel n : Nat), n ≤ fuel → 0 < n →
    2 ^ log2Fuel fuel n ≤ n ∧ n < 2 ^ (log2Fuel fuel n + 1) := by
  intro fuel
  induction fuel with
  | zero =>
    intro n h1 h2
    omega
  | succ fuel ih =>
    intro n h1 h2
    show 2 ^ (if n < 2 then 0 else log2Fuel fuel (n / 2) + 1) ≤ n ∧
      n < 2 ^ ((if n < 2 then 0 else log2Fuel fuel (n / 2) + 1) + 1)
    by_cases h : n < 2
    · rw [if_pos h]
      have : n = 1 := by omega
      subst this
      exact ⟨by norm_num, by norm_num⟩
    · rw [if_neg h]
      have hn2 : n / 2 ≤ fuel := by omega
      have hpos : 0 < n / 2 := by omega
      obtain ⟨h3, h4⟩ := ih (n / 2) hn2 hpos
      constructor
      · rw [pow_succ]
        omega
      · rw [pow_succ]
        omega

theorem natLog2_spec {n : Nat} (h : 0 < n) :
    2 ^ natLog2 n ≤ n ∧ n < 2 ^ (natLog2 n + 1) :=
  log2Fuel_spec n n (le_refl n) h

theorem two_zpow_pos (e : Int) : (0 : ℚ) < 2 ^ e := zpow_pos (by norm_num) e

theorem ilog2_spec {x : ℚ} (hx : x ≠ 0) :
    (2 : ℚ) ^ ilog2 x ≤ |x| ∧ |x| < (2 : ℚ) ^ (ilog2 x + 1) := by
  have hnum : 0 < x.num.natAbs := Int.natAbs_pos.mpr (Rat.num_ne_zero.mpr hx)
  have hden : 0 < x.den := x.den_pos
  obtain ⟨a1, a2⟩ := natLog2_spec hnum
  obtain ⟨b1, b2⟩ := natLog2_spec hden
  have habs : |x| = (x.num.natAbs : ℚ) / (x.den : ℚ) := by
    conv_lhs => rw [← Rat.num_div_den x]
    rw [abs_div, Nat.abs_cast]
    congr 1
    rw [Nat.cast_natAbs, Int.cast_abs]
  have a1q : (2 : ℚ) ^ (natLog2 x.num.natAbs) ≤ (x.num.natAbs : ℚ) := by exact_mod_cast a1
  have a2q : (x.num.natAbs : ℚ) < (2 : ℚ) ^ (natLog2 x.num.natAbs + 1) := by exact_mod_cast a2
  have b1q : (2 : ℚ) ^ (natLog2 x.den) ≤ (x.den : ℚ) := by exact_mod_cast b1
  have b2q : (x.den : ℚ) < (2 : ℚ) ^ (natLog2 x.den + 1) := by exact_mod_cast b2
  have hdq : (0 : ℚ) < (x.den : ℚ) := by exact_mod_cast hden
  have hA := two_zpow_pos (natLog2 x.num.natAbs : Int)
  have hB := two_zpow_pos (natLog2 x.den : Int)
  -- bounds on |x|
  have hup : |x| < (2 : ℚ) ^ ((natLog2 x.num.natAbs : Int) - (natLog2 x.den : Int) + 1) := by
    rw [habs, div_lt_iff₀ hdq]
    have e1 : (2 : ℚ) ^ ((natLog2 x.num.natAbs : Int) - (natLog2 x.den : Int) + 1)
        = (2 : ℚ) ^ (natLog2 x.num.natAbs + 1) / (2 : ℚ) ^ (natLog2 x.den) := by
      rw [show ((natLog2 x.num.natAbs : Int) - (natLog2 x.den : Int) + 1)
        = ((natLog2 x.num.natAbs + 1 : Nat) : Int) - ((natLog2 x.den : Nat) : Int) by push_cast; ring]
      rw [zpow_sub₀ (by norm_num), zpow_natCast, zpow_natCast]
    rw [e1, div_mul_eq_mul_div, lt_div_iff₀ (by positivity)]
    calc (x.num.natAbs : ℚ) * (2 : ℚ) ^ (natLog2 x.den)
        ≤ (x.num.natAbs : ℚ) * (x.den : ℚ) := by
          apply mul_le_mul_of_nonneg_left b1q (by positivity)
      _ < (2 : ℚ) ^ (natLog2 x.num.natAbs + 1) * (x.den : ℚ) := by
          apply mul_lt_mul_of_pos_right a2q hdq
  have hlo : (2 : ℚ) ^ ((natLog2 x.num.natAbs : Int) - (natLog2 x.den : Int) - 1) < |x| := by
    rw [habs, lt_div_iff₀ hdq]
    have e1 : (2 : ℚ) ^ ((natLog2 x.num.natAbs : Int) - (natLog2 x.den : Int) - 1)
        = (2 : ℚ) ^ (natLog2 x.num.natAbs) / (2 : ℚ) ^ (natLog2 x.den + 1) := by
      rw [show ((natLog2 x.num.natAbs : Int) - (natLog2 x.den : Int) - 1)
        = ((natLog2 x.num.natAbs : Nat) : Int) - ((natLog2 x.den + 1 : Nat) : Int) by push_cast; ring]
      rw [zpow_sub₀ (by norm_num), zpow_natCast, zpow_natCast]
    rw [e1, div_mul_eq_mul_div, div_lt_iff₀ (by positivity)]
    calc (2 : ℚ) ^ (natLog2 x.num.natAbs) * (x.den : ℚ)
        < (2 : ℚ) ^ (natLog2 x.num.natAbs) * (2 : ℚ) ^ (natLog2 x.den + 1) := by
          apply mul_lt_mul_of_pos_left b2q (by positivity)
      _ ≤ (x.num.natAbs : ℚ) * (2 : ℚ) ^ (natLog2 x.den + 1) := by
          apply mul_le_mul_of_nonneg_right a1q (by positivity)
  unfold ilog2
  simp only []
  by_cases h : (2 : ℚ) ^ ((natLog2 x.num.natAbs : Int) - (natLog2 x.den : Int)) ≤ |x|
  · rw [if_pos h]
    exact ⟨h, hup⟩
  · rw [if_neg h]
    refine ⟨le_of_lt hlo, ?_⟩
    rw [sub_add_cancel]
    exact not_le.mp h

theorem ilog2_unique {x : ℚ} {e : Int} (h1 : (2 : ℚ) ^ e ≤ |x|) (h2 : |x| < (2 : ℚ) ^ (e + 1)) :
    ilog2 x = e := by
  have hx : x ≠ 0 := by
    intro h
    rw [h, abs_zero] at h1
    exact absurd (two_zpow_pos e) (not_lt.mpr h1)
  obtain ⟨s1, s2⟩ := ilog2_spec hx
  have h3 : (2 : ℚ) ^ e < (2 : ℚ) ^ (ilog2 x + 1) := lt_of_le_of_lt h1 s2
  have h4 : (2 : ℚ) ^ ilog2 x < (2 : ℚ) ^ (e + 1) := lt_of_le_of_lt s1 h2
  have h5 := (zpow_lt_zpow_iff_right₀ (by norm_num : (1 : ℚ) < 2)).mp h3
  have h6 := (zpow_lt_zpow_iff_right₀ (by norm_num : (1 : ℚ) < 2)).mp h4
  omega

theorem ilog2_mono {x y : ℚ} (hx : 0 < x) (hxy : x ≤ y) : ilog2 x ≤ ilog2 y := by
  have hy : 0 < y := lt_of_lt_of_le hx hxy
  obtain ⟨s1, -⟩ := ilog2_spec (ne_of_gt hx)
  obtain ⟨-, t2⟩ := ilog2_spec (ne_of_gt hy)
  rw [abs_of_pos hx] at s1
  rw [abs_of_pos hy] at t2
  have h3 : (2 : ℚ) ^ ilog2 x < (2 : ℚ) ^ (ilog2 y + 1) :=
    lt_of_le_of_lt s1 (lt_of_le_of_lt hxy t2)
  have h5 := (zpow_lt_zpow_iff_right₀ (by norm_num : (1 : ℚ) < 2)).mp h3
  omega

theorem roundHalfEven_intCast (n : Int) : roundHalfEven (n : ℚ) = n := by
  unfold roundHalfEven
  simp only [Int.floor_intCast, sub_self]
  rw [if_pos (by norm_num)]

theorem floor_le_roundHalfEven (x : ℚ) : ⌊x⌋ ≤ roundHalfEven x := by
  unfold roundHalfEven
  simp only []
  split_ifs <;> omega

theorem roundHalfEven_le_floor_add_one (x : ℚ) : roundHalfEven x ≤ ⌊x⌋ + 1 := by
  unfold roundHalfEven
  simp only []
  split_ifs <;> omega

theorem roundHalfEven_mono {x y : ℚ} (h : x ≤ y) : roundHalfEven x ≤ roundHalfEven y := by
  have hf : ⌊x⌋ ≤ ⌊y⌋ := Int.floor_mono h
  rcases lt_or_eq_of_le hf with hlt | heq
  · calc roundHalfEven x ≤ ⌊x⌋ + 1 := roundHalfEven_le_floor_add_one x
      _ ≤ ⌊y⌋ := hlt
      _ ≤ roundHalfEven y := floor_le_roundHalfEven y
  · have hr : x - (⌊x⌋ : ℚ) ≤ y - (⌊x⌋ : ℚ) := by linarith
    unfold roundHalfEven
    simp only []
    rw [← heq]
    split_ifs <;> first | omega | (exfalso; linarith)

theorem roundHalfEven_le_of_le {x : ℚ} {n : Int} (h : x ≤ (n : ℚ)) : roundHalfEven x ≤ n := by
  have := roundHalfEven_mono h
  rwa [roundHalfEven_intCast] at this

theorem le_roundHalfEven_of_le {x : ℚ} {n : Int} (h : (n : ℚ) ≤ x) : n ≤ roundHalfEven x := by
  have := roundHalfEven_mono h
  rwa [roundHalfEven_intCast] at this

theorem ulp_pos (x : ℚ) : 0 < ulp x := two_zpow_pos _

theorem two_pow_cast_mul (m : Nat) (e : Int) :
    (((2 : Int) ^ m : Int) : ℚ) * (2 : ℚ) ^ e = (2 : ℚ) ^ (e + (m : Int)) := by
  rw [Int.cast_pow, Int.cast_ofNat, ← zpow_natCast, ← zpow_add₀ (by norm_num), add_comm]

theorem ulp_mono {x y : ℚ} (hx : 0 < x) (hxy : x ≤ y) : ulp x ≤ ulp y := by
  unfold ulp
  apply zpow_le_zpow_right₀ (by norm_num)
  have := ilog2_mono hx hxy
  omega

theorem roundPos_nonneg {x : ℚ} (hx : 0 ≤ x) : 0 ≤ roundPos x := by
  unfold roundPos
  apply mul_nonneg _ (le_of_lt (ulp_pos x))
  have h0 : (0 : ℚ) ≤ x / ulp x := div_nonneg hx (le_of_lt (ulp_pos x))
  have : (0 : Int) ≤ roundHalfEven (x / ulp x) := le_roundHalfEven_of_le (by exact_mod_cast h0)
  exact_mod_cast this

/-- Upper end of the binade: the rounded value is at most `2^(E+1)`. -/
theorem roundPos_le_binade {x : ℚ} (hx : 0 < x) :
    roundPos x ≤ (2 : ℚ) ^ (max (ilog2 x) (-1022) + 1) := by
  obtain ⟨-, s2⟩ := ilog2_spec (ne_of_gt hx)
  rw [abs_of_pos hx] at s2
  have hx2 : x ≤ (2 : ℚ) ^ (max (ilog2 x) (-1022) + 1) := by
    apply le_trans (le_of_lt s2)
    apply zpow_le_zpow_right₀ (by norm_num)
    omega
  have hu := ulp_pos x
  have hq : x / ulp x ≤ (((2 : Int) ^ (53 : Nat) : Int) : ℚ) := by
    rw [div_le_iff₀ hu]
    unfold ulp
    have : ((((2 : Int) ^ (53 : Nat) : Int) : ℚ)) * (2 : ℚ) ^ (max (ilog2 x) (-1022) - 52)
        = (2 : ℚ) ^ (max (ilog2 x) (-1022) + 1) := by
      rw [two_pow_cast_mul]
      congr 1
      push_cast
      ring
    rw [this]
    exact hx2
  have hr := roundHalfEven_le_of_le hq
  have hrq : (roundHalfEven (x / ulp x) : ℚ) ≤ (((2 : Int) ^ (53 : Nat) : Int) : ℚ) := by
    exact_mod_cast hr
  unfold roundPos
  calc (roundHalfEven (x / ulp x) : ℚ) * ulp x
      ≤ (((2 : Int) ^ (53 : Nat) : Int) : ℚ) * ulp x :=
        mul_le_mul_of_nonneg_right hrq (le_of_lt hu)
    _ = (2 : ℚ) ^ (max (ilog2 x) (-1022) + 1) := by
        unfold ulp
        rw [two_pow_cast_mul]
        congr 1
        push_cast
        ring

/-- Lower end of the binade, for a value in the normal range. -/
theorem le_roundPos_binade {x : ℚ} (hx : 0 < x) (hn : -1022 ≤ ilog2 x) :
    (2 : ℚ) ^ ilog2 x ≤ roundPos x := by
  obtain ⟨s1, -⟩ := ilog2_spec (ne_of_gt hx)
  rw [abs_of_pos hx] at s1
  have hmax : max (ilog2 x) (-1022) = ilog2 x := max_eq_left hn
  have hu := ulp_pos x
  have hue : ulp x = (2 : ℚ) ^ (ilog2 x - 52) := by
    unfold ulp
    rw [hmax]
  have hmul : (((2 : Int) ^ (52 : Nat) : Int) : ℚ) * ulp x = (2 : ℚ) ^ ilog2 x := by
    rw [hue, two_pow_cast_mul]
    congr 1
    push_cast
    ring
  have hq : (((2 : Int) ^ (52 : Nat) : Int) : ℚ) ≤ x / ulp x := by
    rw [le_div_iff₀ hu, hmul]
    exact s1
  have hr := le_roundHalfEven_of_le hq
  have hrq : (((2 : Int) ^ (52 : Nat) : Int) : ℚ) ≤ (roundHalfEven (x / ulp x) : ℚ) := by
    exact_mod_cast hr
  unfold roundPos
  calc (2 : ℚ) ^ ilog2 x = (((2 : Int) ^ (52 : Nat) : Int) : ℚ) * ulp x := hmul.symm
    _ ≤ (roundHalfEven (x / ulp x) : ℚ) * ulp x :=
        mul_le_mul_of_nonneg_right hrq (le_of_lt hu)

theorem roundPos_mono {x y : ℚ} (hx : 0 < x) (hxy : x ≤ y) : roundPos x ≤ roundPos y := by
  have hy : 0 < y := lt_of_lt_of_le hx hxy
  have hil := ilog2_mono hx hxy
  by_cases he : max (ilog2 x) (-1022) = max (ilog2 y) (-1022)
  · have hu : ulp x = ulp y := by
      unfold ulp
      rw [he]
    unfold roundPos
    rw [hu]
    apply mul_le_mul_of_nonneg_right _ (le_of_lt (ulp_pos y))
    have : x / ulp y ≤ y / ulp y := div_le_div_of_nonneg_right hxy (le_of_lt (ulp_pos y))
    exact_mod_cast roundHalfEven_mono this
  · have hlt : max (ilog2 x) (-1022) < ilog2 y := by omega
    have hny : -1022 ≤ ilog2 y := by omega
    calc roundPos x ≤ (2 : ℚ) ^ (max (ilog2 x) (-1022) + 1) := roundPos_le_binade hx
      _ ≤ (2 : ℚ) ^ ilog2 y := zpow_le_zpow_right₀ (by norm_num) (by omega)
      _ ≤ roundPos y := le_roundPos_binade hy hny

/-- A value `n * 2^k` with fewer than 54 significant bits and `k ≥ -1074` is on
the binary64 grid. -/
theorem roundPos_exact {n : Nat} {k : Int} (hn0 : 0 < n) (hn : n < 2 ^ 53) (hk : -1074 ≤ k) :
    roundPos ((n : ℚ) * (2 : ℚ) ^ k) = (n : ℚ) * (2 : ℚ) ^ k := by
  have hx : (0 : ℚ) < (n : ℚ) * (2 : ℚ) ^ k :=
    mul_pos (by exact_mod_cast hn0) (two_zpow_pos k)
  obtain ⟨s1, -⟩ := ilog2_spec (ne_of_gt hx)
  rw [abs_of_pos hx] at s1
  have hlt : (n : ℚ) * (2 : ℚ) ^ k < (2 : ℚ) ^ (53 + k) := by
    rw [zpow_add₀ (by norm_num)]
    apply mul_lt_mul_of_pos_right _ (two_zpow_pos k)
    have h53 : (2 : ℚ) ^ (53 : Int) = ((2 ^ 53 : Nat) : ℚ) := by norm_num
    rw [h53]
    exact_mod_cast hn
  have hil : ilog2 ((n : ℚ) * (2 : ℚ) ^ k) < 53 + k :=
    (zpow_lt_zpow_iff_right₀ (by norm_num : (1 : ℚ) < 2)).mp (lt_of_le_of_lt s1 hlt)
  have hE : max (ilog2 ((n : ℚ) * (2 : ℚ) ^ k)) (-1022) - 52 ≤ k := by omega
  obtain ⟨j, hj⟩ : ∃ j : Nat, (j : Int) = k - (max (ilog2 ((n : ℚ) * (2 : ℚ) ^ k)) (-1022) - 52) :=
    ⟨(k - (max (ilog2 ((n : ℚ) * (2 : ℚ) ^ k)) (-1022) - 52)).toNat, by omega⟩
  have hdiv : (n : ℚ) * (2 : ℚ) ^ k / ulp ((n : ℚ) * (2 : ℚ) ^ k)
      = (((n * 2 ^ j : Nat) : Int) : ℚ) := by
    unfold ulp
    rw [mul_div_assoc, ← zpow_sub₀ (by norm_num), ← hj]
    push_cast
    rw [zpow_natCast]
  unfold roundPos
  rw [hdiv, roundHalfEven_intCast, ← hdiv]
  exact div_mul_cancel₀ _ (ne_of_gt (ulp_pos _))

theorem ext_fin_le {a b : ℚ} : ext (fin a) ≤ ext (fin b) ↔ a ≤ b := by
  unfold ext
  rw [WithTop.coe_le_coe, WithBot.coe_le_coe]

theorem ext_fin_lt {a b : ℚ} : ext (fin a) < ext (fin b) ↔ a < b := by
  unfold ext
  rw [WithTop.coe_lt_coe, WithBot.coe_lt_coe]

theorem ext_le_pinf (a : F64) : ext a ≤ ext pinf := le_top

theorem ext_ninf_le (a : F64) : ext ninf ≤ ext a := by
  cases a with
  | nan => exact le_top
  | pinf => exact le_top
  | ninf => exact le_refl _
  | fin a =>
    unfold ext
    rw [WithTop.coe_le_coe]
    exact bot_le

theorem lt_iff_ext {a b : F64} (hb : b ≠ nan) : lt a b = true ↔ ext a < ext b := by
  cases a <;> cases b <;> simp [lt, ext] at hb ⊢
  exact WithTop.coe_lt_coe.mpr (WithBot.bot_lt_coe _)

theorem le_iff_ext {a b : F64} (ha : a ≠ nan) (hb : b ≠ nan) :
    le a b = true ↔ ext a ≤ ext b := by
  cases a <;> cases b <;> simp [le, ext] at ha hb ⊢

theorem round_pos_cases {x : ℚ} (hx : 0 < x) :
    round x = if (2 : ℚ) ^ (1024 : Nat) ≤ roundPos x then pinf else fin (roundPos x) := by
  unfold round
  rw [if_pos hx]

theorem round_neg_cases {x : ℚ} (hx : x < 0) :
    round x
      = if (2 : ℚ) ^ (1024 : Nat) ≤ roundPos (-x) then ninf else fin (-roundPos (-x)) := by
  unfold round
  rw [if_neg (not_lt.mpr (le_of_lt hx)), if_pos hx]

theorem round_zero : round 0 = fin 0 := by
  unfold round
  rw [if_neg (lt_irrefl _), if_neg (lt_irrefl _)]

theorem round_ne_nan (x : ℚ) : round x ≠ nan := by
  unfold round
  split_ifs <;> simp

theorem ext_round_nonneg {x : ℚ} (hx : 0 ≤ x) : ext (fin 0) ≤ ext (round x) := by
  rcases lt_or_eq_of_le hx with h | h
  · rw [round_pos_cases h]
    split_ifs
    · exact le_top
    · exact ext_fin_le.mpr (roundPos_nonneg hx)
  · rw [← h, round_zero]

theorem ext_round_nonpos {x : ℚ} (hx : x ≤ 0) : ext (round x) ≤ ext (fin 0) := by
  rcases lt_or_eq_of_le hx with h | h
  · rw [round_neg_cases h]
    split_ifs
    · exact ext_ninf_le _
    · apply ext_fin_le.mpr
      have := roundPos_nonneg (le_of_lt (neg_pos.mpr h))
      linarith
  · rw [h, round_zero]

/-- Rounding is monotone. -/
theorem round_mono {x y : ℚ} (hxy : x ≤ y) : ext (round x) ≤ ext (round y) := by
  rcases lt_trichotomy 0 x with hx | hx | hx
  · have hy : 0 < y := lt_of_lt_of_le hx hxy
    have hm := roundPos_mono hx hxy
    rw [round_pos_cases hx, round_pos_cases hy]
    by_cases h1 : (2 : ℚ) ^ (1024 : Nat) ≤ roundPos x
    · rw [if_pos h1, if_pos (le_trans h1 hm)]
    · rw [if_neg h1]
      split_ifs
      · exact le_top
      · exact ext_fin_le.mpr hm
  · rw [← hx] at hxy ⊢
    rw [round_zero]
    exact ext_round_nonneg hxy
  · rcases lt_or_le y 0 with hy | hy
    · have hm := roundPos_mono (neg_pos.mpr hy) (neg_le_neg hxy)
      rw [round_neg_cases hx, round_neg_cases hy]
      by_cases h1 : (2 : ℚ) ^ (1024 : Nat) ≤ roundPos (-y)
      · rw [if_pos h1, if_pos (le_trans h1 hm)]
      · rw [if_neg h1]
        split_ifs
        · exact ext_ninf_le _
        · exact ext_fin_le.mpr (by linarith)
    · exact le_trans (ext_round_nonpos (le_of_lt hx)) (ext_round_nonneg hy)

theorem round_of_isRep {x : ℚ} (h : IsRep x) : round x = fin x := by
  obtain ⟨n, k, hn, hk, hx, hlt⟩ := h
  rcases lt_trichotomy 0 x with h0 | h0 | h0
  · rw [abs_of_pos h0] at hx hlt
    have hn0 : 0 < n := by
      rcases Nat.eq_zero_or_pos n with h | h
      · rw [h] at hx
        simp at hx
        rw [hx] at h0
        exact absurd h0 (lt_irrefl _)
      · exact h
    have hr : roundPos x = x := by
      rw [hx]
      exact roundPos_exact hn0 hn hk
    rw [round_pos_cases h0, hr, if_neg (not_le.mpr hlt)]
  · rw [← h0, round_zero]
  · rw [abs_of_neg h0] at hx hlt
    have hn0 : 0 < n := by
      rcases Nat.eq_zero_or_pos n with h | h
      · rw [h] at hx
        simp at hx
        rw [hx] at h0
        exact absurd h0 (lt_irrefl _)
      · exact h
    have hr : roundPos (-x) = -x := by
      rw [hx]
      exact roundPos_exact hn0 hn hk
    rw [round_neg_cases h0, hr, if_neg (not_le.mpr hlt), neg_neg]

theorem two_pow_53_le : (((2 : Nat) ^ 53 : Nat) : ℚ) ≤ (2 : ℚ) ^ (1024 : Nat) := by
  rw [Nat.cast_pow, Nat.cast_ofNat]
  exact pow_le_pow_right₀ (by norm_num : (1 : ℚ) ≤ 2) (by norm_num : 53 ≤ 1024)

theorem isRep_intCast {n : Int} (h : n.natAbs < 2 ^ 53) : IsRep (n : ℚ) := by
  refine ⟨n.natAbs, 0, h, by norm_num, ?_, ?_⟩
  · rw [zpow_zero, mul_one, Nat.cast_natAbs, Int.cast_abs]
  · have h1 : |(n : ℚ)| = ((n.natAbs : Nat) : ℚ) := by
      rw [Nat.cast_natAbs, Int.cast_abs]
    rw [h1]
    have h2 : ((n.natAbs : Nat) : ℚ) < ((2 ^ 53 : Nat) : ℚ) := by exact_mod_cast h
    have h3 : (((2 : Nat) ^ 53 : Nat) : ℚ) ≤ (2 : ℚ) ^ (1024 : Nat) := two_pow_53_le
    exact lt_of_lt_of_le h2 h3

theorem isRep_half {n : Int} (h : n.natAbs < 2 ^ 53) : IsRep ((n : ℚ) * (1 / 2)) := by
  have habs : |(n : ℚ) * (1 / 2)| = ((n.natAbs : Nat) : ℚ) * (2 : ℚ) ^ (-1 : Int) := by
    rw [abs_mul, Nat.cast_natAbs, Int.cast_abs]
    norm_num
  refine ⟨n.natAbs, -1, h, by norm_num, habs, ?_⟩
  rw [habs]
  have h2 : ((n.natAbs : Nat) : ℚ) < ((2 ^ 53 : Nat) : ℚ) := by exact_mod_cast h
  have h3 : (((2 : Nat) ^ 53 : Nat) : ℚ) ≤ (2 : ℚ) ^ (1024 : Nat) := two_pow_53_le
  have h4 : ((n.natAbs : Nat) : ℚ) * (2 : ℚ) ^ (-1 : Int) ≤ ((n.natAbs : Nat) : ℚ) := by
    have : (0 : ℚ) ≤ ((n.natAbs : Nat) : ℚ) := Nat.cast_nonneg _
    norm_num
    linarith
  linarith

theorem isRep_two_pow {k : Nat} (h : k < 1024) : IsRep ((2 : ℚ) ^ k) := by
  refine ⟨1, k, by norm_num, by omega, ?_, ?_⟩
  · rw [abs_of_pos (by positivity), Nat.cast_one, one_mul, zpow_natCast]
  · rw [abs_of_pos (by positivity)]
    exact pow_lt_pow_right₀ (by norm_num) h

theorem isRep_neg {x : ℚ} (h : IsRep x) : IsRep (-x) := by
  obtain ⟨n, k, hn, hk, hx, hlt⟩ := h
  exact ⟨n, k, hn, hk, by rw [abs_neg]; exact hx, by rw [abs_neg]; exact hlt⟩

/-- A rational bounded in magnitude by a grid point rounds to a finite value
within the same bound. -/
theorem round_bounded {x B : ℚ} (hB : IsRep B) (hx : |x| ≤ B) :
    ∃ y, round x = fin y ∧ |y| ≤ B := by
  have hup := round_mono (le_trans (le_abs_self x) hx)
  have hlo := round_mono (neg_le.mp (le_trans (neg_le_abs x) hx))
  rw [round_of_isRep hB] at hup
  rw [round_of_isRep (isRep_neg hB)] at hlo
  cases hr : round x with
  | nan => exact absurd hr (round_ne_nan x)
  | pinf =>
    rw [hr] at hup
    exact absurd hup (by simp [ext])
  | ninf =>
    rw [hr] at hlo
    simp only [ext, WithTop.coe_le_coe] at hlo
    exact absurd hlo (by simp)
  | fin y =>
    rw [hr] at hup hlo
    exact ⟨y, rfl, abs_le.mpr ⟨ext_fin_le.mp hlo, ext_fin_le.mp hup⟩⟩

end F64

namespace Planner

/-! ## Basic facts -/

theorem moistureStates_eq : moistureStates = 410 := by decide

theorem moistureStates_toNat : moistureStates.toNat = 410 := by
  rw [moistureStates_eq]
  rfl

theorem emptyRow_length : emptyRow.length = 410 := by
  unfold emptyRow
  rw [moistureStates_toNat]
  exact List.length_replicate _ _

theorem emptyRow_getElem? (j : Nat) (hj : j < 410) : emptyRow[j]? = some infState := by
  unfold emptyRow
  rw [moistureStates_toNat]
  rw [List.getElem?_eq_getElem (by rw [List.length_replicate]; exact hj)]
  rw [List.getElem_replicate]

theorem ofInt_maxMoisture : F64.ofInt maxMoisture = F64.fin 4095 := by decide!

theorem newMoisture_eq (cfg : PlannerConfig) (et rain : F64) (cm : Int) (v : F64) :
    newMoisture cfg et rain cm v = clampMoisture (rawMoisture cfg et rain cm v) := rfl

theorem clampMoisture_nan : clampMoisture F64.nan = F64.nan := by decide!

theorem clampMoisture_of_ne_nan {x : F64} (hx : x ≠ F64.nan) :
    ∃ q : ℚ, clampMoisture x = F64.fin q ∧ 0 ≤ q ∧ q ≤ 4095 := by
  unfold clampMoisture
  rw [ofInt_maxMoisture]
  cases x with
  | nan => exact absurd rfl hx
  | ninf => exact ⟨0, by decide!, le_refl _, by norm_num⟩
  | pinf => exact ⟨4095, by decide!, by norm_num, le_refl _⟩
  | fin a =>
    by_cases h0 : a < 0
    · refine ⟨0, ?_, le_refl _, by norm_num⟩
      simp [F64.lt, h0]
    · by_cases h1 : (4095 : ℚ) < a
      · refine ⟨4095, ?_, by norm_num, le_refl _⟩
        simp [F64.lt, h0, h1]
      · refine ⟨a, ?_, not_lt.mp h0, not_lt.mp h1⟩
        simp [F64.lt, h0, h1]

theorem clampMoisture_eq_nan_iff {x : F64} : clampMoisture x = F64.nan ↔ x = F64.nan := by
  constructor
  · intro h
    by_contra hx
    obtain ⟨q, hq, -, -⟩ := clampMoisture_of_ne_nan hx
    rw [hq] at h
    exact absurd h (by simp)
  · intro h
    rw [h, clampMoisture_nan]

theorem toInt_fin_of_range {q : ℚ} (h0 : 0 ≤ q) (h1 : q ≤ 4095) :
    F64.toInt (F64.fin q) = ⌊q⌋ := by
  have hf0 : 0 ≤ ⌊q⌋ := Int.floor_nonneg.mpr h0
  have hf1 : ⌊q⌋ ≤ 4095 := by
    have : ⌊q⌋ ≤ ⌊(4095 : ℚ)⌋ := Int.floor_mono h1
    simpa using this
  unfold F64.toInt
  simp only [if_pos h0]
  rw [if_pos ⟨by omega, by omega⟩]

theorem newIdx_fin {q : ℚ} (h0 : 0 ≤ q) (h1 : q ≤ 4095) :
    newIdx (F64.fin q) = ⌊q⌋ / 10 ∧ ValidIdx (newIdx (F64.fin q)) := by
  have hf0 : 0 ≤ ⌊q⌋ := Int.floor_nonneg.mpr h0
  have hf1 : ⌊q⌋ ≤ 4095 := by
    have : ⌊q⌋ ≤ ⌊(4095 : ℚ)⌋ := Int.floor_mono h1
    simpa using this
  unfold newIdx ValidIdx
  rw [toInt_fin_of_range h0 h1, moistureStates_eq]
  simp only [moistureStep]
  rw [Int.tdiv_eq_ediv hf0 (by norm_num)]
  split_ifs <;> omega

theorem newIdx_nan : ¬ ValidIdx (newIdx F64.nan) := by decide

/-- The next index of a transition is inside the table exactly when the next
moisture is not `nan`. -/
theorem validIdx_newIdx_iff (cfg : PlannerConfig) (et rain : F64) (cm : Int) (v : F64) :
    ValidIdx (newIdx (newMoisture cfg et rain cm v)) ↔
      rawMoisture cfg et rain cm v ≠ F64.nan := by
  rw [newMoisture_eq]
  constructor
  · intro h hx
    rw [hx, clampMoisture_nan] at h
    exact newIdx_nan h
  · intro hx
    obtain ⟨q, hq, h0, h1⟩ := clampMoisture_of_ne_nan hx
    rw [hq]
    exact (newIdx_fin h0 h1).2

theorem candidate_fst (cfg : PlannerConfig) (et rain : F64) (i : Nat) (src : State)
    (v : F64) :
    (candidate cfg et rain i src v).1
      = newIdx (newMoisture cfg et rain ((i : Int) * moistureStep) v) := rfl

theorem candidate_cost (cfg : PlannerConfig) (et rain : F64) (i : Nat) (src : State)
    (v : F64) :
    (candidate cfg et rain i src v).2.cost
      = src.cost + stepCost cfg (newMoisture cfg et rain ((i : Int) * moistureStep) v) v
          src.irrigationVolume := rfl

theorem candidate_prevMoisture (cfg : PlannerConfig) (et rain : F64) (i : Nat) (src : State)
    (v : F64) :
    (candidate cfg et rain i src v).2.prevMoisture = (i : Int) * moistureStep := rfl

theorem candidate_irrigationVolume (cfg : PlannerConfig) (et rain : F64) (i : Nat)
    (src : State) (v : F64) :
    (candidate cfg et rain i src v).2.irrigationVolume = v := rfl

theorem relaxPure_length (next : List State) (c : Int × State) :
    (relaxPure next c).length = next.length := by
  unfold relaxPure
  split
  · rfl
  · split_ifs <;> simp

theorem foldl_relaxPure_length (cs : List (Int × State)) (next : List State) :
    (cs.foldl relaxPure next).length = next.length := by
  induction cs generalizing next with
  | nil => rfl
  | cons c cs ih => simp [List.foldl_cons, ih, relaxPure_length]

theorem readCell_valid {row : List State} {idx : Int} (hrow : row.length = 410)
    (h : ValidIdx idx) :
    ∃ s, readCell row idx = some s ∧ row[idx.toNat]? = some s ∧ s ∈ row := by
  have hlt : idx.toNat < row.length := by
    have := h.1
    have := h.2
    omega
  refine ⟨row[idx.toNat], ?_, List.getElem?_eq_getElem hlt, List.getElem_mem _⟩
  unfold readCell
  rw [if_pos h.1, List.getElem?_eq_getElem hlt]

theorem readCell_invalid {row : List State} {idx : Int} (hrow : row.length = 410)
    (h : ¬ ValidIdx idx) : readCell row idx = none := by
  unfold readCell
  by_cases h0 : 0 ≤ idx
  · rw [if_pos h0]
    apply List.getElem?_eq_none
    unfold ValidIdx at h
    omega
  · rw [if_neg h0]

theorem relaxOption_def (cfg : PlannerConfig) (et rain : F64) (i : Nat) (src : State)
    (next : List State) (v : F64) :
    relaxOption cfg et rain i src next v
      = match readCell next (candidate cfg et rain i src v).1 with
        | none => none
        | some cell =>
          if F64.lt (candidate cfg et rain i src v).2.cost cell.cost then
            writeCell next (candidate cfg et rain i src v).1 (candidate cfg et rain i src v).2
          else some next := rfl

theorem relaxOption_valid (cfg : PlannerConfig) (et rain : F64) (i : Nat) (src : State)
    (next : List State) (v : F64) (hlen : next.length = 410)
    (hv : ValidIdx (candidate cfg et rain i src v).1) :
    relaxOption cfg et rain i src next v
      = some (relaxPure next (candidate cfg et rain i src v)) := by
  obtain ⟨cell, hread, -, -⟩ := readCell_valid hlen hv
  have hlt : (candidate cfg et rain i src v).1.toNat < next.length := by
    have := hv.1
    have := hv.2
    omega
  rw [relaxOption_def, hread]
  unfold relaxPure
  rw [hread]
  simp only []
  by_cases hc : F64.lt (candidate cfg et rain i src v).2.cost cell.cost = true
  · rw [if_pos hc, if_pos hc]
    unfold writeCell
    rw [if_pos ⟨hv.1, hlt⟩]
  · rw [if_neg hc, if_neg hc]

theorem relaxOption_invalid (cfg : PlannerConfig) (et rain : F64) (i : Nat) (src : State)
    (next : List State) (v : F64) (hlen : next.length = 410)
    (hv : ¬ ValidIdx (candidate cfg et rain i src v).1) :
    relaxOption cfg et rain i src next v = none := by
  rw [relaxOption_def, readCell_invalid hlen hv]

theorem relaxOptions_cons (cfg : PlannerConfig) (et rain : F64) (i : Nat) (src : State)
    (v : F64) (vs : List F64) (next : List State) :
    relaxOptions cfg et rain i src (v :: vs) next
      = match relaxOption cfg et rain i src next v with
        | none => none
        | some next1 => relaxOptions cfg et rain i src vs next1 := rfl

theorem relaxBins_cons (cfg : PlannerConfig) (et rain : F64) (opts : List F64)
    (cur : List State) (i : Nat) (is : List Nat) (next : List State) :
    relaxBins cfg et rain opts cur (i :: is) next
      = match cur[i]? with
        | none => none
        | some src =>
          if F64.isPosInf src.cost then relaxBins cfg et rain opts cur is next
          else
            match relaxOptions cfg et rain i src opts next with
            | none => none
            | some next1 => relaxBins cfg et rain opts cur is next1 := rfl

theorem relaxOptions_some_iff (cfg : PlannerConfig) (et rain : F64) (i : Nat) (src : State)
    (opts : List F64) (next r : List State) (hlen : next.length = 410) :
    relaxOptions cfg et rain i src opts next = some r ↔
      (∀ v ∈ opts, ValidIdx (candidate cfg et rain i src v).1) ∧
        r = (opts.map (candidate cfg et rain i src)).foldl relaxPure next := by
  induction opts generalizing next with
  | nil =>
    constructor
    · intro h
      exact ⟨fun v hv => absurd hv (List.not_mem_nil v), (Option.some.inj h).symm⟩
    · rintro ⟨-, h⟩
      rw [h]
      rfl
  | cons v vs ih =>
    rw [relaxOptions_cons]
    by_cases hv : ValidIdx (candidate cfg et rain i src v).1
    · rw [relaxOption_valid cfg et rain i src next v hlen hv]
      simp only []
      rw [ih _ (by rw [relaxPure_length, hlen]), List.map_cons, List.foldl_cons]
      constructor
      · rintro ⟨h1, h2⟩
        refine ⟨?_, h2⟩
        intro u hu
        rcases List.mem_cons.mp hu with h | h
        · rw [h]
          exact hv
        · exact h1 u h
      · rintro ⟨h1, h2⟩
        exact ⟨fun u hu => h1 u (List.mem_cons_of_mem _ hu), h2⟩
    · rw [relaxOption_invalid cfg et rain i src next v hlen hv]
      simp only []
      constructor
      · intro h
        exact absurd h (by simp)
      · rintro ⟨h1, -⟩
        exact absurd (h1 v (List.mem_cons_self _ _)) hv

theorem candidates_cons (cfg : PlannerConfig) (et rain : F64) (opts : List F64)
    (cur : List State) (i : Nat) (is : List Nat) :
    candidates cfg et rain opts cur (i :: is)
      = candidatesOfBin cfg et rain opts cur i ++ candidates cfg et rain opts cur is := by
  unfold candidates
  rw [List.flatMap_cons]

theorem relaxBins_some_iff (cfg : PlannerConfig) (et rain : F64) (opts : List F64)
    (cur : List State) (idxs : List Nat) (next r : List State)
    (hcur : ∀ i ∈ idxs, i < cur.length) (hlen : next.length = 410) :
    relaxBins cfg et rain opts cur idxs next = some r ↔
      (∀ c ∈ candidates cfg et rain opts cur idxs, ValidIdx c.1) ∧
        r = (candidates cfg et rain opts cur idxs).foldl relaxPure next := by
  induction idxs generalizing next with
  | nil =>
    constructor
    · intro h
      exact ⟨fun c hc => absurd hc (List.not_mem_nil c), (Option.some.inj h).symm⟩
    · rintro ⟨-, h⟩
      rw [h]
      rfl
  | cons i is ih =>
    have hi : i < cur.length := hcur i (List.mem_cons_self _ _)
    have his : ∀ j ∈ is, j < cur.length := fun j hj => hcur j (List.mem_cons_of_mem _ hj)
    rw [relaxBins_cons, candidates_cons, List.foldl_append]
    unfold candidatesOfBin
    rw [List.getElem?_eq_getElem hi]
    simp only []
    by_cases hinf : F64.isPosInf (cur[i]).cost = true
    · rw [if_pos hinf, if_pos hinf, ih next his hlen]
      simp only [List.nil_append, List.foldl_nil]
    · rw [if_neg hinf, if_neg hinf]
      cases hro : relaxOptions cfg et rain i cur[i] opts next with
      | none =>
        simp only []
        constructor
        · intro h
          exact absurd h (by simp)
        · rintro ⟨h1, -⟩
          exfalso
          have : relaxOptions cfg et rain i cur[i] opts next = some _ :=
            (relaxOptions_some_iff cfg et rain i cur[i] opts next _ hlen).mpr
              ⟨fun v hv => h1 _ (List.mem_append_left _ (List.mem_map_of_mem _ hv)), rfl⟩
          rw [hro] at this
          exact absurd this (by simp)
      | some next1 =>
        simp only []
        obtain ⟨hv1, hn1⟩ := (relaxOptions_some_iff cfg et rain i cur[i] opts next next1 hlen).mp hro
        rw [ih next1 his (by rw [hn1, foldl_relaxPure_length, hlen]), ← hn1]
        constructor
        · rintro ⟨h1, h2⟩
          refine ⟨?_, h2⟩
          intro c hc
          rcases List.mem_append.mp hc with h | h
          · obtain ⟨v, hv, rfl⟩ := List.mem_map.mp h
            exact hv1 v hv
          · exact h1 c h
        · rintro ⟨h1, h2⟩
          exact ⟨fun c hc => h1 c (List.mem_append_right _ hc), h2⟩

/-- One day of the fill returns a row exactly when every transition it
evaluates lands inside the table; the row is then the fold of the
strict-improvement update over the candidates in iteration order. -/
theorem stepDay_some_iff (cfg : PlannerConfig) (opts : List F64) (cur : List State)
    (f : ForecastDay) (next : List State) (hcur : cur.length = 410) :
    stepDay cfg opts cur f = some next ↔
      (∀ c ∈ dayCandidates cfg opts cur f, ValidIdx c.1) ∧
        next = (dayCandidates cfg opts cur f).foldl relaxPure emptyRow := by
  unfold stepDay dayCandidates
  rw [moistureStates_toNat]
  exact relaxBins_some_iff cfg _ _ opts cur _ emptyRow next
    (fun i hi => by rw [hcur]; exact List.mem_range.mp hi) emptyRow_length

theorem stepDay_length (cfg : PlannerConfig) (opts : List F64) (cur next : List State)
    (f : ForecastDay) (hcur : cur.length = 410) (h : stepDay cfg opts cur f = some next) :
    next.length = 410 := by
  obtain ⟨-, hn⟩ := (stepDay_some_iff cfg opts cur f next hcur).mp h
  rw [hn, foldl_relaxPure_length, emptyRow_length]

theorem mem_candidates {cfg : PlannerConfig} {et rain : F64} {opts : List F64}
    {cur : List State} {idxs : List Nat} {c : Int × State} :
    c ∈ candidates cfg et rain opts cur idxs ↔
      ∃ i ∈ idxs, ∃ src v, cur[i]? = some src ∧ F64.isPosInf src.cost = false ∧ v ∈ opts ∧
        c = candidate cfg et rain i src v := by
  unfold candidates
  rw [List.mem_flatMap]
  constructor
  · rintro ⟨i, hi, hc⟩
    refine ⟨i, hi, ?_⟩
    unfold candidatesOfBin at hc
    cases hsrc : cur[i]? with
    | none => simp [hsrc] at hc
    | some src =>
      rw [hsrc] at hc
      simp only [] at hc
      by_cases hinf : F64.isPosInf src.cost = true
      · rw [if_pos hinf] at hc
        exact absurd hc (List.not_mem_nil c)
      · rw [if_neg hinf] at hc
        obtain ⟨v, hv, hvc⟩ := List.mem_map.mp hc
        exact ⟨src, v, rfl, by simpa using hinf, hv, hvc.symm⟩
  · rintro ⟨i, hi, src, v, hsrc, hcost, hv, rfl⟩
    refine ⟨i, hi, ?_⟩
    unfold candidatesOfBin
    rw [hsrc]
    simp only []
    rw [if_neg (by rw [hcost]; simp)]
    exact List.mem_map_of_mem _ hv

theorem mem_dayCandidates (cfg : PlannerConfig) (opts : List F64) (cur : List State)
    (f : ForecastDay) (c : Int × State) :
    c ∈ dayCandidates cfg opts cur f ↔
      ∃ (i : Nat) (src : State) (v : F64), i < 410 ∧ cur[i]? = some src ∧
        F64.isPosInf src.cost = false ∧ v ∈ opts ∧
        c = candidate cfg (evapotranspiration cfg f) (rainMoisture cfg f) i src v := by
  unfold dayCandidates
  rw [mem_candidates]
  constructor
  · rintro ⟨i, hi, src, v, h1, h2, h3, h4⟩
    exact ⟨i, src, v, List.mem_range.mp hi, h1, h2, h3, h4⟩
  · rintro ⟨i, src, v, hi, h1, h2, h3, h4⟩
    exact ⟨i, List.mem_range.mpr hi, src, v, h1, h2, h3, h4⟩

end Planner

namespace Planner

theorem lt_ne_nan_left {a b : F64} (h : F64.lt a b = true) : a ≠ F64.nan := by
  intro ha
  rw [ha] at h
  exact absurd h (by cases b <;> simp [F64.lt])

theorem relaxPure_forall (P : State → Prop) (next : List State) (c : Int × State)
    (hn : ∀ s ∈ next, P s) (hc : c.2.cost ≠ F64.nan → P c.2) :
    ∀ s ∈ relaxPure next c, P s := by
  unfold relaxPure
  split
  · exact hn
  · split_ifs with hlt
    · intro s hs
      rcases List.mem_or_eq_of_mem_set hs with h | h
      · exact hn s h
      · exact h ▸ hc (lt_ne_nan_left hlt)
    · exact hn

theorem foldl_relaxPure_forall (P : State → Prop) (cs : List (Int × State))
    (next : List State) (hn : ∀ s ∈ next, P s) (hc : ∀ c ∈ cs, c.2.cost ≠ F64.nan → P c.2) :
    ∀ s ∈ cs.foldl relaxPure next, P s := by
  induction cs generalizing next with
  | nil => exact hn
  | cons c cs ih =>
    rw [List.foldl_cons]
    exact ih _ (relaxPure_forall P next c hn (hc c (List.mem_cons_self _ _)))
      (fun d hd => hc d (List.mem_cons_of_mem _ hd))

theorem infState_cellOK (opts : List F64) : CellOK opts infState :=
  ⟨⟨0, by norm_num, by simp [infState]⟩, Or.inl rfl, by simp [infState]⟩

theorem emptyRow_rowOK (opts : List F64) : RowOK opts emptyRow := by
  refine ⟨emptyRow_length, fun s hs => ?_⟩
  unfold emptyRow at hs
  rw [List.eq_of_mem_replicate hs]
  exact infState_cellOK opts

theorem stepDay_rowOK (cfg : PlannerConfig) (opts : List F64) (cur next : List State)
    (f : ForecastDay) (hcur : cur.length = 410) (h : stepDay cfg opts cur f = some next) :
    RowOK opts next := by
  obtain ⟨-, hn⟩ := (stepDay_some_iff cfg opts cur f next hcur).mp h
  refine ⟨stepDay_length cfg opts cur next f hcur h, ?_⟩
  rw [hn]
  apply foldl_relaxPure_forall (CellOK opts) _ _ (emptyRow_rowOK opts).2
  intro c hc hnan
  obtain ⟨i, src, v, hi, -, -, hv, rfl⟩ := (mem_dayCandidates cfg opts cur f c).mp hc
  exact ⟨⟨i, hi, rfl⟩, Or.inr hv, hnan⟩

/-- A day on which no transition from a bin of the table yields `nan`. -/
theorem stepDay_some_of_safe (cfg : PlannerConfig) (opts : List F64) (cur : List State)
    (f : ForecastDay) (hcur : cur.length = 410)
    (hsafe : ∀ (i : Nat), i < 410 → ∀ v ∈ opts,
      rawMoisture cfg (evapotranspiration cfg f) (rainMoisture cfg f)
        ((i : Int) * moistureStep) v ≠ F64.nan) :
    ∃ next, stepDay cfg opts cur f = some next := by
  refine ⟨_, (stepDay_some_iff cfg opts cur f _ hcur).mpr ⟨?_, rfl⟩⟩
  intro c hc
  obtain ⟨i, src, v, hi, -, -, hv, rfl⟩ := (mem_dayCandidates cfg opts cur f c).mp hc
  rw [candidate_fst]
  exact (validIdx_newIdx_iff cfg _ _ _ v).mpr (hsafe i hi v hv)

theorem fillTable_cons (cfg : PlannerConfig) (opts : List F64) (cur : List State)
    (f : ForecastDay) (fs : List ForecastDay) :
    fillTable cfg opts cur (f :: fs)
      = match stepDay cfg opts cur f with
        | none => none
        | some next =>
          match fillTable cfg opts next fs with
          | none => none
          | some rows => some (next :: rows) := rfl

theorem fillTable_nil (cfg : PlannerConfig) (opts : List F64) (cur : List State) :
    fillTable cfg opts cur [] = some [] := rfl

theorem fillTable_cons_some (cfg : PlannerConfig) (opts : List F64) (cur : List State)
    (f : ForecastDay) (fs : List ForecastDay) (rows : List (List State))
    (h : fillTable cfg opts cur (f :: fs) = some rows) :
    ∃ next rows', stepDay cfg opts cur f = some next ∧
      fillTable cfg opts next fs = some rows' ∧ rows = next :: rows' := by
  rw [fillTable_cons] at h
  cases h1 : stepDay cfg opts cur f with
  | none => rw [h1] at h; exact absurd h (by simp)
  | some next =>
    rw [h1] at h
    simp only [] at h
    cases h2 : fillTable cfg opts next fs with
    | none => rw [h2] at h; exact absurd h (by simp)
    | some rows' =>
      rw [h2] at h
      exact ⟨next, rows', rfl, h2, (Option.some.inj h).symm⟩

theorem fillTable_rowOK (cfg : PlannerConfig) (opts : List F64) (fs : List ForecastDay) :
    ∀ (cur : List State) (rows : List (List State)), cur.length = 410 →
      fillTable cfg opts cur fs = some rows →
      rows.length = fs.length ∧ ∀ r ∈ rows, RowOK opts r := by
  induction fs with
  | nil =>
    intro cur rows _ h
    rw [fillTable_nil] at h
    rw [← Option.some.inj h]
    exact ⟨rfl, fun r hr => absurd hr (List.not_mem_nil r)⟩
  | cons f fs ih =>
    intro cur rows hcur h
    obtain ⟨next, rows', hstep, hfill, rfl⟩ := fillTable_cons_some cfg opts cur f fs rows h
    have hok := stepDay_rowOK cfg opts cur next f hcur hstep
    obtain ⟨hlen, hall⟩ := ih next rows' hok.1 hfill
    refine ⟨by simp [hlen], ?_⟩
    intro r hr
    rcases List.mem_cons.mp hr with h | h
    · exact h ▸ hok
    · exact hall r h

theorem fillTable_some_of_safe (cfg : PlannerConfig) (opts : List F64)
    (fs : List ForecastDay)
    (hsafe : ∀ f ∈ fs, ∀ (i : Nat), i < 410 → ∀ v ∈ opts,
      rawMoisture cfg (evapotranspiration cfg f) (rainMoisture cfg f)
        ((i : Int) * moistureStep) v ≠ F64.nan) :
    ∀ (cur : List State), cur.length = 410 → ∃ rows, fillTable cfg opts cur fs = some rows := by
  induction fs with
  | nil =>
    intro cur _
    exact ⟨[], rfl⟩
  | cons f fs ih =>
    intro cur hcur
    obtain ⟨next, hnext⟩ := stepDay_some_of_safe cfg opts cur f hcur
      (hsafe f (List.mem_cons_self _ _))
    obtain ⟨rows, hrows⟩ := ih (fun g hg => hsafe g (List.mem_cons_of_mem _ hg)) next
      (stepDay_length cfg opts cur next f hcur hnext)
    refine ⟨next :: rows, ?_⟩
    rw [fillTable_cons, hnext]
    simp only []
    rw [hrows]

theorem selectBest_cons (row : List State) (idx : Nat) (rest : List Nat)
    (acc : F64 × Int) :
    selectBest row (idx :: rest) acc
      = match row[idx]? with
        | none => none
        | some cell =>
          if F64.lt cell.cost acc.1 then selectBest row rest (cell.cost, (idx : Int))
          else selectBest row rest acc := rfl

theorem selectBest_range (row : List State) (idxs : List Nat) (acc : F64 × Int)
    (hidx : ∀ i ∈ idxs, i < row.length ∧ i < 410) (hacc : ValidIdx acc.2) :
    ∃ r, selectBest row idxs acc = some r ∧ ValidIdx r.2 := by
  induction idxs generalizing acc with
  | nil => exact ⟨acc, rfl, hacc⟩
  | cons i is ih =>
    have hi := hidx i (List.mem_cons_self _ _)
    have his : ∀ j ∈ is, j < row.length ∧ j < 410 :=
      fun j hj => hidx j (List.mem_cons_of_mem _ hj)
    rw [selectBest_cons, List.getElem?_eq_getElem hi.1]
    simp only
    split_ifs
    · exact ih _ his ⟨by simp, by simp only; omega⟩
    · exact ih _ his hacc

theorem bestIdx_range (row : List State) (hrow : row.length = 410) :
    ∃ b, bestIdx row = some b ∧ ValidIdx b := by
  obtain ⟨r, hr, hv⟩ := selectBest_range row (List.range 410) (F64.pinf, 0)
    (fun i hi => ⟨by rw [hrow]; exact List.mem_range.mp hi, List.mem_range.mp hi⟩)
    ⟨le_refl _, by norm_num⟩
  refine ⟨r.2, ?_, hv⟩
  unfold bestIdx
  rw [moistureStates_toNat, hr]
  rfl

theorem backtrace_cons (f : ForecastDay) (row : List State)
    (rest : List (ForecastDay × List State)) (idx : Int) :
    backtrace ((f, row) :: rest) idx
      = match readCell row idx with
        | none => none
        | some cell =>
          match backtrace rest
              (if rest.length > 0 then Int.tdiv cell.prevMoisture moistureStep else idx) with
          | none => none
          | some plan =>
            some (plan ++ [{ Date := f.Date, PlannedVolumeL := cell.irrigationVolume }]) := rfl

theorem backtrace_nil (idx : Int) : backtrace [] idx = some [] := rfl

theorem prevIdx_range {opts : List F64} {s : State} (hs : CellOK opts s) :
    ValidIdx (Int.tdiv s.prevMoisture moistureStep) := by
  obtain ⟨⟨i, hi, hpm⟩, -⟩ := hs
  rw [hpm, Int.mul_tdiv_cancel _ (by decide)]
  unfold ValidIdx
  omega

theorem backtrace_total (opts : List F64) (pairs : List (ForecastDay × List State))
    (idx : Int) (hrows : ∀ p ∈ pairs, RowOK opts p.2) (hidx : ValidIdx idx) :
    ∃ plan, backtrace pairs idx = some plan ∧
      plan.map DailyPlan.Date = pairs.reverse.map (fun p => p.1.Date) ∧
      ∀ e ∈ plan, e.PlannedVolumeL = F64.fin 0 ∨ e.PlannedVolumeL ∈ opts := by
  induction pairs generalizing idx with
  | nil => exact ⟨[], rfl, rfl, fun e he => absurd he (List.not_mem_nil e)⟩
  | cons p rest ih =>
    obtain ⟨f, row⟩ := p
    have hrow : RowOK opts row := hrows (f, row) (List.mem_cons_self _ _)
    obtain ⟨cell, hread, -, hmem⟩ := readCell_valid hrow.1 hidx
    have hcell := hrow.2 cell hmem
    have hprev : ValidIdx
        (if rest.length > 0 then Int.tdiv cell.prevMoisture moistureStep else idx) := by
      split_ifs
      · exact prevIdx_range hcell
      · exact hidx
    obtain ⟨plan, hplan, hdates, hvols⟩ :=
      ih _ (fun q hq => hrows q (List.mem_cons_of_mem _ hq)) hprev
    refine ⟨plan ++ [{ Date := f.Date, PlannedVolumeL := cell.irrigationVolume }], ?_, ?_, ?_⟩
    · rw [backtrace_cons, hread]
      simp only [hplan]
    · simp [hdates]
    · intro e he
      rcases List.mem_append.mp he with h | h
      · exact hvols e h
      · rw [List.mem_singleton.mp h]
        exact hcell.2.1

theorem initMoistureIdx_range {m : Int} (hm : 0 ≤ m) : ValidIdx (initMoistureIdx m) := by
  unfold initMoistureIdx ValidIdx
  simp only [moistureStates_eq, moistureStep]
  rw [Int.tdiv_eq_ediv hm (by norm_num)]
  split_ifs <;> omega

theorem initRow_eq {m : Int} (hm : 0 ≤ m) :
    initRow m = some (emptyRow.set (initMoistureIdx m).toNat
      { cost := F64.fin 0, prevMoisture := m, irrigationVolume := F64.fin 0 }) := by
  have h := initMoistureIdx_range hm
  unfold initRow writeCell
  rw [if_pos ⟨h.1, by rw [emptyRow_length]; have := h.2; omega⟩]

theorem initRow_length {m : Int} {row0 : List State} (h : initRow m = some row0) :
    row0.length = 410 := by
  unfold initRow writeCell at h
  split_ifs at h
  rw [← Option.some.inj h, List.length_set, emptyRow_length]

theorem getLastD_mem (rows : List (List State)) (row0 : List State) :
    rows.getLastD row0 = row0 ∨ rows.getLastD row0 ∈ rows :=
  List.mem_cons.mp (List.getLastD_mem_cons rows row0)

theorem getLastD_length (rows : List (List State)) (row0 : List State)
    (h0 : row0.length = 410) (hall : ∀ r ∈ rows, r.length = 410) :
    (rows.getLastD row0).length = 410 := by
  rcases getLastD_mem rows row0 with h | h
  · rw [h]; exact h0
  · exact hall _ h

theorem ComputePlan_nil (p : IrrigationPlanner) (m : Int) : ComputePlan p m [] = some [] := by
  unfold ComputePlan
  rw [if_pos List.length_nil]

theorem ComputePlan_eq_backtrace (cfg : PlannerConfig) (m : Int) (fs : List ForecastDay)
    (opts : List F64) (row0 : List State) (rows : List (List State)) (best : Int)
    (hfs : fs ≠ []) (hopts : irrigationOptions cfg = some opts)
    (hrow0 : initRow m = some row0) (hrows : fillTable cfg opts row0 fs = some rows)
    (hbest : bestIdx (rows.getLastD row0) = some best) :
    ComputePlan (NewIrrigationPlanner cfg) m fs = backtrace (fs.zip rows).reverse best := by
  unfold ComputePlan
  rw [if_neg (fun h => hfs (List.length_eq_zero.mp h))]
  simp only [NewIrrigationPlanner, hopts, hrow0, hrows, hbest]

/-- What a run that returns a plan for a non-empty forecast went through. -/
theorem ComputePlan_some_inv (cfg : PlannerConfig) (m : Int) (fs : List ForecastDay)
    (plan : List DailyPlan) (hfs : fs ≠ [])
    (h : ComputePlan (NewIrrigationPlanner cfg) m fs = some plan) :
    ∃ (opts : List F64) (row0 : List State) (rows : List (List State)) (best : Int),
      irrigationOptions cfg = some opts ∧ initRow m = some row0 ∧
      fillTable cfg opts row0 fs = some rows ∧ bestIdx (rows.getLastD row0) = some best ∧
      backtrace (fs.zip rows).reverse best = some plan := by
  unfold ComputePlan at h
  rw [if_neg (fun h => hfs (List.length_eq_zero.mp h))] at h
  simp only [NewIrrigationPlanner] at h
  cases h1 : irrigationOptions cfg with
  | none => rw [h1] at h; exact absurd h (by simp)
  | some opts =>
    rw [h1] at h
    simp only [] at h
    cases h2 : initRow m with
    | none => rw [h2] at h; exact absurd h (by simp)
    | some row0 =>
      rw [h2] at h
      simp only [] at h
      cases h3 : fillTable cfg opts row0 fs with
      | none => rw [h3] at h; exact absurd h (by simp)
      | some rows =>
        rw [h3] at h
        simp only [] at h
        cases h4 : bestIdx (rows.getLastD row0) with
        | none => rw [h4] at h; exact absurd h (by simp)
        | some best =>
          rw [h4] at h
          exact ⟨opts, row0, rows, best, rfl, rfl, h3, h4, h⟩

/-- A run whose option list, initial row and table exist returns a plan. -/
theorem ComputePlan_some_of_fill (cfg : PlannerConfig) (m : Int) (fs : List ForecastDay)
    (opts : List F64) (row0 : List State) (rows : List (List State))
    (hopts : irrigationOptions cfg = some opts) (hrow0 : initRow m = some row0)
    (hrows : fillTable cfg opts row0 fs = some rows) :
    ∃ plan, ComputePlan (NewIrrigationPlanner cfg) m fs = some plan ∧
      plan.map DailyPlan.Date = fs.map ForecastDay.Date ∧
      ∀ e ∈ plan, e.PlannedVolumeL = F64.fin 0 ∨ e.PlannedVolumeL ∈ opts := by
  by_cases hfs : fs = []
  · subst hfs
    exact ⟨[], ComputePlan_nil _ m, rfl, fun e he => absurd he (List.not_mem_nil e)⟩
  · have hlen0 := initRow_length hrow0
    obtain ⟨hlen, hall⟩ := fillTable_rowOK cfg opts fs row0 rows hlen0 hrows
    have hlast : (rows.getLastD row0).length = 410 :=
      getLastD_length rows row0 hlen0 (fun r hr => (hall r hr).1)
    obtain ⟨b, hb, hbv⟩ := bestIdx_range _ hlast
    obtain ⟨plan, hplan, hdates, hvols⟩ := backtrace_total opts (fs.zip rows).reverse b
      (fun p hp => hall p.2 (List.of_mem_zip (List.mem_reverse.mp hp)).2) hbv
    refine ⟨plan, ?_, ?_, hvols⟩
    · rw [ComputePlan_eq_backtrace cfg m fs opts row0 rows b hfs hopts hrow0 hrows hb]
      exact hplan
    · rw [hdates, List.reverse_reverse]
      have := List.map_fst_zip fs rows (le_of_eq hlen.symm)
      conv_rhs => rw [← this]
      rw [List.map_map]
      rfl

/-- Every plan that is returned is aligned with the forecasts and holds only
volumes that are `0` or one of the options. -/
theorem ComputePlan_some_props (cfg : PlannerConfig) (m : Int) (fs : List ForecastDay)
    (plan : List DailyPlan) (h : ComputePlan (NewIrrigationPlanner cfg) m fs = some plan) :
    plan.map DailyPlan.Date = fs.map ForecastDay.Date ∧
      (fs ≠ [] → ∃ opts, irrigationOptions cfg = some opts ∧
        ∀ e ∈ plan, e.PlannedVolumeL = F64.fin 0 ∨ e.PlannedVolumeL ∈ opts) := by
  by_cases hfs : fs = []
  · subst hfs
    rw [ComputePlan_nil] at h
    rw [← Option.some.inj h]
    exact ⟨rfl, fun hne => absurd rfl hne⟩
  · obtain ⟨opts, row0, rows, best, hopts, hrow0, hrows, -, -⟩ :=
      ComputePlan_some_inv cfg m fs plan hfs h
    obtain ⟨plan', h1, h2, h3⟩ := ComputePlan_some_of_fill cfg m fs opts row0 rows hopts hrow0
      hrows
    rw [h] at h1
    have hp : plan = plan' := Option.some.inj h1
    subst hp
    exact ⟨h2, fun _ => ⟨opts, hopts, h3⟩⟩

end Planner

namespace F64

theorem add_def (a b : F64) : a + b = add a b := rfl

theorem sub_def (a b : F64) : a - b = add a (neg b) := rfl

theorem mul_def (a b : F64) : a * b = mul a b := rfl

theorem div_def (a b : F64) : a / b = div a b := rfl

theorem fin_add_fin (a b : ℚ) : fin a + fin b = round (a + b) := rfl

theorem fin_sub_fin (a b : ℚ) : fin a - fin b = round (a + -b) := rfl

theorem fin_mul_fin (a b : ℚ) : fin a * fin b = round (a * b) := rfl

theorem fin_div_fin {b : ℚ} (a : ℚ) (hb : b ≠ 0) : fin a / fin b = round (a / b) := by
  show (if b = 0 then signedInf a else round (a / b)) = _
  rw [if_neg hb]

theorem bddBy_of_bounded {a : F64} (h : Bounded a) : BddBy 20 a := by
  cases a with
  | fin q => exact ⟨q, rfl, h⟩
  | nan => exact absurd h (by simp [Bounded])
  | pinf => exact absurd h (by simp [Bounded])
  | ninf => exact absurd h (by simp [Bounded])

theorem bddBy_mono {j k : Nat} {a : F64} (hjk : j ≤ k) (h : BddBy j a) : BddBy k a := by
  obtain ⟨q, hq, hb⟩ := h
  exact ⟨q, hq, le_trans hb (pow_le_pow_right₀ (by norm_num) hjk)⟩

theorem bddBy_fin {k : Nat} {q : ℚ} (h : |q| ≤ (2 : ℚ) ^ k) : BddBy k (fin q) := ⟨q, rfl, h⟩

theorem bddBy_ne_nan {k : Nat} {a : F64} (h : BddBy k a) : a ≠ nan := by
  obtain ⟨q, hq, -⟩ := h
  rw [hq]
  simp

theorem round_bddBy {k : Nat} (hk : k < 1024) {x : ℚ} (hx : |x| ≤ (2 : ℚ) ^ k) :
    BddBy k (round x) := by
  obtain ⟨y, hy, hb⟩ := round_bounded (isRep_two_pow hk) hx
  exact ⟨y, hy, hb⟩

theorem add_bddBy {j k m : Nat} {a b : F64} (ha : BddBy j a) (hb : BddBy k b)
    (hj : j ≤ m) (hk : k ≤ m) (hm : m + 1 < 1024) : BddBy (m + 1) (a + b) := by
  obtain ⟨x, rfl, hx⟩ := bddBy_mono hj ha
  obtain ⟨y, rfl, hy⟩ := bddBy_mono hk hb
  rw [fin_add_fin]
  apply round_bddBy hm
  calc |x + y| ≤ |x| + |y| := abs_add x y
    _ ≤ (2 : ℚ) ^ m + (2 : ℚ) ^ m := add_le_add hx hy
    _ = (2 : ℚ) ^ (m + 1) := by ring

theorem sub_bddBy {j k m : Nat} {a b : F64} (ha : BddBy j a) (hb : BddBy k b)
    (hj : j ≤ m) (hk : k ≤ m) (hm : m + 1 < 1024) : BddBy (m + 1) (a - b) := by
  obtain ⟨x, rfl, hx⟩ := bddBy_mono hj ha
  obtain ⟨y, rfl, hy⟩ := bddBy_mono hk hb
  rw [fin_sub_fin]
  apply round_bddBy hm
  calc |x + -y| ≤ |x| + |-y| := abs_add x (-y)
    _ = |x| + |y| := by rw [abs_neg]
    _ ≤ (2 : ℚ) ^ m + (2 : ℚ) ^ m := add_le_add hx hy
    _ = (2 : ℚ) ^ (m + 1) := by ring

theorem mul_bddBy {j k : Nat} {a b : F64} (ha : BddBy j a) (hb : BddBy k b)
    (hm : j + k < 1024) : BddBy (j + k) (a * b) := by
  obtain ⟨x, rfl, hx⟩ := ha
  obtain ⟨y, rfl, hy⟩ := hb
  rw [fin_mul_fin]
  apply round_bddBy hm
  rw [abs_mul, pow_add]
  exact mul_le_mul hx hy (abs_nonneg y) (by positivity)

theorem div_two_bddBy {k : Nat} {a : F64} (ha : BddBy k a) (hk : k < 1024) :
    BddBy k (a / fin 2) := by
  obtain ⟨x, rfl, hx⟩ := ha
  rw [fin_div_fin x (by norm_num)]
  apply round_bddBy hk
  rw [abs_div]
  have h2 : |(2 : ℚ)| = 2 := abs_of_pos (by norm_num)
  rw [h2]
  have : |x| / 2 ≤ |x| := by
    have := abs_nonneg x
    linarith
  exact le_trans this hx

theorem abs_bddBy {k : Nat} {a : F64} (ha : BddBy k a) : BddBy k (abs a) := by
  obtain ⟨x, rfl, hx⟩ := ha
  exact ⟨|x|, rfl, by rw [abs_abs]; exact hx⟩

theorem ofInt_bddBy {k : Nat} (hk : k < 1024) {n : Int} (hn : |(n : ℚ)| ≤ (2 : ℚ) ^ k) :
    BddBy k (ofInt n) := round_bddBy hk hn

theorem ofInt_of_small {n : Int} (h : n.natAbs < 2 ^ 53) : ofInt n = fin (n : ℚ) :=
  round_of_isRep (isRep_intCast h)

/-- The `i`-th irrigation option `float64(i) * 0.5` is exactly `i/2`. -/
theorem option_value (i : Nat) (h : i < 2 ^ 53) :
    ofInt (i : Int) * fin (1 / 2) = fin ((i : ℚ) * (1 / 2)) := by
  rw [ofInt_of_small (by simpa using h), fin_mul_fin]
  have := round_of_isRep (isRep_half (n := (i : Int)) (by simpa using h))
  simpa using this

theorem add_ne_nan_of_fin {a : F64} (ha : a ≠ nan) (b : ℚ) : a + fin b ≠ nan := by
  cases a with
  | nan => exact absurd rfl ha
  | pinf => simp [add_def, add]
  | ninf => simp [add_def, add]
  | fin x =>
    rw [fin_add_fin]
    exact round_ne_nan _

theorem sub_ne_nan_of_fin {a : F64} (ha : a ≠ nan) (b : ℚ) : a - fin b ≠ nan := by
  cases a with
  | nan => exact absurd rfl ha
  | pinf => simp [sub_def, add, neg]
  | ninf => simp [sub_def, add, neg]
  | fin x =>
    rw [fin_sub_fin]
    exact round_ne_nan _

end F64

namespace Planner

theorem toInt_fin_nonneg {y : ℚ} (h0 : 0 ≤ y) (h1 : y < (2 : ℚ) ^ (63 : Nat)) :
    F64.toInt (F64.fin y) = ⌊y⌋ := by
  have hf0 : 0 ≤ ⌊y⌋ := Int.floor_nonneg.mpr h0
  have hf1 : ⌊y⌋ < (2 : Int) ^ (63 : Nat) := by
    rw [Int.floor_lt]
    exact_mod_cast h1
  unfold F64.toInt
  simp only [if_pos h0]
  rw [if_pos ⟨by omega, hf1⟩]

theorem optionList_congr (k : Nat) (hk : (k : Int) ≤ maxSliceLen) :
    ((List.range k).map fun (i : Nat) => F64.ofInt (i : Int) * F64.fin (1 / 2))
      = (List.range k).map fun (i : Nat) => F64.fin ((i : ℚ) * (1 / 2)) := by
  apply List.map_congr_left
  intro i hi
  have hik : i < k := List.mem_range.mp hi
  have h45 : (k : Int) ≤ (2 : Int) ^ (45 : Nat) := hk
  have : i < 2 ^ 53 := by
    have h1 : (i : Int) < (2 : Int) ^ (45 : Nat) := by omega
    have h2 : (i : Int) < (2 : Int) ^ (53 : Nat) :=
      lt_of_lt_of_le h1 (by norm_num)
    exact_mod_cast h2
  exact F64.option_value i this

/-- The option list, when it exists, is `0, 0.5, ..., (k-1)/2` for a length
`k = int(MaxIrrigationPerDay/0.5) + 1` that `make` accepts. -/
theorem irrigationOptions_inv (cfg : PlannerConfig) (opts : List F64)
    (h : irrigationOptions cfg = some opts) :
    ∃ k : Nat, (k : Int) = F64.toInt (cfg.MaxIrrigationPerDay / F64.fin (1 / 2)) + 1 ∧
      (k : Int) ≤ maxSliceLen ∧
      opts = (List.range k).map fun (i : Nat) => F64.fin ((i : ℚ) * (1 / 2)) := by
  unfold irrigationOptions at h
  simp only [] at h
  split_ifs at h with hc
  have hc' : 0 ≤ F64.toInt (cfg.MaxIrrigationPerDay / F64.fin (1 / 2)) + 1 ∧
      F64.toInt (cfg.MaxIrrigationPerDay / F64.fin (1 / 2)) + 1 ≤ maxSliceLen := by
    constructor
    · by_contra hneg
      exact hc (Or.inl (by omega))
    · by_contra hbig
      exact hc (Or.inr (by omega))
  refine ⟨(F64.toInt (cfg.MaxIrrigationPerDay / F64.fin (1 / 2)) + 1).toNat,
    Int.toNat_of_nonneg hc'.1, ?_, ?_⟩
  · rw [Int.toNat_of_nonneg hc'.1]
    exact hc'.2
  · rw [← Option.some.inj h]
    exact optionList_congr _ (by rw [Int.toNat_of_nonneg hc'.1]; exact hc'.2)

theorem irrigationOptions_of_steps (cfg : PlannerConfig) (n : Nat)
    (hn : F64.toInt (cfg.MaxIrrigationPerDay / F64.fin (1 / 2)) = (n : Int))
    (hle : (n : Int) + 1 ≤ maxSliceLen) :
    irrigationOptions cfg
      = some ((List.range (n + 1)).map fun (i : Nat) => F64.fin ((i : ℚ) * (1 / 2))) := by
  unfold irrigationOptions
  simp only []
  rw [hn, if_neg (by omega)]
  have : ((n : Int) + 1).toNat = n + 1 := by omega
  rw [this, optionList_congr (n + 1) (by push_cast; exact hle)]

theorem option_bddBy {k : Nat} (hk : (k : Int) ≤ maxSliceLen) {v : F64}
    (hv : v ∈ (List.range k).map fun (i : Nat) => F64.fin ((i : ℚ) * (1 / 2))) :
    F64.BddBy 44 v := by
  obtain ⟨i, hi, rfl⟩ := List.mem_map.mp hv
  have hik : i < k := List.mem_range.mp hi
  have h45 : (k : Int) ≤ (2 : Int) ^ (45 : Nat) := hk
  have h1 : (i : Int) ≤ (2 : Int) ^ (45 : Nat) := by omega
  have h2 : (i : ℚ) ≤ (2 : ℚ) ^ (45 : Nat) := by exact_mod_cast h1
  refine ⟨_, rfl, ?_⟩
  have h0 : (0 : ℚ) ≤ (i : ℚ) := Nat.cast_nonneg i
  rw [abs_of_nonneg (by positivity)]
  have : (2 : ℚ) ^ (45 : Nat) = 2 * (2 : ℚ) ^ (44 : Nat) := by norm_num
  linarith

/-- For a configuration and a forecast day with bounded values, no transition
from a bin of the table under a bounded volume yields `nan`. -/
theorem rawMoisture_bddBy (cfg : PlannerConfig) (hb : BoundedConfig cfg) (f : ForecastDay)
    (hf : BoundedForecast f) (i : Nat) (hi : i < 410) (v : F64) (hv : F64.BddBy 44 v) :
    F64.BddBy 67 (rawMoisture cfg (evapotranspiration cfg f) (rainMoisture cfg f)
      ((i : Int) * moistureStep) v) := by
  obtain ⟨-, hET, hTF, hRC, hADC, -, -, -⟩ := hb
  obtain ⟨hTmax, hTmin, hP⟩ := hf
  have b1 := F64.add_bddBy (F64.bddBy_of_bounded hTmax) (F64.bddBy_of_bounded hTmin)
    (le_refl 20) (le_refl 20) (by norm_num)
  have b2 := F64.div_two_bddBy b1 (by norm_num)
  have b20 : F64.BddBy 20 (F64.fin 20) := F64.bddBy_fin (by norm_num)
  have b3 := F64.sub_bddBy b2 b20 (le_refl 21) (by norm_num) (by norm_num)
  have b4 := F64.mul_bddBy (F64.bddBy_of_bounded hTF) b3 (by norm_num)
  have b5 := F64.add_bddBy (F64.bddBy_of_bounded hET) b4 (by norm_num) (le_refl 42)
    (by norm_num)
  have bet : F64.BddBy 43 (evapotranspiration cfg f) := b5
  have b6 := F64.mul_bddBy bet (F64.bddBy_of_bounded hADC) (by norm_num)
  have bcm : F64.BddBy 12 (F64.ofInt ((i : Int) * moistureStep)) := by
    apply F64.ofInt_bddBy (by norm_num)
    have h1 : ((i : Int) * moistureStep) ≤ 4096 := by
      simp only [moistureStep]
      omega
    have h0 : 0 ≤ ((i : Int) * moistureStep) := by
      simp only [moistureStep]
      omega
    rw [abs_of_nonneg (by exact_mod_cast h0)]
    have : (((i : Int) * moistureStep : Int) : ℚ) ≤ 4096 := by exact_mod_cast h1
    calc (((i : Int) * moistureStep : Int) : ℚ) ≤ 4096 := this
      _ = (2 : ℚ) ^ (12 : Nat) := by norm_num
  have b7 := F64.sub_bddBy bcm b6 (by norm_num : 12 ≤ 63) (le_refl 63) (by norm_num)
  have b8 := F64.mul_bddBy hv (F64.bddBy_of_bounded hADC) (by norm_num)
  have b9 := F64.add_bddBy b7 b8 (le_refl 64) (by norm_num) (by norm_num)
  have b10 := F64.mul_bddBy (F64.bddBy_of_bounded hP) (F64.bddBy_of_bounded hRC)
    (by norm_num)
  have b11 := F64.mul_bddBy b10 (F64.bddBy_of_bounded hADC) (by norm_num)
  have brain : F64.BddBy 60 (rainMoisture cfg f) := b11
  exact F64.add_bddBy b9 brain (by norm_num : 64 + 1 ≤ 66) (by norm_num : 60 ≤ 66)
    (by norm_num)

theorem fillTable_some_of_bounded (cfg : PlannerConfig) (hb : BoundedConfig cfg)
    (opts : List F64) (hopts : irrigationOptions cfg = some opts) (fs : List ForecastDay)
    (hfs : ∀ f ∈ fs, BoundedForecast f) (cur : List State) (hcur : cur.length = 410) :
    ∃ rows, fillTable cfg opts cur fs = some rows := by
  obtain ⟨k, -, hk, hlist⟩ := irrigationOptions_inv cfg opts hopts
  apply fillTable_some_of_safe cfg opts fs _ cur hcur
  intro f hf i hi v hv
  rw [hlist] at hv
  exact F64.bddBy_ne_nan (rawMoisture_bddBy cfg hb f (hfs f hf) i hi v (option_bddBy hk hv))

/-- A valid configuration with a bounded daily maximum has an option list. -/
theorem irrigationOptions_of_valid_bounded (cfg : PlannerConfig)
    (hmax : F64.lt (F64.fin 0) cfg.MaxIrrigationPerDay = true)
    (hb : F64.Bounded cfg.MaxIrrigationPerDay) :
    ∃ (n : Nat) (y : ℚ), cfg.MaxIrrigationPerDay / F64.fin (1 / 2) = F64.fin y ∧ 0 ≤ y ∧
      (n : Int) = ⌊y⌋ ∧
      irrigationOptions cfg
        = some ((List.range (n + 1)).map fun (i : Nat) => F64.fin ((i : ℚ) * (1 / 2))) := by
  cases hq : cfg.MaxIrrigationPerDay with
  | nan => rw [hq] at hb; exact absurd hb (by simp [F64.Bounded])
  | pinf => rw [hq] at hb; exact absurd hb (by simp [F64.Bounded])
  | ninf => rw [hq] at hb; exact absurd hb (by simp [F64.Bounded])
  | fin q =>
    rw [hq] at hb hmax
    have hq0 : 0 < q := by simpa [F64.lt] using hmax
    have hqb : |q| ≤ (2 : ℚ) ^ (20 : Nat) := hb
    have hdiv : F64.fin q / F64.fin (1 / 2) = F64.round (q / (1 / 2)) :=
      F64.fin_div_fin q (by norm_num)
    have hx : |q / (1 / 2)| ≤ (2 : ℚ) ^ (21 : Nat) := by
      rw [abs_div, abs_of_pos (by norm_num : (0 : ℚ) < 1 / 2)]
      have : (2 : ℚ) ^ (21 : Nat) = 2 * (2 : ℚ) ^ (20 : Nat) := by norm_num
      rw [div_le_iff₀ (by norm_num)]
      linarith
    obtain ⟨y, hy, hyb⟩ := F64.round_bounded (F64.isRep_two_pow (by norm_num : 21 < 1024)) hx
    have hnn := F64.ext_round_nonneg (le_of_lt (div_pos hq0 (by norm_num : (0 : ℚ) < 1 / 2)))
    rw [hy] at hnn
    have hy0 : 0 ≤ y := F64.ext_fin_le.mp hnn
    have hy1 : y ≤ (2 : ℚ) ^ (21 : Nat) := le_trans (le_abs_self y) hyb
    have hf0 : 0 ≤ ⌊y⌋ := Int.floor_nonneg.mpr hy0
    have hf1 : ⌊y⌋ ≤ (2 : Int) ^ (21 : Nat) := by
      have : ⌊y⌋ ≤ ⌊(((2 : Int) ^ (21 : Nat) : Int) : ℚ)⌋ :=
        Int.floor_mono (by push_cast; exact hy1)
      rwa [Int.floor_intCast] at this
    have htoInt : F64.toInt (F64.fin q / F64.fin (1 / 2)) = ⌊y⌋ := by
      rw [hdiv, hy]
      apply toInt_fin_nonneg hy0
      calc y ≤ (2 : ℚ) ^ (21 : Nat) := hy1
        _ < (2 : ℚ) ^ (63 : Nat) := by norm_num
    refine ⟨⌊y⌋.toNat, y, by rw [hdiv, hy], hy0, Int.toNat_of_nonneg hf0, ?_⟩
    apply irrigationOptions_of_steps
    · rw [hq, htoInt, Int.toNat_of_nonneg hf0]
    · rw [Int.toNat_of_nonneg hf0]
      have : ((2 : Int) ^ (21 : Nat)) + 1 ≤ maxSliceLen := by decide
      omega

theorem ComputePlan_some_of_bounded (cfg : PlannerConfig) (hcfg : ValidConfig cfg)
    (hb : BoundedConfig cfg) (m : Int) (hm : 0 ≤ m) (fs : List ForecastDay)
    (hfs : ∀ f ∈ fs, BoundedForecast f) :
    ∃ plan, ComputePlan (NewIrrigationPlanner cfg) m fs = some plan ∧
      plan.map DailyPlan.Date = fs.map ForecastDay.Date := by
  obtain ⟨n, y, -, -, -, hopts⟩ := irrigationOptions_of_valid_bounded cfg hcfg.2.1 hb.1
  have hrow0 := initRow_eq hm
  obtain ⟨rows, hrows⟩ := fillTable_some_of_bounded cfg hb _ hopts fs hfs _
    (initRow_length hrow0)
  obtain ⟨plan, h1, h2, -⟩ := ComputePlan_some_of_fill cfg m fs _ _ rows hopts hrow0 hrows
  exact ⟨plan, h1, h2⟩

end Planner

namespace Planner

theorem candidates_range' (cfg : PlannerConfig) (et rain : F64) (opts : List F64)
    (l : List State) :
    ∀ (pre : List State),
      candidates cfg et rain opts (pre ++ l) (List.range' pre.length l.length)
        = candidatesFrom cfg et rain opts l pre.length := by
  induction l with
  | nil =>
    intro pre
    rfl
  | cons x xs ih =>
    intro pre
    have hget : (pre ++ x :: xs)[pre.length]? = some x := by
      rw [List.getElem?_append_right (le_refl _)]
      simp
    have hih := ih (pre ++ [x])
    rw [List.append_assoc, List.singleton_append, List.length_append, List.length_singleton]
      at hih
    show candidates cfg et rain opts (pre ++ x :: xs)
        (pre.length :: List.range' (pre.length + 1) xs.length) = _
    rw [candidates_cons, hih]
    unfold candidatesOfBin
    rw [hget]
    rfl

theorem candidates_eq_from (cfg : PlannerConfig) (et rain : F64) (opts : List F64)
    (cur : List State) :
    candidates cfg et rain opts cur (List.range cur.length)
      = candidatesFrom cfg et rain opts cur 0 := by
  have := candidates_range' cfg et rain opts cur []
  rw [List.nil_append, List.length_nil] at this
  rw [List.range_eq_range']
  exact this

theorem dayCandidates_eq_from (cfg : PlannerConfig) (opts : List F64) (cur : List State)
    (f : ForecastDay) (hcur : cur.length = 410) :
    dayCandidates cfg opts cur f
      = candidatesFrom cfg (evapotranspiration cfg f) (rainMoisture cfg f) opts cur 0 := by
  unfold dayCandidates
  rw [← hcur]
  exact candidates_eq_from cfg _ _ opts cur

/-- One day of the fill, as a computation on the candidate list. -/
theorem stepDay_eval (cfg : PlannerConfig) (opts : List F64) (cur : List State)
    (f : ForecastDay) (hcur : cur.length = 410) :
    stepDay cfg opts cur f
      = evalDay cfg (evapotranspiration cfg f) (rainMoisture cfg f) opts cur := by
  unfold evalDay
  rw [← dayCandidates_eq_from cfg opts cur f hcur]
  by_cases hall : ((dayCandidates cfg opts cur f).all fun c => decide (ValidIdx c.1)) = true
  · rw [if_pos hall]
    apply (stepDay_some_iff cfg opts cur f _ hcur).mpr
    refine ⟨?_, rfl⟩
    intro c hc
    have := List.all_eq_true.mp hall c hc
    simpa using this
  · rw [if_neg hall]
    cases h : stepDay cfg opts cur f with
    | none => rfl
    | some next =>
      exfalso
      obtain ⟨hv, -⟩ := (stepDay_some_iff cfg opts cur f next hcur).mp h
      apply hall
      apply List.all_eq_true.mpr
      intro c hc
      simpa using hv c hc

theorem selectBest_range' (l : List State) :
    ∀ (pre : List State) (acc : F64 × Int),
      selectBest (pre ++ l) (List.range' pre.length l.length) acc
        = some (scanBest l pre.length acc) := by
  induction l with
  | nil =>
    intro pre acc
    rfl
  | cons x xs ih =>
    intro pre acc
    have hget : (pre ++ x :: xs)[pre.length]? = some x := by
      rw [List.getElem?_append_right (le_refl _)]
      simp
    have hih := ih (pre ++ [x])
    rw [List.append_assoc, List.singleton_append, List.length_append, List.length_singleton]
      at hih
    show selectBest (pre ++ x :: xs)
        (pre.length :: List.range' (pre.length + 1) xs.length) acc = _
    rw [selectBest_cons, hget]
    simp only []
    show _ = some (if F64.lt x.cost acc.1 then scanBest xs (pre.length + 1)
      (x.cost, (pre.length : Int)) else scanBest xs (pre.length + 1) acc)
    by_cases hlt : F64.lt x.cost acc.1 = true
    · rw [if_pos hlt, if_pos hlt, hih]
    · rw [if_neg hlt, if_neg hlt, hih]

/-- The terminal selection, as a scan of the row. -/
theorem bestIdx_eval (row : List State) (hrow : row.length = 410) :
    bestIdx row = some (scanBest row 0 (F64.pinf, 0)).2 := by
  have := selectBest_range' row [] (F64.pinf, 0)
  rw [List.nil_append, List.length_nil, hrow, ← List.range_eq_range'] at this
  unfold bestIdx
  rw [moistureStates_toNat, this]
  rfl

theorem ComputePlan_none_of_options (cfg : PlannerConfig) (m : Int) (fs : List ForecastDay)
    (hfs : fs ≠ []) (h : irrigationOptions cfg = none) :
    ComputePlan (NewIrrigationPlanner cfg) m fs = none := by
  unfold ComputePlan
  rw [if_neg (fun h => hfs (List.length_eq_zero.mp h))]
  simp only [NewIrrigationPlanner, h]

theorem ComputePlan_none_of_init (cfg : PlannerConfig) (m : Int) (fs : List ForecastDay)
    (hfs : fs ≠ []) (h : initRow m = none) :
    ComputePlan (NewIrrigationPlanner cfg) m fs = none := by
  unfold ComputePlan
  rw [if_neg (fun h => hfs (List.length_eq_zero.mp h))]
  simp only [NewIrrigationPlanner, h]
  cases irrigationOptions cfg <;> rfl

theorem ComputePlan_none_of_fill (cfg : PlannerConfig) (m : Int) (fs : List ForecastDay)
    (opts : List F64) (row0 : List State) (hfs : fs ≠ [])
    (hopts : irrigationOptions cfg = some opts) (hrow0 : initRow m = some row0)
    (h : fillTable cfg opts row0 fs = none) :
    ComputePlan (NewIrrigationPlanner cfg) m fs = none := by
  unfold ComputePlan
  rw [if_neg (fun h => hfs (List.length_eq_zero.mp h))]
  simp only [NewIrrigationPlanner, hopts, hrow0, h]

/-- A one-day run, computed step by step. -/
theorem ComputePlan_oneDay_eval (cfg : PlannerConfig) (m : Int) (f : ForecastDay)
    (opts : List F64) (row0 row1 : List State) (best : Int) (cell : State)
    (hopts : irrigationOptions cfg = some opts) (hrow0 : initRow m = some row0)
    (hday : evalDay cfg (evapotranspiration cfg f) (rainMoisture cfg f) opts row0
      = some row1)
    (hbest : (scanBest row1 0 (F64.pinf, 0)).2 = best)
    (hcell : readCell row1 best = some cell) :
    ComputePlan (NewIrrigationPlanner cfg) m [f]
      = some [{ Date := f.Date, PlannedVolumeL := cell.irrigationVolume }] := by
  have hlen0 := initRow_length hrow0
  have hstep : stepDay cfg opts row0 f = some row1 := by
    rw [stepDay_eval cfg opts row0 f hlen0]
    exact hday
  have hlen1 := stepDay_length cfg opts row0 row1 f hlen0 hstep
  have hfill : fillTable cfg opts row0 [f] = some [row1] := by
    rw [fillTable_cons, hstep]
    rfl
  have hb : bestIdx ([row1].getLastD row0) = some best := by
    rw [List.getLastD_cons, List.getLastD_nil, bestIdx_eval row1 hlen1, hbest]
  rw [ComputePlan_eq_backtrace cfg m [f] opts row0 [row1] best (by simp) hopts hrow0 hfill hb]
  show backtrace [(f, row1)] best = _
  rw [backtrace_cons, hcell]
  rfl

theorem scenario_options :
    irrigationOptions scenarioConfig = some [F64.fin 0, F64.fin (1 / 2), F64.fin 1] := by
  decide!

end Planner

namespace Planner

/-- One day of the fill in terms of the candidate list of the day. -/
theorem stepDay_ite (cfg : PlannerConfig) (opts : List F64) (cur : List State)
    (f : ForecastDay) (hcur : cur.length = 410) :
    stepDay cfg opts cur f
      = if ((dayCandidates cfg opts cur f).all fun c => decide (ValidIdx c.1)) = true then
          some ((dayCandidates cfg opts cur f).foldl relaxPure emptyRow)
        else none := by
  rw [stepDay_eval cfg opts cur f hcur]
  unfold evalDay
  rw [← dayCandidates_eq_from cfg opts cur f hcur]

theorem candidate_congr (cfg : PlannerConfig) (et rain : F64) (i : Nat) (src src' : State)
    (v : F64) (hc : src.cost = src'.cost)
    (h : src.irrigationVolume = src'.irrigationVolume) :
    candidate cfg et rain i src v = candidate cfg et rain i src' v := by
  unfold candidate
  rw [h, hc]

theorem candidatesOfBin_congr (cfg : PlannerConfig) (et rain : F64) (opts : List F64)
    (cur cur' : List State) (i : Nat)
    (h : (cur[i]?).map (fun s => (s.cost, s.irrigationVolume))
      = (cur'[i]?).map (fun s => (s.cost, s.irrigationVolume))) :
    candidatesOfBin cfg et rain opts cur i = candidatesOfBin cfg et rain opts cur' i := by
  unfold candidatesOfBin
  cases h1 : cur[i]? with
  | none =>
    cases h2 : cur'[i]? with
    | none => rfl
    | some s' => simp [h1, h2] at h
  | some s =>
    cases h2 : cur'[i]? with
    | none => simp [h1, h2] at h
    | some s' =>
      simp only [h1, h2, Option.map_some', Option.some.injEq, Prod.mk.injEq] at h
      simp only [h.1]
      by_cases hinf : F64.isPosInf s'.cost = true
      · rw [if_pos hinf, if_pos hinf]
      · rw [if_neg hinf, if_neg hinf]
        congr 1
        funext v
        exact candidate_congr cfg et rain i s s' v h.1 h.2

theorem stepDay_congr (cfg : PlannerConfig) (opts : List F64) (cur cur' : List State)
    (f : ForecastDay) (hcur : cur.length = 410) (hcur' : cur'.length = 410)
    (h : ∀ i : Nat, (cur[i]?).map (fun s => (s.cost, s.irrigationVolume))
      = (cur'[i]?).map (fun s => (s.cost, s.irrigationVolume))) :
    stepDay cfg opts cur f = stepDay cfg opts cur' f := by
  have hc : dayCandidates cfg opts cur f = dayCandidates cfg opts cur' f := by
    unfold dayCandidates candidates
    have : candidatesOfBin cfg (evapotranspiration cfg f) (rainMoisture cfg f) opts cur
        = candidatesOfBin cfg (evapotranspiration cfg f) (rainMoisture cfg f) opts cur' :=
      funext fun i => candidatesOfBin_congr cfg _ _ opts cur cur' i (h i)
    rw [this]
  rw [stepDay_ite cfg opts cur f hcur, stepDay_ite cfg opts cur' f hcur', hc]

theorem ComputePlan_cons (cfg : PlannerConfig) (m : Int) (f : ForecastDay)
    (fs : List ForecastDay) :
    ComputePlan (NewIrrigationPlanner cfg) m (f :: fs)
      = match irrigationOptions cfg with
        | none => none
        | some opts =>
          match initRow m with
          | none => none
          | some row0 =>
            match stepDay cfg opts row0 f with
            | none => none
            | some next =>
              match fillTable cfg opts next fs with
              | none => none
              | some rows =>
                match bestIdx (rows.getLastD next) with
                | none => none
                | some best => backtrace ((f :: fs).zip (next :: rows)).reverse best := by
  unfold ComputePlan
  rw [if_neg (by simp)]
  simp only [NewIrrigationPlanner]
  cases irrigationOptions cfg with
  | none => rfl
  | some opts =>
    cases initRow m with
    | none => rfl
    | some row0 =>
      simp only [fillTable_cons]
      cases stepDay cfg opts row0 f with
      | none => rfl
      | some next =>
        simp only []
        cases fillTable cfg opts next fs with
        | none => rfl
        | some rows => simp only [List.getLastD_cons]

theorem initMoistureIdx_above {m : Int} (hm : 4095 ≤ m) : initMoistureIdx m = 409 := by
  unfold initMoistureIdx
  simp only [moistureStates_eq, moistureStep]
  rw [Int.tdiv_eq_ediv (by omega) (by norm_num)]
  have : (410 : Int) ≤ m / 10 ∨ m / 10 = 409 := by omega
  rcases this with h | h
  · rw [if_pos h]
    rfl
  · rw [h]
    rfl

theorem initMoistureIdx_min {m : Int} (hm : 0 ≤ m) : initMoistureIdx m = min (m / 10) 409 := by
  unfold initMoistureIdx
  simp only [moistureStates_eq, moistureStep]
  rw [Int.tdiv_eq_ediv hm (by norm_num)]
  split_ifs with h <;> omega

theorem ComputePlan_congr_init (cfg : PlannerConfig) (m m' : Int) (row0 row0' : List State)
    (fs : List ForecastDay) (h0 : initRow m = some row0) (h0' : initRow m' = some row0')
    (h : ∀ i : Nat, (row0[i]?).map (fun s => (s.cost, s.irrigationVolume))
      = (row0'[i]?).map (fun s => (s.cost, s.irrigationVolume))) :
    ComputePlan (NewIrrigationPlanner cfg) m fs
      = ComputePlan (NewIrrigationPlanner cfg) m' fs := by
  cases fs with
  | nil => rw [ComputePlan_nil, ComputePlan_nil]
  | cons f fs =>
    rw [ComputePlan_cons, ComputePlan_cons, h0, h0']
    cases irrigationOptions cfg with
    | none => rfl
    | some opts =>
      simp only []
      rw [stepDay_congr cfg opts row0 row0' f (initRow_length h0) (initRow_length h0') h]

theorem initRow_key_of_idx {m m' : Int} (hidx : initMoistureIdx m = initMoistureIdx m')
    (i : Nat) :
    ((emptyRow.set (initMoistureIdx m).toNat
        { cost := F64.fin 0, prevMoisture := m, irrigationVolume := F64.fin 0 })[i]?).map
        (fun s => (s.cost, s.irrigationVolume))
      = ((emptyRow.set (initMoistureIdx m').toNat
          { cost := F64.fin 0, prevMoisture := m', irrigationVolume := F64.fin 0 })[i]?).map
        (fun s => (s.cost, s.irrigationVolume)) := by
  rw [hidx, List.getElem?_set, List.getElem?_set]
  split_ifs <;> rfl

theorem stepDay_congr_forecast (cfg : PlannerConfig) (opts : List F64) (cur : List State)
    (f f' : ForecastDay) (het : evapotranspiration cfg f = evapotranspiration cfg f')
    (hrain : rainMoisture cfg f = rainMoisture cfg f') :
    stepDay cfg opts cur f = stepDay cfg opts cur f' := by
  unfold stepDay
  rw [het, hrain]

theorem fillTable_congr_forecasts (cfg : PlannerConfig) (opts : List F64)
    (fs : List ForecastDay) :
    ∀ (fs' : List ForecastDay) (cur : List State),
      fs.map (fun f => (evapotranspiration cfg f, rainMoisture cfg f))
        = fs'.map (fun f => (evapotranspiration cfg f, rainMoisture cfg f)) →
      fillTable cfg opts cur fs = fillTable cfg opts cur fs' := by
  induction fs with
  | nil =>
    intro fs' cur h
    cases fs' with
    | nil => rfl
    | cons f' fs' => exact absurd h (by simp)
  | cons f fs ih =>
    intro fs' cur h
    cases fs' with
    | nil => exact absurd h (by simp)
    | cons f' fs' =>
      simp only [List.map_cons, List.cons.injEq, Prod.mk.injEq] at h
      rw [fillTable_cons, fillTable_cons, stepDay_congr_forecast cfg opts cur f f' h.1.1 h.1.2]
      cases stepDay cfg opts cur f' with
      | none => rfl
      | some next =>
        simp only []
        rw [ih fs' next h.2]

theorem backtrace_congr_dates (pairs : List (ForecastDay × List State)) :
    ∀ (pairs' : List (ForecastDay × List State)) (idx : Int),
      pairs.map (fun p => (p.1.Date, p.2)) = pairs'.map (fun p => (p.1.Date, p.2)) →
      backtrace pairs idx = backtrace pairs' idx := by
  induction pairs with
  | nil =>
    intro pairs' idx h
    cases pairs' with
    | nil => rfl
    | cons p' rest' => exact absurd h (by simp)
  | cons p rest ih =>
    intro pairs' idx h
    cases pairs' with
    | nil => exact absurd h (by simp)
    | cons p' rest' =>
      obtain ⟨f, row⟩ := p
      obtain ⟨f', row'⟩ := p'
      simp only [List.map_cons, List.cons.injEq, Prod.mk.injEq] at h
      obtain ⟨⟨hd, hr⟩, hrest⟩ := h
      subst hr
      have hlen : rest.length = rest'.length := by
        simpa using congrArg List.length hrest
      rw [backtrace_cons, backtrace_cons, hd, hlen]
      cases readCell row idx with
      | none => rfl
      | some cell =>
        simp only []
        rw [ih rest' _ hrest]

theorem ComputePlan_congr_forecasts (cfg : PlannerConfig) (m : Int)
    (fs fs' : List ForecastDay) (hdate : fs.map ForecastDay.Date = fs'.map ForecastDay.Date)
    (hphys : fs.map (fun f => (evapotranspiration cfg f, rainMoisture cfg f))
      = fs'.map (fun f => (evapotranspiration cfg f, rainMoisture cfg f))) :
    ComputePlan (NewIrrigationPlanner cfg) m fs
      = ComputePlan (NewIrrigationPlanner cfg) m fs' := by
  have hlen : fs.length = fs'.length := by simpa using congrArg List.length hdate
  unfold ComputePlan
  rw [hlen]
  simp only [NewIrrigationPlanner]
  cases irrigationOptions cfg with
  | none => rfl
  | some opts =>
    cases initRow m with
    | none => rfl
    | some row0 =>
      simp only []
      rw [fillTable_congr_forecasts cfg opts fs fs' row0 hphys]
      cases fillTable cfg opts row0 fs' with
      | none => rfl
      | some rows =>
        simp only []
        cases bestIdx (rows.getLastD row0) with
        | none => rfl
        | some best =>
          simp only []
          have hz : (fs.zip rows).reverse.map (fun p => (p.1.Date, p.2))
              = (fs'.zip rows).reverse.map (fun p => (p.1.Date, p.2)) := by
            rw [List.map_reverse, List.map_reverse]
            congr 1
            have h1 : ∀ l : List ForecastDay, (l.zip rows).map (fun p => (p.1.Date, p.2))
                = (l.map ForecastDay.Date).zip rows := by
              intro l
              rw [List.zip_map_left]
              rfl
            rw [h1, h1, hdate]
          rw [backtrace_congr_dates _ _ best hz]

end Planner

namespace F64

/-- A rational that rounding leaves unchanged lies on the binary64 grid. -/
theorem isRep_of_round_pos {x : ℚ} (hx : 0 < x) (h : round x = fin x) : IsRep x := by
  rw [round_pos_cases hx] at h
  by_cases hbig : (2 : ℚ) ^ (1024 : Nat) ≤ roundPos x
  · rw [if_pos hbig] at h
    exact absurd h (by simp)
  · rw [if_neg hbig] at h
    have hrp : roundPos x = x := by
      injection h
    rw [hrp] at hbig
    have hu := ulp_pos x
    have hn : ((roundHalfEven (x / ulp x) : Int) : ℚ) = x / ulp x := by
      unfold roundPos at hrp
      field_simp
      exact hrp
    have hn0 : 0 ≤ roundHalfEven (x / ulp x) := by
      have : (0 : ℚ) ≤ ((roundHalfEven (x / ulp x) : Int) : ℚ) := by
        rw [hn]
        positivity
      exact_mod_cast this
    obtain ⟨-, s2⟩ := ilog2_spec (ne_of_gt hx)
    rw [abs_of_pos hx] at s2
    have hue : ulp x * (2 : ℚ) ^ (53 : Int) = (2 : ℚ) ^ (max (ilog2 x) (-1022) + 1) := by
      unfold ulp
      rw [← zpow_add₀ (by norm_num)]
      congr 1
      ring
    have hlt : x / ulp x < (2 : ℚ) ^ (53 : Int) := by
      rw [div_lt_iff₀ hu, mul_comm, hue]
      apply lt_of_lt_of_le s2
      apply zpow_le_zpow_right₀ (by norm_num)
      omega
    refine ⟨(roundHalfEven (x / ulp x)).toNat, max (ilog2 x) (-1022) - 52, ?_, by omega, ?_,
      ?_⟩
    · have h1 : ((roundHalfEven (x / ulp x) : Int) : ℚ) < (2 : ℚ) ^ (53 : Int) := by
        rw [hn]
        exact hlt
      have h2 : roundHalfEven (x / ulp x) < (2 : Int) ^ (53 : Nat) := by
        have : (2 : ℚ) ^ (53 : Int) = (((2 : Int) ^ (53 : Nat) : Int) : ℚ) := by norm_num
        rw [this] at h1
        exact_mod_cast h1
      omega
    · rw [abs_of_pos hx]
      have hc : (((roundHalfEven (x / ulp x)).toNat : Nat) : ℚ)
          = ((roundHalfEven (x / ulp x) : Int) : ℚ) := by
        have := Int.toNat_of_nonneg hn0
        exact_mod_cast congrArg (fun (z : Int) => (z : ℚ)) this
      rw [hc, hn]
      show x = x / ulp x * ulp x
      field_simp
    · rw [abs_of_pos hx]
      exact lt_of_not_le hbig

theorem isRep_zero : IsRep 0 :=
  ⟨0, 0, by norm_num, by norm_num, by simp, by simp⟩

theorem isRep_of_round {x : ℚ} (h : round x = fin x) : IsRep x := by
  rcases lt_trichotomy 0 x with hx | hx | hx
  · exact isRep_of_round_pos hx h
  · rw [← hx]
    exact isRep_zero
  · have hnx : 0 < -x := neg_pos.mpr hx
    have h2 : round (-x) = fin (-x) := by
      rw [round_neg_cases hx] at h
      rw [round_pos_cases hnx]
      by_cases hbig : (2 : ℚ) ^ (1024 : Nat) ≤ roundPos (-x)
      · rw [if_pos hbig] at h
        exact absurd h (by simp)
      · rw [if_neg hbig] at h
        rw [if_neg hbig]
        have : -roundPos (-x) = x := by injection h
        have h3 : roundPos (-x) = -x := by linarith
        rw [h3]
    have := isRep_neg (isRep_of_round_pos hnx h2)
    simpa using this

theorem isRep_two_mul {x : ℚ} (h : IsRep x) (hlt : 2 * |x| < (2 : ℚ) ^ (1024 : Nat)) :
    IsRep (2 * x) := by
  obtain ⟨n, k, hn, hk, hx, -⟩ := h
  refine ⟨n, k + 1, hn, by omega, ?_, ?_⟩
  · rw [abs_mul, hx, zpow_add₀ (by norm_num)]
    norm_num
    ring
  · rw [abs_mul]
    simpa using hlt

theorem round_two_pow_1024 : round ((2 : ℚ) ^ (1024 : Nat)) = pinf := by
  have hpos : (0 : ℚ) < (2 : ℚ) ^ (1024 : Nat) := by positivity
  have hex := roundPos_exact (n := 1) (k := 1024) (by norm_num) (by norm_num) (by norm_num)
  have he : ((1 : Nat) : ℚ) * (2 : ℚ) ^ (1024 : Int) = (2 : ℚ) ^ (1024 : Nat) := by
    rw [Nat.cast_one, one_mul]
    exact zpow_natCast 2 1024
  rw [he] at hex
  rw [round_pos_cases hpos, hex, if_pos (le_refl _)]

/-- Rounding a rational at or above `2^1024` overflows. -/
theorem round_of_huge {x : ℚ} (h : (2 : ℚ) ^ (1024 : Nat) ≤ x) : round x = pinf := by
  have hm := round_mono h
  rw [round_two_pow_1024] at hm
  cases hr : round x with
  | nan => exact absurd hr (round_ne_nan x)
  | pinf => rfl
  | ninf =>
    rw [hr] at hm
    simp [ext] at hm
  | fin y =>
    rw [hr] at hm
    simp [ext] at hm

/-- Doubling a binary64 value is exact, or overflows. -/
theorem double_div_half {q : ℚ} (hq : 0 ≤ q) (h : round q = fin q) :
    fin q / fin (1 / 2)
      = if (2 : ℚ) ^ (1024 : Nat) ≤ 2 * q then pinf else fin (2 * q) := by
  rw [fin_div_fin q (by norm_num)]
  have he : q / (1 / 2) = 2 * q := by ring
  rw [he]
  by_cases hbig : (2 : ℚ) ^ (1024 : Nat) ≤ 2 * q
  · rw [if_pos hbig]
    exact round_of_huge hbig
  · rw [if_neg hbig]
    apply round_of_isRep
    apply isRep_two_mul (isRep_of_round h)
    rw [abs_of_nonneg hq]
    exact lt_of_not_le hbig

end F64

namespace Planner

theorem validConfig_scenario : ValidConfig scenarioConfig := by decide!

theorem boundedConfig_scenario : BoundedConfig scenarioConfig := by decide!

theorem boundedForecast_mildDay : BoundedForecast mildDay := by decide!

theorem boundedForecast_rainyDay : BoundedForecast rainyDay := by decide!

theorem bounded_two_days : ∀ f ∈ [mildDay, rainyDay], BoundedForecast f := by
  intro f hf
  simp only [List.mem_cons, List.mem_singleton, List.not_mem_nil, or_false] at hf
  rcases hf with rfl | rfl
  · exact boundedForecast_mildDay
  · exact boundedForecast_rainyDay

theorem bounded_one_day : ∀ f ∈ [mildDay], BoundedForecast f := by
  intro f hf
  simp only [List.mem_singleton] at hf
  rw [hf]
  exact boundedForecast_mildDay

theorem hugeMax_options : irrigationOptions hugeMaxConfig = none := by decide!

theorem plan_length_of_dates {plan : List DailyPlan} {fs : List ForecastDay}
    (h : plan.map DailyPlan.Date = fs.map ForecastDay.Date) : plan.length = fs.length := by
  simpa using congrArg List.length h

/-- C1 (as stated, refuted): the configuration with the daily maximum `1e19`
is valid, yet `ComputePlan` returns no plan for it: the length
`int(1e19/0.5) + 1` of the option list is out of range for `make`. -/
theorem length_fails_on_huge_maximum :
    ValidConfig hugeMaxConfig ∧ F64.IsDouble hugeMaxConfig.MaxIrrigationPerDay ∧
      (0 : Int) ≤ 25 ∧ ComputePlan (NewIrrigationPlanner hugeMaxConfig) 25 [mildDay] = none :=
  ⟨by decide!, by decide!, by decide,
    ComputePlan_none_of_options hugeMaxConfig 25 [mildDay] (by simp) hugeMax_options⟩

/-- C1 (amended): for every valid configuration whose floating-point fields are
finite and at most `2^20` in magnitude, every initial moisture `m ≥ 0` and
every forecast sequence whose temperatures and precipitation are finite and at
most `2^20` in magnitude, `ComputePlan` returns a plan whose length equals the
length of the forecast sequence. -/
theorem ComputePlan_length (cfg : PlannerConfig) (hcfg : ValidConfig cfg)
    (hb : BoundedConfig cfg) (m : Int) (hm : 0 ≤ m) (fs : List ForecastDay)
    (hfs : ∀ f ∈ fs, BoundedForecast f) :
    ∃ plan, ComputePlan (NewIrrigationPlanner cfg) m fs = some plan ∧
      plan.length = fs.length := by
  obtain ⟨plan, h1, h2⟩ := ComputePlan_some_of_bounded cfg hcfg hb m hm fs hfs
  exact ⟨plan, h1, plan_length_of_dates h2⟩

theorem ComputePlan_length_witness :
    ValidConfig scenarioConfig ∧ BoundedConfig scenarioConfig ∧ (0 : Int) ≤ 25 ∧
      (∀ f ∈ [mildDay, rainyDay], BoundedForecast f) ∧
      ∃ plan, ComputePlan (NewIrrigationPlanner scenarioConfig) 25 [mildDay, rainyDay]
          = some plan ∧ plan.length = [mildDay, rainyDay].length :=
  ⟨validConfig_scenario, boundedConfig_scenario, by decide, bounded_two_days,
    ComputePlan_length scenarioConfig validConfig_scenario boundedConfig_scenario 25
      (by decide) _ bounded_two_days⟩

theorem toInt_pinf : F64.toInt F64.pinf = -(2 : Int) ^ (63 : Nat) := rfl

theorem toInt_fin_huge {y : ℚ} (h0 : 0 ≤ y) (h1 : (2 : ℚ) ^ (63 : Nat) ≤ y) :
    F64.toInt (F64.fin y) = -(2 : Int) ^ (63 : Nat) := by
  have hf1 : (2 : Int) ^ (63 : Nat) ≤ ⌊y⌋ := by
    rw [Int.le_floor]
    exact_mod_cast h1
  unfold F64.toInt
  simp only [if_pos h0]
  rw [if_neg (by omega)]

/-- The option list of a positive binary64 daily maximum, when there is one. -/
theorem options_of_positive_double (cfg : PlannerConfig)
    (hmax : F64.lt (F64.fin 0) cfg.MaxIrrigationPerDay = true)
    (hd : F64.IsDouble cfg.MaxIrrigationPerDay) (opts : List F64)
    (h : irrigationOptions cfg = some opts) :
    ∃ (q : ℚ) (n : Nat), cfg.MaxIrrigationPerDay = F64.fin q ∧ 0 < q ∧
      (n : Int) = ⌊2 * q⌋ ∧ (n : Int) + 1 ≤ maxSliceLen ∧
      opts = (List.range (n + 1)).map fun (i : Nat) => F64.fin ((i : ℚ) * (1 / 2)) := by
  obtain ⟨k, hk, hkle, hopts⟩ := irrigationOptions_inv cfg opts h
  have hk0 : (0 : Int) ≤ (k : Int) := Int.natCast_nonneg k
  cases hq : cfg.MaxIrrigationPerDay with
  | nan => rw [hq] at hmax; exact absurd hmax (by simp [F64.lt])
  | ninf => rw [hq] at hmax; exact absurd hmax (by simp [F64.lt])
  | pinf =>
    rw [hq] at hk
    have : F64.pinf / F64.fin (1 / 2) = F64.pinf := by decide!
    rw [this, toInt_pinf] at hk
    omega
  | fin q =>
    rw [hq] at hk hmax hd
    have hpos : 0 < q := by simpa [F64.lt] using hmax
    have hdq : F64.round q = F64.fin q := hd
    rw [F64.double_div_half (le_of_lt hpos) hdq] at hk
    by_cases hbig : (2 : ℚ) ^ (1024 : Nat) ≤ 2 * q
    · rw [if_pos hbig, toInt_pinf] at hk
      omega
    · rw [if_neg hbig] at hk
      by_cases h63 : (2 : ℚ) ^ (63 : Nat) ≤ 2 * q
      · rw [toInt_fin_huge (by linarith) h63] at hk
        omega
      · rw [toInt_fin_nonneg (by linarith) (lt_of_not_le h63)] at hk
        have hfl : 0 ≤ ⌊2 * q⌋ := Int.floor_nonneg.mpr (by linarith)
        refine ⟨q, (⌊2 * q⌋).toNat, rfl, hpos, by omega, ?_, ?_⟩
        · have : (((⌊2 * q⌋).toNat : Nat) : Int) = ⌊2 * q⌋ := by omega
          rw [this, ← hk]
          exact hkle
        · have : k = (⌊2 * q⌋).toNat + 1 := by omega
          rw [← this]
          exact hopts

/-- C3: for every valid configuration (the daily maximum being a binary64
value), every initial moisture `m ≥ 0` and every forecast sequence, every
`PlannedVolumeL` of a plan returned by `ComputePlan` equals `0.5*k` for a
natural number `k` and lies between `0` and `MaxIrrigationPerDay`; and a plan
is returned whenever the configuration and the forecast values are finite and
at most `2^20` in magnitude. -/
theorem ComputePlan_quantized (cfg : PlannerConfig) (hcfg : ValidConfig cfg)
    (hd : F64.IsDouble cfg.MaxIrrigationPerDay) (m : Int) (hm : 0 ≤ m)
    (fs : List ForecastDay) :
    (∀ plan, ComputePlan (NewIrrigationPlanner cfg) m fs = some plan →
      ∀ e ∈ plan, (∃ k : Nat, e.PlannedVolumeL = F64.fin ((1 / 2) * (k : ℚ))) ∧
        F64.le (F64.fin 0) e.PlannedVolumeL = true ∧
        F64.le e.PlannedVolumeL cfg.MaxIrrigationPerDay = true) ∧
      (BoundedConfig cfg → (∀ f ∈ fs, BoundedForecast f) →
        ∃ plan, ComputePlan (NewIrrigationPlanner cfg) m fs = some plan) := by
  refine ⟨?_, ?_⟩
  · intro plan hplan e he
    obtain ⟨-, hvol⟩ := ComputePlan_some_props cfg m fs plan hplan
    by_cases hfs : fs = []
    · subst hfs
      rw [ComputePlan_nil] at hplan
      rw [← Option.some.inj hplan] at he
      exact absurd he (List.not_mem_nil e)
    · obtain ⟨opts, hopts, hmem⟩ := hvol hfs
      obtain ⟨q, n, hq, hpos, hn, -, hlist⟩ :=
        options_of_positive_double cfg hcfg.2.1 hd opts hopts
      rw [hq]
      rcases hmem e he with h0 | h1
      · rw [h0]
        refine ⟨⟨0, by norm_num⟩, by simp [F64.le], ?_⟩
        simpa [F64.le] using le_of_lt hpos
      · rw [hlist] at h1
        obtain ⟨i, hi, hv⟩ := List.mem_map.mp h1
        have hi' : (i : Int) ≤ ⌊2 * q⌋ := by
          have := List.mem_range.mp hi
          omega
        have hiq : (i : ℚ) ≤ 2 * q := by
          have : ((i : Int) : ℚ) ≤ 2 * q := Int.le_floor.mp hi'
          exact_mod_cast this
        have hi0 : (0 : ℚ) ≤ (i : ℚ) := Nat.cast_nonneg i
        rw [← hv]
        refine ⟨⟨i, by ring_nf⟩, ?_, ?_⟩
        · simp only [F64.le, decide_eq_true_eq]
          positivity
        · simp only [F64.le, decide_eq_true_eq]
          linarith
  · intro hb hfs
    obtain ⟨plan, h1, -⟩ := ComputePlan_some_of_bounded cfg hcfg hb m hm fs hfs
    exact ⟨plan, h1⟩

theorem ComputePlan_quantized_witness :
    ValidConfig scenarioConfig ∧ F64.IsDouble scenarioConfig.MaxIrrigationPerDay ∧
      (0 : Int) ≤ 20 ∧
      ((∀ plan, ComputePlan (NewIrrigationPlanner scenarioConfig) 20 [mildDay] = some plan →
        ∀ e ∈ plan, (∃ k : Nat, e.PlannedVolumeL = F64.fin ((1 / 2) * (k : ℚ))) ∧
          F64.le (F64.fin 0) e.PlannedVolumeL = true ∧
          F64.le e.PlannedVolumeL scenarioConfig.MaxIrrigationPerDay = true) ∧
        (BoundedConfig scenarioConfig → (∀ f ∈ [mildDay], BoundedForecast f) →
          ∃ plan, ComputePlan (NewIrrigationPlanner scenarioConfig) 20 [mildDay]
            = some plan)) :=
  ⟨validConfig_scenario, by decide!, by decide,
    ComputePlan_quantized scenarioConfig validConfig_scenario (by decide!) 20 (by decide) _⟩

/-- C6: for every valid configuration, every initial moisture `m ≥ 0` and every
forecast sequence, a plan returned by `ComputePlan` has one entry per forecast
day and its `i`-th entry carries the `Date` of the `i`-th forecast day, for
every index `i`; and a plan is returned whenever the configuration and the
forecast values are finite and at most `2^20` in magnitude. -/
theorem ComputePlan_dates (cfg : PlannerConfig) (hcfg : ValidConfig cfg) (m : Int)
    (hm : 0 ≤ m) (fs : List ForecastDay) :
    (∀ plan, ComputePlan (NewIrrigationPlanner cfg) m fs = some plan →
      plan.length = fs.length ∧
        ∀ i : Nat, (plan[i]?).map DailyPlan.Date = (fs[i]?).map ForecastDay.Date) ∧
      (BoundedConfig cfg → (∀ f ∈ fs, BoundedForecast f) →
        ∃ plan, ComputePlan (NewIrrigationPlanner cfg) m fs = some plan) := by
  refine ⟨?_, ?_⟩
  · intro plan hplan
    obtain ⟨h2, -⟩ := ComputePlan_some_props cfg m fs plan hplan
    refine ⟨plan_length_of_dates h2, fun i => ?_⟩
    rw [← List.getElem?_map, ← List.getElem?_map, h2]
  · intro hb hfs
    obtain ⟨plan, h1, -⟩ := ComputePlan_some_of_bounded cfg hcfg hb m hm fs hfs
    exact ⟨plan, h1⟩

theorem ComputePlan_dates_witness :
    ValidConfig scenarioConfig ∧ (0 : Int) ≤ 2000 ∧
      ((∀ plan, ComputePlan (NewIrrigationPlanner scenarioConfig) 2000 [mildDay, rainyDay]
          = some plan →
        plan.length = [mildDay, rainyDay].length ∧
          ∀ i : Nat, (plan[i]?).map DailyPlan.Date
            = ([mildDay, rainyDay][i]?).map ForecastDay.Date) ∧
        (BoundedConfig scenarioConfig → (∀ f ∈ [mildDay, rainyDay], BoundedForecast f) →
          ∃ plan, ComputePlan (NewIrrigationPlanner scenarioConfig) 2000
            [mildDay, rainyDay] = some plan)) :=
  ⟨validConfig_scenario, by decide,
    ComputePlan_dates scenarioConfig validConfig_scenario 2000 (by decide) _⟩

end Planner

namespace Planner

/-- A one-day run whose single day fails. -/
theorem ComputePlan_oneDay_none (cfg : PlannerConfig) (m : Int) (f : ForecastDay)
    (opts : List F64) (row0 : List State)
    (hopts : irrigationOptions cfg = some opts) (hrow0 : initRow m = some row0)
    (hday : evalDay cfg (evapotranspiration cfg f) (rainMoisture cfg f) opts row0 = none) :
    ComputePlan (NewIrrigationPlanner cfg) m [f] = none := by
  apply ComputePlan_none_of_fill cfg m [f] opts row0 (by simp) hopts hrow0
  rw [fillTable_cons, stepDay_eval cfg opts row0 f (initRow_length hrow0), hday]

/-- With `TempFactor = 0` and temperatures of bounded magnitude the
evapotranspiration is `BaseET + 0`. -/
theorem et_of_zero_factor (cfg : PlannerConfig) (htf : cfg.TempFactor = F64.fin 0)
    (f : ForecastDay) (h1 : F64.Bounded f.TempMax) (h2 : F64.Bounded f.TempMin) :
    evapotranspiration cfg f = cfg.BaseET + F64.fin 0 := by
  have b1 := F64.add_bddBy (F64.bddBy_of_bounded h1) (F64.bddBy_of_bounded h2)
    (le_refl 20) (le_refl 20) (by norm_num)
  have b2 := F64.div_two_bddBy b1 (by norm_num)
  have b20 : F64.BddBy 20 (F64.fin 20) := F64.bddBy_fin (by norm_num)
  obtain ⟨q, hq, -⟩ := F64.sub_bddBy b2 b20 (le_refl 21) (by norm_num) (by norm_num)
  unfold evapotranspiration
  simp only []
  rw [hq, htf, F64.fin_mul_fin, zero_mul, F64.round_zero]

theorem scenario_et (f : ForecastDay) (h1 : F64.Bounded f.TempMax)
    (h2 : F64.Bounded f.TempMin) : evapotranspiration scenarioConfig f = F64.fin 0 := by
  rw [et_of_zero_factor scenarioConfig rfl f h1 h2]
  decide!

theorem scenario_rain (f : ForecastDay) (h : f.PrecipMm = F64.fin 0) :
    rainMoisture scenarioConfig f = F64.fin 0 := by
  unfold rainMoisture
  rw [h]
  decide!

theorem scenario_plan_25 (f : ForecastDay) (h1 : F64.Bounded f.TempMax)
    (h2 : F64.Bounded f.TempMin) (h3 : f.PrecipMm = F64.fin 0) :
    ComputePlan (NewIrrigationPlanner scenarioConfig) 25 [f]
      = some [{ Date := f.Date, PlannedVolumeL := F64.fin 1 }] :=
  ComputePlan_oneDay_eval scenarioConfig 25 f _
    (emptyRow.set 2 { cost := F64.fin 0, prevMoisture := 25, irrigationVolume := F64.fin 0 })
    (emptyRow.set 2 { cost := F64.fin 17, prevMoisture := 20, irrigationVolume := F64.fin 1 })
    2 { cost := F64.fin 17, prevMoisture := 20, irrigationVolume := F64.fin 1 }
    scenario_options (by decide!) (by rw [scenario_et f h1 h2, scenario_rain f h3]; decide!)
    (by decide!) (by decide!)

theorem scenario_plan_20 (f : ForecastDay) (h1 : F64.Bounded f.TempMax)
    (h2 : F64.Bounded f.TempMin) (h3 : f.PrecipMm = F64.fin 0) :
    ComputePlan (NewIrrigationPlanner scenarioConfig) 20 [f]
      = some [{ Date := f.Date, PlannedVolumeL := F64.fin 1 }] :=
  ComputePlan_oneDay_eval scenarioConfig 20 f _
    (emptyRow.set 2 { cost := F64.fin 0, prevMoisture := 20, irrigationVolume := F64.fin 0 })
    (emptyRow.set 2 { cost := F64.fin 17, prevMoisture := 20, irrigationVolume := F64.fin 1 })
    2 { cost := F64.fin 17, prevMoisture := 20, irrigationVolume := F64.fin 1 }
    scenario_options (by decide!) (by rw [scenario_et f h1 h2, scenario_rain f h3]; decide!)
    (by decide!) (by decide!)

theorem scenario_hotDay (m : Int) (b : Nat) (hm : 0 ≤ m) (hb : initMoistureIdx m = (b : Int))
    (hday : evalDay scenarioConfig (evapotranspiration scenarioConfig hotDay)
      (rainMoisture scenarioConfig hotDay) [F64.fin 0, F64.fin (1 / 2), F64.fin 1]
      (emptyRow.set b { cost := F64.fin 0, prevMoisture := m, irrigationVolume := F64.fin 0 })
        = none) :
    ComputePlan (NewIrrigationPlanner scenarioConfig) m [hotDay] = none := by
  apply ComputePlan_oneDay_none scenarioConfig m hotDay _ _ scenario_options _ hday
  rw [initRow_eq hm, hb]
  rfl

theorem hotDay_et : evapotranspiration scenarioConfig hotDay = F64.nan := by decide!

theorem hotDay_plan_25 : ComputePlan (NewIrrigationPlanner scenarioConfig) 25 [hotDay] = none :=
  scenario_hotDay 25 2 (by decide) (by decide) (by rw [hotDay_et]; decide!)

theorem hotDay_plan_20 : ComputePlan (NewIrrigationPlanner scenarioConfig) 20 [hotDay] = none :=
  scenario_hotDay 20 2 (by decide) (by decide) (by rw [hotDay_et]; decide!)

/-- C4 (as stated, refuted): with the scenario configuration, initial moisture
`25` and one dry forecast day, the plan returned by `ComputePlan` is a single
entry of volume `1`, not `0`. -/
theorem noop_when_optimal_fails :
    mildDay.PrecipMm = F64.fin 0 ∧
      ComputePlan (NewIrrigationPlanner scenarioConfig) 25 [mildDay]
        = some [{ Date := "2024-05-01", PlannedVolumeL := F64.fin 1 }] ∧
      ¬ ∃ e : DailyPlan,
        ComputePlan (NewIrrigationPlanner scenarioConfig) 25 [mildDay] = some [e] ∧
          e.PlannedVolumeL = F64.fin 0 := by
  have h := scenario_plan_25 mildDay (by decide!) (by decide!) rfl
  refine ⟨rfl, h, ?_⟩
  rintro ⟨e, he, hv⟩
  rw [h] at he
  simp only [Option.some.injEq, List.cons.injEq, and_true] at he
  rw [← he] at hv
  exact absurd hv (by decide)

/-- C4 (amended): with the scenario configuration, initial moisture `25` and a
single forecast day with `PrecipMm = 0`, any date and any finite temperatures of
magnitude at most `2^20`, `ComputePlan` returns exactly one entry and its
`PlannedVolumeL` is `1`: the transition starts from the representative value
`20` of bin `2`, where the three options cost `25`, `20.75` and `17`. -/
theorem scenario_initial_25 (date : String) (tempMax tempMin : F64)
    (h1 : F64.Bounded tempMax) (h2 : F64.Bounded tempMin) :
    ComputePlan (NewIrrigationPlanner scenarioConfig) 25
        [{ Date := date, TempMax := tempMax, TempMin := tempMin, PrecipMm := F64.fin 0 }]
      = some [{ Date := date, PlannedVolumeL := F64.fin 1 }] ∧
    (initMoistureIdx 25) * moistureStep = 20 ∧
    stepCost scenarioConfig
        (newMoisture scenarioConfig
          (evapotranspiration scenarioConfig ⟨date, tempMax, tempMin, F64.fin 0⟩)
          (rainMoisture scenarioConfig ⟨date, tempMax, tempMin, F64.fin 0⟩)
          ((initMoistureIdx 25) * moistureStep) (F64.fin 0)) (F64.fin 0) (F64.fin 0)
        = F64.fin 25 ∧
      stepCost scenarioConfig
        (newMoisture scenarioConfig
          (evapotranspiration scenarioConfig ⟨date, tempMax, tempMin, F64.fin 0⟩)
          (rainMoisture scenarioConfig ⟨date, tempMax, tempMin, F64.fin 0⟩)
          ((initMoistureIdx 25) * moistureStep) (F64.fin (1 / 2))) (F64.fin (1 / 2))
          (F64.fin 0) = F64.fin (83 / 4) ∧
      stepCost scenarioConfig
        (newMoisture scenarioConfig
          (evapotranspiration scenarioConfig ⟨date, tempMax, tempMin, F64.fin 0⟩)
          (rainMoisture scenarioConfig ⟨date, tempMax, tempMin, F64.fin 0⟩)
          ((initMoistureIdx 25) * moistureStep) (F64.fin 1)) (F64.fin 1) (F64.fin 0)
        = F64.fin 17 := by
  rw [scenario_et ⟨date, tempMax, tempMin, F64.fin 0⟩ h1 h2,
    scenario_rain ⟨date, tempMax, tempMin, F64.fin 0⟩ rfl]
  exact ⟨scenario_plan_25 ⟨date, tempMax, tempMin, F64.fin 0⟩ h1 h2 rfl, by decide!,
    by decide!, by decide!, by decide!⟩

theorem scenario_initial_25_witness :
    F64.Bounded (F64.fin 30) ∧ F64.Bounded (F64.fin 18) ∧
      ComputePlan (NewIrrigationPlanner scenarioConfig) 25
          [{ Date := "2024-05-01", TempMax := F64.fin 30, TempMin := F64.fin 18,
             PrecipMm := F64.fin 0 }]
        = some [{ Date := "2024-05-01", PlannedVolumeL := F64.fin 1 }] :=
  ⟨by decide!, by decide!,
    (scenario_initial_25 "2024-05-01" (F64.fin 30) (F64.fin 18) (by decide!) (by decide!)).1⟩

/-- C5 (as stated, refuted): with the scenario configuration, initial moisture
`20` and a single dry forecast day whose two temperatures are the finite value
`2^1023`, the temperature sum overflows, `0 * Inf` makes the
evapotranspiration `NaN`, the next index is out of range and `ComputePlan`
returns no plan. -/
theorem deficit_correction_fails_on_overflow :
    hotDay.PrecipMm = F64.fin 0 ∧ F64.IsDouble hotDay.TempMax ∧ F64.IsDouble hotDay.TempMin ∧
      evapotranspiration scenarioConfig hotDay = F64.nan ∧
      ComputePlan (NewIrrigationPlanner scenarioConfig) 20 [hotDay] = none :=
  ⟨rfl, by decide!, by decide!, hotDay_et, hotDay_plan_20⟩

/-- C5 (amended): with the scenario configuration, initial moisture `20` and a
single forecast day with `PrecipMm = 0` and finite temperatures of magnitude at
most `2^20`, the three options cost `v = 0 -> 25`, `v = 0.5 -> 20.75`,
`v = 1.0 -> 17`, and `ComputePlan` returns exactly one entry whose
`PlannedVolumeL` is `1.0`. -/
theorem deficit_correction (date : String) (tempMax tempMin : F64)
    (h1 : F64.Bounded tempMax) (h2 : F64.Bounded tempMin) :
    stepCost scenarioConfig
        (newMoisture scenarioConfig
          (evapotranspiration scenarioConfig ⟨date, tempMax, tempMin, F64.fin 0⟩)
          (rainMoisture scenarioConfig ⟨date, tempMax, tempMin, F64.fin 0⟩) 20 (F64.fin 0))
          (F64.fin 0) (F64.fin 0) = F64.fin 25 ∧
      stepCost scenarioConfig
        (newMoisture scenarioConfig
          (evapotranspiration scenarioConfig ⟨date, tempMax, tempMin, F64.fin 0⟩)
          (rainMoisture scenarioConfig ⟨date, tempMax, tempMin, F64.fin 0⟩) 20
          (F64.fin (1 / 2))) (F64.fin (1 / 2)) (F64.fin 0) = F64.fin (83 / 4) ∧
      stepCost scenarioConfig
        (newMoisture scenarioConfig
          (evapotranspiration scenarioConfig ⟨date, tempMax, tempMin, F64.fin 0⟩)
          (rainMoisture scenarioConfig ⟨date, tempMax, tempMin, F64.fin 0⟩) 20 (F64.fin 1))
          (F64.fin 1) (F64.fin 0) = F64.fin 17 ∧
      ComputePlan (NewIrrigationPlanner scenarioConfig) 20
          [{ Date := date, TempMax := tempMax, TempMin := tempMin, PrecipMm := F64.fin 0 }]
        = some [{ Date := date, PlannedVolumeL := F64.fin 1 }] := by
  rw [scenario_et ⟨date, tempMax, tempMin, F64.fin 0⟩ h1 h2,
    scenario_rain ⟨date, tempMax, tempMin, F64.fin 0⟩ rfl]
  exact ⟨by decide!, by decide!, by decide!,
    scenario_plan_20 ⟨date, tempMax, tempMin, F64.fin 0⟩ h1 h2 rfl⟩

theorem deficit_correction_witness :
    F64.Bounded (F64.fin 30) ∧ F64.Bounded (F64.fin 18) ∧
      ComputePlan (NewIrrigationPlanner scenarioConfig) 20
          [{ Date := "2024-05-01", TempMax := F64.fin 30, TempMin := F64.fin 18,
             PrecipMm := F64.fin 0 }]
        = some [{ Date := "2024-05-01", PlannedVolumeL := F64.fin 1 }] :=
  ⟨by decide!, by decide!,
    (deficit_correction "2024-05-01" (F64.fin 30) (F64.fin 18) (by decide!)
      (by decide!)).2.2.2⟩

theorem invalid_options : irrigationOptions invalidConfig = some [F64.fin 0] := by
  decide!

theorem invalid_plan :
    ComputePlan (NewIrrigationPlanner invalidConfig) 25 [mildDay]
      = some [{ Date := "2024-05-01", PlannedVolumeL := F64.fin 0 }] :=
  ComputePlan_oneDay_eval invalidConfig 25 mildDay _
    (emptyRow.set 2 { cost := F64.fin 0, prevMoisture := 25, irrigationVolume := F64.fin 0 })
    (emptyRow.set 2
      { cost := F64.fin (-25), prevMoisture := 20, irrigationVolume := F64.fin 0 })
    2 { cost := F64.fin (-25), prevMoisture := 20, irrigationVolume := F64.fin 0 }
    invalid_options (by decide!) (by decide!) (by decide!) (by decide!)

/-- C7 (as stated, refuted): for a configuration that breaks every validity
condition, `NewIrrigationPlanner` still produces a planner, holding that
configuration, and the planner is usable: `ComputePlan` returns a plan. -/
theorem invalid_config_accepted :
    (¬ invalidConfig.SoilOptimalMin ≤ invalidConfig.SoilOptimalMax) ∧
      F64.le invalidConfig.MaxIrrigationPerDay (F64.fin 0) = true ∧
      F64.le invalidConfig.ADCToMoisture (F64.fin 0) = true ∧
      F64.lt invalidConfig.CostW1 (F64.fin 0) = true ∧
      F64.lt invalidConfig.CostW2 (F64.fin 0) = true ∧
      F64.lt invalidConfig.CostW3 (F64.fin 0) = true ∧
      ¬ ValidConfig invalidConfig ∧
      (NewIrrigationPlanner invalidConfig).config = invalidConfig ∧
      ComputePlan (NewIrrigationPlanner invalidConfig) 25 [mildDay]
        = some [{ Date := "2024-05-01", PlannedVolumeL := F64.fin 0 }] :=
  ⟨by decide, by decide!, by decide!, by decide!, by decide!, by decide!, by decide!, rfl,
    invalid_plan⟩

/-- C7 (amended): constructing a planner never fails and checks nothing: for
every configuration, valid or not, `NewIrrigationPlanner` returns a planner
that holds exactly the given configuration. What happens next is decided by
`ComputePlan`: on the empty forecast sequence every planner returns the empty
plan; the planner built from the scenario configuration with
`MaxIrrigationPerDay = -1` fails at run time on every non-empty forecast
sequence (the option list has a negative length); the planner built from
`invalidConfig` returns a plan. -/
theorem NewIrrigationPlanner_total (cfg : PlannerConfig) (m : Int) (fs : List ForecastDay)
    (hfs : fs ≠ []) :
    (NewIrrigationPlanner cfg).config = cfg ∧
      ComputePlan (NewIrrigationPlanner cfg) m [] = some [] ∧
      F64.le negativeMaxConfig.MaxIrrigationPerDay (F64.fin 0) = true ∧
      ComputePlan (NewIrrigationPlanner negativeMaxConfig) m fs = none ∧
      ComputePlan (NewIrrigationPlanner invalidConfig) 25 [mildDay]
        = some [{ Date := "2024-05-01", PlannedVolumeL := F64.fin 0 }] :=
  ⟨rfl, ComputePlan_nil _ m, by decide!,
    ComputePlan_none_of_options negativeMaxConfig m fs hfs (by decide!), invalid_plan⟩

theorem NewIrrigationPlanner_total_witness :
    [mildDay] ≠ [] ∧
      (NewIrrigationPlanner invalidConfig).config = invalidConfig ∧
      ComputePlan (NewIrrigationPlanner negativeMaxConfig) 25 [mildDay] = none :=
  ⟨by simp,
    (NewIrrigationPlanner_total invalidConfig 25 [mildDay] (by simp)).1,
    (NewIrrigationPlanner_total invalidConfig 25 [mildDay] (by simp)).2.2.2.1⟩

/-- C8 (code defect): for the initial moisture `-10` the initial index is
`-10/10 = -1`, the write `dp[0][-1]` is out of range and `ComputePlan` fails
at run time, whereas for the initial moisture `0` it returns a plan. -/
theorem negative_moisture_panics :
    ValidConfig scenarioConfig ∧ initMoistureIdx (-10) = -1 ∧ initRow (-10) = none ∧
      ComputePlan (NewIrrigationPlanner scenarioConfig) (-10) [mildDay] = none ∧
      ComputePlan (NewIrrigationPlanner scenarioConfig) 0 [mildDay]
        = some [{ Date := "2024-05-01", PlannedVolumeL := F64.fin 1 }] := by
  have hinit : initRow (-10) = none := by decide!
  refine ⟨validConfig_scenario, by decide!, hinit, ?_, ?_⟩
  · exact ComputePlan_none_of_init scenarioConfig (-10) [mildDay] (by simp) hinit
  · exact ComputePlan_oneDay_eval scenarioConfig 0 mildDay _
      (emptyRow.set 0
        { cost := F64.fin 0, prevMoisture := 0, irrigationVolume := F64.fin 0 })
      (emptyRow.set 0
        { cost := F64.fin 577, prevMoisture := 0, irrigationVolume := F64.fin 1 })
      0 { cost := F64.fin 577, prevMoisture := 0, irrigationVolume := F64.fin 1 }
      scenario_options (by decide!) (by decide!) (by decide!) (by decide!)

end Planner

namespace Planner

/-- C9 (as stated, refuted): the configuration with the daily maximum `1e19`
is valid, yet for the above-range initial moisture `5000` the call does not
complete. -/
theorem clamp_above_fails_on_huge_maximum :
    ValidConfig hugeMaxConfig ∧ F64.IsDouble hugeMaxConfig.MaxIrrigationPerDay ∧
      (4095 : Int) < 5000 ∧
      ComputePlan (NewIrrigationPlanner hugeMaxConfig) 5000 [mildDay] = none :=
  ⟨by decide!, by decide!, by decide,
    ComputePlan_none_of_options hugeMaxConfig 5000 [mildDay] (by simp) hugeMax_options⟩

/-- C9 (amended): for every configuration, every forecast sequence and every
initial moisture `m > 4095`, `ComputePlan` behaves as for the initial moisture
`4095`: it returns the same plan, or fails as well; and for a valid
configuration it completes without error whenever the configuration and the
forecast values are finite and at most `2^20` in magnitude. -/
theorem ComputePlan_clamp_above (cfg : PlannerConfig) (fs : List ForecastDay) (m : Int)
    (hm : 4095 < m) :
    ComputePlan (NewIrrigationPlanner cfg) m fs
        = ComputePlan (NewIrrigationPlanner cfg) 4095 fs ∧
      (ValidConfig cfg → BoundedConfig cfg → (∀ f ∈ fs, BoundedForecast f) →
        ∃ plan, ComputePlan (NewIrrigationPlanner cfg) m fs = some plan ∧
          ComputePlan (NewIrrigationPlanner cfg) 4095 fs = some plan) := by
  have heq : ComputePlan (NewIrrigationPlanner cfg) m fs
      = ComputePlan (NewIrrigationPlanner cfg) 4095 fs := by
    refine ComputePlan_congr_init cfg m 4095 _ _ fs (initRow_eq (by omega))
      (initRow_eq (by norm_num)) ?_
    apply initRow_key_of_idx
    rw [initMoistureIdx_above (le_of_lt hm), initMoistureIdx_above (le_refl _)]
  refine ⟨heq, ?_⟩
  intro hcfg hb hfs
  obtain ⟨plan, h1, -⟩ := ComputePlan_some_of_bounded cfg hcfg hb m (by omega) fs hfs
  exact ⟨plan, h1, by rw [← heq, h1]⟩

theorem ComputePlan_clamp_above_witness :
    (4095 : Int) < 5000 ∧
      ComputePlan (NewIrrigationPlanner scenarioConfig) 5000 [mildDay, rainyDay]
        = ComputePlan (NewIrrigationPlanner scenarioConfig) 4095 [mildDay, rainyDay] ∧
      ∃ plan, ComputePlan (NewIrrigationPlanner scenarioConfig) 5000 [mildDay, rainyDay]
          = some plan ∧
        ComputePlan (NewIrrigationPlanner scenarioConfig) 4095 [mildDay, rainyDay]
          = some plan :=
  ⟨by decide, (ComputePlan_clamp_above scenarioConfig [mildDay, rainyDay] 5000 (by decide)).1,
    (ComputePlan_clamp_above scenarioConfig [mildDay, rainyDay] 5000 (by decide)).2
      validConfig_scenario boundedConfig_scenario bounded_two_days⟩

/-- C10 (as stated, refuted): with the valid scenario configuration, the
initial moisture `25` and one dry forecast day whose two temperatures are the
finite value `2^1023`, the next moisture of a transition is `NaN`, its index is
`int(NaN)/10 = -922337203685477580`, outside `[0, 409]`, and `ComputePlan`
fails at run time. -/
theorem index_out_of_range_on_overflow :
    ValidConfig scenarioConfig ∧ (0 : Int) ≤ 25 ∧ (25 : Int) ≤ 4095 ∧
      F64.IsDouble hotDay.TempMax ∧ F64.IsDouble hotDay.TempMin ∧
      newIdx (newMoisture scenarioConfig (evapotranspiration scenarioConfig hotDay)
        (rainMoisture scenarioConfig hotDay) (2 * moistureStep) (F64.fin 0))
        = -922337203685477580 ∧
      ComputePlan (NewIrrigationPlanner scenarioConfig) 25 [hotDay] = none :=
  ⟨validConfig_scenario, by decide, by decide, by decide!, by decide!,
    by rw [hotDay_et]; decide!, hotDay_plan_25⟩

/-- C10 (amended): for every valid configuration whose floating-point fields
are finite and at most `2^20` in magnitude, every initial moisture `m` in
`[0, 4095]` and every forecast sequence whose values are finite and at most
`2^20` in magnitude, no index used by `ComputePlan` leaves its range: the
initial index and the next index of every transition (from a bin of the
table, on a forecast day, under an irrigation option) lie in `[0, 409]`, and
the whole computation, backtrace included, ends without a run-time failure,
with one plan entry per forecast day. -/
theorem ComputePlan_no_runtime_failure (cfg : PlannerConfig) (hcfg : ValidConfig cfg)
    (hb : BoundedConfig cfg) (m : Int) (hm0 : 0 ≤ m) (hm1 : m ≤ 4095)
    (fs : List ForecastDay) (hfs : ∀ f ∈ fs, BoundedForecast f) :
    (0 ≤ initMoistureIdx m ∧ initMoistureIdx m ≤ 409) ∧
      (∃ opts, irrigationOptions cfg = some opts ∧
        ∀ f ∈ fs, ∀ (currIdx : Nat), currIdx < 410 → ∀ irrigation ∈ opts,
          0 ≤ newIdx (newMoisture cfg (evapotranspiration cfg f) (rainMoisture cfg f)
              ((currIdx : Int) * moistureStep) irrigation) ∧
            newIdx (newMoisture cfg (evapotranspiration cfg f) (rainMoisture cfg f)
              ((currIdx : Int) * moistureStep) irrigation) ≤ 409) ∧
      ∃ plan, ComputePlan (NewIrrigationPlanner cfg) m fs = some plan ∧
        plan.length = fs.length := by
  have _ := hm1
  refine ⟨?_, ?_, ?_⟩
  · have := initMoistureIdx_range hm0
    unfold ValidIdx at this
    omega
  · obtain ⟨n, y, -, -, -, hopts⟩ := irrigationOptions_of_valid_bounded cfg hcfg.2.1 hb.1
    refine ⟨_, hopts, ?_⟩
    intro f hf i hi v hv
    obtain ⟨k, -, hk, hlist⟩ := irrigationOptions_inv cfg _ hopts
    rw [hlist] at hv
    have hnan := F64.bddBy_ne_nan
      (rawMoisture_bddBy cfg hb f (hfs f hf) i hi v (option_bddBy hk hv))
    have := (validIdx_newIdx_iff cfg _ _ _ v).mpr hnan
    unfold ValidIdx at this
    omega
  · obtain ⟨plan, h1, h2⟩ := ComputePlan_some_of_bounded cfg hcfg hb m hm0 fs hfs
    exact ⟨plan, h1, plan_length_of_dates h2⟩

theorem ComputePlan_no_runtime_failure_witness :
    ValidConfig scenarioConfig ∧ BoundedConfig scenarioConfig ∧ (0 : Int) ≤ 4095 ∧
      (4095 : Int) ≤ 4095 ∧ (∀ f ∈ [mildDay, rainyDay], BoundedForecast f) ∧
      ∃ plan, ComputePlan (NewIrrigationPlanner scenarioConfig) 4095 [mildDay, rainyDay]
          = some plan ∧ plan.length = [mildDay, rainyDay].length :=
  ⟨validConfig_scenario, boundedConfig_scenario, by decide, by decide, bounded_two_days,
    (ComputePlan_no_runtime_failure scenarioConfig validConfig_scenario boundedConfig_scenario
      4095 (by decide) (by decide) _ bounded_two_days).2.2⟩

/-- C11: for every configuration and every initial moisture `m` (negative and
above-range values included), `ComputePlan` applied to an empty forecast
sequence returns an empty plan. -/
theorem ComputePlan_empty_horizon (cfg : PlannerConfig) (m : Int) :
    ComputePlan (NewIrrigationPlanner cfg) m [] = some [] :=
  ComputePlan_nil _ m

theorem irrigationOptions_zero (cfg : PlannerConfig)
    (h : cfg.MaxIrrigationPerDay = F64.fin 0) :
    irrigationOptions cfg = some [F64.fin 0] := by
  unfold irrigationOptions
  rw [h]
  decide!

/-- C12: if `MaxIrrigationPerDay` is `0` then the irrigation option list is
exactly `[0]` and, for every initial moisture `m ≥ 0` and every forecast
sequence, every entry of a plan returned by `ComputePlan` has
`PlannedVolumeL = 0` and there is one entry per forecast day; a plan is
returned whenever the other configuration fields and the forecast values are
finite and at most `2^20` in magnitude. -/
theorem ComputePlan_zero_max (cfg : PlannerConfig)
    (hmax : cfg.MaxIrrigationPerDay = F64.fin 0) (m : Int) (hm : 0 ≤ m)
    (fs : List ForecastDay) :
    irrigationOptions cfg = some [F64.fin 0] ∧
      (∀ plan, ComputePlan (NewIrrigationPlanner cfg) m fs = some plan →
        plan.length = fs.length ∧ ∀ e ∈ plan, e.PlannedVolumeL = F64.fin 0) ∧
      (BoundedConfig cfg → (∀ f ∈ fs, BoundedForecast f) →
        ∃ plan, ComputePlan (NewIrrigationPlanner cfg) m fs = some plan) := by
  have hopts := irrigationOptions_zero cfg hmax
  refine ⟨hopts, ?_, ?_⟩
  · intro plan hplan
    obtain ⟨h2, hvol⟩ := ComputePlan_some_props cfg m fs plan hplan
    refine ⟨plan_length_of_dates h2, fun e he => ?_⟩
    by_cases hfs : fs = []
    · subst hfs
      rw [ComputePlan_nil] at hplan
      rw [← Option.some.inj hplan] at he
      exact absurd he (List.not_mem_nil e)
    · obtain ⟨opts, hopts', hmem⟩ := hvol hfs
      rw [hopts] at hopts'
      rw [← Option.some.inj hopts'] at hmem
      rcases hmem e he with h | h
      · exact h
      · exact List.mem_singleton.mp h
  · intro hb hfs
    obtain ⟨rows, hrows⟩ := fillTable_some_of_bounded cfg hb _ hopts fs hfs _
      (initRow_length (initRow_eq hm))
    obtain ⟨plan, h1, -, -⟩ :=
      ComputePlan_some_of_fill cfg m fs _ _ rows hopts (initRow_eq hm) hrows
    exact ⟨plan, h1⟩

theorem ComputePlan_zero_max_witness :
    invalidConfig.MaxIrrigationPerDay = F64.fin 0 ∧ (0 : Int) ≤ 1234 ∧
      irrigationOptions invalidConfig = some [F64.fin 0] ∧
      ∃ plan, ComputePlan (NewIrrigationPlanner invalidConfig) 1234 [mildDay, rainyDay]
        = some plan :=
  ⟨rfl, by decide, (ComputePlan_zero_max invalidConfig rfl 1234 (by decide) [mildDay, rainyDay]).1,
    (ComputePlan_zero_max invalidConfig rfl 1234 (by decide) [mildDay, rainyDay]).2.2
      (by decide!) bounded_two_days⟩

end Planner

namespace Planner

/-- C13 (as stated, refuted): the scenario configuration has `TempFactor = 0`;
two one-day forecasts agree on `Date` and `PrecipMm`, one with ordinary
temperatures and one whose two temperatures are the finite value `2^1023`; the
first yields a plan, the second, where `0 * Inf = NaN`, yields none. -/
theorem temperature_dependence_on_overflow :
    scenarioConfig.TempFactor = F64.fin 0 ∧
      [mildDay].map (fun f => (f.Date, f.PrecipMm))
        = [hotDay].map (fun f => (f.Date, f.PrecipMm)) ∧
      F64.IsDouble hotDay.TempMax ∧ F64.IsDouble hotDay.TempMin ∧
      ComputePlan (NewIrrigationPlanner scenarioConfig) 25 [mildDay]
        = some [{ Date := "2024-05-01", PlannedVolumeL := F64.fin 1 }] ∧
      ComputePlan (NewIrrigationPlanner scenarioConfig) 25 [hotDay] = none ∧
      ComputePlan (NewIrrigationPlanner scenarioConfig) 25 [mildDay]
        ≠ ComputePlan (NewIrrigationPlanner scenarioConfig) 25 [hotDay] := by
  have h1 := scenario_plan_25 mildDay (by decide!) (by decide!) rfl
  refine ⟨rfl, by decide, by decide!, by decide!, h1, hotDay_plan_25, ?_⟩
  rw [h1, hotDay_plan_25]
  simp

/-- C13 (amended): for every configuration with `TempFactor = 0`, the plan
returned by `ComputePlan` does not depend on the forecast temperatures as long
as they are finite and at most `2^20` in magnitude: two such forecast
sequences that agree on every day's `Date` and `PrecipMm` yield identical
plans for the same initial moisture. -/
theorem ComputePlan_temperature_independent (cfg : PlannerConfig)
    (htf : cfg.TempFactor = F64.fin 0) (m : Int) (fs fs' : List ForecastDay)
    (hagree : fs.map (fun f => (f.Date, f.PrecipMm)) = fs'.map (fun f => (f.Date, f.PrecipMm)))
    (hfs : ∀ f ∈ fs, F64.Bounded f.TempMax ∧ F64.Bounded f.TempMin)
    (hfs' : ∀ f ∈ fs', F64.Bounded f.TempMax ∧ F64.Bounded f.TempMin) :
    ComputePlan (NewIrrigationPlanner cfg) m fs
      = ComputePlan (NewIrrigationPlanner cfg) m fs' := by
  have hdate : fs.map ForecastDay.Date = fs'.map ForecastDay.Date := by
    have := congrArg (List.map Prod.fst) hagree
    simpa [List.map_map, Function.comp_def] using this
  have hprecip : fs.map ForecastDay.PrecipMm = fs'.map ForecastDay.PrecipMm := by
    have := congrArg (List.map Prod.snd) hagree
    simpa [List.map_map, Function.comp_def] using this
  refine ComputePlan_congr_forecasts cfg m fs fs' hdate ?_
  have hmap : ∀ l : List ForecastDay,
      (∀ f ∈ l, F64.Bounded f.TempMax ∧ F64.Bounded f.TempMin) →
      l.map (fun f => (evapotranspiration cfg f, rainMoisture cfg f))
        = (l.map ForecastDay.PrecipMm).map
          (fun x : F64 => (cfg.BaseET + F64.fin 0, x * cfg.RainConversion * cfg.ADCToMoisture))
      := by
    intro l hl
    rw [List.map_map]
    apply List.map_congr_left
    intro f hf
    simp only [Function.comp_apply]
    rw [et_of_zero_factor cfg htf f (hl f hf).1 (hl f hf).2]
    rfl
  rw [hmap fs hfs, hmap fs' hfs', hprecip]

theorem ComputePlan_temperature_independent_witness :
    scenarioConfig.TempFactor = F64.fin 0 ∧
      [mildDay, rainyDay].map (fun f => (f.Date, f.PrecipMm))
        = [({ mildDay with TempMax := F64.fin (-5), TempMin := F64.fin 40 } : ForecastDay),
            { rainyDay with TempMax := F64.fin 11, TempMin := F64.fin 12 }].map
          (fun f => (f.Date, f.PrecipMm)) ∧
      ComputePlan (NewIrrigationPlanner scenarioConfig) 25 [mildDay, rainyDay]
        = ComputePlan (NewIrrigationPlanner scenarioConfig) 25
          [{ mildDay with TempMax := F64.fin (-5), TempMin := F64.fin 40 },
            { rainyDay with TempMax := F64.fin 11, TempMin := F64.fin 12 }] :=
  ⟨rfl, by decide, ComputePlan_temperature_independent scenarioConfig rfl 25 _ _ (by decide)
    (by decide!) (by decide!)⟩

theorem optionList_pairwise (n : Nat) :
    ((List.range n).map fun (i : Nat) => F64.fin ((i : ℚ) * (1 / 2))).Pairwise
      (fun a b => F64.lt a b = true) := by
  rw [List.pairwise_map]
  refine (List.pairwise_lt_range n).imp ?_
  intro a b hab
  have : (a : ℚ) < (b : ℚ) := by exact_mod_cast hab
  simp only [F64.lt, decide_eq_true_eq]
  linarith

/-- C15 (as stated, refuted): for the positive daily maximum `1e19` no option
list is built: its length `int(1e19/0.5) + 1` is out of range for `make`. -/
theorem options_fail_on_huge_maximum :
    F64.lt (F64.fin 0) hugeMaxConfig.MaxIrrigationPerDay = true ∧
      F64.IsDouble hugeMaxConfig.MaxIrrigationPerDay ∧
      irrigationOptions hugeMaxConfig = none :=
  ⟨by decide!, by decide!, hugeMax_options⟩

/-- C15 (amended): for every binary64 `MaxIrrigationPerDay = q > 0` with
`floor(q/0.5) + 1 ≤ 2^45` (the longest list `make` can allocate), the irrigation
option list built by `ComputePlan` has exactly `floor(q/0.5) + 1` elements, its
`i`-th element is `0.5*i`, it is strictly ascending, its first element is `0`
and its last element is the largest multiple of `0.5` that does not exceed
`q`. -/
theorem irrigationOptions_spec (cfg : PlannerConfig) (q : ℚ)
    (hq : cfg.MaxIrrigationPerDay = F64.fin q) (hpos : 0 < q)
    (hd : F64.IsDouble (F64.fin q)) (hlen : ⌊q / (1 / 2)⌋ + 1 ≤ (2 : Int) ^ (45 : Nat)) :
    ∃ opts : List F64, irrigationOptions cfg = some opts ∧
      (opts.length : Int) = ⌊q / (1 / 2)⌋ + 1 ∧
      (∀ i : Nat, i < opts.length → opts[i]? = some (F64.fin ((1 / 2) * (i : ℚ)))) ∧
      opts.Pairwise (fun a b => F64.lt a b = true) ∧
      opts.head? = some (F64.fin 0) ∧
      ∃ last : ℚ, opts.getLast? = some (F64.fin last) ∧ last ≤ q ∧
        ∀ k : Nat, (1 / 2) * (k : ℚ) ≤ q → (1 / 2) * (k : ℚ) ≤ last := by
  have he : q / (1 / 2) = 2 * q := by ring
  rw [he] at hlen ⊢
  have hfl0 : 0 ≤ ⌊2 * q⌋ := Int.floor_nonneg.mpr (by linarith)
  have h2q : 2 * q < (2 : ℚ) ^ (63 : Nat) := by
    have h1 : ⌊2 * q⌋ + 1 ≤ (2 : Int) ^ (62 : Nat) := le_trans hlen (by norm_num)
    have h2 : 2 * q < ((⌊2 * q⌋ + 1 : Int) : ℚ) := by
      push_cast
      exact Int.lt_floor_add_one _
    have h3 : ((⌊2 * q⌋ + 1 : Int) : ℚ) ≤ (((2 : Int) ^ (62 : Nat) : Int) : ℚ) := by
      exact_mod_cast h1
    have h4 : (((2 : Int) ^ (62 : Nat) : Int) : ℚ) ≤ (2 : ℚ) ^ (63 : Nat) := by norm_num
    linarith
  have hnl : ¬ (2 : ℚ) ^ (1024 : Nat) ≤ 2 * q := by
    intro h
    have : (2 : ℚ) ^ (63 : Nat) ≤ (2 : ℚ) ^ (1024 : Nat) :=
      pow_le_pow_right₀ (by norm_num) (by norm_num)
    linarith
  have hdiv : cfg.MaxIrrigationPerDay / F64.fin (1 / 2) = F64.fin (2 * q) := by
    rw [hq, F64.double_div_half (le_of_lt hpos) hd, if_neg hnl]
  have hn : F64.toInt (cfg.MaxIrrigationPerDay / F64.fin (1 / 2))
      = ((⌊2 * q⌋.toNat : Nat) : Int) := by
    rw [hdiv, toInt_fin_nonneg (by linarith) h2q]
    omega
  have hopts := irrigationOptions_of_steps cfg ⌊2 * q⌋.toNat hn (by
    show ((⌊2 * q⌋.toNat : Nat) : Int) + 1 ≤ (2 : Int) ^ (45 : Nat)
    omega)
  have hnat : ((⌊2 * q⌋.toNat : Nat) : Int) = ⌊2 * q⌋ := by omega
  have hfl : ((⌊2 * q⌋ : Int) : ℚ) ≤ 2 * q := Int.floor_le _
  have hnq : ((⌊2 * q⌋.toNat : Nat) : ℚ) ≤ 2 * q := by
    have : (((⌊2 * q⌋.toNat : Nat) : Int) : ℚ) = ((⌊2 * q⌋ : Int) : ℚ) := by rw [hnat]
    rw [← this] at hfl
    exact_mod_cast hfl
  refine ⟨_, hopts, ?_, ?_, optionList_pairwise _, ?_,
    (⌊2 * q⌋.toNat : ℚ) * (1 / 2), ?_, ?_, ?_⟩
  · rw [List.length_map, List.length_range]
    push_cast
    rw [hnat]
  · intro i hi
    rw [List.length_map, List.length_range] at hi
    rw [List.getElem?_map, List.getElem?_range hi]
    simp only [Option.map_some']
    rw [mul_comm]
  · rw [List.head?_map, List.head?_range]
    simp
  · rw [List.getLast?_map, List.getLast?_range]
    simp
  · linarith
  · intro k hk
    have hk' : ((k : Int) : ℚ) ≤ 2 * q := by
      push_cast
      linarith
    have : (k : Int) ≤ ⌊2 * q⌋ := Int.le_floor.mpr hk'
    rw [← hnat] at this
    have hkn : (k : ℚ) ≤ ((⌊2 * q⌋.toNat : Nat) : ℚ) := by exact_mod_cast this
    linarith

theorem irrigationOptions_spec_witness :
    scenarioConfig.MaxIrrigationPerDay = F64.fin 1 ∧ (0 : ℚ) < 1 ∧
      F64.IsDouble (F64.fin 1) ∧ ⌊(1 : ℚ) / (1 / 2)⌋ + 1 ≤ (2 : Int) ^ (45 : Nat) ∧
      ∃ opts : List F64, irrigationOptions scenarioConfig = some opts ∧
        (opts.length : Int) = ⌊(1 : ℚ) / (1 / 2)⌋ + 1 ∧
        (∀ i : Nat, i < opts.length → opts[i]? = some (F64.fin ((1 / 2) * (i : ℚ)))) ∧
        opts.Pairwise (fun a b => F64.lt a b = true) ∧
        opts.head? = some (F64.fin 0) ∧
        ∃ last : ℚ, opts.getLast? = some (F64.fin last) ∧ last ≤ 1 ∧
          ∀ k : Nat, (1 / 2) * (k : ℚ) ≤ 1 → (1 / 2) * (k : ℚ) ≤ last :=
  ⟨rfl, by norm_num, by decide!, by norm_num,
    irrigationOptions_spec scenarioConfig 1 rfl (by norm_num) (by decide!) (by norm_num)⟩

theorem floor_div_ten {x : ℚ} : ⌊x / 10⌋ = ⌊x⌋ / 10 := by
  rw [Int.floor_eq_iff]
  have h1 : ((⌊x⌋ : Int) : ℚ) ≤ x := Int.floor_le x
  have h2 : x < ((⌊x⌋ : Int) : ℚ) + 1 := Int.lt_floor_add_one x
  have h3 : (⌊x⌋ / 10) * 10 ≤ ⌊x⌋ := by omega
  have h4 : ⌊x⌋ + 1 ≤ (⌊x⌋ / 10) * 10 + 10 := by omega
  have h3q : (((⌊x⌋ / 10 : Int) : ℚ)) * 10 ≤ ((⌊x⌋ : Int) : ℚ) := by exact_mod_cast h3
  have h4q : ((⌊x⌋ : Int) : ℚ) + 1 ≤ (((⌊x⌋ / 10 : Int) : ℚ)) * 10 + 10 := by
    exact_mod_cast h4
  constructor
  · rw [le_div_iff₀ (by norm_num)]
    linarith
  · rw [div_lt_iff₀ (by norm_num)]
    linarith

/-- C22 (as stated, refuted): in the transition of the scenario configuration
from bin `2` on a forecast day whose two temperatures are the finite value
`2^1023`, the next moisture is `NaN`, which the clamps leave unchanged and
which is not in `[0, 4095]`, and its index is
`int(NaN)/10 = -922337203685477580`, not in `[0, 409]`. -/
theorem transition_nan :
    F64.IsDouble hotDay.TempMax ∧ F64.IsDouble hotDay.TempMin ∧
      newMoisture scenarioConfig (evapotranspiration scenarioConfig hotDay)
        (rainMoisture scenarioConfig hotDay) (2 * moistureStep) (F64.fin 0) = F64.nan ∧
      F64.le (F64.fin 0) F64.nan = false ∧ F64.le F64.nan (F64.fin 4095) = false ∧
      newIdx F64.nan = -922337203685477580 ∧ ¬ ValidIdx (newIdx F64.nan) :=
  ⟨by decide!, by decide!, by rw [hotDay_et]; decide!, by decide!, by decide!, by decide!,
    by decide!⟩

/-- C22 (amended): in every transition whose next moisture before the clamps
is not `NaN`, the clamped next moisture is a finite value in `[0, 4095]` and
the next bin index `newIdx` equals `floor(nextMoisture/10)`, so that
`newIdx*10 <= nextMoisture < newIdx*10 + 10` and `0 <= newIdx <= 409` (the
table has exactly 410 bins); hence the index clamp after binning never changes
`newIdx`. -/
theorem transition_bin_exact (cfg : PlannerConfig) (et rain : F64) (currMoisture : Int)
    (irrigation : F64) (h : rawMoisture cfg et rain currMoisture irrigation ≠ F64.nan) :
    moistureStates = 410 ∧
      ∃ nm : ℚ, newMoisture cfg et rain currMoisture irrigation = F64.fin nm ∧
        0 ≤ nm ∧ nm ≤ 4095 ∧
        newIdx (F64.fin nm) = ⌊nm / 10⌋ ∧
        ((newIdx (F64.fin nm) : Int) : ℚ) * 10 ≤ nm ∧
        nm < ((newIdx (F64.fin nm) : Int) : ℚ) * 10 + 10 ∧
        0 ≤ newIdx (F64.fin nm) ∧ newIdx (F64.fin nm) ≤ 409 ∧
        Int.tdiv (F64.toInt (F64.fin nm)) moistureStep = newIdx (F64.fin nm) := by
  rw [newMoisture_eq]
  obtain ⟨nm, hnm, h0, h1⟩ := clampMoisture_of_ne_nan h
  obtain ⟨hi, hv⟩ := newIdx_fin h0 h1
  have hidx : newIdx (F64.fin nm) = ⌊nm / 10⌋ := by rw [hi, floor_div_ten]
  have hfl := Int.floor_eq_iff.mp hidx.symm
  unfold ValidIdx at hv
  refine ⟨moistureStates_eq, nm, hnm, h0, h1, hidx, ?_, ?_, hv.1, by omega, ?_⟩
  · have := hfl.1
    rw [le_div_iff₀ (by norm_num)] at this
    exact this
  · have := hfl.2
    rw [div_lt_iff₀ (by norm_num)] at this
    linarith
  · rw [hi, toInt_fin_of_range h0 h1]
    simp only [moistureStep]
    exact Int.tdiv_eq_ediv (Int.floor_nonneg.mpr h0) (by norm_num)

theorem transition_bin_exact_witness :
    rawMoisture scenarioConfig (F64.fin 0) (F64.fin 0) 20 (F64.fin (1 / 2)) ≠ F64.nan ∧
      ∃ nm : ℚ, newMoisture scenarioConfig (F64.fin 0) (F64.fin 0) 20 (F64.fin (1 / 2))
          = F64.fin nm ∧ 0 ≤ nm ∧ nm ≤ 4095 ∧ newIdx (F64.fin nm) = ⌊nm / 10⌋ :=
  ⟨by decide!, by
    obtain ⟨-, nm, h1, h2, h3, h4, -⟩ :=
      transition_bin_exact scenarioConfig (F64.fin 0) (F64.fin 0) 20 (F64.fin (1 / 2))
        (by decide!)
    exact ⟨nm, h1, h2, h3, h4⟩⟩

/-- C23: for every initial moisture `m ≥ 0`, the day-0 row of the DP table built
by `ComputePlan` (for a non-empty forecast) has 410 cells, cost `0` with
irrigation volume `0` at bin `min(floor(m/10), 409)` and infinite cost at every
other bin. -/
theorem day0_row (m : Int) (hm : 0 ≤ m) :
    ∃ row0, initRow m = some row0 ∧ row0.length = 410 ∧
      ∀ b : Nat, b < 410 → ∃ s, row0[b]? = some s ∧
        (((b : Int) = min (m / 10) 409 ∧ s.cost = F64.fin 0 ∧
            s.irrigationVolume = F64.fin 0) ∨
          ((b : Int) ≠ min (m / 10) 409 ∧ s.cost = F64.pinf)) := by
  have hr := initMoistureIdx_range hm
  have hmin := initMoistureIdx_min hm
  unfold ValidIdx at hr
  refine ⟨_, initRow_eq hm, by rw [List.length_set, emptyRow_length], ?_⟩
  intro b hb
  by_cases hbb : (b : Int) = min (m / 10) 409
  · have hbn : (initMoistureIdx m).toNat = b := by omega
    refine ⟨{ cost := F64.fin 0, prevMoisture := m, irrigationVolume := F64.fin 0 }, ?_,
      Or.inl ⟨hbb, rfl, rfl⟩⟩
    rw [hbn]
    exact List.getElem?_set_self (by rw [emptyRow_length]; exact hb)
  · have hbn : (initMoistureIdx m).toNat ≠ b := by omega
    refine ⟨infState, ?_, Or.inr ⟨hbb, rfl⟩⟩
    rw [List.getElem?_set_ne hbn]
    exact emptyRow_getElem? b hb

theorem day0_row_witness :
    (0 : Int) ≤ 5000 ∧
      ∃ row0, initRow 5000 = some row0 ∧ row0.length = 410 ∧
        ∀ b : Nat, b < 410 → ∃ s, row0[b]? = some s ∧
          (((b : Int) = min ((5000 : Int) / 10) 409 ∧ s.cost = F64.fin 0 ∧
              s.irrigationVolume = F64.fin 0) ∨
            ((b : Int) ≠ min ((5000 : Int) / 10) 409 ∧ s.cost = F64.pinf)) :=
  ⟨by decide, day0_row 5000 (by decide)⟩

/-- C26: the plan returned by `ComputePlan` depends on the initial moisture only
through its bin: for every configuration, every forecast sequence and all
initial readings `m, m' ≥ 0` with
`min(floor(m/10), 409) = min(floor(m'/10), 409)` the two plans are equal; the
initial index is that bin for both readings, and the value the first
transition starts from, the representative value `initMoistureIdx*moistureStep`
of the bin, is `10*min(floor(m/10), 409)` for both, not the reading itself. -/
theorem ComputePlan_depends_on_bin (cfg : PlannerConfig) (fs : List ForecastDay)
    (m m' : Int) (hm : 0 ≤ m) (hm' : 0 ≤ m')
    (hbin : min (m / 10) 409 = min (m' / 10) 409) :
    ComputePlan (NewIrrigationPlanner cfg) m fs
        = ComputePlan (NewIrrigationPlanner cfg) m' fs ∧
      initMoistureIdx m = min (m / 10) 409 ∧ initMoistureIdx m' = min (m / 10) 409 ∧
      initMoistureIdx m * moistureStep = 10 * min (m / 10) 409 ∧
      initMoistureIdx m' * moistureStep = 10 * min (m / 10) 409 := by
  have h1 := initMoistureIdx_min hm
  have h2 := initMoistureIdx_min hm'
  have heq : initMoistureIdx m = initMoistureIdx m' := by rw [h1, h2, hbin]
  refine ⟨?_, h1, by rw [← heq, h1], by rw [h1, moistureStep, mul_comm],
    by rw [← heq, h1, moistureStep, mul_comm]⟩
  exact ComputePlan_congr_init cfg m m' _ _ fs (initRow_eq hm) (initRow_eq hm')
    (initRow_key_of_idx heq)

theorem ComputePlan_depends_on_bin_witness :
    (0 : Int) ≤ 20 ∧ (0 : Int) ≤ 29 ∧ min ((20 : Int) / 10) 409 = min ((29 : Int) / 10) 409 ∧
      (ComputePlan (NewIrrigationPlanner scenarioConfig) 20 [mildDay, rainyDay]
          = ComputePlan (NewIrrigationPlanner scenarioConfig) 29 [mildDay, rainyDay] ∧
        initMoistureIdx 20 = min ((20 : Int) / 10) 409 ∧
        initMoistureIdx 29 = min ((20 : Int) / 10) 409 ∧
        initMoistureIdx 20 * moistureStep = 10 * min ((20 : Int) / 10) 409 ∧
        initMoistureIdx 29 * moistureStep = 10 * min ((20 : Int) / 10) 409) :=
  ⟨by decide, by decide, by decide,
    ComputePlan_depends_on_bin scenarioConfig _ 20 29 (by decide) (by decide) (by decide)⟩

theorem backtrace_congr_rows (pairs : List (ForecastDay × List State)) :
    ∀ (pairs' : List (ForecastDay × List State)) (idx : Int),
      pairs.map Prod.snd = pairs'.map Prod.snd →
      (backtrace pairs idx).map (List.map DailyPlan.PlannedVolumeL)
        = (backtrace pairs' idx).map (List.map DailyPlan.PlannedVolumeL) := by
  induction pairs with
  | nil =>
    intro pairs' idx h
    cases pairs' with
    | nil => rfl
    | cons p' rest' => exact absurd h (by simp)
  | cons p rest ih =>
    intro pairs' idx h
    cases pairs' with
    | nil => exact absurd h (by simp)
    | cons p' rest' =>
      obtain ⟨f, row⟩ := p
      obtain ⟨f', row'⟩ := p'
      simp only [List.map_cons, List.cons.injEq] at h
      obtain ⟨hr, hrest⟩ := h
      subst hr
      have hlen : rest.length = rest'.length := by
        simpa using congrArg List.length hrest
      rw [backtrace_cons, backtrace_cons, hlen]
      cases readCell row idx with
      | none => rfl
      | some cell =>
        simp only []
        have hi := ih rest' (if rest'.length > 0 then Int.tdiv cell.prevMoisture moistureStep
          else idx) hrest
        cases h1 : backtrace rest
            (if rest'.length > 0 then Int.tdiv cell.prevMoisture moistureStep else idx) with
        | none =>
          rw [h1] at hi
          cases h2 : backtrace rest'
              (if rest'.length > 0 then Int.tdiv cell.prevMoisture moistureStep else idx) with
          | none => rfl
          | some plan' =>
            rw [h2] at hi
            exact absurd hi (by simp)
        | some plan =>
          rw [h1] at hi
          cases h2 : backtrace rest'
              (if rest'.length > 0 then Int.tdiv cell.prevMoisture moistureStep else idx) with
          | none =>
            rw [h2] at hi
            exact absurd hi (by simp)
          | some plan' =>
            rw [h2] at hi
            simp only [Option.map_some', Option.some.injEq] at hi
            simp only [Option.map_some', List.map_append, List.map_cons, List.map_nil, hi]

theorem map_snd_zip_congr (fs : List ForecastDay) :
    ∀ (fs' : List ForecastDay) (rows : List (List State)), fs.length = fs'.length →
      (fs.zip rows).map Prod.snd = (fs'.zip rows).map Prod.snd := by
  induction fs with
  | nil =>
    intro fs' rows h
    cases fs' with
    | nil => rfl
    | cons f' fs' => exact absurd h (by simp)
  | cons f fs ih =>
    intro fs' rows h
    cases fs' with
    | nil => exact absurd h (by simp)
    | cons f' fs' =>
      cases rows with
      | nil => rfl
      | cons r rows =>
        simp only [List.zip_cons_cons, List.map_cons, List.cons.injEq, true_and]
        exact ih fs' rows (by simpa using h)

/-- C28: the planned volumes do not depend on the forecast date labels: for
every configuration and initial moisture, two forecast sequences that agree
on `TempMax`, `TempMin` and `PrecipMm` day by day (hence have equal length),
whatever their `Date` strings, yield plans with the same `PlannedVolumeL` at
every index (and `ComputePlan` fails on the one exactly when it fails on the
other). -/
theorem volumes_independent_of_dates (cfg : PlannerConfig) (m : Int)
    (fs fs' : List ForecastDay)
    (hagree : fs.map (fun f => (f.TempMax, f.TempMin, f.PrecipMm))
      = fs'.map (fun f => (f.TempMax, f.TempMin, f.PrecipMm))) :
    (ComputePlan (NewIrrigationPlanner cfg) m fs).map (List.map DailyPlan.PlannedVolumeL)
      = (ComputePlan (NewIrrigationPlanner cfg) m fs').map
          (List.map DailyPlan.PlannedVolumeL) := by
  have hlen : fs.length = fs'.length := by simpa using congrArg List.length hagree
  have hphys : fs.map (fun f => (evapotranspiration cfg f, rainMoisture cfg f))
      = fs'.map (fun f => (evapotranspiration cfg f, rainMoisture cfg f)) := by
    have hfun : (fun f => (evapotranspiration cfg f, rainMoisture cfg f))
        = (fun x : F64 × F64 × F64 =>
              (cfg.BaseET + cfg.TempFactor * ((x.1 + x.2.1) / F64.fin 2 - F64.fin 20),
              x.2.2 * cfg.RainConversion * cfg.ADCToMoisture))
            ∘ (fun f : ForecastDay => (f.TempMax, f.TempMin, f.PrecipMm)) := by
      funext f
      rfl
    rw [hfun, ← List.map_map, ← List.map_map, hagree]
  unfold ComputePlan
  rw [hlen]
  by_cases h0 : fs'.length = 0
  · rw [if_pos h0, if_pos h0]
  · rw [if_neg h0, if_neg h0]
    simp only [NewIrrigationPlanner]
    cases irrigationOptions cfg with
    | none => rfl
    | some opts =>
      cases initRow m with
      | none => rfl
      | some row0 =>
        simp only []
        rw [fillTable_congr_forecasts cfg opts fs fs' row0 hphys]
        cases hft : fillTable cfg opts row0 fs' with
        | none => rfl
        | some rows =>
          simp only []
          cases bestIdx (rows.getLastD row0) with
          | none => rfl
          | some best =>
            simp only []
            refine backtrace_congr_rows _ _ best ?_
            rw [List.map_reverse, List.map_reverse]
            congr 1
            exact map_snd_zip_congr fs fs' rows hlen

theorem volumes_independent_of_dates_witness :
    [mildDay, rainyDay].map (fun f => (f.TempMax, f.TempMin, f.PrecipMm))
      = [({ mildDay with Date := "2024-05-02" } : ForecastDay), rainyDay].map
        (fun f => (f.TempMax, f.TempMin, f.PrecipMm)) ∧
      (ComputePlan (NewIrrigationPlanner scenarioConfig) 25 [mildDay, rainyDay]).map
          (List.map DailyPlan.PlannedVolumeL)
        = (ComputePlan (NewIrrigationPlanner scenarioConfig) 25
          [{ mildDay with Date := "2024-05-02" }, rainyDay]).map
          (List.map DailyPlan.PlannedVolumeL) :=
  ⟨by decide!, volumes_independent_of_dates scenarioConfig 25 _ _ (by decide!)⟩

end Planner

namespace Planner

theorem ext_le_of_lt_false {a b : F64} (hb : b ≠ F64.nan) (h : F64.lt a b = false) :
    F64.ext b ≤ F64.ext a := by
  rw [← not_lt, ← F64.lt_iff_ext hb]
  simp [h]

theorem ext_lt_top_iff {a : F64} : F64.ext a < ⊤ ↔ a ≠ F64.nan ∧ a ≠ F64.pinf := by
  cases a <;> simp [F64.ext]

theorem ext_eq_top_iff {a : F64} : F64.ext a = ⊤ ↔ a = F64.nan ∨ a = F64.pinf := by
  cases a <;> simp [F64.ext]

theorem readCell_natCast (row : List State) (b : Nat) : readCell row (b : Int) = row[b]? := by
  unfold readCell
  rw [if_pos (Int.natCast_nonneg b), Int.toNat_natCast]

theorem relaxPure_getElem?_eq (next : List State) (c : Int × State) (b : Nat) (s0 : State)
    (h0 : next[b]? = some s0) :
    (relaxPure next c)[b]?
      = some (if c.1 = (b : Int) ∧ F64.lt c.2.cost s0.cost = true then c.2 else s0) := by
  unfold relaxPure
  by_cases hcb : c.1 = (b : Int)
  · rw [hcb, readCell_natCast, h0]
    simp only [true_and, Int.toNat_natCast]
    by_cases hlt : F64.lt c.2.cost s0.cost = true
    · rw [if_pos hlt, if_pos hlt]
      have hlen : b < next.length := by
        rcases List.getElem?_eq_some_iff.mp h0 with ⟨hl, -⟩
        exact hl
      exact List.getElem?_set_self hlen
    · rw [if_neg hlt, if_neg hlt]
      exact h0
  · rw [if_neg (fun h => hcb h.1)]
    cases hc : readCell next c.1 with
    | none => exact h0
    | some cell =>
      simp only
      have hnn : 0 ≤ c.1 := by
        unfold readCell at hc
        by_contra hneg
        rw [if_neg hneg] at hc
        exact absurd hc (by simp)
      have hne : c.1.toNat ≠ b := by
        intro h
        apply hcb
        omega
      split_ifs
      · rw [List.getElem?_set_ne hne]
        exact h0
      · exact h0

theorem foldl_relaxPure_char (cs : List (Int × State)) :
    ∀ (next : List State) (b : Nat) (s0 : State), next[b]? = some s0 → s0.cost ≠ F64.nan →
      ∃ r, (cs.foldl relaxPure next)[b]? = some r ∧ r.cost ≠ F64.nan ∧
        ((r = s0 ∧ ∀ c ∈ cs, c.1 = (b : Int) → F64.ext s0.cost ≤ F64.ext c.2.cost) ∨
          ∃ c, FirstMinInto cs (b : Int) c ∧ r = c.2 ∧
            F64.ext c.2.cost < F64.ext s0.cost) := by
  induction cs with
  | nil =>
    intro next b s0 h0 hnan
    exact ⟨s0, h0, hnan, Or.inl ⟨rfl, fun c hc => absurd hc (List.not_mem_nil c)⟩⟩
  | cons d cs ih =>
    intro next b s0 h0 hnan
    rw [List.foldl_cons]
    have h1 := relaxPure_getElem?_eq next d b s0 h0
    by_cases hd : d.1 = (b : Int) ∧ F64.lt d.2.cost s0.cost = true
    · rw [if_pos hd] at h1
      have hdlt := (F64.lt_iff_ext hnan).mp hd.2
      have hdnan := lt_ne_nan_left hd.2
      obtain ⟨r, hr, hrnan, hcase⟩ := ih _ b d.2 h1 hdnan
      refine ⟨r, hr, hrnan, Or.inr ?_⟩
      rcases hcase with ⟨hrd, hall⟩ | ⟨c, ⟨pre, post, hsplit, hcb, hpre, hpost⟩, hrc, hclt⟩
      · refine ⟨d, ⟨[], cs, rfl, hd.1, fun e he => absurd he (List.not_mem_nil e), hall⟩,
          hrd, hdlt⟩
      · refine ⟨c, ⟨d :: pre, post, by rw [hsplit]; rfl, hcb, ?_, hpost⟩, hrc,
          lt_trans hclt hdlt⟩
        intro e he heb
        rcases List.mem_cons.mp he with h | h
        · rw [h]; exact hclt
        · exact hpre e h heb
    · rw [if_neg hd] at h1
      have hdge : d.1 = (b : Int) → F64.ext s0.cost ≤ F64.ext d.2.cost := by
        intro hdb
        have : F64.lt d.2.cost s0.cost = false := by
          by_contra hne
          exact hd ⟨hdb, by simpa using hne⟩
        exact ext_le_of_lt_false hnan this
      obtain ⟨r, hr, hrnan, hcase⟩ := ih _ b s0 h1 hnan
      refine ⟨r, hr, hrnan, ?_⟩
      rcases hcase with ⟨hrs, hall⟩ | ⟨c, ⟨pre, post, hsplit, hcb, hpre, hpost⟩, hrc, hclt⟩
      · left
        refine ⟨hrs, ?_⟩
        intro e he heb
        rcases List.mem_cons.mp he with h | h
        · rw [h]; exact hdge (h ▸ heb)
        · exact hall e h heb
      · right
        refine ⟨c, ⟨d :: pre, post, by rw [hsplit]; rfl, hcb, ?_, hpost⟩, hrc, hclt⟩
        intro e he heb
        rcases List.mem_cons.mp he with h | h
        · rw [h]; exact lt_of_lt_of_le hclt (hdge (h ▸ heb))
        · exact hpre e h heb

theorem firstMinInto_mem {cs : List (Int × State)} {b : Int} {c : Int × State}
    (h : FirstMinInto cs b c) : c ∈ cs ∧ c.1 = b := by
  obtain ⟨pre, post, hsplit, hcb, -, -⟩ := h
  rw [hsplit]
  exact ⟨List.mem_append_right _ (List.mem_cons_self _ _), hcb⟩

theorem firstMinInto_le {cs : List (Int × State)} {b : Int} {c : Int × State}
    (h : FirstMinInto cs b c) (d : Int × State) (hd : d ∈ cs) (hdb : d.1 = b) :
    F64.ext c.2.cost ≤ F64.ext d.2.cost := by
  obtain ⟨pre, post, hsplit, -, hpre, hpost⟩ := h
  rw [hsplit] at hd
  rcases List.mem_append.mp hd with h | h
  · exact le_of_lt (hpre d h hdb)
  · rcases List.mem_cons.mp h with h' | h'
    · rw [h']
    · exact hpost d h' hdb

/-- The cells of the row computed by one day of the fill. -/
theorem stepDay_char (cfg : PlannerConfig) (opts : List F64) (cur next : List State)
    (f : ForecastDay) (hcur : cur.length = 410) (hstep : stepDay cfg opts cur f = some next) :
    ∀ b : Nat, b < 410 → ∃ s, next[b]? = some s ∧
      ((s = infState ∧ ∀ c ∈ dayCandidates cfg opts cur f, c.1 = (b : Int) →
          F64.ext c.2.cost = ⊤) ∨
        ∃ c, FirstMinInto (dayCandidates cfg opts cur f) (b : Int) c ∧ s = c.2 ∧
          F64.ext c.2.cost < ⊤) := by
  obtain ⟨-, hn⟩ := (stepDay_some_iff cfg opts cur f next hcur).mp hstep
  intro b hb
  obtain ⟨r, hr, -, hcase⟩ := foldl_relaxPure_char (dayCandidates cfg opts cur f)
    emptyRow b infState (emptyRow_getElem? b hb) (by simp [infState])
  rw [hn]
  refine ⟨r, hr, ?_⟩
  rcases hcase with ⟨hrs, hall⟩ | ⟨c, hfm, hrc, hlt⟩
  · left
    refine ⟨hrs, ?_⟩
    intro c hc hcb
    exact top_le_iff.mp (hall c hc hcb)
  · exact Or.inr ⟨c, hfm, hrc, hlt⟩

/-- C17 (as stated, refuted): with the deviation weight `2^1023` every
transition cost of the first day overflows to `+Inf`; the transitions from the
initial bin `2` land in bin `2`, yet cell `(1, 2)` keeps infinite cost and the
default predecessor `0`, not the predecessor `20` of those transitions. -/
theorem cell_stays_infinite_on_overflow :
    ValidConfig overflowConfig ∧ F64.IsDouble overflowConfig.CostW1 ∧
      stepDay overflowConfig [F64.fin 0, F64.fin (1 / 2), F64.fin 1]
        (emptyRow.set 2
          { cost := F64.fin 0, prevMoisture := 25, irrigationVolume := F64.fin 0 })
        mildDay = some emptyRow ∧
      candidate overflowConfig (evapotranspiration overflowConfig mildDay)
          (rainMoisture overflowConfig mildDay) 2
          { cost := F64.fin 0, prevMoisture := 25, irrigationVolume := F64.fin 0 } (F64.fin 0)
        = (2, { cost := F64.pinf, prevMoisture := 20, irrigationVolume := F64.fin 0 }) ∧
      emptyRow[2]? = some { cost := F64.pinf, prevMoisture := 0, irrigationVolume := F64.fin 0 }
    := by
  refine ⟨by decide!, by decide!, ?_, by decide!, by decide!⟩
  rw [stepDay_eval _ _ _ _ (by rw [List.length_set, emptyRow_length])]
  decide!

/-- C17 (amended): one day of the DP fill, from any row of 410 cells. The day
is processed without a run-time failure exactly when every candidate index is
inside the table. The candidates are exactly the transitions `(b', v)` from a
cell `b'` whose cost is not `+Inf` under an option `v`, each with total cost
`cost(d, b') + incrementalCost` in `float64` arithmetic. In the row computed,
cell `(d+1, b)` holds a cost at most that of every candidate landing in `b`
(in the order `F64.ext`, with `+Inf` and `NaN` at the top); it keeps infinite
cost, with its default fields, exactly when no candidate of cost below `+Inf`
lands in `b`; otherwise it holds the first candidate in iteration order
(source bins ascending, then options in order) that attains the minimum total
cost among the candidates landing in `b`, with that candidate's cost,
predecessor and irrigation volume. -/
theorem stepDay_cell_minimum (cfg : PlannerConfig) (opts : List F64) (cur : List State)
    (f : ForecastDay) (hcur : cur.length = 410) :
    ((∃ next, stepDay cfg opts cur f = some next) ↔
        ∀ c ∈ dayCandidates cfg opts cur f, 0 ≤ c.1 ∧ c.1 < 410) ∧
      (∀ next, stepDay cfg opts cur f = some next →
        ∀ b : Nat, b < 410 → ∃ s, next[b]? = some s ∧
          (s.cost = F64.pinf ↔
            ∀ c ∈ dayCandidates cfg opts cur f, c.1 = (b : Int) → F64.ext c.2.cost = ⊤) ∧
          (s.cost = F64.pinf → s = infState) ∧
          (∀ c ∈ dayCandidates cfg opts cur f, c.1 = (b : Int) →
            F64.ext s.cost ≤ F64.ext c.2.cost) ∧
          ((∃ c ∈ dayCandidates cfg opts cur f, c.1 = (b : Int) ∧ F64.ext c.2.cost < ⊤) →
            ∃ c, FirstMinInto (dayCandidates cfg opts cur f) (b : Int) c ∧ s = c.2)) ∧
      ∀ c, c ∈ dayCandidates cfg opts cur f ↔
        ∃ (i : Nat) (src : State) (v : F64), i < 410 ∧ cur[i]? = some src ∧
          F64.isPosInf src.cost = false ∧ v ∈ opts ∧
          c = (newIdx (newMoisture cfg (evapotranspiration cfg f) (rainMoisture cfg f)
                ((i : Int) * moistureStep) v),
            { cost := src.cost + stepCost cfg (newMoisture cfg (evapotranspiration cfg f)
                (rainMoisture cfg f) ((i : Int) * moistureStep) v) v src.irrigationVolume,
              prevMoisture := (i : Int) * moistureStep, irrigationVolume := v }) := by
  refine ⟨?_, ?_, mem_dayCandidates cfg opts cur f⟩
  · constructor
    · rintro ⟨next, hnext⟩
      exact ((stepDay_some_iff cfg opts cur f next hcur).mp hnext).1
    · intro h
      exact ⟨_, (stepDay_some_iff cfg opts cur f _ hcur).mpr ⟨h, rfl⟩⟩
  · intro next hnext b hb
    obtain ⟨s, hs, hcase⟩ := stepDay_char cfg opts cur next f hcur hnext b hb
    refine ⟨s, hs, ?_⟩
    rcases hcase with ⟨hinf, hnone⟩ | ⟨c, hfm, hsc, hlt⟩
    · refine ⟨?_, fun _ => hinf, ?_, ?_⟩
      · constructor
        · intro _
          exact hnone
        · intro _
          rw [hinf]
          rfl
      · intro c hc hcb
        rw [hnone c hc hcb]
        exact le_top
      · rintro ⟨c, hc, hcb, hlt⟩
        rw [hnone c hc hcb] at hlt
        exact absurd hlt (lt_irrefl _)
    · obtain ⟨hcmem, hcb⟩ := firstMinInto_mem hfm
      have hne : s.cost ≠ F64.pinf := by
        rw [hsc]
        exact (ext_lt_top_iff.mp hlt).2
      refine ⟨?_, fun h => absurd h hne, ?_, ?_⟩
      · constructor
        · intro h
          exact absurd h hne
        · intro hall
          rw [hall c hcmem hcb] at hlt
          exact absurd hlt (lt_irrefl _)
      · intro d hd hdb
        rw [hsc]
        exact firstMinInto_le hfm d hd hdb
      · intro _
        exact ⟨c, hfm, hsc⟩

theorem stepDay_cell_minimum_witness :
    (emptyRow.set 2
        { cost := F64.fin 0, prevMoisture := 25, irrigationVolume := F64.fin 0 }).length
        = 410 ∧
      ((∃ next, stepDay scenarioConfig [F64.fin 0, F64.fin (1 / 2), F64.fin 1]
          (emptyRow.set 2
            { cost := F64.fin 0, prevMoisture := 25, irrigationVolume := F64.fin 0 })
          mildDay = some next) ↔
        ∀ c ∈ dayCandidates scenarioConfig [F64.fin 0, F64.fin (1 / 2), F64.fin 1]
          (emptyRow.set 2
            { cost := F64.fin 0, prevMoisture := 25, irrigationVolume := F64.fin 0 })
          mildDay, 0 ≤ c.1 ∧ c.1 < 410) :=
  ⟨by rw [List.length_set, emptyRow_length],
    (stepDay_cell_minimum scenarioConfig [F64.fin 0, F64.fin (1 / 2), F64.fin 1] _ mildDay
      (by rw [List.length_set, emptyRow_length])).1⟩

end Planner

namespace Planner

theorem mem_candidatesOfBin {cfg : PlannerConfig} {et rain : F64} {opts : List F64}
    {cur : List State} {i : Nat} {c : Int × State}
    (hc : c ∈ candidatesOfBin cfg et rain opts cur i) :
    ∃ src v, cur[i]? = some src ∧ F64.isPosInf src.cost = false ∧ v ∈ opts ∧
      c = candidate cfg et rain i src v := by
  have : c ∈ candidates cfg et rain opts cur [i] := by
    unfold candidates
    rw [List.flatMap_singleton]
    exact hc
  obtain ⟨j, hj, src, v, h1, h2, h3, h4⟩ := mem_candidates.mp this
  rw [List.mem_singleton.mp hj] at h1 h4
  exact ⟨src, v, h1, h2, h3, h4⟩

theorem candidatesOfBin_pairwise (cfg : PlannerConfig) (et rain : F64) (opts : List F64)
    (cur : List State) (i : Nat) (hopts : opts.Pairwise (fun a b => F64.lt a b = true)) :
    (candidatesOfBin cfg et rain opts cur i).Pairwise iterBefore := by
  unfold candidatesOfBin
  cases h1 : cur[i]? with
  | none => exact List.Pairwise.nil
  | some src =>
    simp only []
    by_cases hinf : F64.isPosInf src.cost = true
    · rw [if_pos hinf]
      exact List.Pairwise.nil
    · rw [if_neg hinf, List.pairwise_map]
      refine hopts.imp ?_
      intro a b hab
      right
      rw [candidate_prevMoisture, candidate_prevMoisture, candidate_irrigationVolume,
        candidate_irrigationVolume]
      exact ⟨rfl, hab⟩

theorem candidates_pairwise (cfg : PlannerConfig) (et rain : F64) (opts : List F64)
    (cur : List State) (n : Nat) (hopts : opts.Pairwise (fun a b => F64.lt a b = true)) :
    (candidates cfg et rain opts cur (List.range n)).Pairwise iterBefore := by
  unfold candidates
  rw [List.pairwise_flatMap]
  refine ⟨fun i _ => candidatesOfBin_pairwise cfg et rain opts cur i hopts, ?_⟩
  refine (List.pairwise_lt_range n).imp ?_
  intro i j hij x hx y hy
  obtain ⟨_, _, -, -, -, rfl⟩ := mem_candidatesOfBin hx
  obtain ⟨_, _, -, -, -, rfl⟩ := mem_candidatesOfBin hy
  left
  rw [candidate_prevMoisture, candidate_prevMoisture]
  have : (i : Int) < (j : Int) := by exact_mod_cast hij
  simp only [moistureStep]
  omega

theorem firstMinInto_least {cs : List (Int × State)} {b : Int} {c : Int × State}
    (hfm : FirstMinInto cs b c) (hpw : cs.Pairwise iterBefore) (d : Int × State)
    (hd : d ∈ cs) (hdb : d.1 = b) (hcost : F64.ext d.2.cost = F64.ext c.2.cost) :
    d = c ∨ iterBefore c d := by
  obtain ⟨pre, post, hsplit, -, hpre, -⟩ := hfm
  rw [hsplit] at hd hpw
  rcases List.mem_append.mp hd with h | h
  · have := hpre d h hdb
    rw [hcost] at this
    exact absurd this (lt_irrefl _)
  · rcases List.mem_cons.mp h with h' | h'
    · exact Or.inl h'
    · right
      obtain ⟨-, hcp, -⟩ := List.pairwise_append.mp hpw
      exact (List.pairwise_cons.mp hcp).1 d h'

theorem fillTable_two (cfg : PlannerConfig) (opts : List F64) (row0 row1 row2 : List State)
    (f1 f2 : ForecastDay) (h1 : stepDay cfg opts row0 f1 = some row1)
    (h2 : stepDay cfg opts row1 f2 = some row2) :
    fillTable cfg opts row0 [f1, f2] = some [row1, row2] := by
  rw [fillTable_cons, h1]
  simp only []
  rw [fillTable_cons, h2]
  rfl

theorem tie_options : irrigationOptions tieConfig = some [F64.fin 0, F64.fin (1 / 2)] := by
  decide!

theorem tieRow1_length : tieRow1.length = 410 := by
  unfold tieRow1
  rw [List.length_set, List.length_set, emptyRow_length]

theorem tie_step1 :
    stepDay tieConfig [F64.fin 0, F64.fin (1 / 2)]
        (emptyRow.set 0
          { cost := F64.fin 0, prevMoisture := 0, irrigationVolume := F64.fin 0 }) calmDay
      = some tieRow1 := by
  rw [stepDay_eval _ _ _ _ (by rw [List.length_set, emptyRow_length])]
  decide!

theorem tie_step2 :
    stepDay tieConfig [F64.fin 0, F64.fin (1 / 2)] tieRow1 calmDay = some tieRow2 := by
  rw [stepDay_eval _ _ _ _ tieRow1_length]
  decide!

theorem tie_candidate_from_bin0 :
    ((1 : Int),
      ({ cost := F64.fin 72, prevMoisture := 0, irrigationVolume := F64.fin (1 / 2) } : State))
      ∈ dayCandidates tieConfig [F64.fin 0, F64.fin (1 / 2)] tieRow1 calmDay :=
  (mem_dayCandidates tieConfig _ tieRow1 calmDay _).mpr
    ⟨0, { cost := F64.fin 36, prevMoisture := 0, irrigationVolume := F64.fin 0 },
      F64.fin (1 / 2), by norm_num, by decide!, rfl, by simp, by decide!⟩

theorem tie_candidate_from_bin1 :
    ((1 : Int),
      ({ cost := F64.fin 72, prevMoisture := 10, irrigationVolume := F64.fin 0 } : State))
      ∈ dayCandidates tieConfig [F64.fin 0, F64.fin (1 / 2)] tieRow1 calmDay :=
  (mem_dayCandidates tieConfig _ tieRow1 calmDay _).mpr
    ⟨1, { cost := F64.fin 36, prevMoisture := 0, irrigationVolume := F64.fin (1 / 2) },
      F64.fin 0, by norm_num, by decide!, rfl, by simp, by decide!⟩

/-- C18 (as stated, refuted): in the run of the valid configuration `tieConfig`
from initial moisture `0` over two days, two candidate transitions of the
second day land in cell `(2, 1)` with the same total cost `72`, which is the
cell's final stored cost: volume `0.5` from bin `0` and volume `0` from bin
`1`. The cell retains volume `0.5`, the larger one, because the candidate of
the lower source bin is found first. -/
theorem tie_retains_larger_volume :
    ValidConfig tieConfig ∧
      irrigationOptions tieConfig = some [F64.fin 0, F64.fin (1 / 2)] ∧
      initRow 0
        = some (emptyRow.set 0
          { cost := F64.fin 0, prevMoisture := 0, irrigationVolume := F64.fin 0 }) ∧
      fillTable tieConfig [F64.fin 0, F64.fin (1 / 2)]
          (emptyRow.set 0
            { cost := F64.fin 0, prevMoisture := 0, irrigationVolume := F64.fin 0 })
          [calmDay, calmDay]
        = some [tieRow1, tieRow2] ∧
      ((1 : Int),
        ({ cost := F64.fin 72, prevMoisture := 0, irrigationVolume := F64.fin (1 / 2) } : State))
        ∈ dayCandidates tieConfig [F64.fin 0, F64.fin (1 / 2)] tieRow1 calmDay ∧
      ((1 : Int),
        ({ cost := F64.fin 72, prevMoisture := 10, irrigationVolume := F64.fin 0 } : State))
        ∈ dayCandidates tieConfig [F64.fin 0, F64.fin (1 / 2)] tieRow1 calmDay ∧
      tieRow2[1]?
        = some { cost := F64.fin 72, prevMoisture := 0, irrigationVolume := F64.fin (1 / 2) } ∧
      ¬ (∀ s : State, tieRow2[1]? = some s → s.irrigationVolume = F64.fin 0) := by
  have hcell : tieRow2[1]?
      = some { cost := F64.fin 72, prevMoisture := 0, irrigationVolume := F64.fin (1 / 2) } :=
    by decide!
  refine ⟨by decide!, tie_options, by decide!,
    fillTable_two tieConfig _ _ tieRow1 tieRow2 _ _ tie_step1 tie_step2,
    tie_candidate_from_bin0, tie_candidate_from_bin1, hcell, ?_⟩
  intro h
  have := h _ hcell
  exact absurd this (by decide!)

/-- C18 (amended): in one day of the DP fill with strictly ascending options,
whenever a candidate transition into cell `(d+1, b)` has a total cost equal to
the cell's final stored cost, and that cost is below `+Inf`, the cell holds
the candidate that comes first in iteration order among all the candidates
into `b` attaining the least cost: the candidate is the one stored, or it
comes later in iteration order than the one stored, that is, its source bin is
higher, or its source bin is the same and its volume is larger. -/
theorem tie_keeps_first (cfg : PlannerConfig) (opts : List F64) (cur next : List State)
    (f : ForecastDay) (hcur : cur.length = 410)
    (hopts : opts.Pairwise (fun a b => F64.lt a b = true))
    (hstep : stepDay cfg opts cur f = some next) (b : Nat) (hb : b < 410) (s : State)
    (hs : next[b]? = some s) (hfin : s.cost ≠ F64.pinf) (c : Int × State)
    (hc : c ∈ dayCandidates cfg opts cur f) (hcb : c.1 = (b : Int))
    (htie : c.2.cost = s.cost) :
    (∃ e, FirstMinInto (dayCandidates cfg opts cur f) (b : Int) e ∧ s = e.2) ∧
      s.prevMoisture ≤ c.2.prevMoisture ∧
      (c.2 = s ∨ s.prevMoisture < c.2.prevMoisture ∨
        (s.prevMoisture = c.2.prevMoisture ∧
          F64.lt s.irrigationVolume c.2.irrigationVolume = true)) := by
  obtain ⟨s', hs', hcase⟩ := stepDay_char cfg opts cur next f hcur hstep b hb
  rw [hs] at hs'
  have hss : s' = s := (Option.some.inj hs').symm
  subst hss
  rcases hcase with ⟨hinf, -⟩ | ⟨e, hfm, hse, -⟩
  · exact absurd (by rw [hinf]; rfl) hfin
  · have hpw : (dayCandidates cfg opts cur f).Pairwise iterBefore :=
      candidates_pairwise cfg _ _ opts cur 410 hopts
    refine ⟨⟨e, hfm, hse⟩, ?_⟩
    rcases firstMinInto_least hfm hpw c hc hcb (by rw [htie, hse]) with h | h
    · rw [h, ← hse]
      exact ⟨le_refl _, Or.inl rfl⟩
    · rw [hse]
      refine ⟨?_, Or.inr h⟩
      rcases h with h1 | ⟨h1, -⟩
      · exact le_of_lt h1
      · exact le_of_eq h1

theorem tie_keeps_first_witness :
    tieRow1.length = 410 ∧
      [F64.fin 0, F64.fin (1 / 2)].Pairwise (fun a b => F64.lt a b = true) ∧
      stepDay tieConfig [F64.fin 0, F64.fin (1 / 2)] tieRow1 calmDay = some tieRow2 ∧
      (1 : Nat) < 410 ∧
      tieRow2[1]?
        = some { cost := F64.fin 72, prevMoisture := 0, irrigationVolume := F64.fin (1 / 2) } ∧
      ((1 : Int),
        ({ cost := F64.fin 72, prevMoisture := 10, irrigationVolume := F64.fin 0 } : State))
        ∈ dayCandidates tieConfig [F64.fin 0, F64.fin (1 / 2)] tieRow1 calmDay ∧
      (0 : Int) ≤ 10 :=
  ⟨tieRow1_length, by decide!, tie_step2, by norm_num, by decide!, tie_candidate_from_bin1,
    (tie_keeps_first tieConfig _ tieRow1 tieRow2 calmDay tieRow1_length (by decide!) tie_step2
      1 (by norm_num)
      { cost := F64.fin 72, prevMoisture := 0, irrigationVolume := F64.fin (1 / 2) }
      (by decide!) (by decide) _ tie_candidate_from_bin1 rfl rfl).2.1⟩

end Planner

namespace Planner

theorem selectBest_first (row : List State) (idxs : List Nat) (acc : F64 × Int)
    (hsorted : idxs.Pairwise (· < ·)) (hidx : ∀ i ∈ idxs, i < row.length)
    (hacc : acc.1 ≠ F64.nan) :
    ∃ r, selectBest row idxs acc = some r ∧ r.1 ≠ F64.nan ∧
      F64.ext r.1 ≤ F64.ext acc.1 ∧
      (∀ i ∈ idxs, ∀ s, row[i]? = some s → F64.ext r.1 ≤ F64.ext s.cost) ∧
      ((r = acc ∧ ∀ j ∈ idxs, ∀ s, row[j]? = some s → F64.ext acc.1 ≤ F64.ext s.cost) ∨
        ∃ i ∈ idxs, ∃ s, row[i]? = some s ∧ r = (s.cost, (i : Int)) ∧
          F64.ext s.cost < F64.ext acc.1 ∧
          ∀ j ∈ idxs, j < i → ∀ sj, row[j]? = some sj →
            F64.ext s.cost < F64.ext sj.cost) := by
  induction idxs generalizing acc with
  | nil =>
    exact ⟨acc, rfl, hacc, le_refl _, fun i hi => absurd hi (List.not_mem_nil i),
      Or.inl ⟨rfl, fun j hj => absurd hj (List.not_mem_nil j)⟩⟩
  | cons i is ih =>
    have hi : i < row.length := hidx i (List.mem_cons_self _ _)
    have his : ∀ j ∈ is, j < row.length := fun j hj => hidx j (List.mem_cons_of_mem _ hj)
    have hget : row[i]? = some row[i] := List.getElem?_eq_getElem hi
    obtain ⟨hhead, htail⟩ := List.pairwise_cons.mp hsorted
    rw [selectBest_cons, hget]
    simp only
    by_cases hlt : F64.lt row[i].cost acc.1 = true
    · rw [if_pos hlt]
      have hlt' := (F64.lt_iff_ext hacc).mp hlt
      obtain ⟨r, hr, hrnan, hle, hall, hcase⟩ :=
        ih (row[i].cost, (i : Int)) htail his (lt_ne_nan_left hlt)
      refine ⟨r, hr, hrnan, le_trans hle (le_of_lt hlt'), ?_, Or.inr ?_⟩
      · intro j hj s hs
        rcases List.mem_cons.mp hj with h | h
        · subst h
          rw [hget] at hs
          rw [← Option.some.inj hs]
          exact hle
        · exact hall j h s hs
      · rcases hcase with ⟨hracc, -⟩ | ⟨k, hk, s, hs, hrs, hslt, hfirst⟩
        · refine ⟨i, List.mem_cons_self _ _, row[i], hget, hracc, hlt', ?_⟩
          intro j hj hji
          rcases List.mem_cons.mp hj with h | h
          · omega
          · have := hhead j h
            omega
        · refine ⟨k, List.mem_cons_of_mem _ hk, s, hs, hrs, lt_trans hslt hlt', ?_⟩
          intro j hj hjk sj hsj
          rcases List.mem_cons.mp hj with h | h
          · subst h
            rw [hget] at hsj
            rw [← Option.some.inj hsj]
            exact hslt
          · exact hfirst j h hjk sj hsj
    · rw [if_neg hlt]
      have hge := ext_le_of_lt_false hacc (by simpa using hlt)
      obtain ⟨r, hr, hrnan, hle, hall, hcase⟩ := ih acc htail his hacc
      refine ⟨r, hr, hrnan, hle, ?_, ?_⟩
      · intro j hj s hs
        rcases List.mem_cons.mp hj with h | h
        · subst h
          rw [hget] at hs
          rw [← Option.some.inj hs]
          exact le_trans hle hge
        · exact hall j h s hs
      · rcases hcase with ⟨hracc, hall'⟩ | ⟨k, hk, s, hs, hrs, hslt, hfirst⟩
        · left
          refine ⟨hracc, ?_⟩
          intro j hj sj hsj
          rcases List.mem_cons.mp hj with h | h
          · subst h
            rw [hget] at hsj
            rw [← Option.some.inj hsj]
            exact hge
          · exact hall' j h sj hsj
        · right
          refine ⟨k, List.mem_cons_of_mem _ hk, s, hs, hrs, hslt, ?_⟩
          intro j hj hjk sj hsj
          rcases List.mem_cons.mp hj with h | h
          · subst h
            rw [hget] at hsj
            rw [← Option.some.inj hsj]
            exact lt_of_lt_of_le hslt hge
          · exact hfirst j h hjk sj hsj

/-- The terminal selection picks the first cell of least cost; when no cell is
below `+Inf` it stays at bin `0`. -/
theorem bestIdx_first (row : List State) (hrow : row.length = 410) :
    ∃ (k : Nat) (sk : State), bestIdx row = some (k : Int) ∧ k < 410 ∧ row[k]? = some sk ∧
      (∀ (j : Nat) (sj : State), j < 410 → row[j]? = some sj →
        F64.ext sk.cost ≤ F64.ext sj.cost) ∧
      (∀ (j : Nat) (sj : State), j < k → row[j]? = some sj →
        F64.ext sk.cost < F64.ext sj.cost) ∧
      (F64.ext sk.cost = ⊤ → k = 0) := by
  obtain ⟨r, hr, -, -, hmin, hcase⟩ := selectBest_first row (List.range 410) (F64.pinf, 0)
    (List.pairwise_lt_range 410) (fun i hi => by rw [hrow]; exact List.mem_range.mp hi)
    (by simp)
  have hbest : bestIdx row = some r.2 := by
    unfold bestIdx
    rw [moistureStates_toNat, hr]
    rfl
  rcases hcase with ⟨hracc, hall⟩ | ⟨k, hk, s, hs, hrs, hslt, hfirst⟩
  · have h0 : row[0]? = some row[0] := List.getElem?_eq_getElem (by rw [hrow]; norm_num)
    refine ⟨0, row[0], ?_, by norm_num, h0, ?_, ?_, fun _ => rfl⟩
    · rw [hbest, hracc]
      rfl
    · intro j sj hj hsj
      have h1 := hall 0 (List.mem_range.mpr (by norm_num)) row[0] h0
      have h2 : F64.ext row[0].cost = ⊤ := top_le_iff.mp h1
      have h3 := hall j (List.mem_range.mpr hj) sj hsj
      have h4 : F64.ext sj.cost = ⊤ := top_le_iff.mp h3
      rw [h2, h4]
    · intro j sj hj _
      omega
  · refine ⟨k, s, ?_, List.mem_range.mp hk, hs, ?_, ?_, ?_⟩
    · rw [hbest, hrs]
    · intro j sj hj hsj
      have := hmin j (List.mem_range.mpr hj) sj hsj
      rw [hrs] at this
      exact this
    · intro j sj hj hsj
      exact hfirst j (List.mem_range.mpr (lt_trans hj (List.mem_range.mp hk))) hj sj hsj
    · intro htop
      rw [htop] at hslt
      exact absurd hslt (not_lt.mpr le_top)

/-- C19: the terminal bin selected by `ComputePlan` in the last row (any row of
410 cells) is the lowest bin index among the bins whose cost equals the
minimum cost over all 410 bins: its cost is at most every cell cost and
strictly below the cost of every bin of lower index, in the order `F64.ext` of
the `float64` costs (`+Inf`, and `NaN`, which is never below anything, at the
top). -/
theorem bestIdx_lowest_minimum (row : List State) (hrow : row.length = 410) :
    ∃ (k : Nat) (sk : State), bestIdx row = some (k : Int) ∧ k < 410 ∧ row[k]? = some sk ∧
      (∀ (j : Nat) (sj : State), j < 410 → row[j]? = some sj →
        F64.ext sk.cost ≤ F64.ext sj.cost) ∧
      (∀ (j : Nat) (sj : State), j < 410 → row[j]? = some sj →
        F64.ext sj.cost = F64.ext sk.cost → k ≤ j) := by
  obtain ⟨k, sk, h1, h2, h3, h4, h5, -⟩ := bestIdx_first row hrow
  refine ⟨k, sk, h1, h2, h3, h4, ?_⟩
  intro j sj _ hsj heq
  by_contra hlt
  have := h5 j sj (by omega) hsj
  rw [heq] at this
  exact lt_irrefl _ this

theorem bestIdx_lowest_minimum_witness :
    (emptyRow.set 7
        { cost := F64.fin 3, prevMoisture := 0, irrigationVolume := F64.fin 0 }).length
        = 410 ∧
      ∃ (k : Nat) (sk : State),
        bestIdx (emptyRow.set 7
            { cost := F64.fin 3, prevMoisture := 0, irrigationVolume := F64.fin 0 })
          = some (k : Int) ∧ k < 410 ∧
        (emptyRow.set 7
            { cost := F64.fin 3, prevMoisture := 0, irrigationVolume := F64.fin 0 })[k]?
          = some sk ∧
        (∀ (j : Nat) (sj : State), j < 410 →
          (emptyRow.set 7
              { cost := F64.fin 3, prevMoisture := 0, irrigationVolume := F64.fin 0 })[j]?
            = some sj → F64.ext sk.cost ≤ F64.ext sj.cost) ∧
        (∀ (j : Nat) (sj : State), j < 410 →
          (emptyRow.set 7
              { cost := F64.fin 3, prevMoisture := 0, irrigationVolume := F64.fin 0 })[j]?
            = some sj → F64.ext sj.cost = F64.ext sk.cost → k ≤ j) :=
  ⟨by rw [List.length_set, emptyRow_length],
    bestIdx_lowest_minimum _ (by rw [List.length_set, emptyRow_length])⟩

end Planner

namespace Planner

theorem topRow_append_singleton (cur next : List State) (f : ForecastDay)
    (l : List (ForecastDay × List State)) :
    topRow cur (l ++ [(f, next)]) = topRow next l := by
  cases l with
  | nil => rfl
  | cons p l => rfl

theorem chainRev_append_singleton (cfg : PlannerConfig) (opts : List F64)
    (cur next : List State) (f : ForecastDay) (l : List (ForecastDay × List State))
    (hstep : stepDay cfg opts cur f = some next) (hchain : ChainRev cfg opts next l) :
    ChainRev cfg opts cur (l ++ [(f, next)]) := by
  induction l with
  | nil => exact ⟨hstep, trivial⟩
  | cons p l ih =>
    obtain ⟨h1, h2⟩ := hchain
    show stepDay cfg opts (topRow cur (l ++ [(f, next)])) p.1 = some p.2 ∧
      ChainRev cfg opts cur (l ++ [(f, next)])
    rw [topRow_append_singleton]
    exact ⟨h1, ih h2⟩

theorem fillTable_chain (cfg : PlannerConfig) (opts : List F64) (fs : List ForecastDay) :
    ∀ (cur : List State) (rows : List (List State)), cur.length = 410 →
      fillTable cfg opts cur fs = some rows →
      rows.length = fs.length ∧ (∀ r ∈ rows, r.length = 410) ∧
        ChainRev cfg opts cur (fs.zip rows).reverse ∧
        topRow cur (fs.zip rows).reverse = rows.getLastD cur := by
  induction fs with
  | nil =>
    intro cur rows _ hrows
    have : rows = [] := (Option.some.inj hrows).symm
    subst this
    exact ⟨rfl, fun r hr => absurd hr (List.not_mem_nil r), trivial, rfl⟩
  | cons f fs ih =>
    intro cur rows hcur hrows
    obtain ⟨next, rows', hstep, hfill, rfl⟩ := fillTable_cons_some cfg opts cur f fs rows hrows
    have hnext := stepDay_length cfg opts cur next f hcur hstep
    obtain ⟨h1, h2, h3, h4⟩ := ih next rows' hnext hfill
    refine ⟨by simp [h1], ?_, ?_, ?_⟩
    · intro r hr
      rcases List.mem_cons.mp hr with h | h
      · rw [h]; exact hnext
      · exact h2 r h
    · rw [List.zip_cons_cons, List.reverse_cons]
      exact chainRev_append_singleton cfg opts cur next f _ hstep h3
    · rw [List.zip_cons_cons, List.reverse_cons, topRow_append_singleton, List.getLastD_cons]
      exact h4

theorem topRow_length (cur : List State) (pairs : List (ForecastDay × List State))
    (hcur : cur.length = 410) (hlen : ∀ p ∈ pairs, p.2.length = 410) :
    (topRow cur pairs).length = 410 := by
  cases pairs with
  | nil => exact hcur
  | cons p rest => exact hlen p (List.mem_cons_self _ _)

theorem endBin_cons (cfg : PlannerConfig) (b : Nat) (f : ForecastDay)
    (fs : List ForecastDay) (v : F64) (vs : List F64) :
    endBin cfg b (f :: fs) (v :: vs) = endBin cfg (nextBin cfg f b v) fs vs := rfl

theorem endBin_nil (cfg : PlannerConfig) (b : Nat) (vs : List F64) :
    endBin cfg b [] vs = b := rfl

theorem pathCost_cons (cfg : PlannerConfig) (b : Nat) (acc prev : F64) (f : ForecastDay)
    (fs : List ForecastDay) (v : F64) (vs : List F64) :
    pathCost cfg b acc prev (f :: fs) (v :: vs)
      = pathCost cfg (nextBin cfg f b v) (acc + transitionCost cfg f b v prev) v fs vs := rfl

theorem pathCost_nil (cfg : PlannerConfig) (b : Nat) (acc prev : F64) (vs : List F64) :
    pathCost cfg b acc prev [] vs = acc := rfl

theorem trajectory_cons (cfg : PlannerConfig) (b : Nat) (f : ForecastDay)
    (fs : List ForecastDay) (v : F64) (vs : List F64) :
    trajectory cfg b (f :: fs) (v :: vs)
      = nextBin cfg f b v :: trajectory cfg (nextBin cfg f b v) fs vs := rfl

theorem trajectory_nil (cfg : PlannerConfig) (b : Nat) (vs : List F64) :
    trajectory cfg b [] vs = [] := rfl

theorem backtraceBins_cons (f : ForecastDay) (row : List State)
    (rest : List (ForecastDay × List State)) (idx : Int) :
    backtraceBins ((f, row) :: rest) idx
      = match readCell row idx with
        | none => none
        | some cell =>
          match backtraceBins rest
              (if rest.length > 0 then Int.tdiv cell.prevMoisture moistureStep else idx) with
          | none => none
          | some bins => some (bins ++ [idx]) := rfl

theorem backtraceBins_nil (idx : Int) : backtraceBins [] idx = some [] := rfl

theorem endBin_snoc (cfg : PlannerConfig) (f : ForecastDay) (v : F64)
    (fs : List ForecastDay) :
    ∀ (b : Nat) (vs : List F64), vs.length = fs.length →
      endBin cfg b (fs ++ [f]) (vs ++ [v]) = nextBin cfg f (endBin cfg b fs vs) v := by
  induction fs with
  | nil =>
    intro b vs hlen
    have : vs = [] := List.length_eq_zero.mp hlen
    subst this
    rfl
  | cons g fs ih =>
    intro b vs hlen
    cases vs with
    | nil => exact absurd hlen (by simp)
    | cons u vs =>
      rw [List.cons_append, List.cons_append, endBin_cons, endBin_cons]
      exact ih _ vs (by simpa using hlen)

theorem trajectory_snoc (cfg : PlannerConfig) (f : ForecastDay) (v : F64)
    (fs : List ForecastDay) :
    ∀ (b : Nat) (vs : List F64), vs.length = fs.length →
      trajectory cfg b (fs ++ [f]) (vs ++ [v])
        = trajectory cfg b fs vs ++ [nextBin cfg f (endBin cfg b fs vs) v] := by
  induction fs with
  | nil =>
    intro b vs hlen
    have : vs = [] := List.length_eq_zero.mp hlen
    subst this
    rfl
  | cons g fs ih =>
    intro b vs hlen
    cases vs with
    | nil => exact absurd hlen (by simp)
    | cons u vs =>
      rw [List.cons_append, List.cons_append, trajectory_cons, trajectory_cons, endBin_cons,
        ih _ vs (by simpa using hlen)]
      rfl

theorem pathCost_snoc (cfg : PlannerConfig) (f : ForecastDay) (v : F64)
    (fs : List ForecastDay) :
    ∀ (b : Nat) (acc prev : F64) (vs : List F64), vs.length = fs.length →
      pathCost cfg b acc prev (fs ++ [f]) (vs ++ [v])
        = pathCost cfg b acc prev fs vs
          + transitionCost cfg f (endBin cfg b fs vs) v (vs.getLastD prev) := by
  induction fs with
  | nil =>
    intro b acc prev vs hlen
    have : vs = [] := List.length_eq_zero.mp hlen
    subst this
    rfl
  | cons g fs ih =>
    intro b acc prev vs hlen
    cases vs with
    | nil => exact absurd hlen (by simp)
    | cons u vs =>
      rw [List.cons_append, List.cons_append, pathCost_cons, pathCost_cons,
        ih _ _ u vs (by simpa using hlen), endBin_cons, List.getLastD_cons]

theorem add_eq_nan_left (b : F64) : F64.nan + b = F64.nan := by
  cases b <;> rfl

/-- A cell of cost below `+Inf` in the row computed by one day of the fill was
written by a transition from a cell of cost below `+Inf`. -/
theorem stepDay_sound (cfg : PlannerConfig) (opts : List F64) (cur next : List State)
    (f : ForecastDay) (hcur : cur.length = 410) (hstep : stepDay cfg opts cur f = some next)
    (j : Nat) (s : State) (hs : next[j]? = some s) (hc : F64.ext s.cost < ⊤) :
    ∃ (i : Nat) (src : State) (v : F64), i < 410 ∧ cur[i]? = some src ∧
      F64.ext src.cost < ⊤ ∧ v ∈ opts ∧ nextBin cfg f i v = j ∧
      s = { cost := src.cost + transitionCost cfg f i v src.irrigationVolume,
            prevMoisture := (i : Int) * moistureStep, irrigationVolume := v } := by
  have hj : j < 410 := by
    rcases List.getElem?_eq_some_iff.mp hs with ⟨hl, -⟩
    rw [stepDay_length cfg opts cur next f hcur hstep] at hl
    exact hl
  obtain ⟨s', hs', hcase⟩ := stepDay_char cfg opts cur next f hcur hstep j hj
  rw [hs] at hs'
  have hss : s' = s := (Option.some.inj hs').symm
  subst hss
  rcases hcase with ⟨hinf, -⟩ | ⟨c, hfm, hsc, -⟩
  · rw [hinf] at hc
    exact absurd hc (lt_irrefl _)
  · obtain ⟨hcmem, hcb⟩ := firstMinInto_mem hfm
    obtain ⟨i, src, v, hi, hsrc, hninf, hv, hcand⟩ :=
      (mem_dayCandidates cfg opts cur f c).mp hcmem
    have hcost : s'.cost = src.cost + transitionCost cfg f i v src.irrigationVolume := by
      rw [hsc, hcand]
      rfl
    have hsrcnan : src.cost ≠ F64.nan := by
      intro h
      rw [hcost, h, add_eq_nan_left] at hc
      exact absurd hc (lt_irrefl _)
    have hsrcinf : src.cost ≠ F64.pinf := by
      intro h
      rw [h] at hninf
      exact absurd hninf (by decide)
    refine ⟨i, src, v, hi, hsrc, ext_lt_top_iff.mpr ⟨hsrcnan, hsrcinf⟩, hv, ?_, ?_⟩
    · unfold nextBin
      have : c.1 = newIdx (newMoisture cfg (evapotranspiration cfg f) (rainMoisture cfg f)
          ((i : Int) * moistureStep) v) := by
        rw [hcand]
        rfl
      rw [← this, hcb]
      rfl
    · rw [hsc, hcand]
      rfl

/-- The backtrace from a cell of cost below `+Inf` follows a forward
trajectory of the table back to a cell of the first row, and the cost of the
cell is the cost accumulated along that trajectory. -/
theorem backtrace_sound (cfg : PlannerConfig) (opts : List F64) (cur : List State)
    (hcur : cur.length = 410) (pairs : List (ForecastDay × List State)) :
    ChainRev cfg opts cur pairs → (∀ p ∈ pairs, p.2.length = 410) →
      ∀ (e : Nat) (s : State), (topRow cur pairs)[e]? = some s → F64.ext s.cost < ⊤ →
      ∃ (plan : List DailyPlan) (bins : List Int) (b : Nat) (src : State),
        backtrace pairs (e : Int) = some plan ∧ backtraceBins pairs (e : Int) = some bins ∧
        cur[b]? = some src ∧ F64.ext src.cost < ⊤ ∧
        plan.length = pairs.length ∧
        (∀ v ∈ plan.map DailyPlan.PlannedVolumeL, v ∈ opts) ∧
        endBin cfg b (pairs.reverse.map Prod.fst) (plan.map DailyPlan.PlannedVolumeL) = e ∧
        bins = (trajectory cfg b (pairs.reverse.map Prod.fst)
          (plan.map DailyPlan.PlannedVolumeL)).map (fun (x : Nat) => (x : Int)) ∧
        s.cost = pathCost cfg b src.cost src.irrigationVolume (pairs.reverse.map Prod.fst)
              (plan.map DailyPlan.PlannedVolumeL) ∧
        (plan.map DailyPlan.PlannedVolumeL).getLastD src.irrigationVolume
          = s.irrigationVolume := by
  induction pairs with
  | nil =>
    intro _ _ e s hs hc
    exact ⟨[], [], e, s, rfl, rfl, hs, hc, rfl, fun v hv => absurd hv (List.not_mem_nil v),
      rfl, rfl, rfl, rfl⟩
  | cons p rest ih =>
    intro hchain hlen e s hs hc
    obtain ⟨f, r⟩ := p
    obtain ⟨hstep, hrest⟩ := hchain
    have hlenrest : ∀ q ∈ rest, q.2.length = 410 :=
      fun q hq => hlen q (List.mem_cons_of_mem _ hq)
    have htop := topRow_length cur rest hcur hlenrest
    obtain ⟨i, src', v, hi, hsrc', hci, hv, hnext, hseq⟩ :=
      stepDay_sound cfg opts (topRow cur rest) r f htop hstep e s hs hc
    obtain ⟨plan', bins', b, src, hbt, hbb, hsrc, hc0, hplen, hvols, hend, hbins, hcost,
      hlast⟩ := ih hrest hlenrest i src' hsrc' hci
    have hread : readCell r (e : Int) = some s := by
      rw [readCell_natCast]
      exact hs
    have hidx : rest.length > 0 →
        (if rest.length > 0 then Int.tdiv s.prevMoisture moistureStep else (e : Int))
          = (i : Int) := by
      intro hr
      rw [if_pos hr, hseq]
      simp only
      rw [Int.mul_tdiv_cancel _ (by decide)]
    have hprev : backtrace rest
        (if rest.length > 0 then Int.tdiv s.prevMoisture moistureStep else (e : Int))
          = some plan' := by
      by_cases hr : rest.length > 0
      · rw [hidx hr]
        exact hbt
      · have : rest = [] := List.length_eq_zero.mp (by omega)
        subst this
        rw [backtrace_nil] at hbt
        rw [backtrace_nil]
        exact hbt
    have hprevb : backtraceBins rest
        (if rest.length > 0 then Int.tdiv s.prevMoisture moistureStep else (e : Int))
          = some bins' := by
      by_cases hr : rest.length > 0
      · rw [hidx hr]
        exact hbb
      · have : rest = [] := List.length_eq_zero.mp (by omega)
        subst this
        rw [backtraceBins_nil] at hbb
        rw [backtraceBins_nil]
        exact hbb
    have hvs : (plan'.map DailyPlan.PlannedVolumeL).length
        = (rest.reverse.map Prod.fst).length := by simp [hplen]
    have hsv : s.irrigationVolume = v := by rw [hseq]
    refine ⟨plan' ++ [{ Date := f.Date, PlannedVolumeL := s.irrigationVolume }],
      bins' ++ [(e : Int)], b, src, ?_, ?_, hsrc, hc0, by simp [hplen], ?_, ?_, ?_, ?_, ?_⟩
    · rw [backtrace_cons, hread]
      simp only []
      rw [hprev]
    · rw [backtraceBins_cons, hread]
      simp only []
      rw [hprevb]
    · intro u hu
      rw [List.map_append, List.mem_append] at hu
      rcases hu with h | h
      · exact hvols u h
      · simp only [List.map_cons, List.map_nil, List.mem_singleton] at h
        rw [h, hsv]
        exact hv
    · rw [List.reverse_cons, List.map_append, List.map_append]
      simp only [List.map_cons, List.map_nil]
      rw [endBin_snoc cfg f _ _ b _ hvs, hend, hsv]
      exact hnext
    · rw [List.reverse_cons, List.map_append, List.map_append]
      simp only [List.map_cons, List.map_nil]
      rw [trajectory_snoc cfg f _ _ b _ hvs, hend, hsv, hnext, List.map_append, ← hbins]
      rfl
    · rw [List.reverse_cons, List.map_append, List.map_append]
      simp only [List.map_cons, List.map_nil]
      rw [pathCost_snoc cfg f _ _ b _ _ _ hvs, hend, hlast, ← hcost, hsv]
      rw [hseq]
    · rw [List.map_append]
      simp only [List.map_cons, List.map_nil]
      rw [List.getLastD_concat]

theorem initRow_only_finite (b0 : Nat) (x : State) (b : Nat) (src : State)
    (h : (emptyRow.set b0 x)[b]? = some src) (hc : F64.ext src.cost < ⊤) :
    b = b0 ∧ src = x := by
  by_cases hne : b = b0
  · refine ⟨hne, ?_⟩
    rw [hne] at h
    have hlt : b0 < (emptyRow.set b0 x).length := by
      rcases List.getElem?_eq_some_iff.mp h with ⟨hl, -⟩
      exact hl
    rw [List.length_set] at hlt
    rw [List.getElem?_set_self hlt] at h
    exact (Option.some.inj h).symm
  · exfalso
    rw [List.getElem?_set_ne (fun e => hne e.symm)] at h
    have hb : b < 410 := by
      rcases List.getElem?_eq_some_iff.mp h with ⟨hl, -⟩
      rw [emptyRow_length] at hl
      exact hl
    rw [emptyRow_getElem? b hb] at h
    rw [← Option.some.inj h] at hc
    exact absurd hc (lt_irrefl _)

theorem backtraceBins_getLast (p : ForecastDay × List State)
    (rest : List (ForecastDay × List State)) (idx : Int) (bins : List Int)
    (h : backtraceBins (p :: rest) idx = some bins) : bins.getLast? = some idx := by
  obtain ⟨f, row⟩ := p
  rw [backtraceBins_cons] at h
  cases h1 : readCell row idx with
  | none => rw [h1] at h; exact absurd h (by simp)
  | some cell =>
    rw [h1] at h
    simp only [] at h
    cases h2 : backtraceBins rest
        (if rest.length > 0 then Int.tdiv cell.prevMoisture moistureStep else idx) with
    | none => rw [h2] at h; exact absurd h (by simp)
    | some bins' =>
      rw [h2] at h
      rw [← Option.some.inj h]
      exact List.getLast?_concat _

/-- What a run that returns a plan for a non-empty forecast went through, and,
when the selected terminal cell has a cost below `+Inf`, the forward
trajectory it followed. -/
theorem ComputePlan_run (cfg : PlannerConfig) (m : Int) (hm : 0 ≤ m) (fs : List ForecastDay)
    (hfs : fs ≠ []) (plan : List DailyPlan)
    (h : ComputePlan (NewIrrigationPlanner cfg) m fs = some plan) :
    ∃ (opts : List F64) (rows : List (List State)) (best : Nat) (cell : State),
      irrigationOptions cfg = some opts ∧
      fillTable cfg opts (emptyRow.set (initMoistureIdx m).toNat
        { cost := F64.fin 0, prevMoisture := m, irrigationVolume := F64.fin 0 }) fs
          = some rows ∧
      rows.length = fs.length ∧ (∀ r ∈ rows, r.length = 410) ∧
      rows ≠ [] ∧
      bestIdx (rows.getLastD []) = some (best : Int) ∧ best < 410 ∧
      (rows.getLastD [])[best]? = some cell ∧
      (∀ (j : Nat) (sj : State), j < 410 → (rows.getLastD [])[j]? = some sj →
        F64.ext cell.cost ≤ F64.ext sj.cost) ∧
      plan.length = fs.length ∧
      (∀ v ∈ plan.map DailyPlan.PlannedVolumeL, v = F64.fin 0 ∨ v ∈ opts) ∧
      (F64.ext cell.cost < ⊤ →
        (∀ v ∈ plan.map DailyPlan.PlannedVolumeL, v ∈ opts) ∧
        backtraceBins (fs.zip rows).reverse (best : Int)
          = some ((trajectory cfg (initMoistureIdx m).toNat fs
              (plan.map DailyPlan.PlannedVolumeL)).map (fun (x : Nat) => (x : Int))) ∧
        endBin cfg (initMoistureIdx m).toNat fs (plan.map DailyPlan.PlannedVolumeL) = best ∧
        cell.cost = pathCost cfg (initMoistureIdx m).toNat (F64.fin 0) (F64.fin 0) fs
          (plan.map DailyPlan.PlannedVolumeL)) := by
  obtain ⟨opts, row0, rows, best, hopts, hrow0, hrows, hbest, hbt⟩ :=
    ComputePlan_some_inv cfg m fs plan hfs h
  have hrow0' := initRow_eq hm
  rw [hrow0'] at hrow0
  have hr0 : row0 = emptyRow.set (initMoistureIdx m).toNat
      { cost := F64.fin 0, prevMoisture := m, irrigationVolume := F64.fin 0 } :=
    (Option.some.inj hrow0).symm
  subst hr0
  have hlen0 := initRow_length hrow0'
  obtain ⟨hrl, hr410, hchain, htop⟩ := fillTable_chain cfg opts fs _ rows hlen0 hrows
  have hne : rows ≠ [] := by
    intro h0
    rw [h0] at hrl
    exact hfs (List.length_eq_zero.mp hrl.symm)
  have hlastD : ∀ d : List State, rows.getLastD d = rows.getLastD [] := by
    intro d
    cases rows with
    | nil => exact absurd rfl hne
    | cons r rs => rw [List.getLastD_cons, List.getLastD_cons]
  rw [hlastD] at hbest htop
  have hlast : (rows.getLastD []).length = 410 := by
    rw [← hlastD _]
    exact getLastD_length rows _ hlen0 hr410
  obtain ⟨k, sk, hk1, hk2, hk3, hk4, -, -⟩ := bestIdx_first _ hlast
  rw [hbest] at hk1
  have hbk : best = (k : Int) := Option.some.inj hk1
  subst hbk
  obtain ⟨hdates, hvol⟩ := ComputePlan_some_props cfg m fs plan h
  obtain ⟨opts', hopts', hvol'⟩ := hvol hfs
  rw [hopts] at hopts'
  have hoo : opts' = opts := (Option.some.inj hopts').symm
  subst hoo
  refine ⟨opts', rows, k, sk, hopts, hrows, hrl, hr410, hne, hbest, hk2, hk3, hk4,
    plan_length_of_dates hdates, ?_, ?_⟩
  · intro v hv
    obtain ⟨e, he, rfl⟩ := List.mem_map.mp hv
    exact hvol' e he
  · intro hfin
    have hpl : ∀ p ∈ (fs.zip rows).reverse, p.2.length = 410 :=
      fun p hp => hr410 p.2 (List.of_mem_zip (List.mem_reverse.mp hp)).2
    obtain ⟨plan', bins, b, src, hbt', hbb, hsrc, hc0, -, hvols, hend, hbins, hcost, -⟩ :=
      backtrace_sound cfg opts' _ hlen0 (fs.zip rows).reverse hchain hpl k sk
        (by rw [htop]; exact hk3) hfin
    rw [hbt] at hbt'
    have hpp : plan' = plan := (Option.some.inj hbt').symm
    subst hpp
    obtain ⟨hb, hsrcx⟩ := initRow_only_finite _ _ b src hsrc hc0
    have hfst : (fs.zip rows).reverse.reverse.map Prod.fst = fs := by
      rw [List.reverse_reverse]
      exact List.map_fst_zip fs rows (le_of_eq hrl.symm)
    rw [hfst, hb] at hbins hend hcost
    rw [hsrcx] at hcost
    exact ⟨hvols, by rw [hbb, hbins], hend, hcost⟩

end Planner

namespace F64

theorem round_nonneg_bounded {x B : ℚ} (hB : IsRep B) (h0 : 0 ≤ x) (hx : x ≤ B) :
    ∃ y, round x = fin y ∧ 0 ≤ y ∧ y ≤ B := by
  obtain ⟨y, hy, hb⟩ := round_bounded hB (by rw [abs_of_nonneg h0]; exact hx)
  refine ⟨y, hy, ?_, le_trans (le_abs_self y) hb⟩
  have := ext_round_nonneg h0
  rw [hy] at this
  exact ext_fin_le.mp this

theorem nonnegBy_bddBy {k : Nat} {a : F64} (h : NonnegBy k a) : BddBy k a := by
  obtain ⟨q, hq, h0, h1⟩ := h
  exact ⟨q, hq, by rw [abs_of_nonneg h0]; exact h1⟩

theorem nonnegBy_mono {j k : Nat} {a : F64} (hjk : j ≤ k) (h : NonnegBy j a) :
    NonnegBy k a := by
  obtain ⟨q, hq, h0, h1⟩ := h
  exact ⟨q, hq, h0, le_trans h1 (pow_le_pow_right₀ (by norm_num) hjk)⟩

theorem nonnegBy_zero (k : Nat) : NonnegBy k (fin 0) :=
  ⟨0, rfl, le_refl _, by positivity⟩

theorem nonnegBy_mul {j k : Nat} {a b : F64} (ha : NonnegBy j a) (hb : NonnegBy k b)
    (hm : j + k < 1024) : NonnegBy (j + k) (a * b) := by
  obtain ⟨x, rfl, hx0, hx⟩ := ha
  obtain ⟨y, rfl, hy0, hy⟩ := hb
  rw [fin_mul_fin]
  have hB : IsRep ((2 : ℚ) ^ (j + k)) := isRep_two_pow hm
  obtain ⟨z, hz, hz0, hz1⟩ := round_nonneg_bounded hB (mul_nonneg hx0 hy0)
    (by rw [pow_add]; exact mul_le_mul hx hy hy0 (by positivity))
  exact ⟨z, hz, hz0, hz1⟩

theorem nonnegBy_add {j k m : Nat} {a b : F64} (ha : NonnegBy j a) (hb : NonnegBy k b)
    (hj : j ≤ m) (hk : k ≤ m) (hm : m + 1 < 1024) : NonnegBy (m + 1) (a + b) := by
  obtain ⟨x, rfl, hx0, hx⟩ := nonnegBy_mono hj ha
  obtain ⟨y, rfl, hy0, hy⟩ := nonnegBy_mono hk hb
  rw [fin_add_fin]
  have hB : IsRep ((2 : ℚ) ^ (m + 1)) := isRep_two_pow hm
  obtain ⟨z, hz, hz0, hz1⟩ := round_nonneg_bounded hB (add_nonneg hx0 hy0)
    (by rw [pow_succ]; linarith)
  exact ⟨z, hz, hz0, hz1⟩

theorem nonnegBy_abs {k : Nat} {a : F64} (ha : BddBy k a) : NonnegBy k (abs a) := by
  obtain ⟨x, rfl, hx⟩ := ha
  exact ⟨|x|, rfl, abs_nonneg x, hx⟩

theorem nonnegBy_of_le_bounded {a : F64} (h0 : le (fin 0) a = true) (hb : Bounded a) :
    NonnegBy 20 a := by
  cases a with
  | fin q =>
    refine ⟨q, rfl, ?_, le_trans (le_abs_self q) hb⟩
    simpa [le] using h0
  | nan => exact absurd hb (by simp [Bounded])
  | pinf => exact absurd hb (by simp [Bounded])
  | ninf => exact absurd hb (by simp [Bounded])

theorem wrap64_abs_le (x : Int) : |((wrap64 x : Int) : ℚ)| ≤ (2 : ℚ) ^ (63 : Nat) := by
  have h1 : -(2 : Int) ^ (63 : Nat) ≤ wrap64 x := by
    unfold wrap64
    have := Int.emod_nonneg (x + (2 : Int) ^ (63 : Nat)) (by norm_num : (2 : Int) ^ (64 : Nat) ≠ 0)
    omega
  have h2 : wrap64 x ≤ (2 : Int) ^ (63 : Nat) := by
    unfold wrap64
    have := Int.emod_lt_of_pos (x + (2 : Int) ^ (63 : Nat))
      (by norm_num : (0 : Int) < (2 : Int) ^ (64 : Nat))
    omega
  rw [abs_le]
  constructor
  · have : ((-(2 : Int) ^ (63 : Nat) : Int) : ℚ) ≤ ((wrap64 x : Int) : ℚ) := by
      exact_mod_cast h1
    simpa using this
  · have : ((wrap64 x : Int) : ℚ) ≤ (((2 : Int) ^ (63 : Nat) : Int) : ℚ) := by
      exact_mod_cast h2
    simpa using this

theorem isRep_nat_mul_two_pow {n k : Nat} (hn : n < 2 ^ 53) (hk : k + 53 < 1024) :
    IsRep ((n : ℚ) * (2 : ℚ) ^ k) := by
  have h0 : (0 : ℚ) ≤ (n : ℚ) * (2 : ℚ) ^ k := by positivity
  refine ⟨n, (k : Int), hn, by omega, ?_, ?_⟩
  · rw [abs_of_nonneg h0, zpow_natCast]
  · rw [abs_of_nonneg h0]
    have h1 : (n : ℚ) < (2 : ℚ) ^ (53 : Nat) := by exact_mod_cast hn
    calc (n : ℚ) * (2 : ℚ) ^ k < (2 : ℚ) ^ (53 : Nat) * (2 : ℚ) ^ k :=
          mul_lt_mul_of_pos_right h1 (by positivity)
      _ = (2 : ℚ) ^ (53 + k) := by rw [pow_add]
      _ ≤ (2 : ℚ) ^ (1024 : Nat) := pow_le_pow_right₀ (by norm_num) (by omega)

end F64

namespace Planner

theorem optimalCenter_bddBy (cfg : PlannerConfig) : F64.BddBy 63 (optimalCenter cfg) := by
  unfold optimalCenter
  exact F64.div_two_bddBy (F64.ofInt_bddBy (by norm_num) (F64.wrap64_abs_le _)) (by norm_num)

/-- Under a valid configuration with bounded fields, the incremental cost of a
transition into a moisture of `[0, 4095]` between bounded nonnegative volumes is
finite, nonnegative and at most `2^150`. -/
theorem stepCost_nonnegBy (cfg : PlannerConfig) (hcfg : ValidConfig cfg)
    (hb : BoundedConfig cfg) (q : ℚ) (h0 : 0 ≤ q) (h1 : q ≤ 4095) (v prev : F64)
    (hv : F64.NonnegBy 44 v) (hp : F64.NonnegBy 44 prev) :
    F64.NonnegBy 150 (stepCost cfg (F64.fin q) v prev) := by
  obtain ⟨-, -, -, hW1, hW2, hW3⟩ := hcfg
  obtain ⟨-, -, -, -, -, bW1, bW2, bW3⟩ := hb
  have n1 := F64.nonnegBy_of_le_bounded hW1 bW1
  have n2 := F64.nonnegBy_of_le_bounded hW2 bW2
  have n3 := F64.nonnegBy_of_le_bounded hW3 bW3
  have bq : F64.BddBy 12 (F64.fin q) := by
    apply F64.bddBy_fin
    rw [abs_of_nonneg h0]
    calc q ≤ 4095 := h1
      _ ≤ (2 : ℚ) ^ (12 : Nat) := by norm_num
  have bdev := F64.sub_bddBy bq (optimalCenter_bddBy cfg) (by norm_num : 12 ≤ 63) (le_refl 63)
    (by norm_num)
  have ndev := F64.nonnegBy_abs bdev
  have nch := F64.nonnegBy_abs (F64.sub_bddBy (F64.nonnegBy_bddBy hv) (F64.nonnegBy_bddBy hp)
    (le_refl 44) (le_refl 44) (by norm_num))
  have t1 := F64.nonnegBy_mul (F64.nonnegBy_mul n1 ndev (by norm_num)) ndev (by norm_num)
  have t2 := F64.nonnegBy_mul n2 hv (by norm_num)
  have t3 := F64.nonnegBy_mul n3 nch (by norm_num)
  have s1 := F64.nonnegBy_add t1 t2 (le_refl 148) (by norm_num) (by norm_num)
  exact F64.nonnegBy_add s1 t3 (le_refl 149) (by norm_num) (by norm_num)

theorem option_nonnegBy {k : Nat} (hk : (k : Int) ≤ maxSliceLen) {v : F64}
    (hv : v ∈ (List.range k).map fun (i : Nat) => F64.fin ((i : ℚ) * (1 / 2))) :
    F64.NonnegBy 44 v := by
  obtain ⟨q, hq, hb⟩ := option_bddBy hk hv
  obtain ⟨i, -, rfl⟩ := List.mem_map.mp hv
  have : q = (i : ℚ) * (1 / 2) := by
    injection hq with h
    exact h.symm
  have h0 : (0 : ℚ) ≤ q := by
    rw [this]
    positivity
  exact ⟨q, hq, h0, by rw [abs_of_nonneg h0] at hb; exact hb⟩

/-- One day of the fill keeps the table finite and bounded. -/
theorem finRow_step (cfg : PlannerConfig) (hcfg : ValidConfig cfg) (hb : BoundedConfig cfg)
    (opts : List F64) (hopts : irrigationOptions cfg = some opts) (f : ForecastDay)
    (hf : BoundedForecast f) (D : Nat) (hD : D + 1 < 2 ^ 53) (cur next : List State)
    (hcur : FinRow D cur) (hstep : stepDay cfg opts cur f = some next) :
    FinRow (D + 1) next := by
  obtain ⟨hlen, hvol, hcost, b0, s0, hb0, hs0, hfin0⟩ := hcur
  obtain ⟨n, y, -, -, -, hopts'⟩ := irrigationOptions_of_valid_bounded cfg hcfg.2.1 hb.1
  obtain ⟨k, -, hk, hlist⟩ := irrigationOptions_inv cfg opts hopts
  have hoptv : ∀ v ∈ opts, F64.NonnegBy 44 v := by
    intro v hv
    rw [hlist] at hv
    exact option_nonnegBy hk hv
  have hzero : F64.fin 0 ∈ opts := by
    rw [hopts] at hopts'
    rw [Option.some.inj hopts']
    exact List.mem_map.mpr ⟨0, List.mem_range.mpr (Nat.succ_pos n), by norm_num⟩
  have hrok := stepDay_rowOK cfg opts cur next f hlen hstep
  have hB : F64.IsRep (((D + 1 : Nat) : ℚ) * (2 : ℚ) ^ (150 : Nat)) :=
    F64.isRep_nat_mul_two_pow hD (by norm_num)
  -- the cost of a candidate from a finite cell
  have hcand : ∀ (i : Nat) (src : State) (v : F64), i < 410 → cur[i]? = some src →
      F64.ext src.cost < ⊤ → v ∈ opts →
      ∃ c : ℚ, src.cost + transitionCost cfg f i v src.irrigationVolume = F64.fin c ∧
        0 ≤ c ∧ c ≤ ((D + 1 : Nat) : ℚ) * (2 : ℚ) ^ (150 : Nat) := by
    intro i src v hi hsrc hfin hv
    have hmem : src ∈ cur := List.mem_iff_getElem?.mpr ⟨i, hsrc⟩
    obtain ⟨c, hc, hc0, hc1⟩ := hcost src hmem hfin
    have hraw := F64.bddBy_ne_nan
      (rawMoisture_bddBy cfg hb f hf i hi v (F64.nonnegBy_bddBy (hoptv v hv)))
    obtain ⟨q, hq, hq0, hq1⟩ := clampMoisture_of_ne_nan hraw
    have hst := stepCost_nonnegBy cfg hcfg hb q hq0 hq1 v src.irrigationVolume (hoptv v hv)
      (hvol src hmem)
    obtain ⟨t, ht, ht0, ht1⟩ := hst
    unfold transitionCost
    rw [newMoisture_eq, hq, ht, hc, F64.fin_add_fin]
    obtain ⟨z, hz, hz0, hz1⟩ := F64.round_nonneg_bounded hB (add_nonneg hc0 ht0) (by
      push_cast
      linarith)
    exact ⟨z, hz, hz0, hz1⟩
  refine ⟨hrok.1, ?_, ?_, ?_⟩
  · intro s hs
    rcases (hrok.2 s hs).2.1 with h | h
    · rw [h]
      exact F64.nonnegBy_zero 44
    · exact hoptv _ h
  · intro s hs hfin
    obtain ⟨j, hj, hget⟩ := List.getElem_of_mem hs
    have hsj : next[j]? = some s := by
      rw [List.getElem?_eq_getElem hj, hget]
    obtain ⟨i, src, v, hi, hsrc, hsfin, hv, -, hseq⟩ :=
      stepDay_sound cfg opts cur next f hlen hstep j s hsj hfin
    rw [hseq]
    exact hcand i src v hi hsrc hsfin hv
  · obtain ⟨c, hc, -, -⟩ := hcand b0 s0 (F64.fin 0) hb0 hs0 hfin0 hzero
    have hninf : F64.isPosInf s0.cost = false := by
      have := (ext_lt_top_iff.mp hfin0).2
      cases h : s0.cost <;> simp [F64.isPosInf] at this ⊢
      exact this h
    have hmem : candidate cfg (evapotranspiration cfg f) (rainMoisture cfg f) b0 s0 (F64.fin 0)
        ∈ dayCandidates cfg opts cur f :=
      (mem_dayCandidates cfg opts cur f _).mpr ⟨b0, s0, F64.fin 0, hb0, hs0, hninf, hzero, rfl⟩
    have hvalid := ((stepDay_some_iff cfg opts cur f next hlen).mp hstep).1 _ hmem
    obtain ⟨hv0, hv1⟩ := hvalid
    have hbn : (candidate cfg (evapotranspiration cfg f) (rainMoisture cfg f) b0 s0
        (F64.fin 0)).1.toNat < 410 := by omega
    obtain ⟨s, hs, hcase⟩ := stepDay_char cfg opts cur next f hlen hstep _ hbn
    refine ⟨_, s, hbn, hs, ?_⟩
    rcases hcase with ⟨-, hall⟩ | ⟨e, -, hse, hlt⟩
    · exfalso
      have := hall _ hmem (by omega)
      rw [candidate_cost] at this
      have hc' : (s0.cost + stepCost cfg (newMoisture cfg (evapotranspiration cfg f)
          (rainMoisture cfg f) ((b0 : Int) * moistureStep) (F64.fin 0)) (F64.fin 0)
          s0.irrigationVolume) = F64.fin c := hc
      rw [hc'] at this
      simp [F64.ext] at this
    · rw [hse]
      exact hlt

theorem finRow_init {m : Int} (hm : 0 ≤ m) :
    FinRow 0 (emptyRow.set (initMoistureIdx m).toNat
      { cost := F64.fin 0, prevMoisture := m, irrigationVolume := F64.fin 0 }) := by
  have hb0 : (initMoistureIdx m).toNat < 410 := by
    have := initMoistureIdx_range hm
    unfold ValidIdx at this
    omega
  refine ⟨by rw [List.length_set, emptyRow_length], ?_, ?_, ?_⟩
  · intro s hs
    rcases List.mem_or_eq_of_mem_set hs with h | h
    · have : s = infState := by
        unfold emptyRow at h
        exact List.eq_of_mem_replicate h
      rw [this]
      exact F64.nonnegBy_zero 44
    · rw [h]
      exact F64.nonnegBy_zero 44
  · intro s hs hfin
    rcases List.mem_or_eq_of_mem_set hs with h | h
    · have : s = infState := by
        unfold emptyRow at h
        exact List.eq_of_mem_replicate h
      rw [this] at hfin
      exact absurd hfin (lt_irrefl _)
    · rw [h]
      exact ⟨0, rfl, le_refl _, by simp⟩
  · refine ⟨_, _, hb0, List.getElem?_set_self (by rw [emptyRow_length]; exact hb0), ?_⟩
    simp [F64.ext]

/-- Under bounded inputs every row of the table is finite and bounded. -/
theorem fillTable_finRow (cfg : PlannerConfig) (hcfg : ValidConfig cfg)
    (hb : BoundedConfig cfg) (opts : List F64) (hopts : irrigationOptions cfg = some opts)
    (fs : List ForecastDay) :
    ∀ (D : Nat) (cur : List State) (rows : List (List State)),
      (∀ f ∈ fs, BoundedForecast f) → D + fs.length < 2 ^ 53 → FinRow D cur →
      fillTable cfg opts cur fs = some rows →
      ∀ (d : Nat) (row : List State), (cur :: rows)[d]? = some row → FinRow (D + d) row := by
  induction fs with
  | nil =>
    intro D cur rows _ _ hcur hrows d row hd
    have : rows = [] := (Option.some.inj hrows).symm
    subst this
    cases d with
    | zero =>
      simp only [List.getElem?_cons_zero, Option.some.injEq] at hd
      rw [← hd]
      exact hcur
    | succ d => simp at hd
  | cons f fs ih =>
    intro D cur rows hfs hD hcur hrows d row hd
    obtain ⟨next, rows', hstep, hfill, rfl⟩ := fillTable_cons_some cfg opts cur f fs rows hrows
    cases d with
    | zero =>
      simp only [List.getElem?_cons_zero, Option.some.injEq] at hd
      rw [← hd]
      exact hcur
    | succ d =>
      rw [List.getElem?_cons_succ] at hd
      have hlen : (f :: fs).length = fs.length + 1 := rfl
      have hnext := finRow_step cfg hcfg hb opts hopts f (hfs f (List.mem_cons_self _ _)) D
        (by omega) cur next hcur hstep
      have := ih (D + 1) next rows' (fun g hg => hfs g (List.mem_cons_of_mem _ hg))
        (by omega) hnext hfill d row hd
      have he : D + (d + 1) = D + 1 + d := by omega
      rw [he]
      exact this

end Planner

namespace Planner

theorem initRow_set_length (m : Int) (x : State) :
    (emptyRow.set (initMoistureIdx m).toNat x).length = 410 := by
  rw [List.length_set, emptyRow_length]

/-- Under bounded inputs the run returns a plan and the selected terminal cell
holds a finite cost. -/
theorem ComputePlan_finite_of_bounded (cfg : PlannerConfig) (hcfg : ValidConfig cfg)
    (hb : BoundedConfig cfg) (m : Int) (hm : 0 ≤ m) (fs : List ForecastDay) (hfs : fs ≠ [])
    (hbf : ∀ f ∈ fs, BoundedForecast f) (hlen : fs.length < 2 ^ 53) :
    ∃ (plan : List DailyPlan) (opts : List F64) (rows : List (List State)) (best : Nat)
      (cell : State) (c : ℚ),
      ComputePlan (NewIrrigationPlanner cfg) m fs = some plan ∧
      irrigationOptions cfg = some opts ∧
      fillTable cfg opts (emptyRow.set (initMoistureIdx m).toNat
        { cost := F64.fin 0, prevMoisture := m, irrigationVolume := F64.fin 0 }) fs
          = some rows ∧
      bestIdx (rows.getLastD []) = some (best : Int) ∧
      (rows.getLastD [])[best]? = some cell ∧ cell.cost = F64.fin c ∧ 0 ≤ c := by
  obtain ⟨plan, hplan, -⟩ := ComputePlan_some_of_bounded cfg hcfg hb m hm fs hbf
  obtain ⟨opts, rows, best, cell, hopts, hrows, hrl, -, hne, hbest, hbl, hcell, hmin, -⟩ :=
    ComputePlan_run cfg m hm fs hfs plan hplan
  have hfr := fillTable_finRow cfg hcfg hb opts hopts fs 0 _ rows hbf (by omega)
    (finRow_init hm) hrows
  have hl : rows.getLastD (emptyRow.set (initMoistureIdx m).toNat
      { cost := F64.fin 0, prevMoisture := m, irrigationVolume := F64.fin 0 })
      = rows.getLastD [] := by
    cases rows with
    | nil => exact absurd rfl hne
    | cons r rs => rw [List.getLastD_cons, List.getLastD_cons]
  have hlastmem := List.getLastD_mem_cons rows (emptyRow.set (initMoistureIdx m).toNat
    { cost := F64.fin 0, prevMoisture := m, irrigationVolume := F64.fin 0 })
  obtain ⟨d, hd, hget⟩ := List.getElem_of_mem hlastmem
  have hfin := hfr d _ (by rw [List.getElem?_eq_getElem hd, hget])
  rw [hl] at hfin
  obtain ⟨-, -, hcost, b, s, hb410, hs, hsfin⟩ := hfin
  have hle := hmin b s hb410 hs
  have hclt : F64.ext cell.cost < ⊤ := lt_of_le_of_lt hle hsfin
  obtain ⟨c, hc, hc0, -⟩ := hcost cell (List.mem_iff_getElem?.mpr ⟨best, hcell⟩) hclt
  exact ⟨plan, opts, rows, best, cell, c, hplan, hopts, hrows, hbest, hcell, hc, hc0⟩

theorem overflow_options :
    irrigationOptions overflowConfig = some [F64.fin 0, F64.fin (1 / 2), F64.fin 1] := by
  decide!

theorem overflow_step :
    stepDay overflowConfig [F64.fin 0, F64.fin (1 / 2), F64.fin 1]
        (emptyRow.set 2
          { cost := F64.fin 0, prevMoisture := 25, irrigationVolume := F64.fin 0 })
        mildDay = some emptyRow := by
  rw [stepDay_eval _ _ _ _ (by rw [List.length_set, emptyRow_length])]
  decide!

theorem overflow_plan :
    ComputePlan (NewIrrigationPlanner overflowConfig) 25 [mildDay]
      = some [{ Date := "2024-05-01", PlannedVolumeL := F64.fin 0 }] :=
  ComputePlan_oneDay_eval overflowConfig 25 mildDay _
    (emptyRow.set 2 { cost := F64.fin 0, prevMoisture := 25, irrigationVolume := F64.fin 0 })
    emptyRow 0 infState overflow_options (by decide!)
    (by
      rw [← stepDay_eval _ _ _ _ (by rw [List.length_set, emptyRow_length])]
      exact overflow_step)
    (by decide!) (by decide!)

theorem emptyRow_cost (b : Nat) (s : State) (h : emptyRow[b]? = some s) :
    s.cost = F64.pinf := by
  have hb : b < 410 := by
    rcases List.getElem?_eq_some_iff.mp h with ⟨hl, -⟩
    rw [emptyRow_length] at hl
    exact hl
  rw [emptyRow_getElem? b hb] at h
  rw [← Option.some.inj h]
  rfl

/-- C21 (as stated, refuted): with the deviation weight `2^1023` (a valid
configuration), the initial moisture `25` and one forecast day, every
transition cost overflows to `+Inf`: row `1` of the table has no cell of finite
cost and the terminal cell selected, bin `0`, has infinite cost. -/
theorem no_finite_cell_on_overflow :
    ValidConfig overflowConfig ∧ F64.IsDouble overflowConfig.CostW1 ∧
      (0 : Int) ≤ 25 ∧ (25 : Int) ≤ 4095 ∧
      fillTable overflowConfig [F64.fin 0, F64.fin (1 / 2), F64.fin 1]
          (emptyRow.set 2
            { cost := F64.fin 0, prevMoisture := 25, irrigationVolume := F64.fin 0 })
          [mildDay] = some [emptyRow] ∧
      (∀ (b : Nat) (s : State), emptyRow[b]? = some s → s.cost = F64.pinf) ∧
      bestIdx emptyRow = some 0 := by
  refine ⟨by decide!, by decide!, by decide, by decide, ?_, emptyRow_cost, ?_⟩
  · rw [fillTable_cons, overflow_step]
    rfl
  · rw [bestIdx_eval emptyRow emptyRow_length]
    decide!

/-- C21 (amended): for every valid configuration whose floating-point fields
are finite and at most `2^20` in magnitude, initial moisture `m` in
`[0, 4095]` and forecast sequence of length `N < 2^53` whose values are finite
and at most `2^20` in magnitude, the DP table of `ComputePlan` is built without
failure, has rows for the days `0..N`, and every day `d` in `0..N` has at
least one moisture bin with finite cost; in particular the terminal bin
selected after the fill holds a finite cost, so it is a reachable state. -/
theorem every_day_reachable (cfg : PlannerConfig) (hcfg : ValidConfig cfg)
    (hb : BoundedConfig cfg) (m : Int) (hm0 : 0 ≤ m) (hm1 : m ≤ 4095)
    (fs : List ForecastDay) (hbf : ∀ f ∈ fs, BoundedForecast f) (hlen : fs.length < 2 ^ 53) :
    ∃ (opts : List F64) (row0 : List State) (rows : List (List State)),
      irrigationOptions cfg = some opts ∧ initRow m = some row0 ∧
      fillTable cfg opts row0 fs = some rows ∧ (row0 :: rows).length = fs.length + 1 ∧
      (∀ d : Nat, d ≤ fs.length → ∃ row, (row0 :: rows)[d]? = some row ∧
        ∃ (b : Nat) (s : State) (c : ℚ), b < 410 ∧ row[b]? = some s ∧ s.cost = F64.fin c) ∧
      ∃ (best : Nat) (s : State) (c : ℚ), bestIdx (rows.getLastD row0) = some (best : Int) ∧
        best < 410 ∧ (rows.getLastD row0)[best]? = some s ∧ s.cost = F64.fin c := by
  have _ := hm1
  obtain ⟨n, y, -, -, -, hopts⟩ := irrigationOptions_of_valid_bounded cfg hcfg.2.1 hb.1
  have hrow0 := initRow_eq hm0
  have hlen0 := initRow_length hrow0
  obtain ⟨rows, hrows⟩ := fillTable_some_of_bounded cfg hb _ hopts fs hbf _ hlen0
  obtain ⟨hrl, hr410, -, -⟩ := fillTable_chain cfg _ fs _ rows hlen0 hrows
  have hfr := fillTable_finRow cfg hcfg hb _ hopts fs 0 _ rows hbf (by omega)
    (finRow_init hm0) hrows
  have hcell : ∀ row D, FinRow D row →
      ∃ (b : Nat) (s : State) (c : ℚ), b < 410 ∧ row[b]? = some s ∧ s.cost = F64.fin c := by
    intro row D hrow
    obtain ⟨-, -, hcost, b, s, hb410, hs, hsfin⟩ := hrow
    obtain ⟨c, hc, -, -⟩ := hcost s (List.mem_iff_getElem?.mpr ⟨b, hs⟩) hsfin
    exact ⟨b, s, c, hb410, hs, hc⟩
  refine ⟨_, _, rows, hopts, hrow0, hrows, by rw [List.length_cons, hrl], ?_, ?_⟩
  · intro d hd
    have hd' : d < ((emptyRow.set (initMoistureIdx m).toNat
        { cost := F64.fin 0, prevMoisture := m, irrigationVolume := F64.fin 0 })
        :: rows).length := by
      rw [List.length_cons, hrl]
      omega
    refine ⟨_, List.getElem?_eq_getElem hd', ?_⟩
    exact hcell _ _ (hfr d _ (List.getElem?_eq_getElem hd'))
  · have hlastmem := List.getLastD_mem_cons rows (emptyRow.set (initMoistureIdx m).toNat
      { cost := F64.fin 0, prevMoisture := m, irrigationVolume := F64.fin 0 })
    obtain ⟨d, hd, hget⟩ := List.getElem_of_mem hlastmem
    have hfin := hfr d _ (by rw [List.getElem?_eq_getElem hd, hget])
    have hlast := hfin.1
    obtain ⟨k, sk, hbest, hk, hsk, hmin, -, -⟩ := bestIdx_first _ hlast
    obtain ⟨-, -, hcost, b, s, hb410, hs, hsfin⟩ := hfin
    have hle := hmin b s hb410 hs
    obtain ⟨c, hc, -, -⟩ := hcost sk (List.mem_iff_getElem?.mpr ⟨k, hsk⟩)
      (lt_of_le_of_lt hle hsfin)
    exact ⟨k, sk, c, hbest, hk, hsk, hc⟩

theorem every_day_reachable_witness :
    ValidConfig scenarioConfig ∧ BoundedConfig scenarioConfig ∧ (0 : Int) ≤ 25 ∧
      (25 : Int) ≤ 4095 ∧ (∀ f ∈ [mildDay, rainyDay], BoundedForecast f) ∧
      [mildDay, rainyDay].length < 2 ^ 53 ∧
      ∃ (opts : List F64) (row0 : List State) (rows : List (List State)),
        irrigationOptions scenarioConfig = some opts ∧ initRow 25 = some row0 ∧
        fillTable scenarioConfig opts row0 [mildDay, rainyDay] = some rows ∧
        (row0 :: rows).length = [mildDay, rainyDay].length + 1 ∧
        (∀ d : Nat, d ≤ [mildDay, rainyDay].length → ∃ row, (row0 :: rows)[d]? = some row ∧
          ∃ (b : Nat) (s : State) (c : ℚ), b < 410 ∧ row[b]? = some s ∧
            s.cost = F64.fin c) ∧
        ∃ (best : Nat) (s : State) (c : ℚ),
          bestIdx (rows.getLastD row0) = some (best : Int) ∧
          best < 410 ∧ (rows.getLastD row0)[best]? = some s ∧ s.cost = F64.fin c :=
  ⟨validConfig_scenario, boundedConfig_scenario, by decide, by decide, bounded_two_days,
    by norm_num,
    every_day_reachable scenarioConfig validConfig_scenario boundedConfig_scenario 25
      (by decide) (by decide) _ bounded_two_days (by norm_num)⟩

/-- C20 (as stated, refuted): with the deviation weight `2^1023` (a valid
configuration), the initial moisture `25` and one forecast day, every cell of
row `1` keeps infinite cost, the terminal bin selected is `0` and the backtrace
reads the default cell there: the plan is the volume `0` and the backtraced
bins are `[0]`, whereas the forward trajectory of that plan from the initial
bin `2` is `[2]`. -/
theorem backtrace_leaves_trajectory_on_overflow :
    ValidConfig overflowConfig ∧ F64.IsDouble overflowConfig.CostW1 ∧
      (0 : Int) ≤ 25 ∧ (25 : Int) ≤ 4095 ∧ initMoistureIdx 25 = 2 ∧
      fillTable overflowConfig [F64.fin 0, F64.fin (1 / 2), F64.fin 1]
          (emptyRow.set 2
            { cost := F64.fin 0, prevMoisture := 25, irrigationVolume := F64.fin 0 })
          [mildDay] = some [emptyRow] ∧
      bestIdx emptyRow = some 0 ∧
      ComputePlan (NewIrrigationPlanner overflowConfig) 25 [mildDay]
        = some [{ Date := "2024-05-01", PlannedVolumeL := F64.fin 0 }] ∧
      backtraceBins [(mildDay, emptyRow)] 0 = some [0] ∧
      trajectory overflowConfig 2 [mildDay] [F64.fin 0] = [2] := by
  refine ⟨by decide!, by decide!, by decide, by decide, by decide, ?_, ?_, overflow_plan,
    by decide!, by decide!⟩
  · rw [fillTable_cons, overflow_step]
    rfl
  · rw [bestIdx_eval emptyRow emptyRow_length]
    decide!

/-- C20 (amended): for every valid configuration, initial moisture `m` in
`[0, 4095]` and non-empty forecast sequence, whenever `ComputePlan` returns a
plan and the terminal cell it selected has a cost below `+Inf`, the bins
visited by the backtrace form the forward trajectory of the plan: starting at
the initial bin and applying, day by day, the volume of the returned plan
under the transition computed by the code (from the representative value of
the bin, clamped and re-binned) yields exactly the backtraced bins, and the
trajectory ends in the selected terminal bin. When the configuration and the
forecast values are finite and at most `2^20` in magnitude (and the horizon is
below `2^53` days) a plan is returned and the selected cell is finite. -/
theorem backtrace_forward_trajectory (cfg : PlannerConfig) (hcfg : ValidConfig cfg)
    (m : Int) (hm0 : 0 ≤ m) (hm1 : m ≤ 4095) (fs : List ForecastDay) (hfs : fs ≠ []) :
    (∀ plan, ComputePlan (NewIrrigationPlanner cfg) m fs = some plan →
      ∃ (opts : List F64) (rows : List (List State)) (best : Nat) (cell : State),
        irrigationOptions cfg = some opts ∧
        fillTable cfg opts (emptyRow.set (initMoistureIdx m).toNat
          { cost := F64.fin 0, prevMoisture := m, irrigationVolume := F64.fin 0 }) fs
            = some rows ∧
        bestIdx (rows.getLastD []) = some (best : Int) ∧
        (rows.getLastD [])[best]? = some cell ∧ plan.length = fs.length ∧
        (F64.ext cell.cost < ⊤ →
          backtraceBins (fs.zip rows).reverse (best : Int)
            = some ((trajectory cfg (initMoistureIdx m).toNat fs
                (plan.map DailyPlan.PlannedVolumeL)).map (fun (x : Nat) => (x : Int))) ∧
          endBin cfg (initMoistureIdx m).toNat fs (plan.map DailyPlan.PlannedVolumeL)
            = best)) ∧
      (BoundedConfig cfg → (∀ f ∈ fs, BoundedForecast f) → fs.length < 2 ^ 53 →
        ∃ (plan : List DailyPlan) (opts : List F64) (rows : List (List State)) (best : Nat)
          (cell : State) (c : ℚ),
          ComputePlan (NewIrrigationPlanner cfg) m fs = some plan ∧
          irrigationOptions cfg = some opts ∧
          fillTable cfg opts (emptyRow.set (initMoistureIdx m).toNat
            { cost := F64.fin 0, prevMoisture := m, irrigationVolume := F64.fin 0 }) fs
              = some rows ∧
          bestIdx (rows.getLastD []) = some (best : Int) ∧
          (rows.getLastD [])[best]? = some cell ∧ cell.cost = F64.fin c ∧ 0 ≤ c) := by
  have _ := hm1
  refine ⟨?_, ?_⟩
  · intro plan hplan
    obtain ⟨opts, rows, best, cell, hopts, hrows, -, -, -, hbest, -, hcell, -, hpl, -, hfin⟩ :=
      ComputePlan_run cfg m hm0 fs hfs plan hplan
    refine ⟨opts, rows, best, cell, hopts, hrows, hbest, hcell, hpl, ?_⟩
    intro hlt
    obtain ⟨-, h1, h2, -⟩ := hfin hlt
    exact ⟨h1, h2⟩
  · intro hb hbf hlen
    exact ComputePlan_finite_of_bounded cfg hcfg hb m hm0 fs hfs hbf hlen

theorem backtrace_forward_trajectory_witness :
    ValidConfig scenarioConfig ∧ (0 : Int) ≤ 25 ∧ (25 : Int) ≤ 4095 ∧
      [mildDay, rainyDay] ≠ [] ∧
      ∃ (plan : List DailyPlan) (opts : List F64) (rows : List (List State)) (best : Nat)
        (cell : State) (c : ℚ),
        ComputePlan (NewIrrigationPlanner scenarioConfig) 25 [mildDay, rainyDay]
          = some plan ∧
        irrigationOptions scenarioConfig = some opts ∧
        fillTable scenarioConfig opts (emptyRow.set (initMoistureIdx 25).toNat
          { cost := F64.fin 0, prevMoisture := 25, irrigationVolume := F64.fin 0 })
            [mildDay, rainyDay] = some rows ∧
        bestIdx (rows.getLastD []) = some (best : Int) ∧
        (rows.getLastD [])[best]? = some cell ∧ cell.cost = F64.fin c ∧ 0 ≤ c :=
  ⟨validConfig_scenario, by decide, by decide, by simp,
    (backtrace_forward_trajectory scenarioConfig validConfig_scenario 25 (by decide)
      (by decide) [mildDay, rainyDay] (by simp)).2 boundedConfig_scenario bounded_two_days
      (by norm_num)⟩

end Planner

namespace F64

theorem ext_nan : ext nan = ⊤ := rfl

theorem ext_pinf : ext pinf = ⊤ := rfl

theorem ext_fin_ne_top (x : ℚ) : ext (fin x) ≠ ⊤ := by
  unfold ext
  exact WithTop.coe_ne_top

theorem ext_ninf_ne_top : ext ninf ≠ ⊤ := by
  unfold ext
  exact WithTop.coe_ne_top

theorem ext_fin_le_ninf (x : ℚ) : ¬ ext (fin x) ≤ ext ninf := by
  unfold ext
  rw [WithTop.coe_le_coe]
  simp

/-- Addition is monotone in both arguments, as long as no `nan` arises. -/
theorem add_mono {a a' b b' : F64} (ha : ext a ≤ ext a') (hb : ext b ≤ ext b')
    (h1 : a + b ≠ nan) (h2 : a' + b' ≠ nan) : ext (a + b) ≤ ext (a' + b') := by
  cases a <;> cases a' <;> cases b <;> cases b' <;>
    first
    | exact absurd rfl h1
    | exact absurd rfl h2
    | exact le_top
    | exact ext_ninf_le _
    | exact absurd ha (ext_fin_le_ninf _)
    | exact absurd hb (ext_fin_le_ninf _)
    | exact absurd (top_le_iff.mp ha) (ext_fin_ne_top _)
    | exact absurd (top_le_iff.mp hb) (ext_fin_ne_top _)
    | exact absurd (top_le_iff.mp ha) ext_ninf_ne_top
    | exact absurd (top_le_iff.mp hb) ext_ninf_ne_top
    | exact round_mono (add_le_add (ext_fin_le.mp ha) (ext_fin_le.mp hb))

theorem neg_anti {a a' : F64} (ha : ext a ≤ ext a') (h1 : a ≠ nan) (h2 : a' ≠ nan) :
    ext (neg a') ≤ ext (neg a) := by
  cases a <;> cases a' <;>
    first
    | exact absurd rfl h1
    | exact absurd rfl h2
    | exact le_top
    | exact ext_ninf_le _
    | exact absurd ha (ext_fin_le_ninf _)
    | exact absurd (top_le_iff.mp ha) (ext_fin_ne_top _)
    | exact absurd (top_le_iff.mp ha) ext_ninf_ne_top
    | exact ext_fin_le.mpr (neg_le_neg (ext_fin_le.mp ha))

theorem add_ne_nan_left {a b : F64} (h : a + b ≠ nan) : a ≠ nan := by
  intro ha
  rw [ha] at h
  exact h (by cases b <;> rfl)

theorem add_ne_nan_right {a b : F64} (h : a + b ≠ nan) : b ≠ nan := by
  intro hb
  rw [hb] at h
  exact h (by cases a <;> rfl)

theorem neg_ne_nan {a : F64} (h : neg a ≠ nan) : a ≠ nan := by
  intro ha
  rw [ha] at h
  exact h rfl

/-- Subtraction of a fixed value is monotone in the first argument. -/
theorem sub_mono_left {a a' c : F64} (ha : ext a ≤ ext a') (h1 : a - c ≠ nan)
    (h2 : a' - c ≠ nan) : ext (a - c) ≤ ext (a' - c) :=
  add_mono ha (le_refl _) h1 h2

/-- Multiplication by a positive finite factor is monotone on the finite
nonnegative values. -/
theorem mul_mono_left {x y c : ℚ} (hxy : x ≤ y) (hc : 0 ≤ c) :
    ext (fin x * fin c) ≤ ext (fin y * fin c) := by
  rw [fin_mul_fin, fin_mul_fin]
  exact round_mono (mul_le_mul_of_nonneg_right hxy hc)

end F64

namespace Planner

theorem clampMoisture_mono {x y : F64} (hxy : F64.ext x ≤ F64.ext y) (hx : x ≠ F64.nan)
    (hy : y ≠ F64.nan) :
    ∃ p q : ℚ, clampMoisture x = F64.fin p ∧ clampMoisture y = F64.fin q ∧ 0 ≤ p ∧ p ≤ q ∧
      q ≤ 4095 := by
  unfold clampMoisture
  rw [ofInt_maxMoisture]
  cases x with
  | nan => exact absurd rfl hx
  | pinf =>
    cases y with
    | nan => exact absurd rfl hy
    | pinf => exact ⟨4095, 4095, by decide!, by decide!, by norm_num, le_refl _, le_refl _⟩
    | ninf => exact absurd (top_le_iff.mp hxy) F64.ext_ninf_ne_top
    | fin b => exact absurd (top_le_iff.mp hxy) (F64.ext_fin_ne_top _)
  | ninf =>
    obtain ⟨q, hq, h0, h1⟩ := clampMoisture_of_ne_nan hy
    unfold clampMoisture at hq
    rw [ofInt_maxMoisture] at hq
    exact ⟨0, q, by decide!, hq, le_refl _, h0, h1⟩
  | fin a =>
    cases y with
    | nan => exact absurd rfl hy
    | ninf => exact absurd hxy (F64.ext_fin_le_ninf _)
    | pinf =>
      obtain ⟨p, hp, h0, h1⟩ := clampMoisture_of_ne_nan (x := F64.fin a) (by simp)
      unfold clampMoisture at hp
      rw [ofInt_maxMoisture] at hp
      exact ⟨p, 4095, hp, by decide!, h0, h1, le_refl _⟩
    | fin b =>
      have hab : a ≤ b := F64.ext_fin_le.mp hxy
      by_cases ha0 : a < 0
      · by_cases hb0 : b < 0
        · exact ⟨0, 0, by simp [F64.lt, ha0], by simp [F64.lt, hb0], le_refl _, le_refl _,
            by norm_num⟩
        · by_cases hb1 : (4095 : ℚ) < b
          · exact ⟨0, 4095, by simp [F64.lt, ha0], by simp [F64.lt, hb0, hb1], le_refl _,
              by norm_num, le_refl _⟩
          · exact ⟨0, b, by simp [F64.lt, ha0], by simp [F64.lt, hb0, hb1], le_refl _,
              not_lt.mp hb0, not_lt.mp hb1⟩
      · have hb0 : ¬ b < 0 := by
          intro h
          exact ha0 (lt_of_le_of_lt hab h)
        by_cases ha1 : (4095 : ℚ) < a
        · have hb1 : (4095 : ℚ) < b := lt_of_lt_of_le ha1 hab
          exact ⟨4095, 4095, by simp [F64.lt, ha0, ha1], by simp [F64.lt, hb0, hb1],
            by norm_num, le_refl _, le_refl _⟩
        · by_cases hb1 : (4095 : ℚ) < b
          · exact ⟨a, 4095, by simp [F64.lt, ha0, ha1], by simp [F64.lt, hb0, hb1],
              not_lt.mp ha0, not_lt.mp ha1, le_refl _⟩
          · exact ⟨a, b, by simp [F64.lt, ha0, ha1], by simp [F64.lt, hb0, hb1],
              not_lt.mp ha0, hab, not_lt.mp hb1⟩

theorem newIdx_mono {p q : ℚ} (h0 : 0 ≤ p) (hpq : p ≤ q) (h1 : q ≤ 4095) :
    newIdx (F64.fin p) ≤ newIdx (F64.fin q) := by
  rw [(newIdx_fin h0 (le_trans hpq h1)).1, (newIdx_fin (le_trans h0 hpq) h1).1]
  exact Int.ediv_le_ediv (by norm_num) (Int.floor_mono hpq)

theorem ofInt_bin (i : Nat) (hi : i < 410) :
    F64.ofInt ((i : Int) * moistureStep) = F64.fin ((i : ℚ) * 10) := by
  rw [F64.ofInt_of_small (by simp only [moistureStep]; omega)]
  simp [moistureStep]

/-- The raw moisture of a transition is monotone in the source bin and in the
volume, for a positive finite conversion factor. -/
theorem rawMoisture_mono (cfg : PlannerConfig) (et rain : F64) (a : ℚ)
    (hadc : cfg.ADCToMoisture = F64.fin a) (ha : 0 ≤ a) {i j : Nat} (hij : i ≤ j)
    (hj : j < 410) {u v : ℚ} (huv : u ≤ v)
    (h1 : rawMoisture cfg et rain ((i : Int) * moistureStep) (F64.fin u) ≠ F64.nan)
    (h2 : rawMoisture cfg et rain ((j : Int) * moistureStep) (F64.fin v) ≠ F64.nan) :
    F64.ext (rawMoisture cfg et rain ((i : Int) * moistureStep) (F64.fin u))
      ≤ F64.ext (rawMoisture cfg et rain ((j : Int) * moistureStep) (F64.fin v)) := by
  unfold rawMoisture at h1 h2 ⊢
  rw [ofInt_bin i (by omega), hadc] at h1
  rw [ofInt_bin j hj, hadc] at h2
  rw [ofInt_bin i (by omega), ofInt_bin j hj, hadc]
  have hcm : F64.ext (F64.fin ((i : ℚ) * 10)) ≤ F64.ext (F64.fin ((j : ℚ) * 10)) := by
    apply F64.ext_fin_le.mpr
    have : (i : ℚ) ≤ (j : ℚ) := by exact_mod_cast hij
    linarith
  have hm := F64.mul_mono_left huv ha
  have n1 := F64.add_ne_nan_left h1
  have n2 := F64.add_ne_nan_left h2
  have s1 := F64.add_ne_nan_left n1
  have s2 := F64.add_ne_nan_left n2
  exact F64.add_mono (F64.add_mono (F64.sub_mono_left hcm s1 s2) hm n1 n2) (le_refl _) h1 h2

/-- The next bin of a transition is monotone in the source bin and in the
volume. -/
theorem newIdx_newMoisture_mono (cfg : PlannerConfig) (et rain : F64) (a : ℚ)
    (hadc : cfg.ADCToMoisture = F64.fin a) (ha : 0 ≤ a) {i j : Nat} (hij : i ≤ j)
    (hj : j < 410) {u v : ℚ} (huv : u ≤ v)
    (h1 : rawMoisture cfg et rain ((i : Int) * moistureStep) (F64.fin u) ≠ F64.nan)
    (h2 : rawMoisture cfg et rain ((j : Int) * moistureStep) (F64.fin v) ≠ F64.nan) :
    newIdx (newMoisture cfg et rain ((i : Int) * moistureStep) (F64.fin u))
      ≤ newIdx (newMoisture cfg et rain ((j : Int) * moistureStep) (F64.fin v)) := by
  rw [newMoisture_eq, newMoisture_eq]
  obtain ⟨p, q, hp, hq, h0, hpq, hq1⟩ :=
    clampMoisture_mono (rawMoisture_mono cfg et rain a hadc ha hij hj huv h1 h2) h1 h2
  rw [hp, hq]
  exact newIdx_mono h0 hpq hq1

end Planner

namespace Planner

/-- A two-day run, computed step by step. -/
theorem ComputePlan_twoDay_eval (cfg : PlannerConfig) (m : Int) (f1 f2 : ForecastDay)
    (opts : List F64) (row0 row1 row2 : List State) (best : Int) (cell1 cell2 : State)
    (hopts : irrigationOptions cfg = some opts) (hrow0 : initRow m = some row0)
    (hday1 : evalDay cfg (evapotranspiration cfg f1) (rainMoisture cfg f1) opts row0
      = some row1)
    (hday2 : evalDay cfg (evapotranspiration cfg f2) (rainMoisture cfg f2) opts row1
      = some row2)
    (hbest : (scanBest row2 0 (F64.pinf, 0)).2 = best)
    (hcell2 : readCell row2 best = some cell2)
    (hcell1 : readCell row1 (Int.tdiv cell2.prevMoisture moistureStep) = some cell1) :
    ComputePlan (NewIrrigationPlanner cfg) m [f1, f2]
      = some [{ Date := f1.Date, PlannedVolumeL := cell1.irrigationVolume },
          { Date := f2.Date, PlannedVolumeL := cell2.irrigationVolume }] := by
  have hlen0 := initRow_length hrow0
  have hstep1 : stepDay cfg opts row0 f1 = some row1 := by
    rw [stepDay_eval cfg opts row0 f1 hlen0]
    exact hday1
  have hlen1 := stepDay_length cfg opts row0 row1 f1 hlen0 hstep1
  have hstep2 : stepDay cfg opts row1 f2 = some row2 := by
    rw [stepDay_eval cfg opts row1 f2 hlen1]
    exact hday2
  have hlen2 := stepDay_length cfg opts row1 row2 f2 hlen1 hstep2
  have hfill := fillTable_two cfg opts row0 row1 row2 f1 f2 hstep1 hstep2
  have hb : bestIdx ([row1, row2].getLastD row0) = some best := by
    show bestIdx row2 = some best
    rw [bestIdx_eval row2 hlen2, hbest]
  rw [ComputePlan_eq_backtrace cfg m [f1, f2] opts row0 [row1, row2] best (by simp) hopts
    hrow0 hfill hb]
  show backtrace [(f2, row2), (f1, row1)] best = _
  rw [backtrace_cons, hcell2]
  simp only [List.length_singleton, gt_iff_lt, zero_lt_one, if_true]
  rw [backtrace_cons, hcell1]
  rfl

theorem smoothing_options :
    irrigationOptions smoothingConfig = some [F64.fin 0, F64.fin (1 / 2)] := by
  decide!

theorem smoothing_plan :
    ComputePlan (NewIrrigationPlanner smoothingConfig) 0 smoothingForecasts
      = some [{ Date := "2024-05-01", PlannedVolumeL := F64.fin 0 },
          { Date := "2024-05-02", PlannedVolumeL := F64.fin (1 / 2) }] :=
  ComputePlan_twoDay_eval smoothingConfig 0 _ _ [F64.fin 0, F64.fin (1 / 2)]
    (emptyRow.set 0 { cost := F64.fin 0, prevMoisture := 0, irrigationVolume := F64.fin 0 })
    (emptyRow.set 0 { cost := F64.fin 1, prevMoisture := 0, irrigationVolume := F64.fin 0 })
    (emptyRow.set 0
      { cost := F64.fin 12, prevMoisture := 0, irrigationVolume := F64.fin (1 / 2) })
    0 { cost := F64.fin 1, prevMoisture := 0, irrigationVolume := F64.fin 0 }
    { cost := F64.fin 12, prevMoisture := 0, irrigationVolume := F64.fin (1 / 2) }
    smoothing_options (by decide!) (by decide!) (by decide!) (by decide!) (by decide!)
    (by decide!)

/-- C2 (refuted, a defect of the code): with the valid configuration
`smoothingConfig` (smoothing weight `CostW3 = 4`; every value is a small dyadic
number, so `float64` arithmetic is exact here), initial moisture `0` and two
forecast days, `ComputePlan` returns the volumes `0, 0.5`, of total cost `12`,
while the option sequence `0.5, 0.5` has total cost `11`, both in exact
arithmetic and as accumulated in `float64`. -/
theorem plan_not_cost_minimizing :
    ValidConfig smoothingConfig ∧ (0 : Int) ≤ 0 ∧ (0 : Int) ≤ 4095 ∧
      smoothingForecasts ≠ [] ∧
      irrigationOptions smoothingConfig = some [F64.fin 0, F64.fin (1 / 2)] ∧
      ComputePlan (NewIrrigationPlanner smoothingConfig) 0 smoothingForecasts
        = some [{ Date := "2024-05-01", PlannedVolumeL := F64.fin 0 },
            { Date := "2024-05-02", PlannedVolumeL := F64.fin (1 / 2) }] ∧
      exactPlanCost smoothingConfig (initMoistureIdx 0).toNat 0 smoothingForecasts
        [0, 1 / 2] = 12 ∧
      exactPlanCost smoothingConfig (initMoistureIdx 0).toNat 0 smoothingForecasts
        [1 / 2, 1 / 2] = 11 ∧
      pathCost smoothingConfig (initMoistureIdx 0).toNat (F64.fin 0) (F64.fin 0)
        smoothingForecasts [F64.fin 0, F64.fin (1 / 2)] = F64.fin 12 ∧
      pathCost smoothingConfig (initMoistureIdx 0).toNat (F64.fin 0) (F64.fin 0)
        smoothingForecasts [F64.fin (1 / 2), F64.fin (1 / 2)] = F64.fin 11 := by
  refine ⟨by decide!, by decide, by decide, by decide, smoothing_options, smoothing_plan,
    by decide!, by decide!, by decide!, by decide!⟩

theorem rounding_options :
    irrigationOptions roundingConfig = some [F64.fin 0, F64.fin (1 / 2)] := by
  decide!

theorem rounding_plan :
    ComputePlan (NewIrrigationPlanner roundingConfig) 10 roundingForecasts
      = some [{ Date := "2024-05-01", PlannedVolumeL := F64.fin 0 },
          { Date := "2024-05-02", PlannedVolumeL := F64.fin 0 }] :=
  ComputePlan_twoDay_eval roundingConfig 10 _ _ [F64.fin 0, F64.fin (1 / 2)]
    (emptyRow.set 1 { cost := F64.fin 0, prevMoisture := 10, irrigationVolume := F64.fin 0 })
    (emptyRow.set 0
      { cost := F64.fin (4734409108273229 / 562949953421312), prevMoisture := 10,
        irrigationVolume := F64.fin 0 })
    (emptyRow.set 0
      { cost := F64.fin (8079739206479379 / 140737488355328), prevMoisture := 0,
        irrigationVolume := F64.fin 0 })
    0
    { cost := F64.fin (4734409108273229 / 562949953421312), prevMoisture := 10,
      irrigationVolume := F64.fin 0 }
    { cost := F64.fin (8079739206479379 / 140737488355328), prevMoisture := 0,
      irrigationVolume := F64.fin 0 }
    rounding_options (by decide!) (by decide!) (by decide!) (by decide!) (by decide!)
    (by decide!)

theorem drift_options :
    irrigationOptions driftConfig = some [F64.fin 0, F64.fin (1 / 2)] := by
  decide!

theorem drift_step1 :
    stepDay driftConfig [F64.fin 0, F64.fin (1 / 2)]
        (emptyRow.set 1
          { cost := F64.fin 0, prevMoisture := 10, irrigationVolume := F64.fin 0 })
        { Date := "2024-05-01", TempMax := F64.fin 20, TempMin := F64.fin 20,
          PrecipMm := F64.fin 1 }
      = some (emptyRow.set 0
          { cost := F64.fin (1 / 316912650057057350374175801344), prevMoisture := 10,
            irrigationVolume := F64.fin (1 / 2) }) := by
  rw [stepDay_eval _ _ _ _ (by rw [List.length_set, emptyRow_length])]
  decide!

theorem drift_step2 :
    stepDay driftConfig [F64.fin 0, F64.fin (1 / 2)]
        (emptyRow.set 0
          { cost := F64.fin (1 / 316912650057057350374175801344), prevMoisture := 10,
            irrigationVolume := F64.fin (1 / 2) })
        { Date := "2024-05-02", TempMax := F64.fin 20, TempMin := F64.fin 20,
          PrecipMm := F64.fin 1 }
      = some (emptyRow.set 0
          { cost := F64.fin 100, prevMoisture := 0, irrigationVolume := F64.fin 0 }) := by
  rw [stepDay_eval _ _ _ _ (by rw [List.length_set, emptyRow_length])]
  decide!

theorem drift_plan :
    ComputePlan (NewIrrigationPlanner driftConfig) 10 roundingForecasts
      = some [{ Date := "2024-05-01", PlannedVolumeL := F64.fin (1 / 2) },
          { Date := "2024-05-02", PlannedVolumeL := F64.fin 0 }] :=
  ComputePlan_twoDay_eval driftConfig 10 _ _ [F64.fin 0, F64.fin (1 / 2)]
    (emptyRow.set 1 { cost := F64.fin 0, prevMoisture := 10, irrigationVolume := F64.fin 0 })
    (emptyRow.set 0
      { cost := F64.fin (1 / 316912650057057350374175801344), prevMoisture := 10,
        irrigationVolume := F64.fin (1 / 2) })
    (emptyRow.set 0 { cost := F64.fin 100, prevMoisture := 0, irrigationVolume := F64.fin 0 })
    0
    { cost := F64.fin (1 / 316912650057057350374175801344), prevMoisture := 10,
      irrigationVolume := F64.fin (1 / 2) }
    { cost := F64.fin 100, prevMoisture := 0, irrigationVolume := F64.fin 0 }
    drift_options (by decide!)
    (by
      rw [← stepDay_eval _ _ _ _ (by rw [List.length_set, emptyRow_length])]
      exact drift_step1)
    (by
      rw [← stepDay_eval _ _ _ _ (by rw [List.length_set, emptyRow_length])]
      exact drift_step2)
    (by decide!) (by decide!) (by decide!)

theorem tieBreak_options :
    irrigationOptions tieBreakConfig = some [F64.fin 0, F64.fin (1 / 2), F64.fin 1] := by
  decide!

theorem tieBreak_plan :
    ComputePlan (NewIrrigationPlanner tieBreakConfig) 100 [calmDay]
      = some [{ Date := "2024-05-01", PlannedVolumeL := F64.fin (1 / 2) }] :=
  ComputePlan_oneDay_eval tieBreakConfig 100 calmDay _
    (emptyRow.set 10
      { cost := F64.fin 0, prevMoisture := 100, irrigationVolume := F64.fin 0 })
    (emptyRow.set 10
      { cost := F64.fin (8106479329266893 / 4503599627370496), prevMoisture := 100,
        irrigationVolume := F64.fin (1 / 2) })
    10
    { cost := F64.fin (8106479329266893 / 4503599627370496), prevMoisture := 100,
      irrigationVolume := F64.fin (1 / 2) }
    tieBreak_options (by decide!) (by decide!) (by decide!) (by decide!)

/-- C24 (as stated, refuted): with the valid configuration `roundingConfig`
(`CostW3 = 0`, conversion factor the `float64` nearest to `0.2`), initial
moisture `10` and two forecast days, `ComputePlan` returns the volumes `0, 0`,
whose total cost in exact arithmetic is about `57.41`, while the option
sequence `0.5, 0` has the exact total cost of about `17.41`: the returned plan
does not attain the exact brute-force optimum. -/
theorem rounding_misses_exact_optimum :
    ValidConfig roundingConfig ∧ roundingConfig.CostW3 = F64.fin 0 ∧
      F64.IsDouble roundingConfig.ADCToMoisture ∧
      (0 : Int) ≤ 10 ∧ (10 : Int) ≤ 4095 ∧ roundingForecasts ≠ [] ∧
      irrigationOptions roundingConfig = some [F64.fin 0, F64.fin (1 / 2)] ∧
      ComputePlan (NewIrrigationPlanner roundingConfig) 10 roundingForecasts
        = some [{ Date := "2024-05-01", PlannedVolumeL := F64.fin 0 },
            { Date := "2024-05-02", PlannedVolumeL := F64.fin 0 }] ∧
      exactPlanCost roundingConfig (initMoistureIdx 10).toNat 0 roundingForecasts [0, 0]
        = 74522440662121113496690544023133225 / 1298074214633706907132624082305024 ∧
      exactPlanCost roundingConfig (initMoistureIdx 10).toNat 0 roundingForecasts [1 / 2, 0]
        = 22599472076772837211385580730932265 / 1298074214633706907132624082305024 ∧
      exactPlanCost roundingConfig (initMoistureIdx 10).toNat 0 roundingForecasts [1 / 2, 0]
        < exactPlanCost roundingConfig (initMoistureIdx 10).toNat 0 roundingForecasts
            [0, 0] := by
  refine ⟨by decide!, rfl, by decide!, by decide, by decide, by decide, rounding_options,
    rounding_plan, by decide!, by decide!, by decide!⟩

/-- C25 (as stated, refuted): with the valid configuration `driftConfig`,
initial moisture `10` and two forecast days, `ComputePlan` returns the volumes
`0.5, 0` and the minimal cell of the last row holds the cost `100`; the first
transition ends at `9.999999999999998` (bin `0`) in `float64` and at `10`
(bin `1`) in exact arithmetic, and the total cost of the returned plan
evaluated forward in exact arithmetic is about `0.01`. -/
theorem reported_cost_differs_from_exact_cost :
    ValidConfig driftConfig ∧ F64.IsDouble driftConfig.ADCToMoisture ∧
      (0 : Int) ≤ 10 ∧ (10 : Int) ≤ 4095 ∧ roundingForecasts ≠ [] ∧
      ComputePlan (NewIrrigationPlanner driftConfig) 10 roundingForecasts
        = some [{ Date := "2024-05-01", PlannedVolumeL := F64.fin (1 / 2) },
            { Date := "2024-05-02", PlannedVolumeL := F64.fin 0 }] ∧
      fillTable driftConfig [F64.fin 0, F64.fin (1 / 2)]
          (emptyRow.set (initMoistureIdx 10).toNat
            { cost := F64.fin 0, prevMoisture := 10, irrigationVolume := F64.fin 0 })
          roundingForecasts
        = some [emptyRow.set 0
            { cost := F64.fin (1 / 316912650057057350374175801344), prevMoisture := 10,
              irrigationVolume := F64.fin (1 / 2) },
          emptyRow.set 0
            { cost := F64.fin 100, prevMoisture := 0, irrigationVolume := F64.fin 0 }] ∧
      bestIdx (emptyRow.set 0
          { cost := F64.fin 100, prevMoisture := 0, irrigationVolume := F64.fin 0 })
        = some 0 ∧
      (emptyRow.set 0
          { cost := F64.fin 100, prevMoisture := 0, irrigationVolume := F64.fin 0 })[0]?
        = some { cost := F64.fin 100, prevMoisture := 0, irrigationVolume := F64.fin 0 } ∧
      trajectory driftConfig (initMoistureIdx 10).toNat roundingForecasts
        [F64.fin (1 / 2), F64.fin 0] = [0, 0] ∧
      exactNextBin driftConfig
        { Date := "2024-05-01", TempMax := F64.fin 20, TempMin := F64.fin 20,
          PrecipMm := F64.fin 1 } (initMoistureIdx 10).toNat (1 / 2) = 1 ∧
      exactPlanCost driftConfig (initMoistureIdx 10).toNat 0 roundingForecasts [1 / 2, 0]
        = 12980742146337070512478121581609 / 1298074214633706907132624082305024 ∧
      exactPlanCost driftConfig (initMoistureIdx 10).toNat 0 roundingForecasts [1 / 2, 0]
        ≠ 100 := by
  refine ⟨by decide!, by decide!, by decide, by decide, by decide, drift_plan, ?_, ?_,
    by decide!, by decide!, by decide!, by decide!, by decide!⟩
  · exact fillTable_two _ _ _ _ _ _ _ drift_step1 drift_step2
  · rw [bestIdx_eval _ (by rw [List.length_set, emptyRow_length])]
    decide!

/-- C16 (as stated, refuted): with the valid configuration `tieBreakConfig`
(weights the `float64` values nearest to `0.2` and `1.1`), initial moisture
`100` and one dry forecast day, `ComputePlan` returns the volume `0.5`, while
the objective of the claim, in exact arithmetic, is strictly smaller at the
option `0` than at `0.5`: the returned volume does not minimise it. -/
theorem float_rounding_moves_minimizer :
    ValidConfig tieBreakConfig ∧ F64.IsDouble tieBreakConfig.CostW1 ∧
      F64.IsDouble tieBreakConfig.CostW2 ∧ (0 : Int) ≤ 100 ∧
      irrigationOptions tieBreakConfig = some [F64.fin 0, F64.fin (1 / 2), F64.fin 1] ∧
      ComputePlan (NewIrrigationPlanner tieBreakConfig) 100 [calmDay]
        = some [{ Date := "2024-05-01", PlannedVolumeL := F64.fin (1 / 2) }] ∧
      oneDayObjective tieBreakConfig 100 calmDay 0
        = 32425917317067573 / 18014398509481984 ∧
      oneDayObjective tieBreakConfig 100 calmDay (1 / 2)
        = 129703669268270293 / 72057594037927936 ∧
      oneDayObjective tieBreakConfig 100 calmDay 0
        < oneDayObjective tieBreakConfig 100 calmDay (1 / 2) := by
  refine ⟨by decide!, by decide!, by decide!, by decide, tieBreak_options, tieBreak_plan,
    by decide!, by decide!, by decide!⟩

end Planner

namespace F64

theorem add_fin_of_ext_top {a : F64} (h : ext a = ⊤) (t : ℚ) : ext (a + fin t) = ⊤ := by
  cases a with
  | nan => rfl
  | pinf => rfl
  | ninf => exact absurd h ext_ninf_ne_top
  | fin x => exact absurd h (ext_fin_ne_top x)

/-- A zero weight cancels the change term between bounded volumes. -/
theorem zero_mul_abs_sub {v p : F64} (hv : NonnegBy 44 v) (hp : NonnegBy 44 p) :
    fin 0 * abs (v - p) = fin 0 := by
  obtain ⟨z, hz, -⟩ := sub_bddBy (nonnegBy_bddBy hv) (nonnegBy_bddBy hp) (le_refl 44)
    (le_refl 44) (by norm_num)
  rw [hz]
  show fin 0 * fin |z| = fin 0
  rw [fin_mul_fin, zero_mul, round_zero]

end F64

namespace Planner

/-- With the smoothing weight `0` the incremental cost of a transition does not
depend on the previous volume. -/
theorem transitionCost_prev_indep (cfg : PlannerConfig) (hw3 : cfg.CostW3 = F64.fin 0)
    (f : ForecastDay) (b : Nat) (v p p' : F64) (hv : F64.NonnegBy 44 v)
    (hp : F64.NonnegBy 44 p) (hp' : F64.NonnegBy 44 p') :
    transitionCost cfg f b v p = transitionCost cfg f b v p' := by
  unfold transitionCost stepCost
  simp only []
  rw [hw3, F64.zero_mul_abs_sub hv hp, F64.zero_mul_abs_sub hv hp']

theorem options_nonnegBy (cfg : PlannerConfig) (opts : List F64)
    (hopts : irrigationOptions cfg = some opts) : ∀ v ∈ opts, F64.NonnegBy 44 v := by
  obtain ⟨k, -, hk, hlist⟩ := irrigationOptions_inv cfg opts hopts
  intro v hv
  rw [hlist] at hv
  exact option_nonnegBy hk hv

/-- Under bounded inputs the incremental cost of a transition is a finite
nonnegative value. -/
theorem transitionCost_nonnegBy (cfg : PlannerConfig) (hcfg : ValidConfig cfg)
    (hb : BoundedConfig cfg) (f : ForecastDay) (hf : BoundedForecast f) (b : Nat)
    (hb410 : b < 410) (v p : F64) (hv : F64.NonnegBy 44 v) (hp : F64.NonnegBy 44 p) :
    F64.NonnegBy 150 (transitionCost cfg f b v p) := by
  have hraw := F64.bddBy_ne_nan
    (rawMoisture_bddBy cfg hb f hf b hb410 v (F64.nonnegBy_bddBy hv))
  obtain ⟨q, hq, hq0, hq1⟩ := clampMoisture_of_ne_nan hraw
  unfold transitionCost
  rw [newMoisture_eq, hq]
  exact stepCost_nonnegBy cfg hcfg hb q hq0 hq1 v p hv hp

/-- Under bounded inputs a transition lands in a bin of the table. -/
theorem nextBin_lt (cfg : PlannerConfig) (hb : BoundedConfig cfg) (f : ForecastDay)
    (hf : BoundedForecast f) (b : Nat) (hb410 : b < 410) (v : F64)
    (hv : F64.NonnegBy 44 v) :
    nextBin cfg f b v < 410 ∧
      ((nextBin cfg f b v : Nat) : Int)
        = newIdx (newMoisture cfg (evapotranspiration cfg f) (rainMoisture cfg f)
            ((b : Int) * moistureStep) v) := by
  have hraw := F64.bddBy_ne_nan
    (rawMoisture_bddBy cfg hb f hf b hb410 v (F64.nonnegBy_bddBy hv))
  obtain ⟨h0, h1⟩ := (validIdx_newIdx_iff cfg _ _ _ v).mpr hraw
  unfold nextBin
  constructor
  · omega
  · exact Int.toNat_of_nonneg h0

/-- One day of the fill relaxes every transition: the cell a transition lands
in ends up with a cost no greater than the cost through that transition. -/
theorem stepDay_relax (cfg : PlannerConfig) (hcfg : ValidConfig cfg) (hb : BoundedConfig cfg)
    (opts : List F64) (hopts : irrigationOptions cfg = some opts) (f : ForecastDay)
    (hf : BoundedForecast f) (D : Nat) (cur next : List State) (hcur : FinRow D cur)
    (hstep : stepDay cfg opts cur f = some next) (b : Nat) (hb410 : b < 410) (src : State)
    (hsrc : cur[b]? = some src) (v : F64) (hv : v ∈ opts) (acc prev : F64)
    (hacc : F64.ext src.cost ≤ F64.ext acc)
    (hprev : transitionCost cfg f b v prev = transitionCost cfg f b v src.irrigationVolume) :
    ∃ s, next[nextBin cfg f b v]? = some s ∧
      F64.ext s.cost ≤ F64.ext (acc + transitionCost cfg f b v prev) := by
  obtain ⟨hlen, hvol, hcost, -⟩ := hcur
  have hmem : src ∈ cur := List.mem_iff_getElem?.mpr ⟨b, hsrc⟩
  have hvn := options_nonnegBy cfg opts hopts v hv
  obtain ⟨hj, hcast⟩ := nextBin_lt cfg hb f hf b hb410 v hvn
  obtain ⟨t, ht, -, -⟩ := transitionCost_nonnegBy cfg hcfg hb f hf b hb410 v
    src.irrigationVolume hvn (hvol src hmem)
  obtain ⟨s, hs, hcase⟩ := stepDay_char cfg opts cur next f hlen hstep _ hj
  refine ⟨s, hs, ?_⟩
  rw [hprev, ht]
  by_cases hfin : F64.ext src.cost < ⊤
  · obtain ⟨c0, hc0, -, -⟩ := hcost src hmem hfin
    have hninf : F64.isPosInf src.cost = false := by
      rw [hc0]
      rfl
    have hdmem : candidate cfg (evapotranspiration cfg f) (rainMoisture cfg f) b src v
        ∈ dayCandidates cfg opts cur f :=
      (mem_dayCandidates cfg opts cur f _).mpr ⟨b, src, v, hb410, hsrc, hninf, hv, rfl⟩
    have hd1 : (candidate cfg (evapotranspiration cfg f) (rainMoisture cfg f) b src v).1
        = ((nextBin cfg f b v : Nat) : Int) := by
      rw [hcast]
      rfl
    have hdc : (candidate cfg (evapotranspiration cfg f) (rainMoisture cfg f) b src v).2.cost
        = src.cost + F64.fin t := by
      rw [← ht]
      rfl
    have hsd : F64.ext s.cost ≤ F64.ext (src.cost + F64.fin t) := by
      rw [← hdc]
      rcases hcase with ⟨-, hall⟩ | ⟨c, hfm, hsc, -⟩
      · rw [hall _ hdmem hd1]
        exact le_top
      · rw [hsc]
        exact firstMinInto_le hfm _ hdmem hd1
    by_cases hn : acc + F64.fin t = F64.nan
    · rw [hn, F64.ext_nan]
      exact le_top
    · have h1 : src.cost + F64.fin t ≠ F64.nan := by
        rw [hc0, F64.fin_add_fin]
        exact F64.round_ne_nan _
      exact le_trans hsd (F64.add_mono hacc (le_refl _) h1 hn)
  · have htop : F64.ext acc = ⊤ := by
      have : F64.ext src.cost = ⊤ := by
        by_contra hne
        exact hfin (lt_top_iff_ne_top.mpr hne)
      rw [this] at hacc
      exact top_le_iff.mp hacc
    rw [F64.add_fin_of_ext_top htop]
    exact le_top

/-- Completeness of the fill without smoothing: after the days of `fs`, the
cell in which a sequence of options ends holds a cost no greater than the cost
accumulated along the sequence. -/
theorem fillTable_complete (cfg : PlannerConfig) (hcfg : ValidConfig cfg)
    (hw3 : cfg.CostW3 = F64.fin 0) (hb : BoundedConfig cfg) (opts : List F64)
    (hopts : irrigationOptions cfg = some opts) (fs : List ForecastDay) :
    ∀ (D : Nat) (cur : List State) (rows : List (List State)) (b : Nat) (src : State)
      (acc prev : F64) (vs : List F64),
      (∀ f ∈ fs, BoundedForecast f) → D + fs.length < 2 ^ 53 → FinRow D cur →
      fillTable cfg opts cur fs = some rows → b < 410 → cur[b]? = some src →
      F64.ext src.cost ≤ F64.ext acc → F64.NonnegBy 44 prev →
      vs.length = fs.length → (∀ v ∈ vs, v ∈ opts) →
      ∃ cell, (rows.getLastD cur)[endBin cfg b fs vs]? = some cell ∧
        F64.ext cell.cost ≤ F64.ext (pathCost cfg b acc prev fs vs) := by
  induction fs with
  | nil =>
    intro D cur rows b src acc prev vs _ _ _ hrows _ hsrc hacc _ hvs _
    have hr : rows = [] := (Option.some.inj hrows).symm
    have hv : vs = [] := List.length_eq_zero.mp hvs
    subst hr
    subst hv
    exact ⟨src, hsrc, hacc⟩
  | cons f fs ih =>
    intro D cur rows b src acc prev vs hbf hD hcur hrows hb410 hsrc hacc hprev hvs hvo
    obtain ⟨next, rows', hstep, hfill, rfl⟩ := fillTable_cons_some cfg opts cur f fs rows hrows
    cases vs with
    | nil => exact absurd hvs (by simp)
    | cons v vs =>
      have hf := hbf f (List.mem_cons_self _ _)
      have hv := hvo v (List.mem_cons_self _ _)
      have hvn := options_nonnegBy cfg opts hopts v hv
      have hlen : (f :: fs).length = fs.length + 1 := rfl
      have hsv : src ∈ cur := List.mem_iff_getElem?.mpr ⟨b, hsrc⟩
      obtain ⟨s, hs, hle⟩ := stepDay_relax cfg hcfg hb opts hopts f hf D cur next hcur hstep b
        hb410 src hsrc v hv acc prev hacc
        (transitionCost_prev_indep cfg hw3 f b v prev src.irrigationVolume hvn hprev
          (hcur.2.1 src hsv))
      have hnext := finRow_step cfg hcfg hb opts hopts f hf D (by omega) cur next hcur hstep
      obtain ⟨hj, -⟩ := nextBin_lt cfg hb f hf b hb410 v hvn
      obtain ⟨cell, hcell, hcl⟩ := ih (D + 1) next rows' (nextBin cfg f b v) s
        (acc + transitionCost cfg f b v prev) v vs
        (fun g hg => hbf g (List.mem_cons_of_mem _ hg)) (by omega) hnext hfill hj hs hle hvn
        (by simpa using hvs) (fun u hu => hvo u (List.mem_cons_of_mem _ hu))
      refine ⟨cell, ?_, ?_⟩
      · rw [List.getLastD_cons, endBin_cons]
        exact hcell
      · rw [pathCost_cons]
        exact hcl

/-- Under bounded inputs the cost accumulated along a sequence of options is
not `NaN`. -/
theorem pathCost_ne_nan (cfg : PlannerConfig) (hcfg : ValidConfig cfg)
    (hb : BoundedConfig cfg) (opts : List F64) (hopts : irrigationOptions cfg = some opts)
    (fs : List ForecastDay) :
    ∀ (b : Nat) (acc prev : F64) (vs : List F64), (∀ f ∈ fs, BoundedForecast f) →
      b < 410 → F64.le (F64.fin 0) acc = true → F64.NonnegBy 44 prev →
      vs.length = fs.length → (∀ v ∈ vs, v ∈ opts) →
      F64.le (F64.fin 0) (pathCost cfg b acc prev fs vs) = true := by
  induction fs with
  | nil =>
    intro b acc prev vs _ _ hacc _ hvs _
    have hv : vs = [] := List.length_eq_zero.mp hvs
    subst hv
    exact hacc
  | cons f fs ih =>
    intro b acc prev vs hbf hb410 hacc hprev hvs hvo
    cases vs with
    | nil => exact absurd hvs (by simp)
    | cons v vs =>
      have hf := hbf f (List.mem_cons_self _ _)
      have hvn := options_nonnegBy cfg opts hopts v (hvo v (List.mem_cons_self _ _))
      obtain ⟨hj, -⟩ := nextBin_lt cfg hb f hf b hb410 v hvn
      obtain ⟨t, ht, ht0, -⟩ := transitionCost_nonnegBy cfg hcfg hb f hf b hb410 v prev hvn
        hprev
      rw [pathCost_cons]
      apply ih _ _ _ _ (fun g hg => hbf g (List.mem_cons_of_mem _ hg)) hj _ hvn
        (by simpa using hvs) (fun u hu => hvo u (List.mem_cons_of_mem _ hu))
      rw [ht]
      cases acc with
      | nan => exact absurd hacc (by decide)
      | ninf => exact absurd hacc (by decide)
      | pinf => rfl
      | fin a =>
        have ha : 0 ≤ a := by simpa [F64.le] using hacc
        rw [F64.fin_add_fin]
        exact (F64.le_iff_ext (by decide) (F64.round_ne_nan _)).mpr
          (F64.ext_round_nonneg (add_nonneg ha ht0))

/-- Under bounded inputs the run returns a plan, the selected terminal cell is
a cheapest cell of the last row, its cost is finite and it is the cost
accumulated along the trajectory of the returned volumes. -/
theorem ComputePlan_bounded_run (cfg : PlannerConfig) (hcfg : ValidConfig cfg)
    (hb : BoundedConfig cfg) (m : Int) (hm : 0 ≤ m) (fs : List ForecastDay) (hfs : fs ≠ [])
    (hbf : ∀ f ∈ fs, BoundedForecast f) (hlen : fs.length < 2 ^ 53) :
    ∃ (plan : List DailyPlan) (opts : List F64) (rows : List (List State)) (best : Nat)
      (cell : State) (c : ℚ),
      ComputePlan (NewIrrigationPlanner cfg) m fs = some plan ∧
      irrigationOptions cfg = some opts ∧
      fillTable cfg opts (emptyRow.set (initMoistureIdx m).toNat
        { cost := F64.fin 0, prevMoisture := m, irrigationVolume := F64.fin 0 }) fs
          = some rows ∧
      rows ≠ [] ∧
      bestIdx (rows.getLastD []) = some (best : Int) ∧ best < 410 ∧
      (rows.getLastD [])[best]? = some cell ∧
      (∀ (j : Nat) (sj : State), j < 410 → (rows.getLastD [])[j]? = some sj →
        F64.ext cell.cost ≤ F64.ext sj.cost) ∧
      plan.length = fs.length ∧
      (∀ v ∈ plan.map DailyPlan.PlannedVolumeL, v ∈ opts) ∧
      endBin cfg (initMoistureIdx m).toNat fs (plan.map DailyPlan.PlannedVolumeL) = best ∧
      cell.cost = F64.fin c ∧ 0 ≤ c ∧
      pathCost cfg (initMoistureIdx m).toNat (F64.fin 0) (F64.fin 0) fs
        (plan.map DailyPlan.PlannedVolumeL) = F64.fin c := by
  obtain ⟨plan, opts, rows, best, cell, c, hplan, hopts, hrows, hbest, hcell, hc, hc0⟩ :=
    ComputePlan_finite_of_bounded cfg hcfg hb m hm fs hfs hbf hlen
  obtain ⟨opts', rows', best', cell', hopts', hrows', -, -, hne, hbest', hbl, hcell', hmin,
    hpl, -, hfin⟩ := ComputePlan_run cfg m hm fs hfs plan hplan
  rw [hopts] at hopts'
  have ho : opts' = opts := (Option.some.inj hopts').symm
  subst ho
  rw [hrows] at hrows'
  have hr : rows' = rows := (Option.some.inj hrows').symm
  subst hr
  rw [hbest] at hbest'
  have hbb : best' = best := by
    have := Option.some.inj hbest'
    omega
  subst hbb
  rw [hcell] at hcell'
  have hcc : cell' = cell := (Option.some.inj hcell').symm
  subst hcc
  have hlt : F64.ext cell'.cost < ⊤ := by
    rw [hc]
    exact lt_top_iff_ne_top.mpr (F64.ext_fin_ne_top c)
  obtain ⟨hvols, -, hend, hcost⟩ := hfin hlt
  exact ⟨plan, opts', rows', best', cell', c, hplan, hopts, hrows, hne, hbest, hbl, hcell,
    hmin, hpl, hvols, hend, hc, hc0, by rw [← hcost, hc]⟩

/-- C24 (amended): for every valid configuration with `costW3 = 0` whose
floating-point fields are finite and at most `2^20` in magnitude, every initial
moisture `m` in `[0, 4095]` and every non-empty forecast sequence of fewer than
`2^53` days whose values are finite and at most `2^20` in magnitude,
`ComputePlan` returns a plan of irrigation options that attains the brute-force
optimum of the cost as the code computes it: the total cost accumulated in
`float64` along the trajectory of the plan (from the initial bin, each day
re-binned by the `float64` transition) is finite and is less than or equal to
the cost so accumulated along every sequence of irrigation options of the same
length. -/
theorem ComputePlan_attains_float_optimum (cfg : PlannerConfig) (hcfg : ValidConfig cfg)
    (hw3 : cfg.CostW3 = F64.fin 0) (hb : BoundedConfig cfg) (m : Int) (hm0 : 0 ≤ m)
    (hm1 : m ≤ 4095) (fs : List ForecastDay) (hfs : fs ≠ [])
    (hbf : ∀ f ∈ fs, BoundedForecast f) (hlen : fs.length < 2 ^ 53) :
    ∃ (opts : List F64) (plan : List DailyPlan) (c : ℚ),
      irrigationOptions cfg = some opts ∧
      ComputePlan (NewIrrigationPlanner cfg) m fs = some plan ∧
      plan.length = fs.length ∧ (∀ v ∈ plan.map DailyPlan.PlannedVolumeL, v ∈ opts) ∧
      pathCost cfg (initMoistureIdx m).toNat (F64.fin 0) (F64.fin 0) fs
        (plan.map DailyPlan.PlannedVolumeL) = F64.fin c ∧
      ∀ vs : List F64, vs.length = fs.length → (∀ v ∈ vs, v ∈ opts) →
        F64.le (F64.fin c)
          (pathCost cfg (initMoistureIdx m).toNat (F64.fin 0) (F64.fin 0) fs vs) = true := by
  have _ := hm1
  obtain ⟨plan, opts, rows, best, cell, c, hplan, hopts, hrows, hne, -, -, -, hmin, hpl,
    hvols, -, hc, -, hpath⟩ := ComputePlan_bounded_run cfg hcfg hb m hm0 fs hfs hbf hlen
  refine ⟨opts, plan, c, hopts, hplan, hpl, hvols, hpath, ?_⟩
  intro vs hvs hvo
  have hb0 : (initMoistureIdx m).toNat < 410 := by
    have := initMoistureIdx_range hm0
    unfold ValidIdx at this
    omega
  have hsrc : (emptyRow.set (initMoistureIdx m).toNat
      { cost := F64.fin 0, prevMoisture := m, irrigationVolume := F64.fin 0 })[
        (initMoistureIdx m).toNat]?
      = some { cost := F64.fin 0, prevMoisture := m, irrigationVolume := F64.fin 0 } :=
    List.getElem?_set_self (by rw [emptyRow_length]; exact hb0)
  obtain ⟨cell', hcell', hle⟩ := fillTable_complete cfg hcfg hw3 hb opts hopts fs 0 _ rows
    (initMoistureIdx m).toNat _ (F64.fin 0) (F64.fin 0) vs hbf (by omega) (finRow_init hm0)
    hrows hb0 hsrc (le_refl _) (F64.nonnegBy_zero 44) hvs hvo
  have hl : rows.getLastD (emptyRow.set (initMoistureIdx m).toNat
      { cost := F64.fin 0, prevMoisture := m, irrigationVolume := F64.fin 0 })
      = rows.getLastD [] := by
    cases rows with
    | nil => exact absurd rfl hne
    | cons r rs => rw [List.getLastD_cons, List.getLastD_cons]
  rw [hl] at hcell'
  have hrl : ∀ r ∈ rows, r.length = 410 :=
    (fillTable_chain cfg opts fs _ rows (initRow_set_length m _) hrows).2.1
  have hlast : (rows.getLastD []).length = 410 := by
    rw [← hl]
    exact getLastD_length rows _ (initRow_set_length m _) hrl
  have he : endBin cfg (initMoistureIdx m).toNat fs vs < 410 := by
    rcases List.getElem?_eq_some_iff.mp hcell' with ⟨h, -⟩
    rw [hlast] at h
    exact h
  have h1 := hmin _ cell' he hcell'
  have hnn := pathCost_ne_nan cfg hcfg hb opts hopts fs (initMoistureIdx m).toNat (F64.fin 0)
    (F64.fin 0) vs hbf hb0 (by decide) (F64.nonnegBy_zero 44) hvs hvo
  have hne' : pathCost cfg (initMoistureIdx m).toNat (F64.fin 0) (F64.fin 0) fs vs
      ≠ F64.nan := by
    intro h
    rw [h] at hnn
    exact absurd hnn (by decide)
  rw [hc] at h1
  exact (F64.le_iff_ext (by simp) hne').mpr (le_trans h1 hle)

theorem bounded_roundingForecasts : ∀ f ∈ roundingForecasts, BoundedForecast f := by
  intro f hf
  simp only [roundingForecasts, List.mem_cons, List.mem_singleton, List.not_mem_nil,
    or_false] at hf
  rcases hf with rfl | rfl
  · decide!
  · decide!

theorem ComputePlan_attains_float_optimum_witness :
    ValidConfig roundingConfig ∧ roundingConfig.CostW3 = F64.fin 0 ∧
      BoundedConfig roundingConfig ∧ (0 : Int) ≤ 10 ∧ (10 : Int) ≤ 4095 ∧
      roundingForecasts ≠ [] ∧ (∀ f ∈ roundingForecasts, BoundedForecast f) ∧
      roundingForecasts.length < 2 ^ 53 ∧
      ∃ (opts : List F64) (plan : List DailyPlan) (c : ℚ),
        irrigationOptions roundingConfig = some opts ∧
        ComputePlan (NewIrrigationPlanner roundingConfig) 10 roundingForecasts = some plan ∧
        plan.length = roundingForecasts.length ∧
        (∀ v ∈ plan.map DailyPlan.PlannedVolumeL, v ∈ opts) ∧
        pathCost roundingConfig (initMoistureIdx 10).toNat (F64.fin 0) (F64.fin 0)
          roundingForecasts (plan.map DailyPlan.PlannedVolumeL) = F64.fin c ∧
        ∀ vs : List F64, vs.length = roundingForecasts.length → (∀ v ∈ vs, v ∈ opts) →
          F64.le (F64.fin c)
            (pathCost roundingConfig (initMoistureIdx 10).toNat (F64.fin 0) (F64.fin 0)
              roundingForecasts vs) = true :=
  ⟨by decide!, rfl, by decide!, by decide, by decide, by decide, bounded_roundingForecasts,
    by decide,
    ComputePlan_attains_float_optimum roundingConfig (by decide!) rfl (by decide!) 10
      (by decide) (by decide) roundingForecasts (by decide) bounded_roundingForecasts
      (by decide)⟩

/-- C25 (amended): for every valid configuration, initial moisture `m` in
`[0, 4095]` and non-empty forecast sequence, whenever `ComputePlan` returns a
plan, the terminal cell it selected is a cheapest cell of the last row and,
when that minimal cost is below `+Inf`, it equals the total cost of the
returned plan as the code accumulates it in `float64`, evaluated forward along
the plan's own trajectory (from the initial bin, each day re-binned by the
`float64` transition), each day's irrigation-change term being measured against
the previous day's planned volume (`0` before the first day). When the
configuration and the forecast values are finite and at most `2^20` in
magnitude (and the horizon is below `2^53` days) a plan is returned and that
cost is finite. -/
theorem reported_cost_is_plan_cost (cfg : PlannerConfig) (hcfg : ValidConfig cfg) (m : Int)
    (hm0 : 0 ≤ m) (hm1 : m ≤ 4095) (fs : List ForecastDay) (hfs : fs ≠ []) :
    (∀ plan, ComputePlan (NewIrrigationPlanner cfg) m fs = some plan →
      ∃ (opts : List F64) (rows : List (List State)) (best : Nat) (cell : State),
        irrigationOptions cfg = some opts ∧
        fillTable cfg opts (emptyRow.set (initMoistureIdx m).toNat
          { cost := F64.fin 0, prevMoisture := m, irrigationVolume := F64.fin 0 }) fs
            = some rows ∧
        bestIdx (rows.getLastD []) = some (best : Int) ∧
        (rows.getLastD [])[best]? = some cell ∧
        (∀ (j : Nat) (sj : State), j < 410 → (rows.getLastD [])[j]? = some sj →
          F64.ext cell.cost ≤ F64.ext sj.cost) ∧
        plan.length = fs.length ∧
        (F64.ext cell.cost < ⊤ →
          cell.cost = pathCost cfg (initMoistureIdx m).toNat (F64.fin 0) (F64.fin 0) fs
            (plan.map DailyPlan.PlannedVolumeL))) ∧
      (BoundedConfig cfg → (∀ f ∈ fs, BoundedForecast f) → fs.length < 2 ^ 53 →
        ∃ (plan : List DailyPlan) (opts : List F64) (rows : List (List State)) (best : Nat)
          (cell : State) (c : ℚ),
          ComputePlan (NewIrrigationPlanner cfg) m fs = some plan ∧
          irrigationOptions cfg = some opts ∧
          fillTable cfg opts (emptyRow.set (initMoistureIdx m).toNat
            { cost := F64.fin 0, prevMoisture := m, irrigationVolume := F64.fin 0 }) fs
              = some rows ∧
          bestIdx (rows.getLastD []) = some (best : Int) ∧
          (rows.getLastD [])[best]? = some cell ∧ cell.cost = F64.fin c ∧ 0 ≤ c ∧
          pathCost cfg (initMoistureIdx m).toNat (F64.fin 0) (F64.fin 0) fs
            (plan.map DailyPlan.PlannedVolumeL) = F64.fin c) := by
  have _ := hm1
  refine ⟨?_, ?_⟩
  · intro plan hplan
    obtain ⟨opts, rows, best, cell, hopts, hrows, -, -, -, hbest, -, hcell, hmin, hpl, -,
      hfin⟩ := ComputePlan_run cfg m hm0 fs hfs plan hplan
    exact ⟨opts, rows, best, cell, hopts, hrows, hbest, hcell, hmin, hpl,
      fun hlt => (hfin hlt).2.2.2⟩
  · intro hb hbf hlen
    obtain ⟨plan, opts, rows, best, cell, c, hplan, hopts, hrows, -, hbest, -, hcell, -, -,
      -, -, hc, hc0, hpath⟩ := ComputePlan_bounded_run cfg hcfg hb m hm0 fs hfs hbf hlen
    exact ⟨plan, opts, rows, best, cell, c, hplan, hopts, hrows, hbest, hcell, hc, hc0,
      hpath⟩

theorem reported_cost_is_plan_cost_witness :
    ValidConfig driftConfig ∧ (0 : Int) ≤ 10 ∧ (10 : Int) ≤ 4095 ∧ roundingForecasts ≠ [] ∧
      ∃ (plan : List DailyPlan) (opts : List F64) (rows : List (List State)) (best : Nat)
        (cell : State) (c : ℚ),
        ComputePlan (NewIrrigationPlanner driftConfig) 10 roundingForecasts = some plan ∧
        irrigationOptions driftConfig = some opts ∧
        fillTable driftConfig opts (emptyRow.set (initMoistureIdx 10).toNat
          { cost := F64.fin 0, prevMoisture := 10, irrigationVolume := F64.fin 0 })
            roundingForecasts = some rows ∧
        bestIdx (rows.getLastD []) = some (best : Int) ∧
        (rows.getLastD [])[best]? = some cell ∧ cell.cost = F64.fin c ∧ 0 ≤ c ∧
        pathCost driftConfig (initMoistureIdx 10).toNat (F64.fin 0) (F64.fin 0)
          roundingForecasts (plan.map DailyPlan.PlannedVolumeL) = F64.fin c :=
  ⟨by decide!, by decide, by decide, by decide,
    (reported_cost_is_plan_cost driftConfig (by decide!) 10 (by decide) (by decide)
      roundingForecasts (by decide)).2 (by decide!) bounded_roundingForecasts (by decide)⟩

end Planner

namespace Planner

theorem bounded_singleton (f : ForecastDay) (hf : BoundedForecast f) :
    ∀ g ∈ [f], BoundedForecast g := by
  intro g hg
  rw [List.mem_singleton] at hg
  rw [hg]
  exact hf

/-- C16 (amended): for a one-day forecast whose values are finite and at most
`2^20` in magnitude, a valid configuration whose floating-point fields are
finite and at most `2^20` in magnitude and an initial moisture `m >= 0`,
`ComputePlan` returns a single entry whose `PlannedVolumeL` is the smallest
irrigation option that minimises the one-day cost as the code computes it in
`float64`, `0 + (costW1*dev*dev + costW2*v + costW3*|v - 0|)` with
`dev = |next - center|`, `next` the `float64` transition from
`current = 10*min(floor(m/10), 409)` clamped to `[0, 4095]` and `center` the
`float64` quotient of the 64-bit sum `soilOptimalMin + soilOptimalMax` by `2`:
the cost of the returned volume is less than or equal to the cost of every
option and strictly less than the cost of every smaller option. -/
theorem oneDay_smallest_float_minimizer (cfg : PlannerConfig) (hcfg : ValidConfig cfg)
    (hb : BoundedConfig cfg) (m : Int) (hm : 0 ≤ m) (f : ForecastDay)
    (hf : BoundedForecast f) :
    ∃ (opts : List F64) (v : F64),
      irrigationOptions cfg = some opts ∧
      ComputePlan (NewIrrigationPlanner cfg) m [f]
        = some [{ Date := f.Date, PlannedVolumeL := v }] ∧
      v ∈ opts ∧
      ∀ u ∈ opts, F64.le (oneDayCost cfg m f v) (oneDayCost cfg m f u) = true ∧
        (F64.lt u v = true → F64.lt (oneDayCost cfg m f v) (oneDayCost cfg m f u) = true) := by
  obtain ⟨plan, opts, rows, best, cell, c, hplan, hopts, hrows, -, hbest, hbl, hcell, hmin,
    -, hvols, hend, hc, -, hpath⟩ := ComputePlan_bounded_run cfg hcfg hb m hm [f] (by simp)
      (bounded_singleton f hf) (by norm_num)
  have hb0 : (initMoistureIdx m).toNat < 410 := by
    have := initMoistureIdx_range hm
    unfold ValidIdx at this
    omega
  have hrow0 := initRow_eq hm
  have hlen0 := initRow_length hrow0
  have hsrc : (emptyRow.set (initMoistureIdx m).toNat
      { cost := F64.fin 0, prevMoisture := m, irrigationVolume := F64.fin 0 })[
        (initMoistureIdx m).toNat]?
      = some { cost := F64.fin 0, prevMoisture := m, irrigationVolume := F64.fin 0 } :=
    List.getElem?_set_self (by rw [emptyRow_length]; exact hb0)
  obtain ⟨next, rows', hstep, hfill, hr⟩ := fillTable_cons_some cfg opts _ f [] rows hrows
  have hr' : rows' = [] := (Option.some.inj hfill).symm
  subst hr'
  subst hr
  have hlast : [next].getLastD [] = next := rfl
  rw [hlast] at hbest hcell hmin
  have hlen1 := stepDay_length cfg opts _ next f hlen0 hstep
  -- the plan is the volume of the selected cell
  have hbt := ComputePlan_eq_backtrace cfg m [f] opts _ [next] (best : Int) (by simp) hopts
    hrow0 hrows hbest
  have hbt2 : backtrace ([f].zip [next]).reverse (best : Int)
      = some [{ Date := f.Date, PlannedVolumeL := cell.irrigationVolume }] := by
    show backtrace [(f, next)] (best : Int) = _
    rw [backtrace_cons, readCell_natCast, hcell]
    rfl
  rw [hbt2] at hbt
  rw [hbt] at hplan
  have hp : plan = [{ Date := f.Date, PlannedVolumeL := cell.irrigationVolume }] :=
    (Option.some.inj hplan).symm
  subst hp
  have hv : cell.irrigationVolume ∈ opts := hvols _ (by simp)
  have hend' : nextBin cfg f (initMoistureIdx m).toNat cell.irrigationVolume = best := hend
  have hJv : oneDayCost cfg m f cell.irrigationVolume = F64.fin c := hpath
  refine ⟨opts, cell.irrigationVolume, hopts, hbt, hv, ?_⟩
  intro u hu
  have hun := options_nonnegBy cfg opts hopts u hu
  have hvn := options_nonnegBy cfg opts hopts _ hv
  obtain ⟨s, hs, hle⟩ := stepDay_relax cfg hcfg hb opts hopts f hf 0 _ next (finRow_init hm)
    hstep _ hb0 _ hsrc u hu (F64.fin 0) (F64.fin 0) (le_refl _) rfl
  obtain ⟨hj, hcast⟩ := nextBin_lt cfg hb f hf _ hb0 u hun
  obtain ⟨-, hcastv⟩ := nextBin_lt cfg hb f hf _ hb0 _ hvn
  have hle' : F64.ext s.cost ≤ F64.ext (oneDayCost cfg m f u) := hle
  have hnn := pathCost_ne_nan cfg hcfg hb opts hopts [f] (initMoistureIdx m).toNat (F64.fin 0)
    (F64.fin 0) [u] (bounded_singleton f hf) hb0 (by decide) (F64.nonnegBy_zero 44) rfl
    (by
      intro w hw
      rw [List.mem_singleton] at hw
      rw [hw]
      exact hu)
  have hJu : oneDayCost cfg m f u ≠ F64.nan := by
    intro h
    have hnn' : F64.le (F64.fin 0) (oneDayCost cfg m f u) = true := hnn
    rw [h] at hnn'
    exact absurd hnn' (by decide)
  have h1 := hmin _ s hj hs
  rw [hc] at h1
  rw [hJv]
  refine ⟨(F64.le_iff_ext (by simp) hJu).mpr (le_trans h1 hle'), ?_⟩
  intro hlt
  rw [F64.lt_iff_ext hJu]
  by_contra hnot
  have hge : F64.ext (oneDayCost cfg m f u) ≤ F64.ext (F64.fin c) := not_lt.mp hnot
  have heq : F64.ext (oneDayCost cfg m f u) = F64.ext (F64.fin c) :=
    le_antisymm hge (le_trans h1 hle')
  have hseq : F64.ext s.cost = F64.ext (F64.fin c) := le_antisymm (by rw [← heq]; exact hle') h1
  -- the two volumes as rationals
  obtain ⟨x, hx, -, -⟩ := hun
  obtain ⟨y, hy, -, -⟩ := hvn
  have hxy : x < y := by
    rw [hx, hy] at hlt
    simpa [F64.lt] using hlt
  -- the bin of `u` is not above the bin of the returned volume
  obtain ⟨a, ha⟩ : ∃ a : ℚ, cfg.ADCToMoisture = F64.fin a := by
    have := hb.2.2.2.2.1
    cases h : cfg.ADCToMoisture with
    | fin a => exact ⟨a, rfl⟩
    | nan => rw [h] at this; exact absurd this (by simp [F64.Bounded])
    | pinf => rw [h] at this; exact absurd this (by simp [F64.Bounded])
    | ninf => rw [h] at this; exact absurd this (by simp [F64.Bounded])
  have ha0 : 0 ≤ a := by
    have := hcfg.2.2.1
    rw [ha] at this
    have : (0 : ℚ) < a := by simpa [F64.lt] using this
    exact le_of_lt this
  have hru := F64.bddBy_ne_nan (rawMoisture_bddBy cfg hb f hf _ hb0 u
    (F64.nonnegBy_bddBy (options_nonnegBy cfg opts hopts u hu)))
  have hrv := F64.bddBy_ne_nan (rawMoisture_bddBy cfg hb f hf _ hb0 cell.irrigationVolume
    (F64.nonnegBy_bddBy (options_nonnegBy cfg opts hopts _ hv)))
  have hmono : ((nextBin cfg f (initMoistureIdx m).toNat u : Nat) : Int)
      ≤ ((nextBin cfg f (initMoistureIdx m).toNat cell.irrigationVolume : Nat) : Int) := by
    rw [hcast, hcastv]
    rw [hx] at hru ⊢
    rw [hy] at hrv ⊢
    exact newIdx_newMoisture_mono cfg _ _ a ha ha0 (le_refl _) hb0 (le_of_lt hxy) hru hrv
  rw [hend'] at hmono
  have hjle : nextBin cfg f (initMoistureIdx m).toNat u ≤ best := by omega
  obtain ⟨k, sk, hk1, -, hk3, -, hk5, -⟩ := bestIdx_first next hlen1
  rw [hbest] at hk1
  have hkb : best = k := by
    have := Option.some.inj hk1
    omega
  subst hkb
  rw [hcell] at hk3
  have hsk : sk = cell := (Option.some.inj hk3).symm
  subst hsk
  rcases Nat.lt_or_eq_of_le hjle with hjlt | hjeq
  · have := hk5 _ s hjlt hs
    rw [hc, ← hseq] at this
    exact lt_irrefl _ this
  · -- both volumes land in the selected bin
    rw [hjeq] at hs hcast
    obtain ⟨s', hs', hcase⟩ := stepDay_char cfg opts _ next f hlen0 hstep best hbl
    rw [hcell] at hs'
    have hss : s' = sk := (Option.some.inj hs').symm
    subst hss
    have hfin : F64.ext s'.cost < ⊤ := by
      rw [hc]
      exact lt_top_iff_ne_top.mpr (F64.ext_fin_ne_top c)
    rcases hcase with ⟨hinf, -⟩ | ⟨c0, hfm, hsc, -⟩
    · rw [hinf] at hfin
      exact lt_irrefl _ hfin
    · obtain ⟨i, src, v', hi, hsrc', hsfin, -, -, hcellv⟩ :=
        stepDay_sound cfg opts _ next f hlen0 hstep best s' hcell hfin
      obtain ⟨hib, -⟩ := initRow_only_finite _ _ i src hsrc' hsfin
      have hdmem : candidate cfg (evapotranspiration cfg f) (rainMoisture cfg f)
          (initMoistureIdx m).toNat
          { cost := F64.fin 0, prevMoisture := m, irrigationVolume := F64.fin 0 } u
          ∈ dayCandidates cfg opts (emptyRow.set (initMoistureIdx m).toNat
            { cost := F64.fin 0, prevMoisture := m, irrigationVolume := F64.fin 0 }) f :=
        (mem_dayCandidates cfg opts _ f _).mpr
          ⟨_, _, u, hb0, hsrc, rfl, hu, rfl⟩
      have hd1 : (candidate cfg (evapotranspiration cfg f) (rainMoisture cfg f)
          (initMoistureIdx m).toNat
          { cost := F64.fin 0, prevMoisture := m, irrigationVolume := F64.fin 0 } u).1
          = (best : Int) := by
        rw [hcast]
        rfl
      obtain ⟨kk, -, -, hlist⟩ := irrigationOptions_inv cfg opts hopts
      have hpw : (dayCandidates cfg opts (emptyRow.set (initMoistureIdx m).toNat
          { cost := F64.fin 0, prevMoisture := m, irrigationVolume := F64.fin 0 })
          f).Pairwise iterBefore := by
        unfold dayCandidates
        apply candidates_pairwise
        rw [hlist]
        exact optionList_pairwise kk
      have hcost : F64.ext (candidate cfg (evapotranspiration cfg f) (rainMoisture cfg f)
          (initMoistureIdx m).toNat
          { cost := F64.fin 0, prevMoisture := m, irrigationVolume := F64.fin 0 } u).2.cost
          = F64.ext c0.2.cost := by
        rw [← hsc, hc, ← heq]
        rfl
      rcases firstMinInto_least hfm hpw _ hdmem hd1 hcost with hdc | hib'
      · have : s'.irrigationVolume = u := by
          rw [hsc, ← hdc]
          rfl
        rw [this, hx] at hlt
        simp [F64.lt] at hlt
      · rcases hib' with hp | ⟨-, hp⟩
        · rw [← hsc, hcellv, hib] at hp
          exact lt_irrefl _ hp
        · rw [← hsc] at hp
          have hp' : F64.lt s'.irrigationVolume u = true := hp
          rw [hy, hx] at hp'
          have : y < x := by simpa [F64.lt] using hp'
          linarith

theorem oneDay_smallest_float_minimizer_witness :
    ValidConfig tieBreakConfig ∧ BoundedConfig tieBreakConfig ∧ (0 : Int) ≤ 100 ∧
      BoundedForecast calmDay ∧
      ∃ (opts : List F64) (v : F64),
        irrigationOptions tieBreakConfig = some opts ∧
        ComputePlan (NewIrrigationPlanner tieBreakConfig) 100 [calmDay]
          = some [{ Date := calmDay.Date, PlannedVolumeL := v }] ∧
        v ∈ opts ∧
        ∀ u ∈ opts,
          F64.le (oneDayCost tieBreakConfig 100 calmDay v)
            (oneDayCost tieBreakConfig 100 calmDay u) = true ∧
          (F64.lt u v = true →
            F64.lt (oneDayCost tieBreakConfig 100 calmDay v)
              (oneDayCost tieBreakConfig 100 calmDay u) = true) :=
  ⟨by decide!, by decide!, by decide, by decide!,
    oneDay_smallest_float_minimizer tieBreakConfig (by decide!) (by decide!) 100 (by decide)
      calmDay (by decide!)⟩

end Planner

namespace F64

theorem nonnegOrNan_cases {a : F64} (h : NonnegOrNan a) :
    a = nan ∨ a = pinf ∨ ∃ x : ℚ, a = fin x ∧ 0 ≤ x := by
  rcases h with h | h
  · exact Or.inl h
  · cases a with
    | nan => exact Or.inl rfl
    | pinf => exact Or.inr (Or.inl rfl)
    | ninf => exact absurd h (by decide)
    | fin x => exact Or.inr (Or.inr ⟨x, rfl, by simpa [le] using h⟩)

theorem nonnegOrNan_fin {x : ℚ} (h : 0 ≤ x) : NonnegOrNan (fin x) :=
  Or.inr (by simpa [le] using h)

theorem nonnegOrNan_round {x : ℚ} (h : 0 ≤ x) : NonnegOrNan (round x) :=
  Or.inr ((le_iff_ext (by simp) (round_ne_nan x)).mpr (ext_round_nonneg h))

theorem nonnegOrNan_abs (a : F64) : NonnegOrNan (abs a) := by
  cases a with
  | nan => exact Or.inl rfl
  | pinf => exact Or.inr rfl
  | ninf => exact Or.inr rfl
  | fin x => exact nonnegOrNan_fin (abs_nonneg x)

theorem signedInf_nonneg {x : ℚ} (h : 0 ≤ x) : signedInf x = pinf ∨ signedInf x = nan := by
  unfold signedInf
  by_cases h0 : 0 < x
  · left
    rw [if_pos h0]
  · right
    rw [if_neg h0, if_neg (not_lt.mpr h)]

theorem nonnegOrNan_mul {a b : F64} (ha : NonnegOrNan a) (hb : NonnegOrNan b) :
    NonnegOrNan (a * b) := by
  rcases nonnegOrNan_cases ha with rfl | rfl | ⟨x, rfl, hx⟩
  · left
    cases b <;> rfl
  · rcases nonnegOrNan_cases hb with rfl | rfl | ⟨y, rfl, hy⟩
    · exact Or.inl rfl
    · exact Or.inr rfl
    · show NonnegOrNan (signedInf y)
      rcases signedInf_nonneg hy with h | h
      · rw [h]
        exact Or.inr rfl
      · rw [h]
        exact Or.inl rfl
  · rcases nonnegOrNan_cases hb with rfl | rfl | ⟨y, rfl, hy⟩
    · exact Or.inl rfl
    · show NonnegOrNan (signedInf x)
      rcases signedInf_nonneg hx with h | h
      · rw [h]
        exact Or.inr rfl
      · rw [h]
        exact Or.inl rfl
    · rw [fin_mul_fin]
      exact nonnegOrNan_round (mul_nonneg hx hy)

theorem nonnegOrNan_add {a b : F64} (ha : NonnegOrNan a) (hb : NonnegOrNan b) :
    NonnegOrNan (a + b) := by
  rcases nonnegOrNan_cases ha with rfl | rfl | ⟨x, rfl, hx⟩
  · left
    cases b <;> rfl
  · rcases nonnegOrNan_cases hb with rfl | rfl | ⟨y, rfl, hy⟩
    · exact Or.inl rfl
    · exact Or.inr rfl
    · exact Or.inr rfl
  · rcases nonnegOrNan_cases hb with rfl | rfl | ⟨y, rfl, hy⟩
    · exact Or.inl rfl
    · exact Or.inr rfl
    · rw [fin_add_fin]
      exact nonnegOrNan_round (add_nonneg hx hy)

theorem nonnegOrNan_of_le {a : F64} (h : le (fin 0) a = true) : NonnegOrNan a := Or.inr h

theorem nonnegOrNan_of_nonnegBy {k : Nat} {a : F64} (h : NonnegBy k a) : NonnegOrNan a := by
  obtain ⟨x, rfl, hx, -⟩ := h
  exact nonnegOrNan_fin hx

/-- A nonnegative value below `+Inf` is a finite nonnegative number. -/
theorem fin_of_nonnegOrNan {a : F64} (h : NonnegOrNan a) (hlt : ext a < ⊤) :
    ∃ x : ℚ, a = fin x ∧ 0 ≤ x := by
  rcases nonnegOrNan_cases h with rfl | rfl | h
  · exact absurd hlt (lt_irrefl _)
  · exact absurd hlt (lt_irrefl _)
  · exact h

theorem ext_add_top_right (a : F64) {b : F64} (h : ext b = ⊤) : ext (a + b) = ⊤ := by
  cases b with
  | nan => cases a <;> rfl
  | pinf => cases a <;> rfl
  | ninf => exact absurd h ext_ninf_ne_top
  | fin x => exact absurd h (ext_fin_ne_top x)

theorem ext_add_top_left {a : F64} (h : ext a = ⊤) (b : F64) : ext (a + b) = ⊤ := by
  cases a with
  | nan => cases b <;> rfl
  | pinf => cases b <;> rfl
  | ninf => exact absurd h ext_ninf_ne_top
  | fin x => exact absurd h (ext_fin_ne_top x)

theorem ext_pinf_mul {b : F64} (h : NonnegOrNan b) : ext (pinf * b) = ⊤ := by
  rcases nonnegOrNan_cases h with rfl | rfl | ⟨y, rfl, hy⟩
  · rfl
  · rfl
  · show ext (signedInf y) = ⊤
    rcases signedInf_nonneg hy with h | h
    · rw [h]
      rfl
    · rw [h]
      rfl

theorem toInt_ne_neg_one {a : F64} (h : le (fin 0) a = true) : toInt a ≠ -1 := by
  cases a with
  | nan => exact absurd h (by decide)
  | ninf => exact absurd h (by decide)
  | pinf => decide
  | fin y =>
    have hy : 0 ≤ y := by simpa [le] using h
    have hf : 0 ≤ ⌊y⌋ := Int.floor_nonneg.mpr hy
    unfold toInt
    simp only [if_pos hy]
    split
    · omega
    · norm_num

end F64

namespace Planner

/-- The option list of a positive daily maximum, when there is one, starts at
`0`. -/
theorem options_pos_length (cfg : PlannerConfig)
    (hmax : F64.lt (F64.fin 0) cfg.MaxIrrigationPerDay = true) (opts : List F64)
    (h : irrigationOptions cfg = some opts) :
    ∃ k : Nat, 0 < k ∧ (k : Int) ≤ maxSliceLen ∧
      opts = (List.range k).map fun (i : Nat) => F64.fin ((i : ℚ) * (1 / 2)) := by
  obtain ⟨k, hk, hkle, hopts⟩ := irrigationOptions_inv cfg opts h
  refine ⟨k, ?_, hkle, hopts⟩
  have hnn : F64.le (F64.fin 0) (cfg.MaxIrrigationPerDay / F64.fin (1 / 2)) = true := by
    cases hq : cfg.MaxIrrigationPerDay with
    | nan => rw [hq] at hmax; exact absurd hmax (by simp [F64.lt])
    | ninf => rw [hq] at hmax; exact absurd hmax (by simp [F64.lt])
    | pinf => decide!
    | fin q =>
      rw [hq] at hmax
      have hpos : 0 < q := by simpa [F64.lt] using hmax
      rw [F64.fin_div_fin q (by norm_num)]
      exact (F64.le_iff_ext (by simp) (F64.round_ne_nan _)).mpr
        (F64.ext_round_nonneg (by positivity))
  have := F64.toInt_ne_neg_one hnn
  omega

theorem options_zero_mem (cfg : PlannerConfig)
    (hmax : F64.lt (F64.fin 0) cfg.MaxIrrigationPerDay = true) (opts : List F64)
    (h : irrigationOptions cfg = some opts) : F64.fin 0 ∈ opts := by
  obtain ⟨k, hk, -, hopts⟩ := options_pos_length cfg hmax opts h
  rw [hopts]
  exact List.mem_map.mpr ⟨0, List.mem_range.mpr hk, by norm_num⟩

theorem options_pairwise (cfg : PlannerConfig) (opts : List F64)
    (h : irrigationOptions cfg = some opts) :
    opts.Pairwise (fun a b => F64.lt a b = true) := by
  obtain ⟨k, -, -, hopts⟩ := irrigationOptions_inv cfg opts h
  rw [hopts]
  exact optionList_pairwise k

/-- With nonnegative weights the incremental cost of a transition under a
nonnegative volume is never negative. -/
theorem stepCost_nonnegOrNan (cfg : PlannerConfig) (hcfg : ValidConfig cfg) (nm v prev : F64)
    (hv : F64.NonnegOrNan v) : F64.NonnegOrNan (stepCost cfg nm v prev) := by
  obtain ⟨-, -, -, hW1, hW2, hW3⟩ := hcfg
  unfold stepCost
  simp only []
  exact F64.nonnegOrNan_add
    (F64.nonnegOrNan_add
      (F64.nonnegOrNan_mul (F64.nonnegOrNan_mul (F64.nonnegOrNan_of_le hW1)
        (F64.nonnegOrNan_abs _)) (F64.nonnegOrNan_abs _))
      (F64.nonnegOrNan_mul (F64.nonnegOrNan_of_le hW2) hv))
    (F64.nonnegOrNan_mul (F64.nonnegOrNan_of_le hW3) (F64.nonnegOrNan_abs _))

/-- An infinite weight `CostW2` or `CostW3` makes every incremental cost `+Inf`
or `NaN`. -/
theorem stepCost_top (cfg : PlannerConfig)
    (hinf : cfg.CostW2 = F64.pinf ∨ cfg.CostW3 = F64.pinf) (nm v prev : F64)
    (hv : F64.NonnegOrNan v) : F64.ext (stepCost cfg nm v prev) = ⊤ := by
  unfold stepCost
  simp only []
  rcases hinf with h | h
  · rw [h]
    exact F64.ext_add_top_left (F64.ext_add_top_right _ (F64.ext_pinf_mul hv)) _
  · rw [h]
    exact F64.ext_add_top_right _ (F64.ext_pinf_mul (F64.nonnegOrNan_abs _))

/-- Without deviation penalty and with finite weights, the transition under
volume `0` after volume `0` costs `0`. -/
theorem stepCost_zero (cfg : PlannerConfig) (hw1 : cfg.CostW1 = F64.fin 0) (w2 w3 : ℚ)
    (hw2 : cfg.CostW2 = F64.fin w2) (hw3 : cfg.CostW3 = F64.fin w3) (q : ℚ) (h0 : 0 ≤ q)
    (h1 : q ≤ 4095) : stepCost cfg (F64.fin q) (F64.fin 0) (F64.fin 0) = F64.fin 0 := by
  have bq : F64.BddBy 12 (F64.fin q) := by
    apply F64.bddBy_fin
    rw [abs_of_nonneg h0]
    calc q ≤ 4095 := h1
      _ ≤ (2 : ℚ) ^ (12 : Nat) := by norm_num
  obtain ⟨d, hd, -⟩ := F64.sub_bddBy bq (optimalCenter_bddBy cfg) (by norm_num : 12 ≤ 63)
    (le_refl 63) (by norm_num)
  have e1 : F64.fin 0 * F64.fin |d| = F64.fin 0 := by
    rw [F64.fin_mul_fin, zero_mul, F64.round_zero]
  have e2 : F64.fin w2 * F64.fin 0 = F64.fin 0 := by
    rw [F64.fin_mul_fin, mul_zero, F64.round_zero]
  have e3 : F64.fin w3 * F64.fin 0 = F64.fin 0 := by
    rw [F64.fin_mul_fin, mul_zero, F64.round_zero]
  have e4 : F64.fin 0 - F64.fin 0 = F64.fin 0 := by
    rw [F64.fin_sub_fin, neg_zero, add_zero, F64.round_zero]
  have e5 : F64.fin 0 + F64.fin 0 = F64.fin 0 := by
    rw [F64.fin_add_fin, add_zero, F64.round_zero]
  have e6 : F64.abs (F64.fin 0) = F64.fin 0 := by
    show F64.fin |0| = F64.fin 0
    rw [abs_zero]
  unfold stepCost
  simp only []
  rw [hw1, hw2, hw3, hd]
  show F64.fin 0 * F64.fin |d| * F64.fin |d| + F64.fin w2 * F64.fin 0
    + F64.fin w3 * F64.abs (F64.fin 0 - F64.fin 0) = F64.fin 0
  rw [e1, e1, e2, e4, e6, e3, e5, e5]

/-- An infinite conversion factor makes the transition under volume `0`
`NaN`. -/
theorem rawMoisture_pinf_adc (cfg : PlannerConfig) (hadc : cfg.ADCToMoisture = F64.pinf)
    (et rain : F64) (cm : Int) : rawMoisture cfg et rain cm (F64.fin 0) = F64.nan := by
  unfold rawMoisture
  rw [hadc]
  have h1 : F64.fin 0 * F64.pinf = F64.nan := by decide!
  rw [h1]
  have h2 : ∀ x : F64, x + F64.nan = F64.nan := by
    intro x
    cases x <;> rfl
  rw [h2, add_eq_nan_left]

/-- The conversion factor of a valid configuration under which a transition
with volume `0` is not `NaN` is a finite nonnegative number. -/
theorem adc_finite (cfg : PlannerConfig) (hcfg : ValidConfig cfg) (et rain : F64) (cm : Int)
    (hraw : rawMoisture cfg et rain cm (F64.fin 0) ≠ F64.nan) :
    ∃ a : ℚ, cfg.ADCToMoisture = F64.fin a ∧ 0 ≤ a := by
  have hadc := hcfg.2.2.1
  cases h : cfg.ADCToMoisture with
  | nan => rw [h] at hadc; exact absurd hadc (by simp [F64.lt])
  | ninf => rw [h] at hadc; exact absurd hadc (by simp [F64.lt])
  | pinf => exact absurd (rawMoisture_pinf_adc cfg h et rain cm) hraw
  | fin a =>
    rw [h] at hadc
    have : (0 : ℚ) < a := by simpa [F64.lt] using hadc
    exact ⟨a, rfl, le_of_lt this⟩

/-- A day of the fill all of whose candidates cost `+Inf` or `NaN` writes no
cell. -/
theorem stepDay_emptyRow (cfg : PlannerConfig) (opts : List F64) (cur next : List State)
    (f : ForecastDay) (hcur : cur.length = 410) (hstep : stepDay cfg opts cur f = some next)
    (hall : ∀ c ∈ dayCandidates cfg opts cur f, F64.ext c.2.cost = ⊤) : next = emptyRow := by
  have hlen := stepDay_length cfg opts cur next f hcur hstep
  apply List.ext_getElem?
  intro b
  by_cases hb : b < 410
  · obtain ⟨s, hs, hcase⟩ := stepDay_char cfg opts cur next f hcur hstep b hb
    rw [hs, emptyRow_getElem? b hb]
    rcases hcase with ⟨h, -⟩ | ⟨c, hfm, -, hlt⟩
    · rw [h]
    · rw [hall c (firstMinInto_mem hfm).1] at hlt
      exact absurd hlt (lt_irrefl _)
  · rw [List.getElem?_eq_none (by omega), List.getElem?_eq_none (by rw [emptyRow_length]; omega)]

theorem candidates_top (cfg : PlannerConfig)
    (hinf : cfg.CostW2 = F64.pinf ∨ cfg.CostW3 = F64.pinf) (opts : List F64)
    (hopts : irrigationOptions cfg = some opts) (cur : List State) (f : ForecastDay) :
    ∀ c ∈ dayCandidates cfg opts cur f, F64.ext c.2.cost = ⊤ := by
  intro c hc
  obtain ⟨i, src, v, -, -, -, hv, rfl⟩ := (mem_dayCandidates cfg opts cur f c).mp hc
  rw [candidate_cost]
  exact F64.ext_add_top_right _ (stepCost_top cfg hinf _ v _
    (F64.nonnegOrNan_of_nonnegBy (options_nonnegBy cfg opts hopts v hv)))

theorem fillTable_emptyRows (cfg : PlannerConfig)
    (hinf : cfg.CostW2 = F64.pinf ∨ cfg.CostW3 = F64.pinf) (opts : List F64)
    (hopts : irrigationOptions cfg = some opts) (fs : List ForecastDay) :
    ∀ (cur : List State) (rows : List (List State)), cur.length = 410 →
      fillTable cfg opts cur fs = some rows → ∀ r ∈ rows, r = emptyRow := by
  induction fs with
  | nil =>
    intro cur rows _ hrows r hr
    rw [← Option.some.inj hrows] at hr
    exact absurd hr (List.not_mem_nil r)
  | cons f fs ih =>
    intro cur rows hcur hrows r hr
    obtain ⟨next, rows', hstep, hfill, rfl⟩ := fillTable_cons_some cfg opts cur f fs rows hrows
    have hnext := stepDay_emptyRow cfg opts cur next f hcur hstep
      (candidates_top cfg hinf opts hopts cur f)
    rcases List.mem_cons.mp hr with h | h
    · rw [h]
      exact hnext
    · exact ih next rows' (stepDay_length cfg opts cur next f hcur hstep) hfill r h

theorem bestIdx_emptyRow : bestIdx emptyRow = some 0 := by
  rw [bestIdx_eval emptyRow emptyRow_length]
  decide!

/-- The backtrace through unwritten rows returns the volume `0` every day. -/
theorem backtrace_emptyRows (pairs : List (ForecastDay × List State)) :
    (∀ p ∈ pairs, p.2 = emptyRow) → ∀ plan, backtrace pairs 0 = some plan →
      ∀ e ∈ plan, e.PlannedVolumeL = F64.fin 0 := by
  induction pairs with
  | nil =>
    intro _ plan h e he
    rw [backtrace_nil] at h
    rw [← Option.some.inj h] at he
    exact absurd he (List.not_mem_nil e)
  | cons p rest ih =>
    intro hall plan h e he
    obtain ⟨f, r⟩ := p
    have hr : r = emptyRow := hall (f, r) (List.mem_cons_self _ _)
    subst hr
    rw [backtrace_cons] at h
    have hread : readCell emptyRow 0 = some infState := by decide!
    rw [hread] at h
    simp only [] at h
    have hidx : (if rest.length > 0 then Int.tdiv infState.prevMoisture moistureStep
        else (0 : Int)) = 0 := by
      split <;> rfl
    rw [hidx] at h
    cases hb : backtrace rest 0 with
    | none => rw [hb] at h; exact absurd h (by simp)
    | some plan' =>
      rw [hb] at h
      simp only [] at h
      rw [← Option.some.inj h] at he
      rcases List.mem_append.mp he with h1 | h1
      · exact ih (fun q hq => hall q (List.mem_cons_of_mem _ hq)) plan' hb e h1
      · rw [List.mem_singleton] at h1
        rw [h1]
        rfl

end Planner

namespace Planner

theorem zeroRow_init {m : Int} (hm : 0 ≤ m) :
    ZeroRow (emptyRow.set (initMoistureIdx m).toNat
      { cost := F64.fin 0, prevMoisture := m, irrigationVolume := F64.fin 0 })
      (initMoistureIdx m).toNat := by
  have hb0 : (initMoistureIdx m).toNat < 410 := by
    have := initMoistureIdx_range hm
    unfold ValidIdx at this
    omega
  refine ⟨by rw [List.length_set, emptyRow_length], hb0, ?_, ?_, ?_⟩
  · exact ⟨_, List.getElem?_set_self (by rw [emptyRow_length]; exact hb0), rfl, rfl⟩
  · intro i s hi hs
    rw [List.getElem?_set_ne (by omega), emptyRow_getElem? i (by omega)] at hs
    rw [← Option.some.inj hs]
    rfl
  · intro s hs
    rcases List.mem_or_eq_of_mem_set hs with h | h
    · have : s = infState := by
        unfold emptyRow at h
        exact List.eq_of_mem_replicate h
      rw [this]
      rfl
    · rw [h]
      rfl

/-- One day of the fill keeps the all-zero path: without deviation penalty and
with finite weights, the transition under volume `0` from the zero cell is the
first candidate of the day, costs `0`, and lands in the lowest reached bin. -/
theorem zeroRow_step (cfg : PlannerConfig) (hcfg : ValidConfig cfg)
    (hw1 : cfg.CostW1 = F64.fin 0) (w2 w3 : ℚ) (hw2 : cfg.CostW2 = F64.fin w2)
    (hw3 : cfg.CostW3 = F64.fin w3) (opts : List F64)
    (hopts : irrigationOptions cfg = some opts) (f : ForecastDay) (cur next : List State)
    (j : Nat) (hz : ZeroRow cur j) (hstep : stepDay cfg opts cur f = some next) :
    ∃ j' : Nat, ZeroRow next j' ∧
      next[j']? = some { cost := F64.fin 0, prevMoisture := (j : Int) * moistureStep,
                         irrigationVolume := F64.fin 0 } := by
  obtain ⟨hlen, hj, ⟨s0, hs0, hs0c, hs0v⟩, hbelow, hnn⟩ := hz
  have hzero := options_zero_mem cfg hcfg.2.1 opts hopts
  have hpw := options_pairwise cfg opts hopts
  have hoptv := options_nonnegBy cfg opts hopts
  have hvalid := ((stepDay_some_iff cfg opts cur f next hlen).mp hstep).1
  have hlen1 := stepDay_length cfg opts cur next f hlen hstep
  -- the zero candidate
  have hmem0 : candidate cfg (evapotranspiration cfg f) (rainMoisture cfg f) j s0 (F64.fin 0)
      ∈ dayCandidates cfg opts cur f :=
    (mem_dayCandidates cfg opts cur f _).mpr
      ⟨j, s0, F64.fin 0, hj, hs0, by rw [hs0c]; rfl, hzero, rfl⟩
  have hv0 := hvalid _ hmem0
  rw [candidate_fst] at hv0
  have hraw0 := (validIdx_newIdx_iff cfg _ _ _ _).mp hv0
  obtain ⟨a, hadc, ha0⟩ := adc_finite cfg hcfg _ _ _ hraw0
  obtain ⟨q, hq, hq0, hq1⟩ := clampMoisture_of_ne_nan hraw0
  have hnm0 : newMoisture cfg (evapotranspiration cfg f) (rainMoisture cfg f)
      ((j : Int) * moistureStep) (F64.fin 0) = F64.fin q := by
    rw [newMoisture_eq, hq]
  have hcost0 : (candidate cfg (evapotranspiration cfg f) (rainMoisture cfg f) j s0
      (F64.fin 0)).2.cost = F64.fin 0 := by
    rw [candidate_cost, hnm0, hs0c, hs0v, stepCost_zero cfg hw1 w2 w3 hw2 hw3 q hq0 hq1,
      F64.fin_add_fin, add_zero, F64.round_zero]
  obtain ⟨hi0, hi1⟩ := hv0
  have hj' : (newIdx (newMoisture cfg (evapotranspiration cfg f) (rainMoisture cfg f)
      ((j : Int) * moistureStep) (F64.fin 0))).toNat < 410 := by omega
  have hcast : (((newIdx (newMoisture cfg (evapotranspiration cfg f) (rainMoisture cfg f)
      ((j : Int) * moistureStep) (F64.fin 0))).toNat : Nat) : Int)
      = newIdx (newMoisture cfg (evapotranspiration cfg f) (rainMoisture cfg f)
          ((j : Int) * moistureStep) (F64.fin 0)) := Int.toNat_of_nonneg hi0
  -- what every candidate of the day satisfies
  have hcand : ∀ c ∈ dayCandidates cfg opts cur f,
      F64.NonnegOrNan c.2.cost ∧
      newIdx (newMoisture cfg (evapotranspiration cfg f) (rainMoisture cfg f)
          ((j : Int) * moistureStep) (F64.fin 0)) ≤ c.1 ∧
      (j : Int) * moistureStep ≤ c.2.prevMoisture ∧
      F64.lt c.2.irrigationVolume (F64.fin 0) = false := by
    intro c hc
    have hcv := hvalid c hc
    obtain ⟨i, src, v, hi, hsrc, hninf, hv, rfl⟩ := (mem_dayCandidates cfg opts cur f c).mp hc
    have hji : j ≤ i := by
      by_contra hlt
      have := hbelow i src (by omega) hsrc
      rw [this] at hninf
      exact absurd hninf (by decide)
    obtain ⟨x, hx, hx0, -⟩ := hoptv v hv
    have hsrcnn := hnn src (List.mem_iff_getElem?.mpr ⟨i, hsrc⟩)
    refine ⟨?_, ?_, ?_, ?_⟩
    · rw [candidate_cost]
      exact F64.nonnegOrNan_add (F64.nonnegOrNan_of_le hsrcnn)
        (stepCost_nonnegOrNan cfg hcfg _ v _ (F64.nonnegOrNan_of_nonnegBy (hoptv v hv)))
    · rw [candidate_fst] at hcv ⊢
      have hrawc := (validIdx_newIdx_iff cfg _ _ _ _).mp hcv
      rw [hx] at hrawc ⊢
      exact newIdx_newMoisture_mono cfg _ _ a hadc ha0 hji hi hx0 hraw0 hrawc
    · rw [candidate_prevMoisture]
      have : (j : Int) ≤ (i : Int) := by exact_mod_cast hji
      unfold moistureStep
      omega
    · rw [candidate_irrigationVolume, hx]
      simp [F64.lt, hx0]
  have hcell : next[(newIdx (newMoisture cfg (evapotranspiration cfg f) (rainMoisture cfg f)
      ((j : Int) * moistureStep) (F64.fin 0))).toNat]?
      = some { cost := F64.fin 0, prevMoisture := (j : Int) * moistureStep,
               irrigationVolume := F64.fin 0 } := by
    obtain ⟨s, hs, hcase⟩ := stepDay_char cfg opts cur next f hlen hstep _ hj'
    rw [hs]
    rcases hcase with ⟨-, hall⟩ | ⟨c, hfm, hsc, hlt⟩
    · have := hall _ hmem0 (by rw [candidate_fst, hcast])
      rw [hcost0] at this
      exact absurd this (F64.ext_fin_ne_top 0)
    · obtain ⟨hcm, -⟩ := firstMinInto_mem hfm
      obtain ⟨hcn, -, hcp, hcv⟩ := hcand c hcm
      obtain ⟨x, hx, hx0⟩ := F64.fin_of_nonnegOrNan hcn hlt
      have hle := firstMinInto_le hfm _ hmem0 (by rw [candidate_fst, hcast])
      rw [hcost0, hx, F64.ext_fin_le] at hle
      have hx00 : x = 0 := le_antisymm hle hx0
      have hceq : F64.ext (candidate cfg (evapotranspiration cfg f) (rainMoisture cfg f) j s0
          (F64.fin 0)).2.cost = F64.ext c.2.cost := by
        rw [hcost0, hx, hx00]
      rcases firstMinInto_least hfm (by
          unfold dayCandidates
          exact candidates_pairwise cfg _ _ opts cur 410 hpw) _ hmem0
          (by rw [candidate_fst, hcast]) hceq with hdc | hib
      · rw [hsc, ← hdc]
        have h3 : (candidate cfg (evapotranspiration cfg f) (rainMoisture cfg f) j s0
            (F64.fin 0)).2
            = { cost := (candidate cfg (evapotranspiration cfg f) (rainMoisture cfg f) j s0
                  (F64.fin 0)).2.cost,
                prevMoisture := (j : Int) * moistureStep, irrigationVolume := F64.fin 0 } :=
          rfl
        rw [h3, hcost0]
      · exfalso
        rcases hib with hp | ⟨-, hp⟩
        · rw [candidate_prevMoisture] at hp
          omega
        · rw [candidate_irrigationVolume] at hp
          rw [hp] at hcv
          exact absurd hcv (by decide)
  refine ⟨_, ⟨hlen1, hj', ⟨_, hcell, rfl, rfl⟩, ?_, ?_⟩, hcell⟩
  · intro b s hb hs
    obtain ⟨s', hs', hcase⟩ := stepDay_char cfg opts cur next f hlen hstep b (by omega)
    rw [hs] at hs'
    have hss : s' = s := (Option.some.inj hs').symm
    subst hss
    rcases hcase with ⟨h, -⟩ | ⟨c, hfm, -, -⟩
    · rw [h]
      rfl
    · exfalso
      obtain ⟨hcm, hcb⟩ := firstMinInto_mem hfm
      obtain ⟨-, hmono, -, -⟩ := hcand c hcm
      rw [hcb] at hmono
      omega
  · intro s hs
    obtain ⟨b, hb, hget⟩ := List.getElem_of_mem hs
    have hsb : next[b]? = some s := by
      rw [List.getElem?_eq_getElem hb, hget]
    rw [hlen1] at hb
    obtain ⟨s', hs', hcase⟩ := stepDay_char cfg opts cur next f hlen hstep b hb
    rw [hsb] at hs'
    have hss : s' = s := (Option.some.inj hs').symm
    subst hss
    rcases hcase with ⟨h, -⟩ | ⟨c, hfm, hsc, hlt⟩
    · rw [h]
      rfl
    · obtain ⟨hcm, -⟩ := firstMinInto_mem hfm
      obtain ⟨hcn, -, -, -⟩ := hcand c hcm
      obtain ⟨x, hx, hx0⟩ := F64.fin_of_nonnegOrNan hcn hlt
      rw [hsc, hx]
      simpa [F64.le] using hx0

/-- The terminal selection in a row of the all-zero path picks the zero
cell. -/
theorem zeroRow_bestIdx (row : List State) (j : Nat) (hz : ZeroRow row j) :
    bestIdx row = some (j : Int) := by
  obtain ⟨hlen, hj, ⟨s, hs, hsc, -⟩, hbelow, hnn⟩ := hz
  obtain ⟨k, sk, hk1, hk2, hk3, hk4, hk5, -⟩ := bestIdx_first row hlen
  have hmin := hk4 j s hj hs
  rw [hsc] at hmin
  have hsknn := hnn sk (List.mem_iff_getElem?.mpr ⟨k, hk3⟩)
  have hskc : sk.cost = F64.fin 0 := by
    obtain ⟨x, hx, hx0⟩ := F64.fin_of_nonnegOrNan (F64.nonnegOrNan_of_le hsknn)
      (lt_of_le_of_lt hmin (lt_top_iff_ne_top.mpr (F64.ext_fin_ne_top 0)))
    rw [hx, F64.ext_fin_le] at hmin
    rw [hx, le_antisymm hmin hx0]
  have hkj : k = j := by
    rcases Nat.lt_trichotomy k j with h | h | h
    · have := hbelow k sk h hk3
      rw [hskc] at this
      exact absurd this (by simp)
    · exact h
    · have := hk5 j s h hs
      rw [hskc, hsc] at this
      exact absurd this (lt_irrefl _)
  rw [hk1, hkj]

/-- The backtrace along the all-zero path returns the volume `0` every day. -/
theorem zero_backtrace (cfg : PlannerConfig) (hcfg : ValidConfig cfg)
    (hw1 : cfg.CostW1 = F64.fin 0) (w2 w3 : ℚ) (hw2 : cfg.CostW2 = F64.fin w2)
    (hw3 : cfg.CostW3 = F64.fin w3) (opts : List F64)
    (hopts : irrigationOptions cfg = some opts) (cur : List State) (j0 : Nat)
    (hz0 : ZeroRow cur j0) (pairs : List (ForecastDay × List State)) :
    ChainRev cfg opts cur pairs →
      ∃ j : Nat, ZeroRow (topRow cur pairs) j ∧
        ∃ plan, backtrace pairs (j : Int) = some plan ∧
          ∀ e ∈ plan, e.PlannedVolumeL = F64.fin 0 := by
  induction pairs with
  | nil =>
    intro _
    exact ⟨j0, hz0, [], rfl, fun e he => absurd he (List.not_mem_nil e)⟩
  | cons p rest ih =>
    intro hchain
    obtain ⟨f, r⟩ := p
    obtain ⟨hstep, hrest⟩ := hchain
    obtain ⟨j, hz, plan0, hbt0, hzeros⟩ := ih hrest
    obtain ⟨j', hz', hcell⟩ := zeroRow_step cfg hcfg hw1 w2 w3 hw2 hw3 opts hopts f _ r j hz
      hstep
    refine ⟨j', hz', plan0 ++ [{ Date := f.Date, PlannedVolumeL := F64.fin 0 }], ?_, ?_⟩
    · rw [backtrace_cons, readCell_natCast, hcell]
      simp only []
      have hprev : backtrace rest
          (if rest.length > 0 then Int.tdiv ((j : Int) * moistureStep) moistureStep
            else (j' : Int)) = some plan0 := by
        by_cases hr : rest.length > 0
        · rw [if_pos hr, Int.mul_tdiv_cancel _ (by decide)]
          exact hbt0
        · have : rest = [] := List.length_eq_zero.mp (by omega)
          subst this
          rw [backtrace_nil] at hbt0
          rw [backtrace_nil]
          exact hbt0
      rw [hprev]
    · intro e he
      rcases List.mem_append.mp he with h | h
      · exact hzeros e h
      · rw [List.mem_singleton] at h
        rw [h]

/-- C27: for every valid configuration with `costW1 = 0`, every initial
moisture `m` in `[0, 4095]` and every forecast sequence, every plan returned by
`ComputePlan` has one entry per forecast day and every entry has
`PlannedVolumeL = 0`, whatever the other two weights (zero and `+Inf`
included); when the configuration and the forecast values are finite and at
most `2^20` in magnitude, a plan is returned. -/
theorem zero_plan_without_deviation_penalty (cfg : PlannerConfig) (hcfg : ValidConfig cfg)
    (hw1 : cfg.CostW1 = F64.fin 0) (m : Int) (hm0 : 0 ≤ m) (hm1 : m ≤ 4095)
    (fs : List ForecastDay) :
    (∀ plan, ComputePlan (NewIrrigationPlanner cfg) m fs = some plan →
      plan.length = fs.length ∧ ∀ e ∈ plan, e.PlannedVolumeL = F64.fin 0) ∧
      (BoundedConfig cfg → (∀ f ∈ fs, BoundedForecast f) →
        ∃ plan, ComputePlan (NewIrrigationPlanner cfg) m fs = some plan) := by
  have _ := hm1
  refine ⟨?_, ?_⟩
  · intro plan hplan
    have hdates := (ComputePlan_some_props cfg m fs plan hplan).1
    refine ⟨plan_length_of_dates hdates, ?_⟩
    by_cases hfs : fs = []
    · subst hfs
      rw [ComputePlan_nil] at hplan
      rw [← Option.some.inj hplan]
      exact fun e he => absurd he (List.not_mem_nil e)
    · obtain ⟨opts, row0, rows, best, hopts, hrow0, hrows, hbest, hbt⟩ :=
        ComputePlan_some_inv cfg m fs plan hfs hplan
      have hrow0' := initRow_eq hm0
      rw [hrow0'] at hrow0
      have hr0 := (Option.some.inj hrow0).symm
      subst hr0
      have hlen0 := initRow_length hrow0'
      obtain ⟨hrl, -, hchain, htop⟩ := fillTable_chain cfg opts fs _ rows hlen0 hrows
      have hne : rows ≠ [] := by
        intro h0
        rw [h0] at hrl
        exact hfs (List.length_eq_zero.mp hrl.symm)
      have hW2 := hcfg.2.2.2.2.1
      have hW3 := hcfg.2.2.2.2.2
      by_cases hinf : cfg.CostW2 = F64.pinf ∨ cfg.CostW3 = F64.pinf
      · -- nothing is ever written
        have hall := fillTable_emptyRows cfg hinf opts hopts fs _ rows hlen0 hrows
        have hlast : rows.getLastD (emptyRow.set (initMoistureIdx m).toNat
            { cost := F64.fin 0, prevMoisture := m, irrigationVolume := F64.fin 0 })
            = emptyRow := by
          cases rows with
          | nil => exact absurd rfl hne
          | cons r rs =>
            rw [List.getLastD_cons]
            rcases getLastD_mem rs r with h | h
            · rw [h]
              exact hall _ (List.mem_cons_self _ _)
            · exact hall _ (List.mem_cons_of_mem _ h)
        rw [hlast, bestIdx_emptyRow] at hbest
        rw [← Option.some.inj hbest] at hbt
        exact backtrace_emptyRows _ (fun p hp =>
          hall p.2 (List.of_mem_zip (List.mem_reverse.mp hp)).2) plan hbt
      · -- the all-zero path
        have hf2 : ∃ w2 : ℚ, cfg.CostW2 = F64.fin w2 := by
          cases h : cfg.CostW2 with
          | fin w => exact ⟨w, rfl⟩
          | pinf => exact absurd (Or.inl h) hinf
          | nan => rw [h] at hW2; exact absurd hW2 (by decide)
          | ninf => rw [h] at hW2; exact absurd hW2 (by decide)
        have hf3 : ∃ w3 : ℚ, cfg.CostW3 = F64.fin w3 := by
          cases h : cfg.CostW3 with
          | fin w => exact ⟨w, rfl⟩
          | pinf => exact absurd (Or.inr h) hinf
          | nan => rw [h] at hW3; exact absurd hW3 (by decide)
          | ninf => rw [h] at hW3; exact absurd hW3 (by decide)
        obtain ⟨w2, hw2⟩ := hf2
        obtain ⟨w3, hw3⟩ := hf3
        obtain ⟨j, hz, plan', hbt', hzeros⟩ := zero_backtrace cfg hcfg hw1 w2 w3 hw2 hw3 opts
          hopts _ _ (zeroRow_init hm0) (fs.zip rows).reverse hchain
        rw [htop] at hz
        rw [zeroRow_bestIdx _ j hz] at hbest
        rw [← Option.some.inj hbest, hbt'] at hbt
        rw [← Option.some.inj hbt]
        exact hzeros
  · intro hb hbf
    obtain ⟨plan, hplan, -⟩ := ComputePlan_some_of_bounded cfg hcfg hb m hm0 fs hbf
    exact ⟨plan, hplan⟩

theorem zero_plan_without_deviation_penalty_witness :
    ValidConfig noPenaltyConfig ∧ noPenaltyConfig.CostW1 = F64.fin 0 ∧ (0 : Int) ≤ 25 ∧
      (25 : Int) ≤ 4095 ∧
      (∀ plan, ComputePlan (NewIrrigationPlanner noPenaltyConfig) 25 [mildDay, rainyDay]
          = some plan →
        plan.length = [mildDay, rainyDay].length ∧
          ∀ e ∈ plan, e.PlannedVolumeL = F64.fin 0) ∧
      (BoundedConfig noPenaltyConfig → (∀ f ∈ [mildDay, rainyDay], BoundedForecast f) →
        ∃ plan, ComputePlan (NewIrrigationPlanner noPenaltyConfig) 25 [mildDay, rainyDay]
          = some plan) :=
  ⟨by decide!, rfl, by decide, by decide,
    zero_plan_without_deviation_penalty noPenaltyConfig (by decide!) rfl 25 (by decide)
      (by decide) [mildDay, rainyDay]⟩

end Planner

/-! ## Facts about the login rate limiter -/

namespace Middleware

theorem serve_nil (ip : String) (lrl : LoginRateLimiter) : serve ip lrl [] = (lrl, []) := rfl

theorem serve_request (ip ip' : String) (now : Int) (lrl : LoginRateLimiter)
    (es : List Event) :
    serve ip lrl (Event.request ip' now :: es)
      = if ip' = ip then
          ((serve ip (LoginRateLimitMiddleware lrl ip' now).1 es).1,
            (LoginRateLimitMiddleware lrl ip' now).2
              :: (serve ip (LoginRateLimitMiddleware lrl ip' now).1 es).2)
        else serve ip (LoginRateLimitMiddleware lrl ip' now).1 es := rfl

theorem serve_reset (ip ip' : String) (lrl : LoginRateLimiter) (es : List Event) :
    serve ip lrl (Event.reset ip' :: es) = serve ip (ResetAttempts lrl ip') es := rfl

theorem serve_cleanup (ip : String) (now : Int) (lrl : LoginRateLimiter) (es : List Event) :
    serve ip lrl (Event.cleanup now :: es) = serve ip (cleanupAttempts lrl now) es := rfl

theorem middleware_other (lrl : LoginRateLimiter) (ip ip' : String) (now : Int)
    (h : ip' ≠ ip) :
    (LoginRateLimitMiddleware lrl ip' now).1.attempts ip = lrl.attempts ip := by
  unfold LoginRateLimitMiddleware
  cases lrl.attempts ip' with
  | none => exact Function.update_noteq (Ne.symm h) _ _
  | some attempt =>
    simp only []
    split_ifs
    · rfl
    · exact Function.update_noteq (Ne.symm h) _ _
    · exact Function.update_noteq (Ne.symm h) _ _
    · exact Function.update_noteq (Ne.symm h) _ _

theorem middleware_first (lrl : LoginRateLimiter) (ip : String) (now : Int)
    (h : lrl.attempts ip = none) :
    (LoginRateLimitMiddleware lrl ip now).2 = true ∧
      (LoginRateLimitMiddleware lrl ip now).1.attempts ip
        = some { count := 1, firstAttempt := now, lockedUntil := 0 } := by
  unfold LoginRateLimitMiddleware
  rw [h]
  exact ⟨rfl, Function.update_same _ _ _⟩

theorem middleware_count (lrl : LoginRateLimiter) (ip : String) (now k t1 : Int)
    (h : lrl.attempts ip = some { count := k, firstAttempt := t1, lockedUntil := 0 })
    (hwin : now - t1 ≤ 5 * Minute) (hk : k < 5) :
    (LoginRateLimitMiddleware lrl ip now).2 = true ∧
      (LoginRateLimitMiddleware lrl ip now).1.attempts ip
        = some { count := k + 1, firstAttempt := t1, lockedUntil := 0 } := by
  unfold LoginRateLimitMiddleware
  rw [h]
  simp only []
  rw [if_neg (fun hc => hc.1 rfl), if_neg (not_lt.mpr hwin), if_neg (not_le.mpr hk)]
  exact ⟨rfl, Function.update_same _ _ _⟩

theorem middleware_lock (lrl : LoginRateLimiter) (ip : String) (now k t1 : Int)
    (h : lrl.attempts ip = some { count := k, firstAttempt := t1, lockedUntil := 0 })
    (hwin : now - t1 ≤ 5 * Minute) (hk : 5 ≤ k) :
    (LoginRateLimitMiddleware lrl ip now).2 = false ∧
      (LoginRateLimitMiddleware lrl ip now).1.attempts ip
        = some { count := k, firstAttempt := t1, lockedUntil := now + 15 * Minute } := by
  unfold LoginRateLimitMiddleware
  rw [h]
  simp only []
  rw [if_neg (fun hc => hc.1 rfl), if_neg (not_lt.mpr hwin), if_pos hk]
  exact ⟨rfl, Function.update_same _ _ _⟩

theorem middleware_locked (lrl : LoginRateLimiter) (ip : String) (now : Int)
    (a : loginAttempt) (h : lrl.attempts ip = some a) (hz : a.lockedUntil ≠ 0)
    (hnow : now < a.lockedUntil) :
    LoginRateLimitMiddleware lrl ip now = (lrl, false) := by
  unfold LoginRateLimitMiddleware
  rw [h]
  simp only []
  rw [if_pos ⟨hz, hnow⟩]

theorem foreign_keeps (ip : String) (a : loginAttempt) (g : List Event) :
    ∀ (lrl : LoginRateLimiter), lrl.attempts ip = some a →
      (∀ e ∈ g, Foreign ip a.firstAttempt e) →
      ∃ lrl', lrl'.attempts ip = some a ∧
        ∀ rest, serve ip lrl (g ++ rest) = serve ip lrl' rest := by
  induction g with
  | nil =>
    intro lrl h _
    exact ⟨lrl, h, fun rest => rfl⟩
  | cons e g ih =>
    intro lrl h hg
    have he := hg e (List.mem_cons_self _ _)
    have hg' : ∀ e ∈ g, Foreign ip a.firstAttempt e :=
      fun x hx => hg x (List.mem_cons_of_mem _ hx)
    cases e with
    | request ip' now =>
      have hne : ip' ≠ ip := he
      obtain ⟨lrl', h', hrest⟩ := ih (LoginRateLimitMiddleware lrl ip' now).1
        (by rw [middleware_other lrl ip ip' now hne]; exact h) hg'
      refine ⟨lrl', h', fun rest => ?_⟩
      rw [List.cons_append, serve_request, if_neg hne]
      exact hrest rest
    | reset ip' =>
      have hne : ip' ≠ ip := he
      obtain ⟨lrl', h', hrest⟩ := ih (ResetAttempts lrl ip')
        (by
          show Function.update lrl.attempts ip' none ip = some a
          rw [Function.update_noteq (Ne.symm hne)]
          exact h) hg'
      refine ⟨lrl', h', fun rest => ?_⟩
      rw [List.cons_append, serve_reset]
      exact hrest rest
    | cleanup now =>
      have hle : now - a.firstAttempt ≤ 30 * Minute := he
      obtain ⟨lrl', h', hrest⟩ := ih (cleanupAttempts lrl now)
        (by
          show (match lrl.attempts ip with
            | none => none
            | some attempt =>
              if now - attempt.firstAttempt > 30 * Minute then none else some attempt) = some a
          rw [h]
          simp only []
          rw [if_neg (not_lt.mpr hle)]) hg'
      refine ⟨lrl', h', fun rest => ?_⟩
      rw [List.cons_append, serve_cleanup]
      exact hrest rest

theorem locked_stays (ip : String) (a : loginAttempt) (hz : a.lockedUntil ≠ 0)
    (later : List Event) :
    ∀ (lrl : LoginRateLimiter), lrl.attempts ip = some a →
      (∀ e ∈ later, Foreign ip a.firstAttempt e ∨
        ∃ t, e = Event.request ip t ∧ t < a.lockedUntil) →
      (serve ip lrl later).2 = List.replicate (later.countP (isRequestFrom ip)) false := by
  induction later with
  | nil =>
    intro lrl _ _
    rfl
  | cons e later ih =>
    intro lrl h hl
    have hl' : ∀ e ∈ later, Foreign ip a.firstAttempt e ∨
        ∃ t, e = Event.request ip t ∧ t < a.lockedUntil :=
      fun x hx => hl x (List.mem_cons_of_mem _ hx)
    rcases hl e (List.mem_cons_self _ _) with he | ⟨t, he, ht⟩
    · obtain ⟨lrl', h', hrest⟩ := foreign_keeps ip a [e] lrl h
        (fun x hx => by rw [List.mem_singleton.mp hx]; exact he)
      have hcount : isRequestFrom ip e = false := by
        cases e with
        | request ip' now =>
          have hne : ip' ≠ ip := he
          simp [isRequestFrom, hne]
        | reset ip' => rfl
        | cleanup now => rfl
      have := hrest later
      rw [List.singleton_append] at this
      rw [this, List.countP_cons_of_neg _ _ (by rw [hcount]; simp)]
      exact ih lrl' h' hl'
    · subst he
      rw [serve_request, if_pos rfl, middleware_locked lrl ip t a h hz ht]
      simp only []
      rw [List.countP_cons_of_pos _ _ (by simp [isRequestFrom]), List.replicate_succ,
        ih lrl h hl']

/-- C29: in `LoginRateLimitMiddleware`, starting from no record for an address
`ip` and with no `ResetAttempts` call for `ip` in between, six consecutive
requests from `ip` whose time stamps are non-decreasing and all within 5
minutes of the first (interleaved with any requests and resets of other
addresses and with cleanup ticks) have the first five admitted and the sixth
rejected; the sixth sets `lockedUntil` to 15 minutes after its arrival, and
every later request from `ip` that arrives before `lockedUntil` is rejected as
well. Time stamps are nanoseconds after the zero time, hence positive. -/
theorem login_lockout (lrl : LoginRateLimiter) (ip : String) (t1 t2 t3 t4 t5 t6 : Int)
    (g1 g2 g3 g4 g5 later : List Event)
    (hnone : lrl.attempts ip = none) (hpos : 0 < t1)
    (h12 : t1 ≤ t2) (h23 : t2 ≤ t3) (h34 : t3 ≤ t4) (h45 : t4 ≤ t5) (h56 : t5 ≤ t6)
    (hwin : t6 - t1 ≤ 5 * Minute)
    (hg : ∀ e ∈ g1 ++ g2 ++ g3 ++ g4 ++ g5, Foreign ip t1 e)
    (hlater : ∀ e ∈ later, Foreign ip t1 e ∨
      ∃ t, e = Event.request ip t ∧ t < t6 + 15 * Minute) :
    (serve ip lrl (Event.request ip t1 :: (g1 ++ Event.request ip t2 :: (g2 ++
        Event.request ip t3 :: (g3 ++ Event.request ip t4 :: (g4 ++
        Event.request ip t5 :: (g5 ++ [Event.request ip t6]))))))).2
      = [true, true, true, true, true, false] ∧
    (serve ip lrl (Event.request ip t1 :: (g1 ++ Event.request ip t2 :: (g2 ++
        Event.request ip t3 :: (g3 ++ Event.request ip t4 :: (g4 ++
        Event.request ip t5 :: (g5 ++ [Event.request ip t6]))))))).1.attempts ip
      = some { count := 5, firstAttempt := t1, lockedUntil := t6 + 15 * Minute } ∧
    (serve ip (serve ip lrl (Event.request ip t1 :: (g1 ++ Event.request ip t2 :: (g2 ++
        Event.request ip t3 :: (g3 ++ Event.request ip t4 :: (g4 ++
        Event.request ip t5 :: (g5 ++ [Event.request ip t6]))))))).1 later).2
      = List.replicate (later.countP (isRequestFrom ip)) false := by
  have hg1 : ∀ e ∈ g1, Foreign ip t1 e := fun e he => hg e (by simp [he])
  have hg2 : ∀ e ∈ g2, Foreign ip t1 e := fun e he => hg e (by simp [he])
  have hg3 : ∀ e ∈ g3, Foreign ip t1 e := fun e he => hg e (by simp [he])
  have hg4 : ∀ e ∈ g4, Foreign ip t1 e := fun e he => hg e (by simp [he])
  have hg5 : ∀ e ∈ g5, Foreign ip t1 e := fun e he => hg e (by simp [he])
  obtain ⟨r1, a1⟩ := middleware_first lrl ip t1 hnone
  obtain ⟨l1, b1, e1⟩ := foreign_keeps ip _ g1 _ a1 hg1
  obtain ⟨r2, a2⟩ := middleware_count l1 ip t2 1 t1 b1 (by omega) (by decide)
  obtain ⟨l2, b2, e2⟩ := foreign_keeps ip _ g2 _ a2 hg2
  obtain ⟨r3, a3⟩ := middleware_count l2 ip t3 2 t1 b2 (by omega) (by decide)
  obtain ⟨l3, b3, e3⟩ := foreign_keeps ip _ g3 _ a3 hg3
  obtain ⟨r4, a4⟩ := middleware_count l3 ip t4 3 t1 b3 (by omega) (by decide)
  obtain ⟨l4, b4, e4⟩ := foreign_keeps ip _ g4 _ a4 hg4
  obtain ⟨r5, a5⟩ := middleware_count l4 ip t5 4 t1 b4 (by omega) (by decide)
  obtain ⟨l5, b5, e5⟩ := foreign_keeps ip _ g5 _ a5 hg5
  obtain ⟨r6, a6⟩ := middleware_lock l5 ip t6 5 t1 b5 hwin (by decide)
  have hserve : serve ip lrl (Event.request ip t1 :: (g1 ++ Event.request ip t2 :: (g2 ++
        Event.request ip t3 :: (g3 ++ Event.request ip t4 :: (g4 ++
        Event.request ip t5 :: (g5 ++ [Event.request ip t6]))))))
      = ((LoginRateLimitMiddleware l5 ip t6).1, [true, true, true, true, true, false]) := by
    rw [serve_request, if_pos rfl, e1, serve_request, if_pos rfl, e2, serve_request,
      if_pos rfl, e3, serve_request, if_pos rfl, e4, serve_request, if_pos rfl, e5,
      serve_request, if_pos rfl, serve_nil, r1, r2, r3, r4, r5, r6]
  rw [hserve]
  refine ⟨rfl, a6, ?_⟩
  exact locked_stays ip { count := 5, firstAttempt := t1, lockedUntil := t6 + 15 * Minute }
    (by show t6 + 15 * Minute ≠ 0; omega) later _ a6 hlater

theorem login_lockout_witness :
    ({ attempts := fun _ => none } : LoginRateLimiter).attempts "10.0.0.7" = none ∧
      (0 : Int) < 1000 ∧ (1000 : Int) ≤ 2000 ∧ (2000 : Int) ≤ 2000 ∧ (2000 : Int) ≤ 3000 ∧
      (3000 : Int) ≤ 4000 ∧ (4000 : Int) ≤ 5 * Minute + 1000 ∧
      (5 * Minute + 1000 - 1000 : Int) ≤ 5 * Minute ∧
      (∀ e ∈ [Event.request "10.0.0.8" 1500] ++ [] ++ [Event.cleanup 2500] ++ []
          ++ [Event.reset "10.0.0.8"], Foreign "10.0.0.7" 1000 e) ∧
      (∀ e ∈ [Event.request "10.0.0.7" (5 * Minute + 2000), Event.cleanup (6 * Minute)],
        Foreign "10.0.0.7" 1000 e ∨
          ∃ t, e = Event.request "10.0.0.7" t ∧ t < 5 * Minute + 1000 + 15 * Minute) ∧
      (serve "10.0.0.7" { attempts := fun _ => none }
          (Event.request "10.0.0.7" 1000 :: ([Event.request "10.0.0.8" 1500] ++
            Event.request "10.0.0.7" 2000 :: ([] ++
            Event.request "10.0.0.7" 2000 :: ([Event.cleanup 2500] ++
            Event.request "10.0.0.7" 3000 :: ([] ++
            Event.request "10.0.0.7" 4000 :: ([Event.reset "10.0.0.8"] ++
            [Event.request "10.0.0.7" (5 * Minute + 1000)]))))))).2
        = [true, true, true, true, true, false] ∧
      (serve "10.0.0.7" { attempts := fun _ => none }
          (Event.request "10.0.0.7" 1000 :: ([Event.request "10.0.0.8" 1500] ++
            Event.request "10.0.0.7" 2000 :: ([] ++
            Event.request "10.0.0.7" 2000 :: ([Event.cleanup 2500] ++
            Event.request "10.0.0.7" 3000 :: ([] ++
            Event.request "10.0.0.7" 4000 :: ([Event.reset "10.0.0.8"] ++
            [Event.request "10.0.0.7" (5 * Minute + 1000)]))))))).1.attempts "10.0.0.7"
        = some { count := 5, firstAttempt := 1000,
                 lockedUntil := 5 * Minute + 1000 + 15 * Minute } ∧
      (serve "10.0.0.7" (serve "10.0.0.7" { attempts := fun _ => none }
          (Event.request "10.0.0.7" 1000 :: ([Event.request "10.0.0.8" 1500] ++
            Event.request "10.0.0.7" 2000 :: ([] ++
            Event.request "10.0.0.7" 2000 :: ([Event.cleanup 2500] ++
            Event.request "10.0.0.7" 3000 :: ([] ++
            Event.request "10.0.0.7" 4000 :: ([Event.reset "10.0.0.8"] ++
            [Event.request "10.0.0.7" (5 * Minute + 1000)]))))))).1
          [Event.request "10.0.0.7" (5 * Minute + 2000), Event.cleanup (6 * Minute)]).2
        = List.replicate
            ([Event.request "10.0.0.7" (5 * Minute + 2000), Event.cleanup (6 * Minute)].countP
              (isRequestFrom "10.0.0.7")) false :=
  ⟨rfl, by decide, by decide, by decide, by decide, by decide, by decide, by decide,
    by simp [Foreign, Minute], by simp [Foreign, Minute],
    login_lockout { attempts := fun _ => none } "10.0.0.7" 1000 2000 2000 3000 4000
      (5 * Minute + 1000) [Event.request "10.0.0.8" 1500] [] [Event.cleanup 2500] []
      [Event.reset "10.0.0.8"]
      [Event.request "10.0.0.7" (5 * Minute + 2000), Event.cleanup (6 * Minute)]
      rfl (by decide) (by decide) (by decide) (by decide) (by decide) (by decide) (by decide)
      (by simp [Foreign, Minute]) (by simp [Foreign, Minute])⟩

end Middleware

/-! ## Facts about the configuration -/

namespace Configuration

theorem len_empty : len "" = 0 := rfl

theorem Validate_sampleConfig :
    (Validate sampleConfig).2 = none ∧
      (Validate sampleConfig).1.Security.JWTExpireHours = 24 ∧
      (Validate sampleConfig).1.Security.RateLimitPerMinute = 10 := by
  decide

/-- C30: `Config.Validate` returns an error if and only if
`Security.JWTSecret` is shorter than 32 bytes (the empty secret included); on
an error the configuration is left as it was, and when no error is returned a
non-positive `JWTExpireHours` has been replaced by 24, a non-positive
`RateLimitPerMinute` by 10, positive values of both are kept; every other
configuration field is unchanged in both cases. -/
theorem Validate_spec (c : Config) :
    ((Validate c).2 ≠ none ↔ len c.Security.JWTSecret < 32) ∧
      (Validate c).1.Security.JWTExpireHours
        = (if len c.Security.JWTSecret < 32 then c.Security.JWTExpireHours
           else if c.Security.JWTExpireHours ≤ 0 then 24 else c.Security.JWTExpireHours) ∧
      (Validate c).1.Security.RateLimitPerMinute
        = (if len c.Security.JWTSecret < 32 then c.Security.RateLimitPerMinute
           else if c.Security.RateLimitPerMinute ≤ 0 then 10
           else c.Security.RateLimitPerMinute) ∧
      (Validate c).1.Server = c.Server ∧ (Validate c).1.Database = c.Database ∧
      (Validate c).1.Weather = c.Weather ∧ (Validate c).1.Planner = c.Planner ∧
      (Validate c).1.Logging = c.Logging ∧
      (Validate c).1.Security.JWTSecret = c.Security.JWTSecret ∧
      (Validate c).1.Security.AllowedOrigins = c.Security.AllowedOrigins ∧
      (Validate c).1.Security.DeviceAPIKey = c.Security.DeviceAPIKey := by
  unfold Validate
  by_cases h1 : c.Security.JWTSecret = ""
  · have hlen : len c.Security.JWTSecret < 32 := by
      rw [h1, len_empty]
      decide
    rw [if_pos h1, if_pos hlen, if_pos hlen]
    simp [hlen]
  · by_cases h2 : len c.Security.JWTSecret < 32
    · rw [if_neg h1, if_pos h2, if_pos h2, if_pos h2]
      simp [h2]
    · rw [if_neg h1, if_neg h2, if_neg h2, if_neg h2]
      simp only []
      by_cases h3 : c.Security.JWTExpireHours ≤ 0 <;>
        by_cases h4 : c.Security.RateLimitPerMinute ≤ 0 <;>
        simp [h2, h3, h4]

end Configuration
